import Mathlib

/-!
# pngdecd: a shallow embedding of the PNG decoder core and its converter

The definitions of the first part are transcribed from `src/png.inl`,
`src/pngdec.h` and `src/main.c` (the two byte-source callbacks and the
converter to BMP, whose draw callback is `pngDraw`).

Conventions of the embedding.

* Memory buffers (`uint8_t *`) are lists of natural numbers; every store of a
  `uint8_t` reduces its value modulo 256.  A load outside the buffer (undefined
  behaviour in C) reads 0 and a store outside the buffer is dropped.
* The C type `int` is taken to be 32 bits wide (the `LINUX` build of
  `pngdec.h`), like `int32_t`.  Arithmetic on `int32_t` values that come from
  the file is wrapped explicitly with `i32` (signed overflow, undefined in C, is
  modelled as two's-complement wrap-around); values that stay small by
  construction, and values of type `off_t`, are unbounded integers.
* A pointer into a buffer is an integer offset into the list that holds the
  buffer; a scanline buffer holds the whole line, filter tag at index 0.
* Callbacks are functions that return what the call did; the inflate engine of
  zlib, which is not part of the repository, is a parameter.
* A `for` or `while` loop whose trip count is known on entry is a recursion on
  that count; the other loops of `PNG_decode` take a bound on their number of
  iterations and yield `none` when the bound is reached.
-/

namespace PngDec

/-! ## Machine integers and byte buffers -/

/-- Two's-complement wrap of an integer to the range of `int32_t`. -/
def i32 (n : Int) : Int := (n + 2147483648) % 4294967296 - 2147483648

/-- Wrap of an integer to the range of `uint32_t`. -/
def u32 (n : Int) : Int := n % 4294967296

/-- The byte `p[i]` of buffer `p` (0 when the access is out of bounds). -/
def peek (p : List Nat) (i : Int) : Int :=
  if 0 ≤ i then (p.getD i.toNat 0 : Nat) else 0

/-- The store `p[i] = (uint8_t)v`. -/
def poke (p : List Nat) (i : Int) (v : Int) : List Nat :=
  if 0 ≤ i then p.set i.toNat (v % 256).toNat else p

/-! ## Constants of `pngdec.h` -/

/-- The size of the file buffer `ucFileBuf`. -/
def PNG_FILE_BUF_SIZE : Int := 2048

def PNG_FILTER_NONE : Int := 0
def PNG_FILTER_SUB : Int := 1
def PNG_FILTER_UP : Int := 2
def PNG_FILTER_AVG : Int := 3
def PNG_FILTER_PAETH : Int := 4

def PNG_PIXEL_GRAYSCALE : Int := 0
def PNG_PIXEL_TRUECOLOR : Int := 2
def PNG_PIXEL_INDEXED : Int := 3
def PNG_PIXEL_GRAY_ALPHA : Int := 4
def PNG_PIXEL_TRUECOLOR_ALPHA : Int := 6

def PNG_SUCCESS : Int := 0
def PNG_INVALID_PARAMETER : Int := 1
def PNG_DECODE_ERROR : Int := 2
def PNG_IO_ERROR : Int := 3
def PNG_NO_BUFFER : Int := 4
def PNG_UNSUPPORTED_FEATURE : Int := 5
def PNG_INVALID_FILE : Int := 6
def PNG_TOO_BIG : Int := 7

/-! ## `DeFilter` (png.inl, lines 135-226)

`pCurr` and `pPrev` are the two scanline buffers, filter tag included.  After
`ucFilter = *pCurr++` and `pPrev++` both pointers address the byte after the
tag, so the C expression `pCurr[x]` is `peek pCurr (x + 1)` here. -/

/-- The loop `for (x = iBpp; x < iPitch; x++) pCurr[x] += pCurr[x-iBpp];`,
entered at `x` with `n` iterations left. -/
def subLoop (iBpp : Int) : Nat → Int → List Nat → List Nat
  | 0, _, pCurr => pCurr
  | n + 1, x, pCurr =>
    subLoop iBpp n (x + 1)
      (poke pCurr (x + 1) (peek pCurr (x + 1) + peek pCurr (x - iBpp + 1)))

/-- The loop `for (x = 0; x < iPitch; x++) pCurr[x] += pPrev[x];`. -/
def upLoop (pPrev : List Nat) : Nat → Int → List Nat → List Nat
  | 0, _, pCurr => pCurr
  | n + 1, x, pCurr =>
    upLoop pPrev n (x + 1)
      (poke pCurr (x + 1) (peek pCurr (x + 1) + peek pPrev (x + 1)))

/-- The loop `for (x = 0; x < iBpp; x++) pCurr[x] = pCurr[x] + pPrev[x] / 2;`. -/
def avgLoopFirst (pPrev : List Nat) : Nat → Int → List Nat → List Nat
  | 0, _, pCurr => pCurr
  | n + 1, x, pCurr =>
    avgLoopFirst pPrev n (x + 1)
      (poke pCurr (x + 1) (peek pCurr (x + 1) + peek pPrev (x + 1) / 2))

/-- The loop `for (x = iBpp; x < iPitch; x++)
pCurr[x] = pCurr[x] + (pPrev[x] + pCurr[x-iBpp]) / 2;`. -/
def avgLoopRest (iBpp : Int) (pPrev : List Nat) : Nat → Int → List Nat → List Nat
  | 0, _, pCurr => pCurr
  | n + 1, x, pCurr =>
    avgLoopRest iBpp pPrev n (x + 1)
      (poke pCurr (x + 1)
        (peek pCurr (x + 1) + (peek pPrev (x + 1) + peek pCurr (x - iBpp + 1)) / 2))

/-- The predictor choice shared by both Paeth loops of `DeFilter`: from the
neighbours `a` (left), `b` (above) and `c` (upper left) it computes
`pa`, `pb`, `pc` and returns the new value of `a`. -/
def paethChoice (a b c : Int) : Int :=
  let p := b - c
  let pc := a - c
  let pa := if p < 0 then -p else p
  let pb := if pc < 0 then -pc else pc
  let pc := if p + pc < 0 then -(p + pc) else p + pc
  let pa' := if pb < pa then pb else pa
  let a := if pb < pa then b else a
  if pc < pa' then c else a

/-- The `while (pCurr < pEnd)` loop of the single-byte Paeth path.  `i` is the
common offset of the advancing `pCurr` and `pPrev`; `a` and `c` are the C
locals carried from one iteration to the next. -/
def paethLoop1 (pPrev : List Nat) : Nat → Int → Int → Int → List Nat → List Nat
  | 0, _, _, _, pCurr => pCurr
  | n + 1, i, a, c, pCurr =>
    let a := a % 256
    let b := peek pPrev (i + 1)
    let a := paethChoice a b c
    let c := b
    let a := a + peek pCurr (i + 1)
    paethLoop1 pPrev n (i + 1) a c (poke pCurr (i + 1) a)

/-- The first `while (pCurr < pEnd)` loop of the multi-byte Paeth path: the
first pixel is treated the same as `up`. -/
def paethLoopFirst (pPrev : List Nat) : Nat → Int → List Nat → List Nat
  | 0, _, pCurr => pCurr
  | n + 1, i, pCurr =>
    paethLoopFirst pPrev n (i + 1)
      (poke pCurr (i + 1) (peek pCurr (i + 1) + peek pPrev (i + 1)))

/-- The second `while (pCurr < pEnd)` loop of the multi-byte Paeth path. -/
def paethLoopRest (iBpp : Int) (pPrev : List Nat) : Nat → Int → List Nat → List Nat
  | 0, _, pCurr => pCurr
  | n + 1, i, pCurr =>
    let c := peek pPrev (i - iBpp + 1)
    let a := peek pCurr (i - iBpp + 1)
    let b := peek pPrev (i + 1)
    let a := paethChoice a b c
    let a := a + peek pCurr (i + 1)
    paethLoopRest iBpp pPrev n (i + 1) (poke pCurr (i + 1) a)

/-- `DeFilter(pCurr, pPrev, iWidth, iPitch)`: the contents of the current line
buffer after the call.  The previous line is only read.  `Int.tdiv` is the
division of C (a division by zero, undefined in C, yields 0 here). -/
def DeFilter (pCurr pPrev : List Nat) (iWidth iPitch : Int) : List Nat :=
  let ucFilter := peek pCurr 0
  let iBpp : Int := if iPitch ≤ iWidth then 1 else Int.tdiv iPitch iWidth
  if ucFilter = PNG_FILTER_NONE then pCurr
  else if ucFilter = PNG_FILTER_SUB then
    subLoop iBpp (iPitch - iBpp).toNat iBpp pCurr
  else if ucFilter = PNG_FILTER_UP then
    upLoop pPrev iPitch.toNat 0 pCurr
  else if ucFilter = PNG_FILTER_AVG then
    avgLoopRest iBpp pPrev (iPitch - iBpp).toNat iBpp
      (avgLoopFirst pPrev iBpp.toNat 0 pCurr)
  else if ucFilter = PNG_FILTER_PAETH then
    if iBpp = 1 then
      let c := peek pPrev 1
      let a := peek pCurr 1 + c
      paethLoop1 pPrev (iPitch - 1).toNat 1 a c (poke pCurr 1 a)
    else
      let n := iBpp.toNat
      paethLoopRest iBpp pPrev (iPitch - n).toNat n (paethLoopFirst pPrev n 0 pCurr)
  else pCurr

/-! ## Session data (pngdec.h) -/

/-- `PNGFILE`: the handle passed to the byte-source callbacks.  `fHandle`
stands for the state of the underlying byte source. -/
structure PNGFILE (σ : Type) where
  iPos : Int
  iSize : Int
  fHandle : σ

/-- What a call of the read callback does: the value it returns, the bytes it
stored from the start of the destination buffer, and the handle afterwards. -/
structure ReadResult (σ : Type) where
  ret : Int
  data : List Nat
  file : PNGFILE σ

/-- `PNGDRAW`: the record handed to the draw callback for each row.
`pPalette` and `pPixels` hold the bytes the C pointers address. -/
structure PNGDRAW where
  y : Int
  iWidth : Int
  iPitch : Int
  iPixelType : Int
  iBpp : Int
  iHasAlpha : Int
  iTrans : List Nat
  iTransLen : Int
  iBackground : Int
  iPaletteCnt : Int
  User : Int
  pPalette : List Nat
  pPixels : List Nat

/-- `PNGIMAGE`: the decode session.  `σ` is the state of the byte source, `ζ`
the state of the inflate engine kept in `ucZLIB`, `δ` the state the draw
callback acts on.  A null `pfnDraw`, `uLine1` or `uLine2` is `none`. -/
structure PNGIMAGE (σ ζ δ : Type) where
  iWidth : Int
  iHeight : Int
  ucBpp : Int
  ucPixelType : Int
  iPitch : Int
  iHasAlpha : Int
  iPaletteCnt : Int
  iInterlaced : Int
  iTrans : List Nat
  iTransLen : Int
  iBackground : Int
  iError : Int
  pfnRead : PNGFILE σ → Int → ReadResult σ
  pfnSeek : PNGFILE σ → Int → PNGFILE σ
  pfnDraw : Option (PNGDRAW → δ → δ)
  PNGFile : PNGFILE σ
  ucZLIB : ζ
  ucPalette : List Nat
  ucFileBuf : List Nat
  uLine1 : Option (List Nat)
  uLine2 : Option (List Nat)

/-- `memcpy(buf + off, data, data.length)` into a buffer of fixed size: bytes
that would land outside the buffer are dropped. -/
def blit (buf : List Nat) (off : Int) (data : List Nat) : List Nat :=
  if 0 ≤ off then
    buf.take off.toNat ++ data.take (buf.length - off.toNat) ++
      buf.drop (off.toNat + data.length)
  else buf

/-- The `n` bytes of `buf` from offset `off` on. -/
def slice (buf : List Nat) (off n : Int) : List Nat :=
  if 0 ≤ off then (buf.drop off.toNat).take n.toNat else []

/-- `MOTOLONG(&p[i])`: the big-endian 32-bit unsigned value at `p[i..i+3]`. -/
def MOTOLONG (p : List Nat) (i : Int) : Int :=
  u32 (peek p i * 16777216 + peek p (i + 1) * 65536 + peek p (i + 2) * 256 + peek p (i + 3))

/-- `PNG_getLastError`. -/
def PNG_getLastError {σ ζ δ : Type} (pPNG : PNGIMAGE σ ζ δ) : Int := pPNG.iError

/-- `PNG_getPalette`. -/
def PNG_getPalette {σ ζ δ : Type} (pPNG : PNGIMAGE σ ζ δ) : List Nat := pPNG.ucPalette

/-! ## `PNGParseInfo` and `PNG_init` (png.inl, lines 38-130 and 233-236) -/

/-- The constant array `signature` of `PNGParseInfo`. -/
def signature : List Nat := [137, 80, 78, 71, 13, 10, 26, 10]

/-- The statement pair `pPage->iError = e; return pPage->iError;`. -/
def failWith {σ ζ δ : Type} (pPage : PNGIMAGE σ ζ δ) (e : Int) : Int × PNGIMAGE σ ζ δ :=
  (e, { pPage with iError := e })

/-- The tail of `PNGParseInfo` after the `IHDR` branch (lines 120-129). -/
def checkPitch {σ ζ δ : Type} (pPage : PNGIMAGE σ ζ δ) : Int × PNGIMAGE σ ζ δ :=
  if pPage.iPitch < 0 then failWith pPage PNG_INVALID_FILE
  else if pPage.iPitch ≥ 65534 then (PNG_TOO_BIG, pPage)
  else (PNG_SUCCESS, pPage)

/-- Lines 91-113: the `switch (pPage->ucPixelType)` that computes the pitch;
`none` is its `default` case.  The products and sums are `int32_t` operations
(wrapped on overflow) and `/` truncates towards zero. -/
def pitchSwitch {σ ζ δ : Type} (pPage : PNGIMAGE σ ζ δ) : Option (PNGIMAGE σ ζ δ) :=
  if pPage.ucPixelType = PNG_PIXEL_GRAYSCALE ∨ pPage.ucPixelType = PNG_PIXEL_INDEXED then
    some { pPage with
      iPitch := Int.tdiv (i32 (i32 (pPage.iWidth * pPage.ucBpp) + 7)) 8 }
  else if pPage.ucPixelType = PNG_PIXEL_TRUECOLOR then
    some { pPage with
      iBackground := 0x999999
      iPitch := Int.tdiv (i32 (i32 ((3 * pPage.ucBpp) * pPage.iWidth) + 7)) 8 }
  else if pPage.ucPixelType = PNG_PIXEL_GRAY_ALPHA then
    some { pPage with
      iBackground := 0x99
      iPitch := Int.tdiv (i32 (i32 ((2 * pPage.ucBpp) * pPage.iWidth) + 7)) 8
      iHasAlpha := 1 }
  else if pPage.ucPixelType = PNG_PIXEL_TRUECOLOR_ALPHA then
    some { pPage with
      iBackground := 0x999999
      iPitch := Int.tdiv (i32 (i32 ((4 * pPage.ucBpp) * pPage.iWidth) + 7)) 8
      iHasAlpha := 1 }
  else none

/-- Lines 68-113 and 120-129: the `IHDR` branch of `PNGParseInfo` on the header
bytes `s`, followed by the checks of the pitch. -/
def parseIHDR {σ ζ δ : Type} (pPage : PNGIMAGE σ ζ δ) (s : List Nat) :
    Int × PNGIMAGE σ ζ δ :=
  let pPage := { pPage with
    iWidth := i32 (MOTOLONG s 16)
    iHeight := i32 (MOTOLONG s 20)
    ucBpp := peek s 24
    ucPixelType := peek s 25
    iInterlaced := peek s 28 }
  if peek s 26 ≠ 0 ∨ peek s 27 ≠ 0 ∨ pPage.iInterlaced ≠ 0 then
    failWith pPage PNG_UNSUPPORTED_FEATURE
  else if ¬ (pPage.ucBpp = 1 ∨ pPage.ucBpp = 2 ∨ pPage.ucBpp = 4 ∨ pPage.ucBpp = 8 ∨
      pPage.ucBpp = 16) then
    failWith pPage PNG_INVALID_FILE
  else
    match pitchSwitch pPage with
    | none => failWith pPage PNG_INVALID_FILE
    | some pPage => checkPitch pPage

/-- The marker `'IHDR'`. -/
def IHDR : Int := 0x49484452

/-- `PNGParseInfo(pPage)`: the returned code and the session afterwards.  The
local array `s` is the 32 bytes stored by the read callback. -/
def PNGParseInfo {σ ζ δ : Type} (pPage : PNGIMAGE σ ζ δ) : Int × PNGIMAGE σ ζ δ :=
  let pPage := { pPage with iHasAlpha := 0, iInterlaced := 0 }
  let r := pPage.pfnRead pPage.PNGFile 32
  let pPage := { pPage with PNGFile := r.file }
  let s := blit (List.replicate 32 0) 0 r.data
  let iBytesRead := r.ret
  if iBytesRead < 32 then failWith pPage PNG_INVALID_FILE
  else if s.take 8 ≠ signature then failWith pPage PNG_INVALID_FILE
  else
    let iL := i32 (MOTOLONG s 8)
    if iL < 13 then failWith pPage PNG_INVALID_FILE
    else
      let pPage := { pPage with iBackground := u32 (-1) }
      if MOTOLONG s 12 = IHDR then parseIHDR pPage s
      else failWith pPage PNG_INVALID_FILE

/-- `PNG_init`. -/
def PNG_init {σ ζ δ : Type} (pPNG : PNGIMAGE σ ζ δ) : Int × PNGIMAGE σ ζ δ :=
  PNGParseInfo pPNG

/-! ## `PNG_decode` (png.inl, lines 248-512)

The inflate engine (zlib) is not part of the repository: it is a parameter of
the model, together with the values of the zlib return codes the decoder
compares against. -/

/-- What one call `inflate(&d_stream, ...)` does: the returned code, the number
of input bytes consumed (`next_in` advances, `avail_in` shrinks by it), the
bytes stored at `next_out` (`avail_out` shrinks by their number) and the
engine state afterwards. -/
structure InflateResult (ζ : Type) where
  err : Int
  used : Nat
  out : List Nat
  state : ζ

/-- The external inflate engine.  `inflate st input avail_out flags` is a call
with `input` the `avail_in` bytes at `next_in`. -/
structure InflateEngine (ζ : Type) where
  Z_OK : Int
  Z_STREAM_END : Int
  Z_STREAM_ERROR : Int
  Z_DATA_ERROR : Int
  inflateInit : ζ → ζ
  inflate : ζ → List Nat → Int → Int → InflateResult ζ
  inflateEnd : ζ → ζ

/-- The fields of `z_stream` the decoder uses.  `next_in` is an offset into
`ucFileBuf`, `next_out` an offset into the current line buffer. -/
structure ZStream where
  next_in : Int
  avail_in : Int
  next_out : Int
  avail_out : Int

/-- The session together with the local variables of `PNG_decode` and the state
`world` the draw callback acts on.  `pCurr` and `pPrev` hold the contents of the
two line buffers; `swapped` tells that `pCurr` is `uLine2`. -/
structure DecodeState (σ ζ δ : Type) where
  pPage : PNGIMAGE σ ζ δ
  world : δ
  more : Int
  err : Int
  y : Int
  iBytesRead : Int
  iOffset : Int
  iLen : Int
  iFileOffset : Int
  iMarker : Int
  pCurr : List Nat
  pPrev : List Nat
  swapped : Bool
  d_stream : ZStream

/-- The decode option `PNG_CHECK_CRC` of `pngdec.h`. -/
def PNG_CHECK_CRC : Int := 1

/-- Lines 465-487: a line has been inflated completely.  It is defiltered,
described in a fresh `PNGDRAW` (whose `iTrans` is filled only when `iTransLen`
is non-zero; bytes of it that are not filled read 0), drawn, and the two line
buffers are swapped. -/
def emitRow {σ ζ δ : Type} (draw : PNGDRAW → δ → δ) (User : Int)
    (st : DecodeState σ ζ δ) : DecodeState σ ζ δ :=
  let pCurr := DeFilter st.pCurr st.pPrev st.pPage.iWidth st.pPage.iPitch
  let pngd : PNGDRAW :=
    { User := User
      iPitch := st.pPage.iPitch
      iWidth := st.pPage.iWidth
      iPaletteCnt := st.pPage.iPaletteCnt
      pPalette := st.pPage.ucPalette
      pPixels := pCurr.drop 1
      iPixelType := st.pPage.ucPixelType
      iHasAlpha := st.pPage.iHasAlpha
      iBpp := st.pPage.ucBpp
      iBackground := i32 st.pPage.iBackground
      iTransLen := st.pPage.iTransLen
      iTrans :=
        if st.pPage.iTransLen ≠ 0 then
          blit (List.replicate 6 0) 0 (slice st.pPage.iTrans 0 st.pPage.iTransLen)
        else List.replicate 6 0
      y := st.y }
  { st with
    world := draw pngd st.world
    y := st.y + 1
    pCurr := st.pPrev
    pPrev := pCurr
    swapped := !st.swapped }

/-- The loop `while (err == Z_OK)` of lines 458-489, with `fuel` bounding the
number of iterations; `none` when the bound is reached. -/
def inflateLoop {σ ζ δ : Type} (Z : InflateEngine ζ) (draw : PNGDRAW → δ → δ)
    (User iOptions : Int) : Nat → DecodeState σ ζ δ → Option (DecodeState σ ζ δ)
  | 0, st => if st.err = Z.Z_OK then none else some st
  | fuel + 1, st =>
    if st.err = Z.Z_OK then
      let ds :=
        if st.d_stream.avail_out = 0 then
          { st.d_stream with avail_out := st.pPage.iPitch + 1, next_out := 0 }
        else st.d_stream
      let r := Z.inflate st.pPage.ucZLIB
        (slice st.pPage.ucFileBuf ds.next_in ds.avail_in) ds.avail_out
        (if iOptions % 2 = 1 then PNG_CHECK_CRC else 0)
      let ds : ZStream :=
        { next_in := ds.next_in + r.used
          avail_in := ds.avail_in - r.used
          next_out := ds.next_out + r.out.length
          avail_out := ds.avail_out - r.out.length }
      let st := { st with
        pPage := { st.pPage with ucZLIB := r.state }
        pCurr := blit st.pCurr (ds.next_out - r.out.length) r.out
        d_stream := ds
        err := r.err }
      let st :=
        if (st.err = Z.Z_OK ∨ st.err = Z.Z_STREAM_END) ∧ st.d_stream.avail_out = 0 then
          emitRow draw User st
        else st
      inflateLoop Z draw User iOptions fuel st
    else some st

/-- The loop `while (iLen)` of the `IDAT` case (lines 439-500).  Leaving the
loop by `break` is returning the state. -/
def idatLoop {σ ζ δ : Type} (Z : InflateEngine ζ) (draw : PNGDRAW → δ → δ)
    (User iOptions : Int) (inner : Nat) :
    Nat → DecodeState σ ζ δ → Option (DecodeState σ ζ δ)
  | 0, st => if st.iLen ≠ 0 then none else some st
  | fuel + 1, st =>
    if st.iLen ≠ 0 then
      if st.iOffset ≥ st.iBytesRead then
        let st :=
          if st.d_stream.avail_in ≠ 0 then
            { st with
              iOffset := i32 (st.iOffset - st.d_stream.avail_in)
              iLen := i32 (st.iLen + st.d_stream.avail_in) }
          else st
        some { st with more := 1 }
      else
        let chunk := i32 (st.iBytesRead - st.iOffset)
        let chunk := if chunk > st.iLen then st.iLen else chunk
        let st := { st with
          d_stream := { st.d_stream with next_in := st.iOffset, avail_in := chunk }
          iLen := i32 (st.iLen - chunk)
          iOffset := i32 (st.iOffset + chunk)
          err := 0 }
        match inflateLoop Z draw User iOptions inner st with
        | none => none
        | some st =>
          if st.err = Z.Z_STREAM_END ∧ st.d_stream.avail_out = 0 then
            some { st with y := st.pPage.iHeight, iMarker := 0 }
          else if st.err = Z.Z_DATA_ERROR ∨ st.err = Z.Z_STREAM_ERROR then
            some { st with pPage := { st.pPage with iError := PNG_DECODE_ERROR } }
          else idatLoop Z draw User iOptions inner fuel st
    else some st

/-- Lines 297-328: the refill of the file buffer at the start of an iteration of
the main loop.  When it ends in `break`, `iError` is set. -/
def refillPhase {σ ζ δ : Type} (st : DecodeState σ ζ δ) : DecodeState σ ζ δ :=
  let left := i32 (st.iBytesRead - st.iOffset)
  if left < 8 ∨ st.more ≠ 0 then
    let s := st.pPage.ucFileBuf
    let s := if left > 0 then blit s 0 (slice s st.iOffset left) else s
    let iFileOffset := if left > 0 then st.iFileOffset else st.iFileOffset - left
    let left := if left > 0 then left else 0
    let file := st.pPage.pfnSeek st.pPage.PNGFile iFileOffset
    let r := st.pPage.pfnRead file (PNG_FILE_BUF_SIZE - left)
    let st := { st with
      pPage := { st.pPage with PNGFile := r.file, ucFileBuf := blit s left r.data }
      iFileOffset := iFileOffset
      iBytesRead := r.ret }
    if st.iBytesRead < 0 then
      { st with pPage := { st.pPage with iError := PNG_IO_ERROR } }
    else
      let st := { st with
        iFileOffset := st.iFileOffset + st.iBytesRead
        iBytesRead := st.iBytesRead + left
        iOffset := 0
        more := 0 }
      if st.iBytesRead < 8 then
        { st with pPage := { st.pPage with iError := PNG_DECODE_ERROR } }
      else st
  else st

/-- Lines 374-391: the case of the marker `0x44474b62`.  `hbo` is the local of
that name (1, or 0 for 16-bit samples). -/
def bkgdCase {σ ζ δ : Type} (hbo : Int) (st : DecodeState σ ζ δ) : DecodeState σ ζ δ :=
  let s := st.pPage.ucFileBuf
  let t := st.pPage.ucPixelType
  if t = PNG_PIXEL_INDEXED then
    { st with pPage := { st.pPage with iBackground := peek s st.iOffset } }
  else if t = PNG_PIXEL_GRAYSCALE ∨ t = PNG_PIXEL_GRAY_ALPHA then
    { st with pPage := { st.pPage with iBackground := peek s (st.iOffset + hbo) } }
  else if t = PNG_PIXEL_TRUECOLOR ∨ t = PNG_PIXEL_TRUECOLOR_ALPHA then
    { st with pPage := { st.pPage with
        iBackground :=
          peek s (st.iOffset + 0 + hbo) + peek s (st.iOffset + 2 + hbo) * 256 +
            peek s (st.iOffset + 4 + hbo) * 65536 } }
  else st

/-- Lines 393-402: the `PLTE` case. -/
def plteCase {σ ζ δ : Type} (st : DecodeState σ ζ δ) : DecodeState σ ζ δ :=
  if st.iLen > 768 ∨ Int.tmod st.iLen 3 ≠ 0 then
    { st with pPage := { st.pPage with iError := PNG_DECODE_ERROR } }
  else
    let pal := blit st.pPage.ucPalette 0 (slice st.pPage.ucFileBuf st.iOffset st.iLen)
    let pal := blit pal 768 (List.replicate 256 255)
    { st with
      pPage := { st.pPage with iPaletteCnt := Int.tdiv st.iLen 3, ucPalette := pal }
      iMarker := 0 }

/-- Lines 403-437: the `tRNS` case. -/
def trnsCase {σ ζ δ : Type} (st : DecodeState σ ζ δ) : DecodeState σ ζ δ :=
  let s := st.pPage.ucFileBuf
  if st.pPage.ucPixelType = PNG_PIXEL_INDEXED then
    if st.iLen > 256 then
      { st with pPage := { st.pPage with iError := PNG_DECODE_ERROR } }
    else
      { st with
        pPage := { st.pPage with
          ucPalette := blit st.pPage.ucPalette 768 (slice s st.iOffset st.iLen)
          iHasAlpha := 1 }
        iMarker := 0 }
  else if st.iLen = 2 then
    if st.pPage.ucBpp > 8 then
      { st with
        pPage := { st.pPage with
          iTrans := blit st.pPage.iTrans 0 (slice s st.iOffset 2)
          iTransLen := 2 }
        iMarker := 0 }
    else
      { st with
        pPage := { st.pPage with
          iTrans := poke st.pPage.iTrans 0 (peek s (st.iOffset + 1))
          iTransLen := 1 }
        iMarker := 0 }
  else if st.iLen = 6 then
    if st.pPage.ucBpp > 8 then
      { st with
        pPage := { st.pPage with
          iTrans := blit st.pPage.iTrans 0 (slice s st.iOffset 6)
          iTransLen := 6 }
        iMarker := 0 }
    else
      { st with
        pPage := { st.pPage with
          iTrans := poke (poke (poke st.pPage.iTrans 0 (peek s (st.iOffset + 1))) 1
            (peek s (st.iOffset + 3))) 2 (peek s (st.iOffset + 5))
          iTransLen := 3 }
        iMarker := 0 }
  else { st with iMarker := 0 }

/-- Lines 330-508: the rest of an iteration of the main loop, after the refill.
`none` when an inner loop exceeds `fuel` iterations.  The statements `continue`
and `break` end the iteration; every `break` out of the main loop directly
follows an assignment of a non-zero code to `iError`, so the loop condition
ends the loop in its place. -/
def chunkPhase {σ ζ δ : Type} (Z : InflateEngine ζ) (draw : PNGDRAW → δ → δ)
    (User iOptions hbo : Int) (fuel : Nat) (st : DecodeState σ ζ δ) :
    Option (DecodeState σ ζ δ) :=
  let s := st.pPage.ucFileBuf
  let parsed : Option (DecodeState σ ζ δ) :=
    if st.iMarker = 0 then
      let iLen := i32 (MOTOLONG s st.iOffset)
      if iLen < 0 ∨ iLen + (st.iFileOffset - st.iBytesRead) > st.pPage.PNGFile.iSize then
        none
      else
        some { st with
          iLen := iLen
          iMarker := MOTOLONG s (st.iOffset + 4)
          iOffset := i32 (st.iOffset + 8) }
    else some st
  match parsed with
  | none =>
    some { st with
      iLen := i32 (MOTOLONG s st.iOffset)
      pPage := { st.pPage with iError := PNG_DECODE_ERROR } }
  | some st =>
    if ¬ (st.iMarker = 0x504c5445 ∨ st.iMarker = 0x74524e53 ∨ st.iMarker = 0x49444154 ∨
        st.iMarker = 0x44474b62) then
      some { st with iMarker := 0, iOffset := i32 (st.iOffset + i32 (st.iLen + 4)) }
    else
      let left := i32 (st.iBytesRead - st.iOffset)
      if st.iMarker ≠ 0x49444154 ∧ left < st.iLen then
        if st.iLen > PNG_FILE_BUF_SIZE then
          some { st with pPage := { st.pPage with iError := PNG_DECODE_ERROR } }
        else some { st with more := 1 }
      else
        let after : Option (DecodeState σ ζ δ) :=
          if st.iMarker = 0x44474b62 then some (bkgdCase hbo st)
          else if st.iMarker = 0x504c5445 then some (plteCase st)
          else if st.iMarker = 0x74524e53 then some (trnsCase st)
          else
            match idatLoop Z draw User iOptions fuel fuel st with
            | none => none
            | some st => some (if st.iLen = 0 then { st with iMarker := 0 } else st)
        match after with
        | none => none
        | some st =>
          some (if st.iMarker = 0 then
            { st with iOffset := i32 (st.iOffset + i32 (st.iLen + 4)) } else st)

/-- One iteration of the main loop `while ((!pPage->iError)&&(y < pPage->iHeight))`. -/
def decodeStep {σ ζ δ : Type} (Z : InflateEngine ζ) (draw : PNGDRAW → δ → δ)
    (User iOptions hbo : Int) (fuel : Nat) (st : DecodeState σ ζ δ) :
    Option (DecodeState σ ζ δ) :=
  let st := refillPhase st
  if st.pPage.iError ≠ 0 then some st
  else chunkPhase Z draw User iOptions hbo fuel st

/-- The main loop, run for at most `fuel` iterations (each inner loop for at
most `fuel` iterations as well); `none` when a bound is reached. -/
def mainLoop {σ ζ δ : Type} (Z : InflateEngine ζ) (draw : PNGDRAW → δ → δ)
    (User iOptions hbo : Int) (fuel : Nat) :
    Nat → DecodeState σ ζ δ → Option (DecodeState σ ζ δ)
  | 0, st => if st.pPage.iError = 0 ∧ st.y < st.pPage.iHeight then none else some st
  | n + 1, st =>
    if st.pPage.iError = 0 ∧ st.y < st.pPage.iHeight then
      match decodeStep Z draw User iOptions hbo fuel st with
      | none => none
      | some st => mainLoop Z draw User iOptions hbo fuel n st
    else some st

/-- The state of `PNG_decode` on entry to the main loop (lines 270-294).  The
value `inflateInit` returns is never read; `err` starts as 0.  The source does
not initialise `d_stream.avail_in` and `d_stream.next_in`; they start as 0. -/
def decodeInit {σ ζ δ : Type} (Z : InflateEngine ζ) (pPage : PNGIMAGE σ ζ δ)
    (uLine1 uLine2 : List Nat) (world : δ) : DecodeState σ ζ δ :=
  { pPage := { pPage with
      iError := PNG_SUCCESS
      ucZLIB := Z.inflateInit pPage.ucZLIB
      PNGFile := pPage.pfnSeek pPage.PNGFile 8 }
    world := world
    more := 0
    err := 0
    y := 0
    iBytesRead := 0
    iOffset := 0
    iLen := 0
    iFileOffset := 8
    iMarker := 0
    pCurr := uLine1
    pPrev := uLine2
    swapped := false
    d_stream := { next_in := 0, avail_in := 0, next_out := 0, avail_out := 0 } }

/-- The session when `PNG_decode` returns: the line buffers carry the contents
left by the loop and the inflate engine has been shut down. -/
def decodeExit {σ ζ δ : Type} (Z : InflateEngine ζ) (st : DecodeState σ ζ δ) :
    PNGIMAGE σ ζ δ :=
  { st.pPage with
    ucZLIB := Z.inflateEnd st.pPage.ucZLIB
    uLine1 := some (if st.swapped then st.pPrev else st.pCurr)
    uLine2 := some (if st.swapped then st.pCurr else st.pPrev) }

/-- `PNG_decode(pPage, User, iOptions)` run on the draw-side state `world`: the
returned code, the session and the draw-side state afterwards; `none` when a
loop does not end within `fuel` iterations. -/
def PNG_decode {σ ζ δ : Type} (Z : InflateEngine ζ) (fuel : Nat) (pPage : PNGIMAGE σ ζ δ)
    (User iOptions : Int) (world : δ) : Option (Int × PNGIMAGE σ ζ δ × δ) :=
  match pPage.pfnDraw, pPage.uLine1, pPage.uLine2 with
  | some draw, some uLine1, some uLine2 =>
    let hbo : Int := if pPage.ucBpp > 8 then 0 else 1
    match mainLoop Z draw User iOptions hbo fuel fuel
      (decodeInit Z pPage uLine1 uLine2 world) with
    | none => none
    | some st => some (st.pPage.iError, decodeExit Z st, st.world)
  | _, _, _ => some (PNG_NO_BUFFER, { pPage with iError := PNG_NO_BUFFER }, world)

/-! ## The byte source of `main.c` -/

/-- A file descriptor of the operating system: the contents of the file and the
current offset. -/
structure FileDesc where
  bytes : List Nat
  offset : Int

/-- `pngRead` (main.c, lines 44-47): `read(2)` on a regular file delivers the
requested bytes that exist from the current offset on and advances the offset. -/
def pngRead (pFile : PNGFILE FileDesc) (iLen : Int) : ReadResult FileDesc :=
  let data := slice pFile.fHandle.bytes pFile.fHandle.offset iLen
  { ret := data.length
    data := data
    file := { pFile with
      fHandle := { pFile.fHandle with offset := pFile.fHandle.offset + data.length } } }

/-- `pngSeek` (main.c, lines 49-52): `lseek(2)` to an absolute offset; a negative
offset is refused and leaves the offset as it was. -/
def pngSeek (pFile : PNGFILE FileDesc) (iPosition : Int) : PNGFILE FileDesc :=
  if 0 ≤ iPosition then
    { pFile with fHandle := { pFile.fHandle with offset := iPosition } }
  else pFile

/-! ## The converter of `main.c`

`x & 0xFF` on an `int` is `x % 256` and `x >> k` is `x / 2 ^ k` (on `Int` both
round towards minus infinity, as the two's-complement operations do).  The
process ends when `exit` is called: the exit status is recorded and every later
step of the converter leaves the state as it is. -/

/-- The static variables of `main.c`, the output file behind the descriptor that
is passed as `User`, and the exit status once `exit` has been called. -/
structure Converter where
  winbmphdr : List Nat
  bm_bitoff : Int
  BmpStride : Int
  BMPLine : List Nat
  pngHeight : Int
  desiredBackground : Int
  output : FileDesc
  exited : Option Int

/-- `expandbits8` (main.c, lines 81-99); the result is a `uint8_t`. -/
def expandbits8 (idx bits : Int) : Int :=
  if bits ≥ 8 then idx % 256
  else if bits = 1 then (if idx ≠ 0 then 0xFF else 0)
  else if bits = 2 then
    (if idx = 1 then 0x55 else if idx = 2 then 0xAA else if idx = 3 then 0xFF else 0)
  else (Int.lor (idx * 16) idx) % 256

/-- `lseek(fd, pos, SEEK_SET)`: a negative position is refused. -/
def lseek (f : FileDesc) (pos : Int) : FileDesc :=
  if 0 ≤ pos then { f with offset := pos } else f

/-- `write(fd, data, data.length)` on a regular file: the bytes replace or
extend the contents at the current offset (a gap is filled with zeros) and the
offset advances. -/
def fileWrite (f : FileDesc) (data : List Nat) : FileDesc :=
  let padded := f.bytes ++ List.replicate (f.offset.toNat - f.bytes.length) 0
  { bytes := padded.take f.offset.toNat ++ data ++ padded.drop (f.offset.toNat + data.length)
    offset := f.offset + data.length }

/-- `wwrite(fd, buf, len)` (main.c, lines 101-116) on a file system that takes
every write in full; `len` is converted to `unsigned`.  A call with `len = 0`
makes `write` return 0, which the function reports as a short write and ends the
process with status 2. -/
def wwrite (c : Converter) (buf : List Nat) (len : Int) : Converter :=
  if u32 len = 0 then { c with exited := some 2 }
  else
    { c with
      output := fileWrite c.output ((List.range (u32 len).toNat).map fun i => buf.getD i 0) }

/-- The store `*(short*)(p + i) = v` on a little-endian machine. -/
def pokeShort (p : List Nat) (i : Int) (v : Int) : List Nat :=
  poke (poke p i v) (i + 1) (v / 256)

/-- The store `*(int32_t*)(p + i) = v` on a little-endian machine. -/
def pokeLong (p : List Nat) (i : Int) (v : Int) : List Nat :=
  poke (poke (poke (poke p i v) (i + 1) (v / 256)) (i + 2) (v / 65536)) (i + 3) (v / 16777216)

/-- The three low bytes of `x`: `x & 0xFF`, `(x >> 8) & 0xFF`, `(x >> 16) & 0xFF`. -/
def lowBytes (x : Int) : Int × Int × Int :=
  (x % 256, x / 256 % 256, x / 65536 % 256)

/-- The loop of lines 134-139 of `pngDraw_init`: the synthesised gray palette,
entries `i` to `i + n - 1`. -/
def grayPaletteLoop (bits : Int) : Nat → Int → List Nat → List Nat
  | 0, _, hdr => hdr
  | n + 1, i, hdr =>
    let v := expandbits8 i bits
    grayPaletteLoop bits n (i + 1)
      (poke (poke (poke hdr (54 + (i * 4 + 0)) v) (54 + (i * 4 + 1)) v) (54 + (i * 4 + 2)) v)

/-- The loop of lines 193-198: the palette of the file copied into the bitmap
header, blue first. -/
def indexedPaletteLoop (pPalette : List Nat) : Nat → Int → List Nat → List Nat
  | 0, _, hdr => hdr
  | n + 1, i, hdr =>
    indexedPaletteLoop pPalette n (i + 1)
      (poke (poke (poke (poke hdr (54 + (i * 4 + 0)) (peek pPalette (i * 3 + 2)))
        (54 + (i * 4 + 1)) (peek pPalette (i * 3 + 1)))
        (54 + (i * 4 + 2)) (peek pPalette (i * 3 + 0)))
        (54 + (i * 4 + 3)) 0)

/-- Lines 201-212 of `pngDraw_init`: the background `(br, bg, bb)` the palette
of an indexed image with alpha is composited against. -/
def indexedBackground (desiredBackground : Int) (d : PNGDRAW) : Int × Int × Int :=
  if desiredBackground ≥ 0 then lowBytes desiredBackground
  else if d.iBackground ≥ 0 then
    (peek d.pPalette (d.iBackground * 3 + 0), peek d.pPalette (d.iBackground * 3 + 1),
      peek d.pPalette (d.iBackground * 3 + 2))
  else (0x99, 0x99, 0x99)

/-- The integer blend `((fg * a) + (bg * (255 - a))) >> 8` of the alpha paths. -/
def blend (fg a bg : Int) : Int := (fg * a + bg * (255 - a)) / 256

/-- The loop of lines 213-230: the palette entries with alpha composited against
the background `(br, bg, bb)`. -/
def indexedAlphaLoop (pPalette : List Nat) (br bg bb : Int) : Nat → Int → List Nat → List Nat
  | 0, _, hdr => hdr
  | n + 1, i, hdr =>
    let a := peek pPalette (768 + i)
    let hdr :=
      if a = 255 then hdr
      else if a = 0 then
        poke (poke (poke hdr (54 + (i * 4 + 0)) bb) (54 + (i * 4 + 1)) bg) (54 + (i * 4 + 2)) br
      else
        let b := peek hdr (54 + (i * 4 + 0))
        let g := peek hdr (54 + (i * 4 + 1))
        let r := peek hdr (54 + (i * 4 + 2))
        poke (poke (poke hdr (54 + (i * 4 + 2)) (blend r a br))
          (54 + (i * 4 + 1)) (blend g a bg)) (54 + (i * 4 + 0)) (blend b a bb)
    indexedAlphaLoop pPalette br bg bb n (i + 1) hdr

/-- Lines 245-252 of `pngDraw_init`: the sizes are stored in the bitmap header
and the header and palette are written. -/
def initTail (d : PNGDRAW) (c : Converter) (palettecnt : Int) : Converter :=
  let hdr := pokeShort c.winbmphdr 46 palettecnt
  let bm_bitoff := 54 + 4 * palettecnt
  let hdr := pokeLong hdr 2 (i32 (bm_bitoff + i32 (c.pngHeight * c.BmpStride)))
  let hdr := pokeShort hdr 10 bm_bitoff
  let hdr := pokeLong hdr 18 d.iWidth
  let hdr := pokeLong hdr 22 c.pngHeight
  wwrite { c with winbmphdr := hdr, bm_bitoff := bm_bitoff } hdr bm_bitoff

/-- The grayscale case of `pngDraw_init` (lines 126-178). -/
def initGrayscale (d : PNGDRAW) (c : Converter) : Converter :=
  let palettecnt : Int :=
    if d.iBpp = 1 then 2 else if d.iBpp = 2 then 4 else if d.iBpp = 4 then 16
    else if d.iBpp = 8 then 256 else if d.iBpp = 16 then 256 else 0
  let hdr := grayPaletteLoop d.iBpp palettecnt.toNat 0 c.winbmphdr
  let hdr := poke hdr 28 (if palettecnt > 16 then 8 else 4)
  let hdr :=
    if d.iTransLen = 1 then
      let b : Int × Int × Int :=
        if c.desiredBackground ≥ 0 then lowBytes c.desiredBackground
        else if d.iBackground ≥ 0 then
          (expandbits8 d.iBackground d.iBpp, expandbits8 d.iBackground d.iBpp,
            expandbits8 d.iBackground d.iBpp)
        else (0x99, 0x99, 0x99)
      poke (poke (poke hdr (54 + (peek d.iTrans 0 * 4 + 0)) b.2.2)
        (54 + (peek d.iTrans 0 * 4 + 1)) b.2.1) (54 + (peek d.iTrans 0 * 4 + 2)) b.1
    else hdr
  let desiredBackground :=
    if d.iTransLen = 2 then
      if c.desiredBackground ≥ 0 then
        ((((lowBytes c.desiredBackground).1 + (lowBytes c.desiredBackground).2.1 +
          (lowBytes c.desiredBackground).2.2) % 65536 + 1) / 3) % 256
      else if d.iBackground ≥ 0 then d.iBackground % 256
      else 0x99
    else c.desiredBackground
  initTail d { c with winbmphdr := hdr, desiredBackground := desiredBackground } palettecnt

/-- The indexed case of `pngDraw_init` (lines 180-232): without a palette the
process ends with status 4. -/
def initIndexed (d : PNGDRAW) (c : Converter) : Converter :=
  let palettecnt := d.iPaletteCnt
  if palettecnt = 0 then { c with exited := some 4 }
  else
    let hdr :=
      if d.iBpp = 1 ∨ d.iBpp = 2 ∨ d.iBpp = 4 then poke c.winbmphdr 28 4 else c.winbmphdr
    let hdr := indexedPaletteLoop d.pPalette palettecnt.toNat 0 hdr
    let hdr :=
      if d.iHasAlpha ≠ 0 then
        indexedAlphaLoop d.pPalette (indexedBackground c.desiredBackground d).1
          (indexedBackground c.desiredBackground d).2.1
          (indexedBackground c.desiredBackground d).2.2 palettecnt.toNat 0 hdr
      else hdr
    initTail d { c with winbmphdr := hdr } palettecnt

/-- `pngDraw_init` (main.c, lines 118-253). -/
def pngDraw_init (d : PNGDRAW) (c : Converter) : Converter :=
  if d.iPixelType = PNG_PIXEL_GRAYSCALE then initGrayscale d c
  else if d.iPixelType = PNG_PIXEL_INDEXED then initIndexed d c
  else if d.iPixelType = PNG_PIXEL_TRUECOLOR ∨ d.iPixelType = PNG_PIXEL_GRAY_ALPHA ∨
      d.iPixelType = PNG_PIXEL_TRUECOLOR_ALPHA then
    initTail d { c with winbmphdr := poke c.winbmphdr 28 24 } 0
  else { c with exited := some 9 }

/-- Lines 272-298 of `pngDraw`: the background `(br, bg, bb)` for truecolor and
alpha rows, each a `uint8_t`.  For the other pixel types the three variables are
not assigned (and not used); they read 0 here. -/
def drawBackground (desiredBackground : Int) (d : PNGDRAW) : Int × Int × Int :=
  if d.iPixelType = PNG_PIXEL_TRUECOLOR ∨ d.iPixelType = PNG_PIXEL_TRUECOLOR_ALPHA then
    if desiredBackground ≥ 0 then lowBytes desiredBackground
    else lowBytes d.iBackground
  else if d.iPixelType = PNG_PIXEL_GRAY_ALPHA then
    if desiredBackground ≥ 0 then lowBytes desiredBackground
    else (d.iBackground % 256, d.iBackground % 256, d.iBackground % 256)
  else (0, 0, 0)

/-- The value of a byte as a natural number, for the bit operations. -/
def byteAt (p : List Nat) (i : Int) : Nat := (peek p i).toNat

/-- The loop of lines 305-311: 1-bit pixels unpacked to 4 bits each. -/
def unpack1Loop (pPixels : List Nat) : Nat → Int → List Nat → List Nat
  | 0, _, line => line
  | n + 1, i, line =>
    let v := byteAt pPixels i
    let line := poke line (i * 4 + 0) ((((v &&& 0x80) >>> 3) ||| ((v &&& 0x40) >>> 6) : Nat) : Int)
    let line := poke line (i * 4 + 1) ((((v &&& 0x20) >>> 1) ||| ((v &&& 0x10) >>> 4) : Nat) : Int)
    let line := poke line (i * 4 + 2) ((((v &&& 0x08) <<< 1) ||| ((v &&& 0x04) >>> 2) : Nat) : Int)
    let line := poke line (i * 4 + 3) ((((v &&& 0x02) <<< 3) ||| (v &&& 0x01) : Nat) : Int)
    unpack1Loop pPixels n (i + 1) line

/-- The loop of lines 314-318: 2-bit pixels unpacked to 4 bits each. -/
def unpack2Loop (pPixels : List Nat) : Nat → Int → List Nat → List Nat
  | 0, _, line => line
  | n + 1, i, line =>
    let v := byteAt pPixels i
    let line := poke line (i * 2 + 0) ((((v &&& 0xC0) >>> 2) ||| ((v &&& 0x30) >>> 4) : Nat) : Int)
    let line := poke line (i * 2 + 1) ((((v &&& 0x0C) <<< 2) ||| (v &&& 0x03) : Nat) : Int)
    unpack2Loop pPixels n (i + 1) line

/-- `memcmp(a, p + i, n) == 0`. -/
def sameBytes (a p : List Nat) (i : Int) (n : Nat) : Bool :=
  (List.range n).all fun k => decide (peek a k = peek p (i + k))

/-- The loops of lines 327-337: the high bytes of 16-bit gray samples; with
`keyed` (a 2-byte transparency key) a sample equal to the key becomes
`desiredBackground`. -/
def gray16Loop (d : PNGDRAW) (keyed : Bool) (desiredBackground : Int) :
    Nat → Int → List Nat → List Nat
  | 0, _, line => line
  | n + 1, i, line =>
    let line :=
      if keyed ∧ sameBytes d.iTrans d.pPixels i 2 then poke line (Int.tdiv i 2) desiredBackground
      else poke line (Int.tdiv i 2) (peek d.pPixels i)
    gray16Loop d keyed desiredBackground n (i + 2) line

/-- The four loops of the truecolor case (lines 346-386).  `unit` is the number
of bytes of a sample (2 for 16-bit samples, 1 otherwise): the loop advances by
`3 * unit` bytes and stores at `i / unit`; with `keyed` a pixel equal to the
transparency key is replaced by the background. -/
def truecolorLoop (d : PNGDRAW) (unit : Int) (keyed : Bool) (br bg bb : Int) :
    Nat → Int → List Nat → List Nat
  | 0, _, line => line
  | n + 1, i, line =>
    let o := Int.tdiv i unit
    let line :=
      if keyed ∧ sameBytes d.iTrans d.pPixels i (3 * unit).toNat then
        poke (poke (poke line (o + 2) br) (o + 1) bg) (o + 0) bb
      else
        poke (poke (poke line (o + 2) (peek d.pPixels (i + 0)))
          (o + 1) (peek d.pPixels (i + unit))) (o + 0) (peek d.pPixels (i + 2 * unit))
    truecolorLoop d unit keyed br bg bb n (i + 3 * unit) line

/-- The two loops of the grayscale-with-alpha case (lines 395-433): `unit` is
the number of bytes of a sample, the loop advances by `2 * unit` bytes, the
alpha byte is at `i + unit` and pixel `i / (2 * unit)` is stored. -/
def grayAlphaLoop (d : PNGDRAW) (unit : Int) (br bg bb : Int) :
    Nat → Int → List Nat → List Nat
  | 0, _, line => line
  | n + 1, i, line =>
    let v := peek d.pPixels i
    let a := peek d.pPixels (i + unit)
    let o := Int.tdiv i (2 * unit) * 3
    let line :=
      if a = 255 then poke (poke (poke line (o + 0) v) (o + 1) v) (o + 2) v
      else if a = 0 then poke (poke (poke line (o + 0) bb) (o + 1) bg) (o + 2) br
      else
        poke (poke (poke line (o + 0) (blend v a bb)) (o + 1) (blend v a bg))
          (o + 2) (blend v a br)
    grayAlphaLoop d unit br bg bb n (i + 2 * unit) line

/-- The two loops of the truecolor-with-alpha case (lines 437-479): `unit` is
the number of bytes of a sample, the loop advances by `4 * unit` bytes, the
alpha byte is at `i + 3 * unit` and pixel `i / (4 * unit)` is stored. -/
def trueAlphaLoop (d : PNGDRAW) (unit : Int) (br bg bb : Int) :
    Nat → Int → List Nat → List Nat
  | 0, _, line => line
  | n + 1, i, line =>
    let a := peek d.pPixels (i + 3 * unit)
    let o := Int.tdiv i (4 * unit) * 3
    let line :=
      if a = 255 then
        poke (poke (poke line (o + 2) (peek d.pPixels (i + 0)))
          (o + 1) (peek d.pPixels (i + unit))) (o + 0) (peek d.pPixels (i + 2 * unit))
      else if a = 0 then poke (poke (poke line (o + 0) bb) (o + 1) bg) (o + 2) br
      else
        poke (poke (poke line (o + 0) (blend (peek d.pPixels (i + 2 * unit)) a bb))
          (o + 1) (blend (peek d.pPixels (i + unit)) a bg))
          (o + 2) (blend (peek d.pPixels (i + 0)) a br)
    trueAlphaLoop d unit br bg bb n (i + 4 * unit) line

/-- The number of iterations of `for (i = 0; i < iPitch; i += step)`. -/
def trips (iPitch step : Int) : Nat := ((iPitch + step - 1) / step).toNat

/-- The second switch of `pngDraw` (lines 300-481): the bytes `line` points to
afterwards, the contents of `BMPLine`, and `linepitch`. -/
def drawRow (d : PNGDRAW) (c : Converter) (br bg bb : Int) : List Nat × List Nat × Int :=
  let line := c.BMPLine
  if d.iPixelType = PNG_PIXEL_GRAYSCALE ∨ d.iPixelType = PNG_PIXEL_INDEXED then
    if d.iBpp = 1 then
      let line := unpack1Loop d.pPixels (trips d.iPitch 1) 0 line
      (line, line, c.BmpStride)
    else if d.iBpp = 2 then
      let line := unpack2Loop d.pPixels (trips d.iPitch 1) 0 line
      (line, line, c.BmpStride)
    else if d.iBpp = 4 ∨ d.iBpp = 8 then (d.pPixels, line, d.iPitch)
    else if d.iBpp = 16 then
      let line := gray16Loop d (d.iTransLen = 2) c.desiredBackground (trips d.iPitch 2) 0 line
      (line, line, c.BmpStride)
    else (line, line, c.BmpStride)
  else if d.iPixelType = PNG_PIXEL_TRUECOLOR then
    let line :=
      if d.iBpp > 8 then
        truecolorLoop d 2 (d.iTransLen = 6) br bg bb (trips d.iPitch 6) 0 line
      else truecolorLoop d 1 (d.iTransLen = 3) br bg bb (trips d.iPitch 3) 0 line
    (line, line, c.BmpStride)
  else if d.iPixelType = PNG_PIXEL_GRAY_ALPHA then
    let line :=
      if d.iBpp > 8 then grayAlphaLoop d 2 br bg bb (trips d.iPitch 4) 0 line
      else grayAlphaLoop d 1 br bg bb (trips d.iPitch 2) 0 line
    (line, line, c.BmpStride)
  else if d.iPixelType = PNG_PIXEL_TRUECOLOR_ALPHA then
    let line :=
      if d.iBpp > 8 then trueAlphaLoop d 2 br bg bb (trips d.iPitch 8) 0 line
      else trueAlphaLoop d 1 br bg bb (trips d.iPitch 4) 0 line
    (line, line, c.BmpStride)
  else (line, line, c.BmpStride)

/-- `pngDraw` (main.c, lines 255-488), the draw callback of the converter. -/
def pngDraw (d : PNGDRAW) (c : Converter) : Converter :=
  if c.exited ≠ none then c
  else
    let c := if d.y = 0 then pngDraw_init d c else c
    if c.exited ≠ none then c
    else
      let linesdown := (c.pngHeight - d.y) - 1
      let dyp := c.bm_bitoff + linesdown * c.BmpStride
      let c := { c with output := lseek c.output dyp }
      let b := drawBackground c.desiredBackground d
      let r := drawRow d c b.1 b.2.1 b.2.2
      let c := wwrite { c with BMPLine := r.2.1 } r.1 r.2.2
      if c.exited ≠ none then c
      else if r.2.2 < c.BmpStride then wwrite c [0, 0, 0, 0] (c.BmpStride - r.2.2)
      else c

/-- The bitmap header `winbmphdr` as `main.c` initialises it (lines 55-72), with
room for the palette. -/
def winbmphdr0 : List Nat :=
  [0x42, 0x4d, 0, 0, 0, 0, 0, 0, 0, 0, 0x36, 4, 0, 0, 0x28, 0, 0, 0, 0, 0, 0, 0, 0, 0, 0, 0,
    1, 0, 8, 0, 0, 0, 0, 0, 0, 0, 0, 0, 0, 0, 0, 0, 0, 0, 0, 0, 0, 0, 0, 0, 0, 0, 0, 0] ++
    List.replicate 1024 0

/-- Lines 531-565 of `main`: the row stride of the bitmap is derived from the
parsed header and rounded up to a multiple of 4; a stride of 65535 or more ends
the process with status 3.  The line buffer is zero-filled here and the output
file starts empty. -/
def converterInit {σ ζ δ : Type} (p : PNGIMAGE σ ζ δ) : Converter :=
  let stride : Int :=
    if p.ucPixelType = PNG_PIXEL_GRAYSCALE ∨ p.ucPixelType = PNG_PIXEL_INDEXED then
      if p.ucBpp = 1 ∨ p.ucBpp = 2 ∨ p.ucBpp = 4 then Int.tdiv (i32 (p.iWidth + 1)) 2
      else if p.ucBpp = 8 ∨ p.ucBpp = 16 then p.iWidth
      else 0
    else if p.ucPixelType = PNG_PIXEL_GRAY_ALPHA ∨ p.ucPixelType = PNG_PIXEL_TRUECOLOR ∨
        p.ucPixelType = PNG_PIXEL_TRUECOLOR_ALPHA then i32 (p.iWidth * 3)
    else 0
  let stride := i32 (stride + 3) / 4 * 4
  { winbmphdr := winbmphdr0
    bm_bitoff := 0
    BmpStride := stride
    BMPLine := List.replicate stride.toNat 0
    pngHeight := p.iHeight
    desiredBackground := -1
    output := { bytes := [], offset := 0 }
    exited := if stride ≥ 65535 then some 3 else none }

/-! ## Definitions used in the statements and proofs -/

/-! ### Reference PNG filter (the encoder side of the round trip)

These definitions follow the PNG specification, not the source: they are the
"reference encoder" against which `DeFilter` is compared. -/

/-- The Paeth predictor of the PNG specification: the neighbour closest to
`a + b - c`, ties broken in the order `a`, `b`, `c`. -/
def paethPredictor (a b c : Int) : Int :=
  let p := a + b - c
  let pa := |p - a|
  let pb := |p - b|
  let pc := |p - c|
  if pa ≤ pb ∧ pa ≤ pc then a else if pb ≤ pc then b else c

/-- The prediction the reference encoder subtracts from byte `x` of the row
`orig` for filter type `t`, with back-reference distance `bpp`. -/
def refPredict (t bpp : Nat) (orig prev : List Nat) (x : Nat) : Int :=
  let a : Int := if bpp ≤ x then (orig.getD (x - bpp) 0 : Nat) else 0
  let b : Int := (prev.getD x 0 : Nat)
  let c : Int := if bpp ≤ x then (prev.getD (x - bpp) 0 : Nat) else 0
  if t = 1 then a
  else if t = 2 then b
  else if t = 3 then (a + b) / 2
  else if t = 4 then paethPredictor a b c
  else 0

/-- The filtered bytes the reference encoder emits for the row `orig` (filter
type `t`, arithmetic modulo 256). -/
def refFilterRow (t bpp : Nat) (orig prev : List Nat) : List Nat :=
  (List.range orig.length).map fun x =>
    (((orig.getD x 0 : Nat) - refPredict t bpp orig prev x) % 256).toNat

/-- The row whose first `k` bytes are already reconstructed (`orig`) and whose
remaining bytes are still filtered (`filt`). -/
def mix (orig filt : List Nat) (k : Nat) : List Nat := orig.take k ++ filt.drop k

/-- The local array `s` of `PNGParseInfo` after the call of the read callback. -/
def headerBytes {σ ζ δ : Type} (pPage : PNGIMAGE σ ζ δ) : List Nat :=
  blit (List.replicate 32 0) 0 (pPage.pfnRead pPage.PNGFile 32).data

/-- The session on which `PNGParseInfo` runs its `IHDR` branch: the session
after lines 45-65. -/
def afterPrologue {σ ζ δ : Type} (pPage : PNGIMAGE σ ζ δ) : PNGIMAGE σ ζ δ :=
  { pPage with
    iHasAlpha := 0
    iInterlaced := 0
    PNGFile := (pPage.pfnRead pPage.PNGFile 32).file
    iBackground := u32 (-1) }

/-- The number of samples per pixel of a PNG colour type: 3 for truecolor, 2
for grayscale with alpha, 4 for truecolor with alpha, 1 otherwise (grayscale
and indexed). -/
def channels (colourType : Int) : Int :=
  if colourType = PNG_PIXEL_TRUECOLOR then 3
  else if colourType = PNG_PIXEL_GRAY_ALPHA then 2
  else if colourType = PNG_PIXEL_TRUECOLOR_ALPHA then 4
  else 1

/-- The session `main` builds before it calls `PNG_init` (main.c, lines
502-513): a zeroed `PNGIMAGE` with the callbacks and the file size filled in. -/
def mainSession {ζ δ : Type} (bytes : List Nat) (z : ζ) (draw : Option (PNGDRAW → δ → δ)) :
    PNGIMAGE FileDesc ζ δ :=
  { iWidth := 0
    iHeight := 0
    ucBpp := 0
    ucPixelType := 0
    iPitch := 0
    iHasAlpha := 0
    iPaletteCnt := 0
    iInterlaced := 0
    iTrans := List.replicate 6 0
    iTransLen := 0
    iBackground := 0
    iError := 0
    pfnRead := pngRead
    pfnSeek := pngSeek
    pfnDraw := draw
    PNGFile := { iPos := 0, iSize := bytes.length, fHandle := { bytes := bytes, offset := 0 } }
    ucZLIB := z
    ucPalette := List.replicate 1024 0
    ucFileBuf := List.replicate 2048 0
    uLine1 := none
    uLine2 := none }

/-- The session of `main` for a file with the given bytes, with no inflate
state, no draw callback and no line buffers yet: what `PNG_init` is called on. -/
def headerSession (bytes : List Nat) : PNGIMAGE FileDesc Unit Unit :=
  mainSession bytes () none

/-- A 32-byte file start: the PNG signature, an `IHDR` chunk header of length 13
and the given width, height, bit depth, colour type and the three method bytes
(compression, filter, interlace), followed by three more bytes. -/
def ihdrBytes (w3 w2 w1 w0 h3 h2 h1 h0 depth colour comp filt lace : Nat) : List Nat :=
  [137, 80, 78, 71, 13, 10, 26, 10, 0, 0, 0, 13, 73, 72, 68, 82,
    w3, w2, w1, w0, h3, h2, h1, h0, depth, colour, comp, filt, lace, 0, 0, 0]

/-- The value the `switch` of `parseIHDR` gives to `iPitch` for the stored
width `iWidth`, bit depth `bd` and a valid colour type `ct`. -/
def codePitch (iWidth bd ct : Int) : Int :=
  if ct = PNG_PIXEL_GRAYSCALE ∨ ct = PNG_PIXEL_INDEXED then
    Int.tdiv (i32 (i32 (iWidth * bd) + 7)) 8
  else if ct = PNG_PIXEL_TRUECOLOR then Int.tdiv (i32 (i32 ((3 * bd) * iWidth) + 7)) 8
  else if ct = PNG_PIXEL_GRAY_ALPHA then Int.tdiv (i32 (i32 ((2 * bd) * iWidth) + 7)) 8
  else Int.tdiv (i32 (i32 ((4 * bd) * iWidth) + 7)) 8



/-- The file buffer of `st` holds bytes of `file`: the `iBytesRead` valid bytes
of `ucFileBuf` are the bytes of `file` from position `iFileOffset - iBytesRead`
on, the buffer has its declared size, `iBytesRead` is within the buffer and
`iOffset` is a non-negative `int32_t`. -/
def Buffered {σ ζ δ : Type} (file : List Nat) (st : DecodeState σ ζ δ) : Prop :=
  (st.pPage.ucFileBuf.length : Int) = PNG_FILE_BUF_SIZE ∧
    0 ≤ st.iBytesRead ∧ st.iBytesRead ≤ PNG_FILE_BUF_SIZE ∧
    0 ≤ st.iOffset ∧ st.iOffset < 2147483648 ∧ st.iBytesRead ≤ st.iFileOffset ∧
    slice st.pPage.ucFileBuf 0 st.iBytesRead =
      slice file (st.iFileOffset - st.iBytesRead) st.iBytesRead

/-- The byte source of the session delivers the bytes of `file`: after a seek to
a position `q ≥ 0`, a read of up to `len` bytes returns a negative code or a
count `n ≤ len` together with the `n` bytes of `file` at `q`. -/
def ReadsFrom {σ ζ δ : Type} (file : List Nat) (p : PNGIMAGE σ ζ δ) : Prop :=
  ∀ q len : Int, 0 ≤ q → 0 ≤ len →
    0 ≤ (p.pfnRead (p.pfnSeek p.PNGFile q) len).ret →
      (p.pfnRead (p.pfnSeek p.PNGFile q) len).ret ≤ len ∧
      ((p.pfnRead (p.pfnSeek p.PNGFile q) len).data.length : Int) =
        (p.pfnRead (p.pfnSeek p.PNGFile q) len).ret ∧
      (p.pfnRead (p.pfnSeek p.PNGFile q) len).data =
        slice file q (p.pfnRead (p.pfnSeek p.PNGFile q) len).ret

/-- The marker `'PLTE'` of the chunk switch of `PNG_decode`. -/
def PLTE : Int := 0x504c5445

/-- The marker `'tRNS'` of the chunk switch. -/
def tRNS : Int := 0x74524e53

/-- The marker `'IDAT'` of the chunk switch. -/
def IDAT : Int := 0x49444154

/-- The fourth marker of the chunk switch, `0x44474b62` (commented `'bKGD'` in
the source): the bytes `'D','G','K','b'` under `MOTOLONG`. -/
def DGKb : Int := 0x44474b62

/-! ### A sample inflate engine and sample files, for concrete runs -/

/-- The state of `storedInflate`: the number of stream bytes consumed so far and
the length of the stored block (known once its header has been read). -/
structure StoredState where
  pos : Nat
  len : Nat

/-- One call of a minimal inflate engine for zlib streams that consist of one
final stored block: 2 bytes of zlib header, 1 byte of block header, the length
and its complement (2 bytes each, the length below 256 here), the stored bytes
and 4 bytes of checksum (not verified).  It consumes input byte by byte while
there is room for output, returns `Z_STREAM_END` (1) once the checksum has been
consumed, `Z_OK` (0) after progress and `Z_BUF_ERROR` (-5) when it could make
none. -/
def storedStep : Nat → StoredState → List Nat → Int → Nat → List Nat → InflateResult StoredState
  | 0, st, _, _, used, out =>
    { err := if used = 0 ∧ out = [] then -5 else 0, used := used, out := out, state := st }
  | fuel + 1, st, input, avail_out, used, out =>
    if st.pos ≥ 7 + st.len + 4 ∧ st.pos ≥ 7 then
      { err := 1, used := used, out := out, state := st }
    else
      match input with
      | [] =>
        { err := if used = 0 ∧ out = [] then -5 else 0, used := used, out := out, state := st }
      | b :: rest =>
        if st.pos = 3 then
          storedStep fuel { pos := 4, len := b } rest avail_out (used + 1) out
        else if st.pos < 7 ∨ st.pos ≥ 7 + st.len then
          if st.pos + 1 ≥ 7 + st.len + 4 ∧ st.pos + 1 ≥ 7 then
            { err := 1, used := used + 1, out := out, state := { st with pos := st.pos + 1 } }
          else
            storedStep fuel { st with pos := st.pos + 1 } rest avail_out (used + 1) out
        else if avail_out ≤ out.length then
          { err := if used = 0 ∧ out = [] then -5 else 0, used := used, out := out, state := st }
        else
          storedStep fuel { st with pos := st.pos + 1 } rest avail_out (used + 1) (out ++ [b])

/-- The sample engine, with the return codes of zlib. -/
def storedInflate : InflateEngine StoredState :=
  { Z_OK := 0
    Z_STREAM_END := 1
    Z_STREAM_ERROR := -2
    Z_DATA_ERROR := -3
    inflateInit := fun _ => { pos := 0, len := 0 }
    inflate := fun st input avail_out _ => storedStep (input.length + 1) st input avail_out 0 []
    inflateEnd := fun st => st }

/-- A chunk: big-endian length (below 65536 here), four marker bytes, the
payload and four bytes of CRC (zero: the decoder does not read them). -/
def chunkBytes (m0 m1 m2 m3 : Nat) (payload : List Nat) : List Nat :=
  [0, 0, payload.length / 256, payload.length % 256, m0, m1, m2, m3] ++ payload ++
    [0, 0, 0, 0]

/-- The two sums of the Adler-32 checksum of `raw`, starting from `(a, b)`. -/
def adlerSums : List Nat → Nat × Nat → Nat × Nat
  | [], s => s
  | x :: rest, (a, b) => adlerSums rest ((a + x) % 65521, (b + (a + x) % 65521) % 65521)

/-- The zlib stream that stores the given bytes (fewer than 256) in one block,
closed by their Adler-32 checksum. -/
def storedStream (raw : List Nat) : List Nat :=
  [120, 1, 1, raw.length, 0, 255 - raw.length, 255] ++ raw ++
    [(adlerSums raw (1, 0)).2 / 256, (adlerSums raw (1, 0)).2 % 256,
      (adlerSums raw (1, 0)).1 / 256, (adlerSums raw (1, 0)).1 % 256]

/-- A PNG file of one 8-bit grayscale pixel of value 128, with a chunk of `n`
zero bytes and marker bytes `m0 m1 m2 m3` between `IHDR` and `IDAT`. -/
def sampleFileWith (m0 m1 m2 m3 n : Nat) : List Nat :=
  (ihdrBytes 0 0 0 1 0 0 0 1 8 0 0 0 0).take 29 ++ [0, 0, 0, 0] ++
    chunkBytes m0 m1 m2 m3 (List.replicate n 0) ++
    chunkBytes 73 68 65 84 (storedStream [0, 128]) ++
    chunkBytes 73 69 78 68 []

/-- The sample file with a `tEXt` chunk of `n` zero bytes. -/
def sampleFile (n : Nat) : List Nat := sampleFileWith 116 69 88 116 n

/-- A draw callback that records the rows it is given. -/
def recordRow (d : PNGDRAW) (rows : List (Int × List Nat)) : List (Int × List Nat) :=
  rows ++ [(d.y, d.pPixels)]

/-- The session of `main` for the file `bytes` after a successful `PNG_init`,
with the two line buffers allocated (zero-filled here) and `recordRow` as draw
callback (main.c, lines 502-527). -/
def readySession (bytes : List Nat) : PNGIMAGE FileDesc StoredState (List (Int × List Nat)) :=
  let p := (PNG_init (mainSession bytes { pos := 0, len := 0 } (some recordRow))).2
  { p with
    uLine1 := some (List.replicate (p.iPitch + 1).toNat 0)
    uLine2 := some (List.replicate (p.iPitch + 1).toNat 0) }



/-- The state of the main loop of `PNG_decode` on `file` (longer than 2056
bytes, starting with a 33-byte signature and `IHDR` chunk) at the start of its
second iteration: the first iteration has filled the buffer from file position
8 and skipped the `IHDR` chunk. -/
def stateAfterIHDR (file : List Nat) :
    DecodeState FileDesc StoredState (List (Int × List Nat)) :=
  let st := decodeInit storedInflate (readySession file) [0, 0] [0, 0] []
  { st with
    pPage := { st.pPage with
      ucFileBuf := slice file 8 2048
      PNGFile := { st.pPage.PNGFile with fHandle := { bytes := file, offset := 2056 } } }
    iBytesRead := 2048
    iFileOffset := 2056
    iOffset := 25
    iLen := 13 }

/-- The fields of a loop state that can be compared. -/
def observe (st : DecodeState FileDesc StoredState (List (Int × List Nat))) :
    List Int × List (List Nat) × List (Int × List Nat) :=
  ([st.more, st.y, st.iBytesRead, st.iOffset, st.iLen, st.iFileOffset, st.iMarker,
      st.pPage.iError, st.pPage.PNGFile.fHandle.offset, st.pPage.PNGFile.iSize,
      st.pPage.iPaletteCnt, st.pPage.iTransLen, st.pPage.iBackground, st.pPage.iHasAlpha],
    [st.pPage.ucFileBuf, st.pPage.ucPalette, st.pPage.iTrans, st.pCurr, st.pPrev,
      st.pPage.PNGFile.fHandle.bytes],
    st.world)

/-! ### Definitions for the main loop and the converter -/

/-- A PNG file of width `w`, height `h` (both below 256), bit depth `depth` and
colour type `colour`, with the chunks `extra` between `IHDR` and a single
`IDAT` chunk that stores the bytes `raw` (filter tags included). -/
def pngFile (w h depth colour : Nat) (extra raw : List Nat) : List Nat :=
  (ihdrBytes 0 0 0 w 0 0 0 h depth colour 0 0 0).take 29 ++ [0, 0, 0, 0] ++ extra ++
    chunkBytes 73 68 65 84 (storedStream raw) ++
    chunkBytes 73 69 78 68 []

/-- A draw callback that records, for each call, the row index, the background
and the palette count it was given, and the pixels. -/
def recordCall (d : PNGDRAW) (calls : List (List Int × List Nat)) :
    List (List Int × List Nat) :=
  calls ++ [([d.y, d.iBackground, d.iPaletteCnt], d.pPixels)]

/-- The session of `main` for the file `bytes` after `PNG_init`, with the two
line buffers allocated (zero-filled here) and `draw` as draw callback. -/
def readyWith {δ : Type} (draw : PNGDRAW → δ → δ) (bytes : List Nat) :
    PNGIMAGE FileDesc StoredState δ :=
  let p := (PNG_init (mainSession bytes { pos := 0, len := 0 } (some draw))).2
  { p with
    uLine1 := some (List.replicate (p.iPitch + 1).toNat 0)
    uLine2 := some (List.replicate (p.iPitch + 1).toNat 0) }

/-- The number of unconsumed bytes a refill carries over: the local `left` after
lines 300-306. -/
def carried {σ ζ δ : Type} (st : DecodeState σ ζ δ) : Int :=
  if i32 (st.iBytesRead - st.iOffset) > 0 then i32 (st.iBytesRead - st.iOffset) else 0

/-- The call of the read callback in a refill (lines 307-308). -/
def refillRead {σ ζ δ : Type} (st : DecodeState σ ζ δ) : ReadResult σ :=
  st.pPage.pfnRead
    (st.pPage.pfnSeek st.pPage.PNGFile
      (if i32 (st.iBytesRead - st.iOffset) > 0 then st.iFileOffset
        else st.iFileOffset - i32 (st.iBytesRead - st.iOffset)))
    (PNG_FILE_BUF_SIZE - carried st)

/-- The loop state once the chunk header has been read (lines 330-341, on the
path where the check of the length passes); a state that has a marker in hand
is left as it is. -/
def headerRead {σ ζ δ : Type} (st : DecodeState σ ζ δ) : DecodeState σ ζ δ :=
  if st.iMarker = 0 then
    { st with
      iLen := i32 (MOTOLONG st.pPage.ucFileBuf st.iOffset)
      iMarker := MOTOLONG st.pPage.ucFileBuf (st.iOffset + 4)
      iOffset := i32 (st.iOffset + 8) }
  else st

/-- The states from which the case of the marker `0x44474b62` is entered again
and again. -/
def InBackgroundCase {σ ζ δ : Type} (st : DecodeState σ ζ δ) : Prop :=
  (st.pPage.iError = 0 ∧ st.y < st.pPage.iHeight) ∧ st.iMarker = DGKb ∧ st.more = 0 ∧
    8 ≤ i32 (st.iBytesRead - st.iOffset) ∧ st.iLen ≤ i32 (st.iBytesRead - st.iOffset)

/-- The loop state after the `default` case of the first switch (lines 350-353)
on a freshly read chunk header: the chunk is skipped. -/
def skipped {σ ζ δ : Type} (st : DecodeState σ ζ δ) : DecodeState σ ζ δ :=
  { st with
    iLen := i32 (MOTOLONG st.pPage.ucFileBuf st.iOffset)
    iMarker := 0
    iOffset := i32 (i32 (st.iOffset + 8) +
      i32 (i32 (MOTOLONG st.pPage.ucFileBuf st.iOffset) + 4)) }

/-- The state of `PNG_decode` on entry to the main loop, for the sample session
on `file` (one byte per row). -/
def firstState (file : List Nat) : DecodeState FileDesc StoredState (List (Int × List Nat)) :=
  decodeInit storedInflate (readySession file) [0, 0] [0, 0] []

/-- The state at the start of the second iteration of the main loop on `file`:
the first iteration has filled the buffer and skipped the `IHDR` chunk. -/
def secondState (file : List Nat) : DecodeState FileDesc StoredState (List (Int × List Nat)) :=
  skipped (refillPhase (firstState file))

/-- A sample file with a 6-byte chunk of marker bytes `'D','G','K','b'` between
`IHDR` and `IDAT`. -/
def spinFile : List Nat := sampleFileWith 68 71 75 98 6

/-- The states in which the loop waits for the rest of a chunk that is not
image data while the byte source of `main.c` is at the end of its file: the
marker is in hand, `more` is set, at least 8 but fewer than `iLen` bytes are
left in the buffer, and the file position is at or behind the end of the file. -/
def Starved {ζ δ : Type} (st : DecodeState FileDesc ζ δ) : Prop :=
  (st.pPage.iError = 0 ∧ st.y < st.pPage.iHeight) ∧
    (st.iMarker = PLTE ∨ st.iMarker = tRNS ∨ st.iMarker = DGKb) ∧ st.more ≠ 0 ∧
    8 ≤ i32 (st.iBytesRead - st.iOffset) ∧ i32 (st.iBytesRead - st.iOffset) < st.iLen ∧
    st.iLen ≤ PNG_FILE_BUF_SIZE ∧
    st.pPage.pfnRead = pngRead ∧ st.pPage.pfnSeek = pngSeek ∧
    (st.pPage.PNGFile.fHandle.bytes.length : Int) ≤ st.iFileOffset

/-- A sample file cut off inside the payload of its `PLTE` chunk: the chunk at
position 33 declares 768 bytes, of which 749 are there. -/
def truncatedFile : List Nat := (sampleFileWith 80 76 84 69 768).take 790

/-- The draw callback `draw` instrumented with a count of its invocations. -/
def counting {δ : Type} (draw : PNGDRAW → δ → δ) (d : PNGDRAW) (w : δ × Nat) : δ × Nat :=
  (draw d w.1, w.2 + 1)

/-- The loop state has stopped at the end of the compressed stream on a row
boundary (lines 490-494): the engine has reported `Z_STREAM_END` with the
current row complete and the row counter has been set to the height. -/
def StoppedAtStreamEnd {σ ζ δ : Type} (Z : InflateEngine ζ) (st : DecodeState σ ζ δ) : Prop :=
  st.err = Z.Z_STREAM_END ∧ st.d_stream.avail_out = 0 ∧ st.y = st.pPage.iHeight

/-- The loop state when the inflate loop is entered (lines 450-457): the bytes
of the image-data chunk that are in the buffer have been handed to the inflate
engine. -/
def fed {σ ζ δ : Type} (st : DecodeState σ ζ δ) : DecodeState σ ζ δ :=
  { st with
    d_stream := { st.d_stream with
      next_in := st.iOffset
      avail_in := if i32 (st.iBytesRead - st.iOffset) > st.iLen then st.iLen
        else i32 (st.iBytesRead - st.iOffset) }
    iLen := i32 (st.iLen - (if i32 (st.iBytesRead - st.iOffset) > st.iLen then st.iLen
        else i32 (st.iBytesRead - st.iOffset)))
    iOffset := i32 (st.iOffset + (if i32 (st.iBytesRead - st.iOffset) > st.iLen then st.iLen
        else i32 (st.iBytesRead - st.iOffset)))
    err := 0 }

/-- A loop state with 3 unconsumed bytes left in a full buffer. -/
def refillSample : DecodeState FileDesc StoredState (List (Int × List Nat)) :=
  { stateAfterIHDR (sampleFile 3000) with iOffset := 2045 }

/-- A sample file that declares two rows of one 8-bit grayscale pixel and whose
compressed stream holds one row only. -/
def shortFile : List Nat := pngFile 1 2 8 0 [] [0, 128]

/-- The state of `PNG_decode` on entry to the main loop for `shortFile`, with a
draw callback that counts its invocations. -/
def shortInit : DecodeState FileDesc StoredState (List (Int × List Nat) × Nat) :=
  decodeInit storedInflate (readyWith (counting recordRow) shortFile) [0, 0] [0, 0] ([], 0)

/-- A sample file of one 8-bit truecolor pixel with a `bKGD` chunk (red 0x11,
green 0x22, blue 0x33, as 16-bit samples) between `IHDR` and `IDAT`. -/
def bkgdFile : List Nat :=
  pngFile 1 1 8 2 (chunkBytes 98 75 71 68 [0, 17, 0, 34, 0, 51]) [0, 1, 2, 3]

/-- A sample file that declares one row of one 8-bit grayscale pixel and whose
compressed stream holds two rows. -/
def longFile : List Nat := pngFile 1 1 8 0 [] [0, 128, 0, 129]

/-- What the alpha paths of `pngDraw` write for a foreground sample `fg`, an
alpha `a` and a background sample `bg`. -/
def composite (fg a bg : Int) : Int :=
  if a = 255 then fg else if a = 0 then bg else blend fg a bg

/-- The number of bytes of a sample in the row of `d`: 2 for 16-bit samples. -/
def sampleBytes (d : PNGDRAW) : Int := if d.iBpp > 8 then 2 else 1

/-- The number of samples of a pixel in an alpha row: 2 for grayscale with
alpha, 4 for truecolor with alpha. -/
def alphaSamples (d : PNGDRAW) : Int :=
  if d.iPixelType = PNG_PIXEL_GRAY_ALPHA then 2 else 4

/-- The foreground byte of channel `ch` (0 red, 1 green, 2 blue) of pixel `k`
in an alpha row: the first (high) byte of the sample; a gray sample serves all
three channels. -/
def foreground (d : PNGDRAW) (k : Nat) (ch : Int) : Int :=
  if d.iPixelType = PNG_PIXEL_GRAY_ALPHA then peek d.pPixels (2 * sampleBytes d * k)
  else peek d.pPixels (4 * sampleBytes d * k + ch * sampleBytes d)

/-- The alpha byte of pixel `k` in an alpha row: the first (high) byte of the
last sample of the pixel. -/
def alphaOf (d : PNGDRAW) (k : Nat) : Int :=
  if d.iPixelType = PNG_PIXEL_GRAY_ALPHA then
    peek d.pPixels (2 * sampleBytes d * k + sampleBytes d)
  else peek d.pPixels (4 * sampleBytes d * k + 3 * sampleBytes d)

/-- The one of three values that belongs to channel `ch` (0 red, 1 green,
2 blue). -/
def pick (ch r g b : Int) : Int := if ch = 0 then r else if ch = 1 then g else b

/-- The number of pixels the loop of an alpha row of `d` visits. -/
def alphaPixels (d : PNGDRAW) : Nat := trips d.iPitch (alphaSamples d * sampleBytes d)

/-- A `PNGDRAW` record for row 0 of an image of the given pixel type, bit depth
and pitch with the given pixel bytes; no palette, no transparency key. -/
def drawOf (pixelType bpp width pitch background : Int) (pixels : List Nat) : PNGDRAW :=
  { y := 0
    iWidth := width
    iPitch := pitch
    iPixelType := pixelType
    iBpp := bpp
    iHasAlpha := 0
    iTrans := List.replicate 6 0
    iTransLen := 0
    iBackground := background
    iPaletteCnt := 0
    User := 0
    pPalette := List.replicate 1024 0
    pPixels := pixels }

/-- A converter state with a line buffer of `n` zero bytes. -/
def converterOf (n : Nat) (desiredBackground : Int) : Converter :=
  { winbmphdr := winbmphdr0
    bm_bitoff := 0
    BmpStride := n
    BMPLine := List.replicate n 0
    pngHeight := 1
    desiredBackground := desiredBackground
    output := { bytes := [], offset := 0 }
    exited := none }

/-- A sample file of one 8-bit indexed pixel without a `PLTE` chunk. -/
def noPaletteFile : List Nat := pngFile 1 1 8 3 [] [0, 0]

/-- A sample row for the alpha paths: one 8-bit truecolor pixel with alpha 128. -/
def alphaDraw : PNGDRAW := drawOf PNG_PIXEL_TRUECOLOR_ALPHA 8 1 4 0x999999 [10, 20, 30, 128]

/-! ### Definitions for the filters, the palettes and the sub-byte rows -/

/-- The local `iBpp` of `DeFilter` (png.inl, lines 139-142): the distance, in
bytes, of the back-references of the filters. -/
def filterDistance (iWidth iPitch : Int) : Int :=
  if iPitch ≤ iWidth then 1 else Int.tdiv iPitch iWidth

/-- The common shape of the loops of `DeFilter`: for `n` consecutive row bytes
from position `x` on, the byte is replaced by a value `g` computes from the
position, the byte itself and the byte `dist` positions back. -/
def backLoop (g : Int → Int → Int → Int) (dist : Int) : Nat → Int → List Nat → List Nat
  | 0, _, p => p
  | n + 1, x, p =>
    backLoop g dist n (x + 1) (poke p (x + 1) (g x (peek p (x + 1)) (peek p (x - dist + 1))))

/-- The neighbour `dist` bytes back of row byte `x` in the line buffer `p`
(filter tag at index 0): 0 for the first `dist` bytes of the row. -/
def backByte (p : List Nat) (dist : Int) (x : Nat) : Int :=
  if (x : Int) < dist then 0 else peek p (x - dist + 1)

/-- The combinations of colour type and bit depth that PNG permits: grayscale
with 1, 2, 4, 8 or 16 bits, truecolor with 8 or 16, indexed with 1, 2, 4 or 8,
grayscale with alpha with 8 or 16, truecolor with alpha with 8 or 16. -/
@[reducible] def permitted (colourType bitDepth : Int) : Prop :=
  (colourType = PNG_PIXEL_GRAYSCALE ∧
      (bitDepth = 1 ∨ bitDepth = 2 ∨ bitDepth = 4 ∨ bitDepth = 8 ∨ bitDepth = 16)) ∨
    (colourType = PNG_PIXEL_TRUECOLOR ∧ (bitDepth = 8 ∨ bitDepth = 16)) ∨
    (colourType = PNG_PIXEL_INDEXED ∧
      (bitDepth = 1 ∨ bitDepth = 2 ∨ bitDepth = 4 ∨ bitDepth = 8)) ∨
    (colourType = PNG_PIXEL_GRAY_ALPHA ∧ (bitDepth = 8 ∨ bitDepth = 16)) ∨
    (colourType = PNG_PIXEL_TRUECOLOR_ALPHA ∧ (bitDepth = 8 ∨ bitDepth = 16))

/-- The common shape of the loops of the converter that fill a table entry by
entry: iteration `i` applies `step i` to the buffer. -/
def blockLoop (step : Int → List Nat → List Nat) : Nat → Int → List Nat → List Nat
  | 0, _, p => p
  | n + 1, i, p => blockLoop step n (i + 1) (step i p)

/-- The number of entries of the synthesised gray palette: the value the
`switch (d->iBpp)` of lines 127-133 of `pngDraw_init` gives to `palettecnt`. -/
def grayEntries (bits : Int) : Int :=
  if bits = 1 then 2 else if bits = 2 then 4 else if bits = 4 then 16
  else if bits = 8 then 256 else if bits = 16 then 256 else 0

/-- Sample `k` of a row of `bits`-bit samples (`bits` being 1, 2 or 4), the
most significant bits of each byte first. -/
def sampleAt (bits : Nat) (row : List Nat) (k : Nat) : Int :=
  peek row ((k * bits / 8 : Nat) : Int) / 2 ^ (8 - bits - k * bits % 8) % 2 ^ bits

/-- The `k`-th 4-bit index of an output line: two per byte, the high nibble
first. -/
def nibbleAt (line : List Nat) (k : Nat) : Int :=
  if k % 2 = 0 then peek line ((k / 2 : Nat) : Int) / 16
  else peek line ((k / 2 : Nat) : Int) % 16

/-- The converter state `pngDraw` works on after its first statement: for row 0
the state `pngDraw_init` leaves, for the other rows the state as it is. -/
def started (d : PNGDRAW) (c : Converter) : Converter :=
  if d.y = 0 then pngDraw_init d c else c

/-- The file position `dyp` at which `pngDraw` writes row `d.y` (lines
268-270). -/
def rowPosition (d : PNGDRAW) (c : Converter) : Int :=
  c.bm_bitoff + ((c.pngHeight - d.y) - 1) * c.BmpStride

/-- The statements of `pngDraw` after the initialisation of row 0 (lines
267-487), on the state `c` that initialisation has left. -/
def drawBody (d : PNGDRAW) (c : Converter) : Converter :=
  if c.exited ≠ none then c
  else
    let linesdown := (c.pngHeight - d.y) - 1
    let dyp := c.bm_bitoff + linesdown * c.BmpStride
    let c := { c with output := lseek c.output dyp }
    let b := drawBackground c.desiredBackground d
    let r := drawRow d c b.1 b.2.1 b.2.2
    let c := wwrite { c with BMPLine := r.2.1 } r.1 r.2.2
    if c.exited ≠ none then c
    else if r.2.2 < c.BmpStride then wwrite c [0, 0, 0, 0] (c.BmpStride - r.2.2)
    else c

/-- A sample 1-bit grayscale row of width 4 with the pixel bits 1, 0, 1, 0. -/
def bitsDraw : PNGDRAW := drawOf PNG_PIXEL_GRAYSCALE 1 4 1 (-1) [0xA0]

/-- The body of the loop of lines 193-198 (`indexedPaletteLoop`). -/
def indexedPaletteStep (pPalette : List Nat) (i : Int) (hdr : List Nat) : List Nat :=
  poke (poke (poke (poke hdr (54 + (i * 4 + 0)) (peek pPalette (i * 3 + 2)))
    (54 + (i * 4 + 1)) (peek pPalette (i * 3 + 1)))
    (54 + (i * 4 + 2)) (peek pPalette (i * 3 + 0)))
    (54 + (i * 4 + 3)) 0

/-- The body of the loop of lines 213-230 (`indexedAlphaLoop`). -/
def indexedAlphaStep (pPalette : List Nat) (br bg bb : Int) (i : Int) (hdr : List Nat) :
    List Nat :=
  if peek pPalette (768 + i) = 255 then hdr
  else if peek pPalette (768 + i) = 0 then
    poke (poke (poke hdr (54 + (i * 4 + 0)) bb) (54 + (i * 4 + 1)) bg) (54 + (i * 4 + 2)) br
  else
    poke (poke (poke hdr (54 + (i * 4 + 2))
      (blend (peek hdr (54 + (i * 4 + 2))) (peek pPalette (768 + i)) br))
      (54 + (i * 4 + 1)) (blend (peek hdr (54 + (i * 4 + 1))) (peek pPalette (768 + i)) bg))
      (54 + (i * 4 + 0)) (blend (peek hdr (54 + (i * 4 + 0))) (peek pPalette (768 + i)) bb)

/-- A sample row of an indexed image with three palette entries (red, green,
blue) and the alpha values 255, 128 and 0. -/
def paletteDraw : PNGDRAW :=
  { drawOf PNG_PIXEL_INDEXED 8 1 1 (-1) [2] with
    iHasAlpha := 1
    iPaletteCnt := 3
    pPalette := [255, 0, 0, 0, 255, 0, 0, 0, 255] ++ List.replicate 759 0 ++ [255, 128, 0] ++
      List.replicate 253 255 }

/-- A sample file of two rows of one 8-bit grayscale pixel: row 0 has filter
type 2 (Up) and the filtered byte 128, row 1 has filter type 0 and the byte 7.
With an all-zero row before row 0, the image is the two pixel values 128, 7. -/
def upFile : List Nat := pngFile 1 2 8 0 [] [2, 128, 0, 7]

/-- The body of the loop of lines 305-311 (`unpack1Loop`). -/
def unpack1Step (pPixels : List Nat) (i : Int) (line : List Nat) : List Nat :=
  poke (poke (poke (poke line (i * 4 + 0)
    ((((byteAt pPixels i &&& 0x80) >>> 3) ||| ((byteAt pPixels i &&& 0x40) >>> 6) : Nat) : Int))
    (i * 4 + 1)
    ((((byteAt pPixels i &&& 0x20) >>> 1) ||| ((byteAt pPixels i &&& 0x10) >>> 4) : Nat) : Int))
    (i * 4 + 2)
    ((((byteAt pPixels i &&& 0x08) <<< 1) ||| ((byteAt pPixels i &&& 0x04) >>> 2) : Nat) : Int))
    (i * 4 + 3)
    ((((byteAt pPixels i &&& 0x02) <<< 3) ||| (byteAt pPixels i &&& 0x01) : Nat) : Int)

/-- The body of the loop of lines 314-318 (`unpack2Loop`). -/
def unpack2Step (pPixels : List Nat) (i : Int) (line : List Nat) : List Nat :=
  poke (poke line (i * 2 + 0)
    ((((byteAt pPixels i &&& 0xC0) >>> 2) ||| ((byteAt pPixels i &&& 0x30) >>> 4) : Nat) : Int))
    (i * 2 + 1)
    ((((byteAt pPixels i &&& 0x0C) <<< 2) ||| (byteAt pPixels i &&& 0x03) : Nat) : Int)

/-! ### Definitions for the run up to the first row -/

/-- The loop state after `k` iterations of the main loop started in `st`; `none`
when the loop ends earlier or an inner loop exceeds `fuel` iterations. -/
def iterations {σ ζ δ : Type} (Z : InflateEngine ζ) (draw : PNGDRAW → δ → δ)
    (User iOptions hbo : Int) (fuel : Nat) :
    Nat → DecodeState σ ζ δ → Option (DecodeState σ ζ δ)
  | 0, st => some st
  | k + 1, st =>
    if st.pPage.iError = 0 ∧ st.y < st.pPage.iHeight then
      match decodeStep Z draw User iOptions hbo fuel st with
      | none => none
      | some st1 => iterations Z draw User iOptions hbo fuel k st1
    else none

/-- The marker of the chunk the iteration of the main loop that starts in `st`
works on: the marker in hand, or else the marker of the chunk header that is
read after the refill. -/
def chunkInHand {σ ζ δ : Type} (st : DecodeState σ ζ δ) : Int :=
  (headerRead (refillPhase st)).iMarker

/-- The state in which `PNG_decode` enters its main loop when the two fields of
`d_stream` that the source leaves uninitialised hold `next_in` and `avail_in`;
`decodeInit` is the case of two zeros. -/
def decodeEntry {σ ζ δ : Type} (Z : InflateEngine ζ) (pPage : PNGIMAGE σ ζ δ)
    (uLine1 uLine2 : List Nat) (world : δ) (next_in avail_in : Int) : DecodeState σ ζ δ :=
  { decodeInit Z pPage uLine1 uLine2 world with
    d_stream := { next_in := next_in, avail_in := avail_in, next_out := 0, avail_out := 0 } }

/-- The draw-side state after the callback `draw` has been invoked for each
record of `calls` in turn, starting from `w`. -/
def drawn {δ : Type} (draw : PNGDRAW → δ → δ) (calls : List PNGDRAW) (w : δ) : δ :=
  calls.foldl (fun w d => draw d w) w

/-- The loop state after the call of `inflate` in an iteration of the inflate
loop that starts in `q` (lines 459-463), before the test of the row. -/
def afterInflate {σ ζ δ : Type} (Z : InflateEngine ζ) (iOptions : Int)
    (q : DecodeState σ ζ δ) : DecodeState σ ζ δ :=
  let ds :=
    if q.d_stream.avail_out = 0 then
      { q.d_stream with avail_out := q.pPage.iPitch + 1, next_out := 0 }
    else q.d_stream
  let r := Z.inflate q.pPage.ucZLIB
    (slice q.pPage.ucFileBuf ds.next_in ds.avail_in) ds.avail_out
    (if iOptions % 2 = 1 then PNG_CHECK_CRC else 0)
  let ds : ZStream :=
    { next_in := ds.next_in + r.used
      avail_in := ds.avail_in - r.used
      next_out := ds.next_out + r.out.length
      avail_out := ds.avail_out - r.out.length }
  { q with
    pPage := { q.pPage with ucZLIB := r.state }
    pCurr := blit q.pCurr (ds.next_out - r.out.length) r.out
    d_stream := ds
    err := r.err }

/-- The test of line 464: the engine has reported `Z_OK` or `Z_STREAM_END` and
the current row is complete. -/
def RowDone {σ ζ δ : Type} (Z : InflateEngine ζ) (s : DecodeState σ ζ δ) : Prop :=
  (s.err = Z.Z_OK ∨ s.err = Z.Z_STREAM_END) ∧ s.d_stream.avail_out = 0

/-- The inflate loop, entered in state `q`, completes a row with call number
`n + 1` of the engine and none with an earlier call. -/
def CompletesRow {σ ζ δ : Type} (Z : InflateEngine ζ) (iOptions : Int) :
    Nat → DecodeState σ ζ δ → Prop
  | 0, q => q.err = Z.Z_OK ∧ RowDone Z (afterInflate Z iOptions q)
  | n + 1, q =>
    q.err = Z.Z_OK ∧ ¬ RowDone Z (afterInflate Z iOptions q) ∧
      CompletesRow Z iOptions n (afterInflate Z iOptions q)

/-- Between the loop states `st` and `st1` the draw-side state has changed only
by invocations of the callback: each of them received the palette count and the
pixel type the session holds in `st`, the first one the row index of `st`; when
there was none, the row counter is where it was, or at the height (lines
490-494). -/
def Handed {σ ζ δ : Type} (draw : PNGDRAW → δ → δ) (st st1 : DecodeState σ ζ δ) : Prop :=
  ∃ calls : List PNGDRAW, st1.world = drawn draw calls st.world ∧
    (∀ d ∈ calls, d.iPaletteCnt = st.pPage.iPaletteCnt ∧
      d.iPixelType = st.pPage.ucPixelType) ∧
    (∀ d ∈ calls.head?, d.y = st.y) ∧
    (calls = [] → st1.y = st.y ∨ st1.y = st1.pPage.iHeight)

/-- The state in which `PNG_decode` enters its main loop for `noPaletteFile`,
with the draw callback of the converter. -/
def noPaletteInit : DecodeState FileDesc StoredState Converter :=
  decodeInit storedInflate (readyWith pngDraw noPaletteFile) [0, 0] [0, 0]
    (converterInit (readyWith pngDraw noPaletteFile))

/-! ## Theorems: `DeFilter` -/

theorem peek_cons_succ (t : Nat) (r : List Nat) (k : Nat) :
    peek (t :: r) ((k : Int) + 1) = (r.getD k 0 : Nat) := by
  have h : ((k : Int) + 1).toNat = k + 1 := by omega
  have h0 : (0 : Int) ≤ (k : Int) + 1 := by omega
  simp [peek, h, h0]

theorem poke_cons_succ (t : Nat) (r : List Nat) (k : Nat) (v : Int) :
    poke (t :: r) ((k : Int) + 1) v = t :: r.set k (v % 256).toNat := by
  have h : ((k : Int) + 1).toNat = k + 1 := by omega
  have h0 : (0 : Int) ≤ (k : Int) + 1 := by omega
  simp [poke, h, h0]

theorem mix_length {orig filt : List Nat} (hl : filt.length = orig.length) (k : Nat) :
    (mix orig filt k).length = orig.length := by
  simp [mix, hl]; omega

theorem getD_mix_lt {orig filt : List Nat} {k j : Nat} (hk : k ≤ orig.length)
    (hj : j < k) : (mix orig filt k).getD j 0 = orig.getD j 0 := by
  have h1 : j < (orig.take k).length := by simp; omega
  simp [mix, List.getD_eq_getElem?_getD, List.getElem?_append_left h1, List.getElem?_take, hj]

theorem getD_mix_ge {orig filt : List Nat} {k j : Nat} (hk : k ≤ orig.length)
    (hj : k ≤ j) : (mix orig filt k).getD j 0 = filt.getD j 0 := by
  have h1 : (orig.take k).length ≤ j := by simp; omega
  have h2 : (orig.take k).length = k := by simp; omega
  simp [mix, List.getD_eq_getElem?_getD, List.getElem?_append_right h1, h2]
  congr 2; omega

theorem set_mix {orig filt : List Nat} {k : Nat} (hk : k < orig.length)
    (hl : filt.length = orig.length) :
    (mix orig filt k).set k (orig.getD k 0) = mix orig filt (k + 1) := by
  apply List.ext_getElem?
  intro j
  have e1 : (orig.take k).length = k := by simp; omega
  have e2 : (orig.take (k+1)).length = k + 1 := by simp; omega
  rw [List.getElem?_set]
  by_cases hjk : k = j
  · subst hjk
    have hlt : k < (mix orig filt k).length := by rw [mix_length hl]; exact hk
    have h3 : k < (orig.take (k+1)).length := by omega
    have hlt2 : k < k ⊓ orig.length + (filt.length - k) := by omega
    simp [mix, List.getElem?_append_left h3, List.getElem?_take, List.getD_eq_getElem?_getD, hlt2]
    rw [List.getElem?_eq_getElem hk]; simp
  · simp only [hjk, if_false]
    by_cases hj : j < k
    · have h3 : j < (orig.take k).length := by omega
      have h4 : j < (orig.take (k+1)).length := by omega
      have hj1 : j < k + 1 := by omega
      simp [mix, List.getElem?_append_left h3, List.getElem?_append_left h4, List.getElem?_take, hj, hj1]
    · have h3 : (orig.take k).length ≤ j := by omega
      have h4 : (orig.take (k+1)).length ≤ j := by omega
      simp [mix, List.getElem?_append_right h3, List.getElem?_append_right h4, e1, e2]
      congr 1; omega

theorem mix_zero (orig filt : List Nat) : mix orig filt 0 = filt := by simp [mix]

theorem mix_full {orig filt : List Nat} : mix orig filt orig.length = orig ++ filt.drop orig.length := by
  simp [mix]

theorem paethChoice_eq (a b c : Int) : paethChoice a b c = paethPredictor a b c := by
  unfold paethChoice paethPredictor
  simp only []
  have e1 : |a + b - c - a| = if b - c < 0 then -(b - c) else b - c := by
    split_ifs with h
    · rw [abs_of_neg (by omega)]; omega
    · rw [abs_of_nonneg (by omega)]; omega
  have e2 : |a + b - c - b| = if a - c < 0 then -(a - c) else a - c := by
    split_ifs with h
    · rw [abs_of_neg (by omega)]; omega
    · rw [abs_of_nonneg (by omega)]; omega
  have e3 : |a + b - c - c| =
      if b - c + (a - c) < 0 then -(b - c + (a - c)) else b - c + (a - c) := by
    split_ifs with h
    · rw [abs_of_neg (by omega)]; omega
    · rw [abs_of_nonneg (by omega)]; omega
  rw [e1, e2, e3]
  generalize (if b - c < 0 then -(b - c) else b - c) = pa
  generalize (if a - c < 0 then -(a - c) else a - c) = pb
  generalize (if b - c + (a - c) < 0 then -(b - c + (a - c)) else b - c + (a - c)) = pc
  split_ifs <;> omega

theorem set_getD_self (l : List Nat) (k : Nat) : l.set k (l.getD k 0) = l := by
  apply List.ext_getElem?
  intro j
  rw [List.getElem?_set]
  split_ifs with h1 h2
  · subst h1; rw [List.getD_eq_getElem _ _ h2, List.getElem?_eq_getElem h2]
  · subst h1; rw [List.getElem?_eq_none (by omega)]
  · rfl

theorem getD_refFilterRow (t bpp : Nat) (orig prev : List Nat) {k : Nat}
    (hk : k < orig.length) :
    (refFilterRow t bpp orig prev).getD k 0 =
      (((orig.getD k 0 : Nat) - refPredict t bpp orig prev k) % 256).toNat := by
  unfold refFilterRow
  rw [List.getD_eq_getElem _ _ (by simpa using hk)]
  simp

theorem refFilterRow_length (t bpp : Nat) (orig prev : List Nat) :
    (refFilterRow t bpp orig prev).length = orig.length := by
  simp [refFilterRow]

theorem getD_lt_of_forall {l : List Nat} (h : ∀ b ∈ l, b < 256) (i : Nat) :
    l.getD i 0 < 256 := by
  by_cases hi : i < l.length
  · rw [List.getD_eq_getElem _ _ hi]; exact h _ (List.getElem_mem hi)
  · rw [List.getD_eq_default _ _ (by omega)]; omega

/-- Adding the reference prediction to the filtered byte gives back the
original byte, modulo 256. -/
theorem unfilter_value {t bpp : Nat} {orig prev : List Nat} {k : Nat}
    (hb : ∀ b ∈ orig, b < 256) (hk : k < orig.length) {v : Int}
    (hv : v = ((refFilterRow t bpp orig prev).getD k 0 : Nat) +
      refPredict t bpp orig prev k) :
    v % 256 = (orig.getD k 0 : Nat) := by
  have h1 := getD_lt_of_forall hb k
  rw [getD_refFilterRow t bpp orig prev hk] at hv
  omega

theorem poke_mix_step (t bpp : Nat) (orig prev : List Nat) (tag : Nat) {k : Nat}
    (hb : ∀ b ∈ orig, b < 256) (hk : k < orig.length) {v : Int}
    (hv : v = ((refFilterRow t bpp orig prev).getD k 0 : Nat) +
      refPredict t bpp orig prev k) :
    poke (tag :: mix orig (refFilterRow t bpp orig prev) k) ((k : Int) + 1) v =
      tag :: mix orig (refFilterRow t bpp orig prev) (k + 1) := by
  rw [poke_cons_succ, unfilter_value hb hk hv, Int.toNat_ofNat,
    set_mix hk (refFilterRow_length t bpp orig prev)]

theorem mix_succ_of_eq {orig filt : List Nat} {k : Nat} (hk : k < orig.length)
    (hl : filt.length = orig.length) (he : filt.getD k 0 = orig.getD k 0) :
    mix orig filt (k + 1) = mix orig filt k := by
  rw [← set_mix hk hl, ← he, ← getD_mix_ge (Nat.le_of_lt hk) (Nat.le_refl k)]
  exact set_getD_self _ _

theorem mix_of_head_eq {orig filt : List Nat} (hl : filt.length = orig.length) :
    ∀ k, k ≤ orig.length → (∀ j, j < k → filt.getD j 0 = orig.getD j 0) →
      mix orig filt k = filt
  | 0, _, _ => mix_zero orig filt
  | k + 1, hk, h => by
    rw [mix_succ_of_eq (by omega) hl (h k (by omega))]
    exact mix_of_head_eq hl k (by omega) (fun j hj => h j (by omega))

theorem mix_all {orig filt : List Nat} (hl : filt.length = orig.length) :
    mix orig filt orig.length = orig := by
  simp [mix, ← hl]

theorem peek_mix_ge (tag : Nat) {orig filt : List Nat} {k j : Nat} (hk : k ≤ orig.length)
    (hj : k ≤ j) : peek (tag :: mix orig filt k) ((j : Int) + 1) = (filt.getD j 0 : Nat) := by
  rw [peek_cons_succ, getD_mix_ge hk hj]

theorem peek_mix_back (tag : Nat) {orig filt : List Nat} {k bpp : Nat} (hk : k ≤ orig.length)
    (h1 : 1 ≤ bpp) (h2 : bpp ≤ k) :
    peek (tag :: mix orig filt k) ((k : Int) - (bpp : Int) + 1) =
      (orig.getD (k - bpp) 0 : Nat) := by
  have e : (k : Int) - (bpp : Int) = ((k - bpp : Nat) : Int) := by omega
  rw [e, peek_cons_succ, getD_mix_lt hk (by omega)]

theorem peek_prev_back (tag : Nat) {prev : List Nat} {k bpp : Nat} (h2 : bpp ≤ k) :
    peek (tag :: prev) ((k : Int) - (bpp : Int) + 1) = (prev.getD (k - bpp) 0 : Nat) := by
  have e : (k : Int) - (bpp : Int) = ((k - bpp : Nat) : Int) := by omega
  rw [e, peek_cons_succ]

theorem subLoop_ok (bpp : Nat) (orig prev : List Nat) (tag : Nat) (hbpp : 1 ≤ bpp)
    (hb : ∀ b ∈ orig, b < 256) :
    ∀ n k, bpp ≤ k → k + n = orig.length →
      subLoop bpp n k (tag :: mix orig (refFilterRow 1 bpp orig prev) k) = tag :: orig
  | 0, k, _, h => by
    have hk : k = orig.length := by omega
    rw [subLoop, hk, mix_all (refFilterRow_length _ _ _ _)]
  | n + 1, k, hk, h => by
    have hklen : k < orig.length := by omega
    rw [subLoop, poke_mix_step _ bpp orig prev tag hb hklen]
    · have := subLoop_ok bpp orig prev tag hbpp hb n (k + 1) (by omega) (by omega)
      push_cast at this
      exact this
    · rw [peek_mix_ge tag (Nat.le_of_lt hklen) (Nat.le_refl k),
        peek_mix_back tag (Nat.le_of_lt hklen) hbpp hk]
      simp [refPredict, hk]

theorem upLoop_ok (bpp : Nat) (orig prev : List Nat) (tag ptag : Nat)
    (hb : ∀ b ∈ orig, b < 256) :
    ∀ n k, k + n = orig.length →
      upLoop (ptag :: prev) n k (tag :: mix orig (refFilterRow 2 bpp orig prev) k) =
        tag :: orig
  | 0, k, h => by
    have hk : k = orig.length := by omega
    rw [upLoop, hk, mix_all (refFilterRow_length _ _ _ _)]
  | n + 1, k, h => by
    have hklen : k < orig.length := by omega
    rw [upLoop, poke_mix_step _ bpp orig prev tag hb hklen]
    · have := upLoop_ok bpp orig prev tag ptag hb n (k + 1) (by omega)
      push_cast at this
      exact this
    · rw [peek_mix_ge tag (Nat.le_of_lt hklen) (Nat.le_refl k), peek_cons_succ]
      simp [refPredict]

theorem avgLoopFirst_ok (bpp : Nat) (orig prev : List Nat) (tag ptag : Nat)
    (hb : ∀ b ∈ orig, b < 256) (hbl : bpp ≤ orig.length) :
    ∀ n k, k + n = bpp →
      avgLoopFirst (ptag :: prev) n k (tag :: mix orig (refFilterRow 3 bpp orig prev) k) =
        tag :: mix orig (refFilterRow 3 bpp orig prev) bpp
  | 0, k, h => by
    have hk : k = bpp := by omega
    rw [avgLoopFirst, hk]
  | n + 1, k, h => by
    have hklen : k < orig.length := by omega
    rw [avgLoopFirst, poke_mix_step _ bpp orig prev tag hb hklen]
    · have := avgLoopFirst_ok bpp orig prev tag ptag hb hbl n (k + 1) (by omega)
      push_cast at this
      exact this
    · rw [peek_mix_ge tag (Nat.le_of_lt hklen) (Nat.le_refl k), peek_cons_succ]
      have hlt : ¬ bpp ≤ k := by omega
      simp [refPredict, hlt]

theorem avgLoopRest_ok (bpp : Nat) (orig prev : List Nat) (tag ptag : Nat) (hbpp : 1 ≤ bpp)
    (hb : ∀ b ∈ orig, b < 256) :
    ∀ n k, bpp ≤ k → k + n = orig.length →
      avgLoopRest bpp (ptag :: prev) n k
        (tag :: mix orig (refFilterRow 3 bpp orig prev) k) = tag :: orig
  | 0, k, _, h => by
    have hk : k = orig.length := by omega
    rw [avgLoopRest, hk, mix_all (refFilterRow_length _ _ _ _)]
  | n + 1, k, hk, h => by
    have hklen : k < orig.length := by omega
    rw [avgLoopRest, poke_mix_step _ bpp orig prev tag hb hklen]
    · have := avgLoopRest_ok bpp orig prev tag ptag hbpp hb n (k + 1) (by omega) (by omega)
      push_cast at this
      exact this
    · rw [peek_mix_ge tag (Nat.le_of_lt hklen) (Nat.le_refl k),
        peek_mix_back tag (Nat.le_of_lt hklen) hbpp hk, peek_cons_succ]
      simp [refPredict, hk, add_comm]

theorem paethPredictor_first {b : Int} (hb : 0 ≤ b) : paethPredictor 0 b 0 = b := by
  unfold paethPredictor
  simp only []
  have e1 : |0 + b - 0 - 0| = b := by rw [abs_of_nonneg (by omega)]; omega
  have e2 : |0 + b - 0 - b| = 0 := by
    have : 0 + b - 0 - b = 0 := by omega
    rw [this]; simp
  rw [e1, e2]
  split_ifs <;> omega

theorem paethLoopFirst_ok (bpp : Nat) (orig prev : List Nat) (tag ptag : Nat)
    (hb : ∀ b ∈ orig, b < 256) (hbl : bpp ≤ orig.length) :
    ∀ n k, k + n = bpp →
      paethLoopFirst (ptag :: prev) n k
        (tag :: mix orig (refFilterRow 4 bpp orig prev) k) =
        tag :: mix orig (refFilterRow 4 bpp orig prev) bpp
  | 0, k, h => by
    have hk : k = bpp := by omega
    rw [paethLoopFirst, hk]
  | n + 1, k, h => by
    have hklen : k < orig.length := by omega
    rw [paethLoopFirst, poke_mix_step _ bpp orig prev tag hb hklen]
    · have := paethLoopFirst_ok bpp orig prev tag ptag hb hbl n (k + 1) (by omega)
      push_cast at this
      exact this
    · rw [peek_mix_ge tag (Nat.le_of_lt hklen) (Nat.le_refl k), peek_cons_succ]
      have hlt : ¬ bpp ≤ k := by omega
      simp only [refPredict, hlt, if_false]
      rw [paethPredictor_first (Int.ofNat_nonneg _)]
      simp

theorem paethLoopRest_ok (bpp : Nat) (orig prev : List Nat) (tag ptag : Nat) (hbpp : 1 ≤ bpp)
    (hb : ∀ b ∈ orig, b < 256) :
    ∀ n k, bpp ≤ k → k + n = orig.length →
      paethLoopRest bpp (ptag :: prev) n k
        (tag :: mix orig (refFilterRow 4 bpp orig prev) k) = tag :: orig
  | 0, k, _, h => by
    have hk : k = orig.length := by omega
    rw [paethLoopRest, hk, mix_all (refFilterRow_length _ _ _ _)]
  | n + 1, k, hk, h => by
    have hklen : k < orig.length := by omega
    rw [paethLoopRest]
    rw [poke_mix_step _ bpp orig prev tag hb hklen]
    · have := paethLoopRest_ok bpp orig prev tag ptag hbpp hb n (k + 1) (by omega) (by omega)
      push_cast at this
      exact this
    · rw [peek_mix_ge tag (Nat.le_of_lt hklen) (Nat.le_refl k),
        peek_mix_back tag (Nat.le_of_lt hklen) hbpp hk, peek_cons_succ,
        peek_prev_back ptag hk, paethChoice_eq]
      simp [refPredict, hk, add_comm]

theorem paethLoop1_ok (orig prev : List Nat) (tag ptag : Nat)
    (hb : ∀ b ∈ orig, b < 256) :
    ∀ n k (a c : Int), 1 ≤ k → k + n = orig.length →
      a % 256 = (orig.getD (k - 1) 0 : Nat) → c = (prev.getD (k - 1) 0 : Nat) →
      paethLoop1 (ptag :: prev) n k a c
        (tag :: mix orig (refFilterRow 4 1 orig prev) k) = tag :: orig
  | 0, k, _, _, _, h, _, _ => by
    have hk : k = orig.length := by omega
    rw [paethLoop1, hk, mix_all (refFilterRow_length _ _ _ _)]
  | n + 1, k, a, c, hk, h, ha, hc => by
    have hklen : k < orig.length := by omega
    rw [paethLoop1]
    have hv : paethChoice (a % 256) (peek (ptag :: prev) (↑k + 1)) c +
        peek (tag :: mix orig (refFilterRow 4 1 orig prev) k) (↑k + 1) =
        ((refFilterRow 4 1 orig prev).getD k 0 : Nat) + refPredict 4 1 orig prev k := by
      rw [peek_mix_ge tag (Nat.le_of_lt hklen) (Nat.le_refl k), peek_cons_succ,
        paethChoice_eq, ha, hc]
      simp [refPredict, hk, add_comm]
    rw [poke_mix_step 4 1 orig prev tag hb hklen hv]
    have := paethLoop1_ok orig prev tag ptag hb n (k + 1) _ (peek (ptag :: prev) (↑k + 1))
      (by omega) (by omega) (unfilter_value hb hklen hv) (by rw [peek_cons_succ]; simp)
    push_cast at this
    exact this

theorem iBpp_eq {bpp w : Nat} (hbpp : 1 ≤ bpp) (hw : 1 ≤ w) :
    (if ((bpp * w : Nat) : Int) ≤ (w : Int) then (1 : Int)
      else Int.tdiv ((bpp * w : Nat) : Int) (w : Int)) = (bpp : Int) := by
  have hw0 : (w : Int) ≠ 0 := by omega
  split_ifs with h
  · have h1 : bpp * w ≤ w := by exact_mod_cast h
    have h2 : bpp * w ≤ 1 * w := by omega
    have h3 : bpp ≤ 1 := Nat.le_of_mul_le_mul_right h2 (by omega)
    omega
  · push_cast
    exact Int.mul_tdiv_cancel _ hw0

theorem refPredict_none (bpp : Nat) (orig prev : List Nat) (x : Nat) :
    refPredict 0 bpp orig prev x = 0 := by
  simp [refPredict]

theorem refPredict_sub_first {bpp : Nat} (orig prev : List Nat) {x : Nat} (hx : x < bpp) :
    refPredict 1 bpp orig prev x = 0 := by
  have hlt : ¬ bpp ≤ x := by omega
  simp [refPredict, hlt]

theorem none_head_eq {bpp : Nat} {orig prev : List Nat} (hb : ∀ b ∈ orig, b < 256)
    (j : Nat) (hj : j < orig.length) :
    (refFilterRow 0 bpp orig prev).getD j 0 = orig.getD j 0 := by
  rw [getD_refFilterRow 0 bpp orig prev hj, refPredict_none]
  have h1 := getD_lt_of_forall hb j
  omega

theorem sub_head_eq {bpp : Nat} {orig prev : List Nat} (hb : ∀ b ∈ orig, b < 256)
    (hbl : bpp ≤ orig.length) (j : Nat) (hj : j < bpp) :
    (refFilterRow 1 bpp orig prev).getD j 0 = orig.getD j 0 := by
  rw [getD_refFilterRow 1 bpp orig prev (by omega), refPredict_sub_first orig prev hj]
  have h1 := getD_lt_of_forall hb j
  omega

theorem le_pitch {bpp w : Nat} (hw : 1 ≤ w) : bpp ≤ bpp * w :=
  Nat.le_mul_of_pos_right bpp (by omega)

theorem DeFilter_tag0 (r pPrev : List Nat) (iWidth iPitch : Int) :
    DeFilter (0 :: r) pPrev iWidth iPitch = 0 :: r := rfl

theorem DeFilter_tag1 (r pPrev : List Nat) (iWidth iPitch : Int) :
    DeFilter (1 :: r) pPrev iWidth iPitch =
      subLoop (if iPitch ≤ iWidth then 1 else Int.tdiv iPitch iWidth)
        (iPitch - (if iPitch ≤ iWidth then 1 else Int.tdiv iPitch iWidth)).toNat
        (if iPitch ≤ iWidth then 1 else Int.tdiv iPitch iWidth) (1 :: r) := rfl

theorem DeFilter_tag2 (r pPrev : List Nat) (iWidth iPitch : Int) :
    DeFilter (2 :: r) pPrev iWidth iPitch = upLoop pPrev iPitch.toNat 0 (2 :: r) := rfl

theorem DeFilter_tag3 (r pPrev : List Nat) (iWidth iPitch : Int) :
    DeFilter (3 :: r) pPrev iWidth iPitch =
      avgLoopRest (if iPitch ≤ iWidth then 1 else Int.tdiv iPitch iWidth) pPrev
        (iPitch - (if iPitch ≤ iWidth then 1 else Int.tdiv iPitch iWidth)).toNat
        (if iPitch ≤ iWidth then 1 else Int.tdiv iPitch iWidth)
        (avgLoopFirst pPrev (if iPitch ≤ iWidth then 1 else Int.tdiv iPitch iWidth).toNat 0
          (3 :: r)) := rfl

theorem DeFilter_tag4_one (r pPrev : List Nat) (iWidth iPitch : Int)
    (h : (if iPitch ≤ iWidth then 1 else Int.tdiv iPitch iWidth) = 1) :
    DeFilter (4 :: r) pPrev iWidth iPitch =
      paethLoop1 pPrev (iPitch - 1).toNat 1 (peek (4 :: r) 1 + peek pPrev 1) (peek pPrev 1)
        (poke (4 :: r) 1 (peek (4 :: r) 1 + peek pPrev 1)) := by
  unfold DeFilter
  simp only []
  rw [h]
  rfl

theorem DeFilter_tag4_multi (r pPrev : List Nat) (iWidth iPitch : Int) {iBpp : Int}
    (h : (if iPitch ≤ iWidth then 1 else Int.tdiv iPitch iWidth) = iBpp) (h1 : iBpp ≠ 1) :
    DeFilter (4 :: r) pPrev iWidth iPitch =
      paethLoopRest iBpp pPrev (iPitch - (iBpp.toNat : Int)).toNat (iBpp.toNat : Int)
        (paethLoopFirst pPrev iBpp.toNat 0 (4 :: r)) := by
  unfold DeFilter
  simp only []
  rw [h, if_neg h1]
  rfl

/-- C1 (defilter round trip): for every filter tag `t` in 0..4 (None, Sub, Up,
Average, Paeth), every back-reference distance `bpp ≥ 1` (so in particular
1, 3, 4, 6 and 8), every width `w ≥ 1`, every original row of `bpp * w` bytes
and every previous row, filtering the row with the reference encoder and then
running `DeFilter` on the tag followed by the filtered bytes restores the
original row after the (unchanged) tag. -/
theorem DeFilter_roundtrip (t bpp w : Nat) (orig prev : List Nat) (ptag : Nat)
    (ht : t ≤ 4) (hbpp : 1 ≤ bpp) (hw : 1 ≤ w) (hlen : orig.length = bpp * w)
    (hbytes : ∀ b ∈ orig, b < 256) :
    DeFilter (t :: refFilterRow t bpp orig prev) (ptag :: prev) (w : Int)
      ((bpp * w : Nat) : Int) = t :: orig := by
  have hbl : bpp ≤ orig.length := by rw [hlen]; exact le_pitch hw
  have hfl := fun t => refFilterRow_length t bpp orig prev
  have hn1 : ((((bpp * w : Nat) : Int) - (bpp : Int)).toNat) = orig.length - bpp := by
    rw [hlen]; omega
  have hn2 : (((bpp * w : Nat) : Int)).toNat = orig.length := by rw [hlen]; omega
  have hn3 : (bpp : Int).toNat = bpp := by omega
  have h0 : ∀ t', refFilterRow t' bpp orig prev = mix orig (refFilterRow t' bpp orig prev) 0 :=
    fun t' => (mix_zero _ _).symm
  interval_cases t
  · -- None
    rw [DeFilter_tag0]
    congr 1
    rw [← mix_of_head_eq (hfl 0) orig.length (Nat.le_refl _)
      (fun j hj => none_head_eq hbytes j hj), mix_all (hfl 0)]
  · -- Sub
    rw [DeFilter_tag1, iBpp_eq hbpp hw, hn1]
    have e : refFilterRow 1 bpp orig prev = mix orig (refFilterRow 1 bpp orig prev) bpp :=
      (mix_of_head_eq (hfl 1) bpp hbl (sub_head_eq hbytes hbl)).symm
    rw [e]
    exact subLoop_ok bpp orig prev 1 hbpp hbytes _ _ (Nat.le_refl _) (by omega)
  · -- Up
    rw [DeFilter_tag2, hn2, h0 2]
    exact upLoop_ok bpp orig prev 2 ptag hbytes _ 0 (by omega)
  · -- Average
    rw [DeFilter_tag3, iBpp_eq hbpp hw, hn1, hn3, h0 3]
    have := avgLoopFirst_ok bpp orig prev 3 ptag hbytes hbl bpp 0 (by omega)
    rw [Nat.cast_zero] at this
    rw [this]
    exact avgLoopRest_ok bpp orig prev 3 ptag hbpp hbytes _ _ (Nat.le_refl _) (by omega)
  · -- Paeth
    by_cases hb1 : bpp = 1
    · subst hb1
      have hi := iBpp_eq hbpp hw
      rw [Nat.cast_one] at hi
      rw [DeFilter_tag4_one _ _ _ _ hi, h0 4]
      have hlen0 : 0 < orig.length := by omega
      have e2 : peek (ptag :: prev) 1 = (prev.getD 0 0 : Nat) := by
        have := peek_cons_succ ptag prev 0
        simpa using this
      have hv : peek (4 :: mix orig (refFilterRow 4 1 orig prev) 0) 1 + peek (ptag :: prev) 1 =
          ((refFilterRow 4 1 orig prev).getD 0 0 : Nat) + refPredict 4 1 orig prev 0 := by
        have e1 : peek (4 :: mix orig (refFilterRow 4 1 orig prev) 0) (((0 : Nat) : Int) + 1) =
            ((refFilterRow 4 1 orig prev).getD 0 0 : Nat) :=
          peek_mix_ge 4 (Nat.zero_le orig.length) (Nat.le_refl 0)
        simp only [Nat.cast_zero, zero_add] at e1
        rw [e1, e2]
        have hp : refPredict 4 1 orig prev 0 = paethPredictor 0 (prev.getD 0 0 : Nat) 0 := by
          simp [refPredict]
        rw [hp, paethPredictor_first (Int.ofNat_nonneg _)]
      have hstep := poke_mix_step 4 1 orig prev 4 hbytes hlen0 hv
      simp only [Nat.cast_zero, zero_add] at hstep
      rw [hstep]
      have hn5 : (((1 * w : Nat) : Int) - 1).toNat = orig.length - 1 := by rw [hlen]; omega
      have := paethLoop1_ok orig prev 4 ptag hbytes (orig.length - 1) 1 _
        (peek (ptag :: prev) 1) (Nat.le_refl _) (by omega)
        (unfilter_value hbytes hlen0 hv) e2
      rw [Nat.cast_one] at this
      rw [hn5]
      exact this
    · have hne : (bpp : Int) ≠ 1 := by omega
      rw [DeFilter_tag4_multi _ _ _ _ (iBpp_eq hbpp hw) hne, hn3, hn1, h0 4]
      have := paethLoopFirst_ok bpp orig prev 4 ptag hbytes hbl bpp 0 (by omega)
      rw [Nat.cast_zero] at this
      rw [this]
      exact paethLoopRest_ok bpp orig prev 4 ptag hbpp hbytes _ _ (Nat.le_refl _) (by omega)

/-- Witness for C1: a Paeth-filtered row of two 3-byte pixels. -/
theorem DeFilter_roundtrip_witness :
    DeFilter (4 :: refFilterRow 4 3 [11, 22, 33, 5, 29, 42] [1, 2, 3, 4, 5, 6])
      (0 :: [1, 2, 3, 4, 5, 6]) ((2 : Nat) : Int) ((3 * 2 : Nat) : Int) =
      4 :: [11, 22, 33, 5, 29, 42] :=
  DeFilter_roundtrip 4 3 2 [11, 22, 33, 5, 29, 42] [1, 2, 3, 4, 5, 6] 0 (by decide)
    (by decide) (by decide) (by decide) (by decide)

/-! ## Theorems: `PNG_init` -/

theorem i32_of_range {n : Int} (h1 : -2147483648 ≤ n) (h2 : n < 2147483648) : i32 n = n := by
  unfold i32; omega

theorem MOTOLONG_range (p : List Nat) (i : Int) :
    0 ≤ MOTOLONG p i ∧ MOTOLONG p i < 4294967296 := by
  unfold MOTOLONG u32; omega

theorem ceil_div8 (n : Int) : ⌈((n : ℚ) / 8)⌉ = (n + 7) / 8 := by
  rw [Int.ceil_eq_iff]
  constructor
  · rw [lt_div_iff₀ (by norm_num)]
    have : ((n + 7) / 8 - 1) * 8 < n := by omega
    exact_mod_cast this
  · rw [div_le_iff₀ (by norm_num)]
    have : n ≤ (n + 7) / 8 * 8 := by omega
    exact_mod_cast this

theorem peek_zero_of_take {s : List Nat} (h : s.take 8 = signature) : peek s 0 = 137 := by
  cases s with
  | nil => simp [signature] at h
  | cons a t =>
    simp only [signature, List.take_succ_cons, List.cons.injEq] at h
    simp [peek, h.1]

theorem PNGParseInfo_ihdr {σ ζ δ : Type} (pPage : PNGIMAGE σ ζ δ)
    (hread : 32 ≤ (pPage.pfnRead pPage.PNGFile 32).ret)
    (hsig : (headerBytes pPage).take 8 = signature)
    (hlen : 13 ≤ i32 (MOTOLONG (headerBytes pPage) 8))
    (hmark : MOTOLONG (headerBytes pPage) 12 = IHDR) :
    PNGParseInfo pPage = parseIHDR (afterPrologue pPage) (headerBytes pPage) := by
  have h1 : ¬ (pPage.pfnRead pPage.PNGFile 32).ret < 32 := by omega
  have h2 : ¬ i32 (MOTOLONG (headerBytes pPage) 8) < 13 := by omega
  unfold headerBytes at *
  unfold PNGParseInfo
  dsimp only
  rw [if_neg h1, if_neg (not_not.mpr hsig), if_neg h2, if_pos hmark]
  rfl

theorem PNGParseInfo_not_ihdr {σ ζ δ : Type} (pPage : PNGIMAGE σ ζ δ)
    (hread : 32 ≤ (pPage.pfnRead pPage.PNGFile 32).ret)
    (hsig : (headerBytes pPage).take 8 = signature)
    (hlen : 13 ≤ i32 (MOTOLONG (headerBytes pPage) 8))
    (hmark : MOTOLONG (headerBytes pPage) 12 ≠ IHDR) :
    PNGParseInfo pPage = failWith (afterPrologue pPage) PNG_INVALID_FILE := by
  have h1 : ¬ (pPage.pfnRead pPage.PNGFile 32).ret < 32 := by omega
  have h2 : ¬ i32 (MOTOLONG (headerBytes pPage) 8) < 13 := by omega
  unfold headerBytes at *
  unfold PNGParseInfo
  dsimp only
  rw [if_neg h1, if_neg (not_not.mpr hsig), if_neg h2, if_neg hmark]
  rfl

theorem PNGParseInfo_early {σ ζ δ : Type} (pPage : PNGIMAGE σ ζ δ)
    (h : (pPage.pfnRead pPage.PNGFile 32).ret < 32 ∨
      (headerBytes pPage).take 8 ≠ signature ∨ i32 (MOTOLONG (headerBytes pPage) 8) < 13) :
    PNGParseInfo pPage =
      failWith { pPage with
        iHasAlpha := 0
        iInterlaced := 0
        PNGFile := (pPage.pfnRead pPage.PNGFile 32).file } PNG_INVALID_FILE := by
  unfold headerBytes at *
  unfold PNGParseInfo
  dsimp only
  by_cases h1 : (pPage.pfnRead pPage.PNGFile 32).ret < 32
  · rw [if_pos h1]
  · rw [if_neg h1]
    by_cases h2 : List.take 8 (blit (List.replicate 32 0) 0
        (pPage.pfnRead pPage.PNGFile 32).data) ≠ signature
    · rw [if_pos h2]
    · rw [if_neg h2]
      have h3 : i32 (MOTOLONG (blit (List.replicate 32 0) 0
          (pPage.pfnRead pPage.PNGFile 32).data) 8) < 13 := by
        rcases h with h | h | h
        · exact absurd h h1
        · exact absurd h h2
        · exact h
      rw [if_pos h3]

theorem pitchSwitch_valid {σ ζ δ : Type} (p : PNGIMAGE σ ζ δ)
    (hct : p.ucPixelType = 0 ∨ p.ucPixelType = 2 ∨ p.ucPixelType = 3 ∨ p.ucPixelType = 4 ∨
      p.ucPixelType = 6) :
    ∃ q, pitchSwitch p = some q ∧ q.iPitch = codePitch p.iWidth p.ucBpp p.ucPixelType ∧
      q.iError = p.iError ∧ q.iWidth = p.iWidth ∧ q.iHeight = p.iHeight ∧
      q.ucBpp = p.ucBpp ∧ q.ucPixelType = p.ucPixelType := by
  unfold pitchSwitch codePitch
  by_cases c1 : p.ucPixelType = PNG_PIXEL_GRAYSCALE ∨ p.ucPixelType = PNG_PIXEL_INDEXED
  · rw [if_pos c1, if_pos c1]; exact ⟨_, rfl, rfl, rfl, rfl, rfl, rfl, rfl⟩
  · rw [if_neg c1, if_neg c1]
    by_cases c2 : p.ucPixelType = PNG_PIXEL_TRUECOLOR
    · rw [if_pos c2, if_pos c2]; exact ⟨_, rfl, rfl, rfl, rfl, rfl, rfl, rfl⟩
    · rw [if_neg c2, if_neg c2]
      by_cases c3 : p.ucPixelType = PNG_PIXEL_GRAY_ALPHA
      · rw [if_pos c3, if_pos c3]; exact ⟨_, rfl, rfl, rfl, rfl, rfl, rfl, rfl⟩
      · rw [if_neg c3, if_neg c3]
        have c4 : p.ucPixelType = PNG_PIXEL_TRUECOLOR_ALPHA := by
          simp only [PNG_PIXEL_GRAYSCALE, PNG_PIXEL_INDEXED, PNG_PIXEL_TRUECOLOR,
            PNG_PIXEL_GRAY_ALPHA, PNG_PIXEL_TRUECOLOR_ALPHA] at *
          omega
        rw [if_pos c4]; exact ⟨_, rfl, rfl, rfl, rfl, rfl, rfl, rfl⟩

theorem pitchSwitch_none {σ ζ δ : Type} (p : PNGIMAGE σ ζ δ)
    (hct : ¬ (p.ucPixelType = 0 ∨ p.ucPixelType = 2 ∨ p.ucPixelType = 3 ∨ p.ucPixelType = 4 ∨
      p.ucPixelType = 6)) : pitchSwitch p = none := by
  unfold pitchSwitch
  have c1 : ¬ (p.ucPixelType = PNG_PIXEL_GRAYSCALE ∨ p.ucPixelType = PNG_PIXEL_INDEXED) := by
    simp only [PNG_PIXEL_GRAYSCALE, PNG_PIXEL_INDEXED]; omega
  have c2 : ¬ (p.ucPixelType = PNG_PIXEL_TRUECOLOR) := by
    simp only [PNG_PIXEL_TRUECOLOR]; omega
  have c3 : ¬ (p.ucPixelType = PNG_PIXEL_GRAY_ALPHA) := by
    simp only [PNG_PIXEL_GRAY_ALPHA]; omega
  have c4 : ¬ (p.ucPixelType = PNG_PIXEL_TRUECOLOR_ALPHA) := by
    simp only [PNG_PIXEL_TRUECOLOR_ALPHA]; omega
  rw [if_neg c1, if_neg c2, if_neg c3, if_neg c4]

theorem checkPitch_spec {σ ζ δ : Type} (q : PNGIMAGE σ ζ δ) :
    (checkPitch q).1 =
        (if q.iPitch < 0 then PNG_INVALID_FILE
          else if q.iPitch ≥ 65534 then PNG_TOO_BIG else PNG_SUCCESS) ∧
      (checkPitch q).2.iError = (if q.iPitch < 0 then PNG_INVALID_FILE else q.iError) ∧
      (checkPitch q).2.iPitch = q.iPitch ∧ (checkPitch q).2.iWidth = q.iWidth ∧
      (checkPitch q).2.iHeight = q.iHeight ∧ (checkPitch q).2.ucBpp = q.ucBpp ∧
      (checkPitch q).2.ucPixelType = q.ucPixelType := by
  unfold checkPitch failWith
  by_cases h1 : q.iPitch < 0
  · simp only [if_pos h1, and_self]
  · simp only [if_neg h1]
    by_cases h2 : q.iPitch ≥ 65534
    · simp only [if_pos h2, and_self]
    · simp only [if_neg h2, and_self]

theorem parseIHDR_flags {σ ζ δ : Type} (pPage : PNGIMAGE σ ζ δ) (s : List Nat)
    (h : peek s 26 ≠ 0 ∨ peek s 27 ≠ 0 ∨ peek s 28 ≠ 0) :
    (parseIHDR pPage s).1 = PNG_UNSUPPORTED_FEATURE ∧
      (parseIHDR pPage s).2.iError = PNG_UNSUPPORTED_FEATURE := by
  unfold parseIHDR
  dsimp only
  rw [if_pos h]
  exact ⟨rfl, rfl⟩

theorem parseIHDR_bad_depth {σ ζ δ : Type} (pPage : PNGIMAGE σ ζ δ) (s : List Nat)
    (h : ¬ (peek s 26 ≠ 0 ∨ peek s 27 ≠ 0 ∨ peek s 28 ≠ 0))
    (hbd : ¬ (peek s 24 = 1 ∨ peek s 24 = 2 ∨ peek s 24 = 4 ∨ peek s 24 = 8 ∨ peek s 24 = 16)) :
    (parseIHDR pPage s).1 = PNG_INVALID_FILE ∧
      (parseIHDR pPage s).2.iError = PNG_INVALID_FILE := by
  unfold parseIHDR
  dsimp only
  rw [if_neg h, if_pos hbd]
  exact ⟨rfl, rfl⟩

theorem parseIHDR_bad_type {σ ζ δ : Type} (pPage : PNGIMAGE σ ζ δ) (s : List Nat)
    (h : ¬ (peek s 26 ≠ 0 ∨ peek s 27 ≠ 0 ∨ peek s 28 ≠ 0))
    (hbd : peek s 24 = 1 ∨ peek s 24 = 2 ∨ peek s 24 = 4 ∨ peek s 24 = 8 ∨ peek s 24 = 16)
    (hct : ¬ (peek s 25 = 0 ∨ peek s 25 = 2 ∨ peek s 25 = 3 ∨ peek s 25 = 4 ∨ peek s 25 = 6)) :
    (parseIHDR pPage s).1 = PNG_INVALID_FILE ∧
      (parseIHDR pPage s).2.iError = PNG_INVALID_FILE := by
  unfold parseIHDR
  dsimp only
  rw [if_neg h, if_neg (not_not.mpr hbd), pitchSwitch_none _ hct]
  exact ⟨rfl, rfl⟩

/-- With zero method bytes, a valid bit depth and a valid colour type,
`parseIHDR` stores `codePitch` and ends in the pitch checks: it returns
`PNG_INVALID_FILE` (recorded) for a negative pitch, `PNG_TOO_BIG` (not recorded)
for a pitch of 65534 or more, and `PNG_SUCCESS` otherwise. -/
theorem parseIHDR_valid {σ ζ δ : Type} (pPage : PNGIMAGE σ ζ δ) (s : List Nat)
    (h : ¬ (peek s 26 ≠ 0 ∨ peek s 27 ≠ 0 ∨ peek s 28 ≠ 0))
    (hbd : peek s 24 = 1 ∨ peek s 24 = 2 ∨ peek s 24 = 4 ∨ peek s 24 = 8 ∨ peek s 24 = 16)
    (hct : peek s 25 = 0 ∨ peek s 25 = 2 ∨ peek s 25 = 3 ∨ peek s 25 = 4 ∨ peek s 25 = 6) :
    (parseIHDR pPage s).2.iPitch =
        codePitch (i32 (MOTOLONG s 16)) (peek s 24) (peek s 25) ∧
      (parseIHDR pPage s).1 =
        (if codePitch (i32 (MOTOLONG s 16)) (peek s 24) (peek s 25) < 0 then PNG_INVALID_FILE
          else if codePitch (i32 (MOTOLONG s 16)) (peek s 24) (peek s 25) ≥ 65534 then
            PNG_TOO_BIG
          else PNG_SUCCESS) ∧
      (parseIHDR pPage s).2.iError =
        (if codePitch (i32 (MOTOLONG s 16)) (peek s 24) (peek s 25) < 0 then PNG_INVALID_FILE
          else pPage.iError) := by
  unfold parseIHDR
  dsimp only
  rw [if_neg h, if_neg (not_not.mpr hbd)]
  obtain ⟨q, hq, hp, he, -⟩ := pitchSwitch_valid
    { pPage with
      iWidth := i32 (MOTOLONG s 16)
      iHeight := i32 (MOTOLONG s 20)
      ucBpp := peek s 24
      ucPixelType := peek s 25
      iInterlaced := peek s 28 } hct
  rw [hq]
  dsimp only at hp he ⊢
  obtain ⟨k1, k2, k3, -⟩ := checkPitch_spec q
  rw [k1, k2, k3, hp, he]
  exact ⟨rfl, rfl, rfl⟩

theorem wrap_pitch {w k : Int} (hw : 0 ≤ w) (hk : 1 ≤ k) (hfit : w * k + 7 < 2147483648) :
    Int.tdiv (i32 (i32 (i32 w * k) + 7)) 8 = (w * k + 7) / 8 := by
  have h1 : w ≤ w * k := le_mul_of_one_le_right hw hk
  have h2 : 0 ≤ w * k := le_trans hw h1
  have e1 : i32 w = w := i32_of_range (by omega) (by omega)
  have e2 : i32 (w * k) = w * k := i32_of_range (by omega) (by omega)
  have e3 : i32 (w * k + 7) = w * k + 7 := i32_of_range (by omega) (by omega)
  rw [e1, e2, e3, Int.tdiv_eq_ediv (by omega) (by omega)]

theorem codePitch_exact {w bd ct : Int} (hw : 0 ≤ w)
    (hbd : bd = 1 ∨ bd = 2 ∨ bd = 4 ∨ bd = 8 ∨ bd = 16)
    (hct : ct = 0 ∨ ct = 2 ∨ ct = 3 ∨ ct = 4 ∨ ct = 6)
    (hfit : w * bd * channels ct + 7 < 2147483648) :
    codePitch (i32 w) bd ct = (w * bd * channels ct + 7) / 8 := by
  have hbd1 : 1 ≤ bd := by omega
  unfold codePitch
  unfold channels at hfit ⊢
  simp only [PNG_PIXEL_GRAYSCALE, PNG_PIXEL_INDEXED, PNG_PIXEL_TRUECOLOR,
    PNG_PIXEL_GRAY_ALPHA, PNG_PIXEL_TRUECOLOR_ALPHA] at hfit ⊢
  rcases hct with hc | hc | hc | hc | hc <;> subst hc <;> norm_num at hfit ⊢
  · exact wrap_pitch hw hbd1 hfit
  · have e : 3 * bd * i32 w = i32 w * (bd * 3) := by ring
    have e2 : w * bd * 3 = w * (bd * 3) := by ring
    rw [e, e2]; rw [e2] at hfit
    exact wrap_pitch hw (by omega) hfit
  · exact wrap_pitch hw hbd1 hfit
  · have e : 2 * bd * i32 w = i32 w * (bd * 2) := by ring
    have e2 : w * bd * 2 = w * (bd * 2) := by ring
    rw [e, e2]; rw [e2] at hfit
    exact wrap_pitch hw (by omega) hfit
  · have e : 4 * bd * i32 w = i32 w * (bd * 4) := by ring
    have e2 : w * bd * 4 = w * (bd * 4) := by ring
    rw [e, e2]; rw [e2] at hfit
    exact wrap_pitch hw (by omega) hfit

theorem failWith_fst {σ ζ δ : Type} (p : PNGIMAGE σ ζ δ) (e : Int) : (failWith p e).1 = e := rfl

theorem failWith_err {σ ζ δ : Type} (p : PNGIMAGE σ ζ δ) (e : Int) :
    (failWith p e).2.iError = e := rfl

/-- C2 (pitch derivation): for every header that `PNG_init` accepts and for
which `width * bitdepth * channels + 7` fits in a signed 32-bit integer, with
`width` the unsigned 32-bit header field, the stored `iPitch` equals
`ceil (width * bitdepth * channels / 8)`. -/
theorem PNG_init_pitch_derivation {σ ζ δ : Type} (pPage : PNGIMAGE σ ζ δ)
    (hok : (PNG_init pPage).1 = PNG_SUCCESS)
    (hfit : MOTOLONG (headerBytes pPage) 16 * peek (headerBytes pPage) 24 *
      channels (peek (headerBytes pPage) 25) + 7 < 2147483648) :
    (PNG_init pPage).2.iPitch =
      ⌈((MOTOLONG (headerBytes pPage) 16 * peek (headerBytes pPage) 24 *
        channels (peek (headerBytes pPage) 25) : Int) : ℚ) / 8⌉ := by
  unfold PNG_init at hok ⊢
  by_cases hearly : (pPage.pfnRead pPage.PNGFile 32).ret < 32 ∨
      (headerBytes pPage).take 8 ≠ signature ∨ i32 (MOTOLONG (headerBytes pPage) 8) < 13
  · rw [PNGParseInfo_early pPage hearly, failWith_fst] at hok
    exact absurd hok (by decide)
  have h1 : 32 ≤ (pPage.pfnRead pPage.PNGFile 32).ret := by
    by_contra h; exact hearly (Or.inl (by omega))
  have h2 : (headerBytes pPage).take 8 = signature := by
    by_contra h; exact hearly (Or.inr (Or.inl h))
  have h3 : 13 ≤ i32 (MOTOLONG (headerBytes pPage) 8) := by
    by_contra h; exact hearly (Or.inr (Or.inr (by omega)))
  by_cases hm : MOTOLONG (headerBytes pPage) 12 = IHDR
  swap
  · rw [PNGParseInfo_not_ihdr pPage h1 h2 h3 hm, failWith_fst] at hok
    exact absurd hok (by decide)
  rw [PNGParseInfo_ihdr pPage h1 h2 h3 hm] at hok ⊢
  generalize headerBytes pPage = s at *
  by_cases hf : peek s 26 ≠ 0 ∨ peek s 27 ≠ 0 ∨ peek s 28 ≠ 0
  · rw [(parseIHDR_flags _ s hf).1] at hok
    exact absurd hok (by decide)
  by_cases hbd : peek s 24 = 1 ∨ peek s 24 = 2 ∨ peek s 24 = 4 ∨ peek s 24 = 8 ∨ peek s 24 = 16
  swap
  · rw [(parseIHDR_bad_depth _ s hf hbd).1] at hok
    exact absurd hok (by decide)
  by_cases hct : peek s 25 = 0 ∨ peek s 25 = 2 ∨ peek s 25 = 3 ∨ peek s 25 = 4 ∨ peek s 25 = 6
  swap
  · rw [(parseIHDR_bad_type _ s hf hbd hct).1] at hok
    exact absurd hok (by decide)
  rw [(parseIHDR_valid _ s hf hbd hct).1,
    codePitch_exact (MOTOLONG_range s 16).1 hbd hct hfit, ceil_div8]

/-- Witness for C2: an 8-bit truecolor header of width 5. -/
theorem PNG_init_pitch_derivation_witness :
    (PNG_init (headerSession (ihdrBytes 0 0 0 5 0 0 0 1 8 2 0 0 0))).1 = PNG_SUCCESS ∧
      (PNG_init (headerSession (ihdrBytes 0 0 0 5 0 0 0 1 8 2 0 0 0))).2.iPitch =
        ⌈((MOTOLONG (headerBytes (headerSession (ihdrBytes 0 0 0 5 0 0 0 1 8 2 0 0 0))) 16 *
          peek (headerBytes (headerSession (ihdrBytes 0 0 0 5 0 0 0 1 8 2 0 0 0))) 24 *
          channels (peek (headerBytes (headerSession (ihdrBytes 0 0 0 5 0 0 0 1 8 2 0 0 0))) 25) :
            Int) : ℚ) / 8⌉ :=
  ⟨by decide,
    PNG_init_pitch_derivation (headerSession (ihdrBytes 0 0 0 5 0 0 0 1 8 2 0 0 0))
      (by decide) (by decide)⟩

/-- C3, as stated, fails: a header with a valid signature, `IHDR` length 13,
zero method bytes, bit depth 1, colour type grayscale and width field
`0x80000000` has exact pitch `2^28 ≥ 65534`, yet `PNG_init` returns
`PNG_INVALID_FILE` (the stored width is negative, and so is the pitch), not
`PNG_TOO_BIG`. -/
theorem PNG_init_too_big_counterexample :
    (headerBytes (headerSession (ihdrBytes 128 0 0 0 0 0 0 1 1 0 0 0 0))).take 8 = signature ∧
      13 ≤ i32 (MOTOLONG (headerBytes (headerSession (ihdrBytes 128 0 0 0 0 0 0 1 1 0 0 0 0))) 8) ∧
      MOTOLONG (headerBytes (headerSession (ihdrBytes 128 0 0 0 0 0 0 1 1 0 0 0 0))) 12 = IHDR ∧
      peek (headerBytes (headerSession (ihdrBytes 128 0 0 0 0 0 0 1 1 0 0 0 0))) 24 = 1 ∧
      peek (headerBytes (headerSession (ihdrBytes 128 0 0 0 0 0 0 1 1 0 0 0 0))) 25 = 0 ∧
      MOTOLONG (headerBytes (headerSession (ihdrBytes 128 0 0 0 0 0 0 1 1 0 0 0 0))) 16 =
        2147483648 ∧
      (65534 : Int) ≤ ⌈((2147483648 * 1 * channels 0 : Int) : ℚ) / 8⌉ ∧
      (PNG_init (headerSession (ihdrBytes 128 0 0 0 0 0 0 1 1 0 0 0 0))).1 = PNG_INVALID_FILE ∧
      (PNG_init (headerSession (ihdrBytes 128 0 0 0 0 0 0 1 1 0 0 0 0))).1 ≠ PNG_TOO_BIG := by
  refine ⟨by decide, by decide, by decide, by decide, by decide, by decide, ?_, by decide,
    by decide⟩
  rw [ceil_div8]
  decide

/-- C3 (amended): for every 32-byte header with a valid signature, an `IHDR`
chunk of length at least 13, zero compression, filter and interlace bytes, a
bit depth in {1,2,4,8,16} and one of the five colour types, if
`width * bitdepth * channels + 7` fits in a signed 32-bit integer (width read
as the unsigned header field) and the exact pitch
`ceil (width * bitdepth * channels / 8)` is at least 65534, then `PNG_init`
returns `PNG_TOO_BIG`. -/
theorem PNG_init_too_big {σ ζ δ : Type} (pPage : PNGIMAGE σ ζ δ)
    (hread : 32 ≤ (pPage.pfnRead pPage.PNGFile 32).ret)
    (hsig : (headerBytes pPage).take 8 = signature)
    (hlen : 13 ≤ i32 (MOTOLONG (headerBytes pPage) 8))
    (hmark : MOTOLONG (headerBytes pPage) 12 = IHDR)
    (hflags : peek (headerBytes pPage) 26 = 0 ∧ peek (headerBytes pPage) 27 = 0 ∧
      peek (headerBytes pPage) 28 = 0)
    (hbd : peek (headerBytes pPage) 24 = 1 ∨ peek (headerBytes pPage) 24 = 2 ∨
      peek (headerBytes pPage) 24 = 4 ∨ peek (headerBytes pPage) 24 = 8 ∨
      peek (headerBytes pPage) 24 = 16)
    (hct : peek (headerBytes pPage) 25 = 0 ∨ peek (headerBytes pPage) 25 = 2 ∨
      peek (headerBytes pPage) 25 = 3 ∨ peek (headerBytes pPage) 25 = 4 ∨
      peek (headerBytes pPage) 25 = 6)
    (hfit : MOTOLONG (headerBytes pPage) 16 * peek (headerBytes pPage) 24 *
      channels (peek (headerBytes pPage) 25) + 7 < 2147483648)
    (hbig : 65534 ≤ ⌈((MOTOLONG (headerBytes pPage) 16 * peek (headerBytes pPage) 24 *
      channels (peek (headerBytes pPage) 25) : Int) : ℚ) / 8⌉) :
    (PNG_init pPage).1 = PNG_TOO_BIG := by
  unfold PNG_init
  rw [PNGParseInfo_ihdr pPage hread hsig hlen hmark]
  generalize headerBytes pPage = s at *
  have hf : ¬ (peek s 26 ≠ 0 ∨ peek s 27 ≠ 0 ∨ peek s 28 ≠ 0) := by
    rw [hflags.1, hflags.2.1, hflags.2.2]; simp
  rw [ceil_div8] at hbig
  rw [(parseIHDR_valid _ s hf hbd hct).2.1,
    codePitch_exact (MOTOLONG_range s 16).1 hbd hct hfit]
  rw [if_neg (by omega), if_pos (by omega)]

/-- Witness for C3: width 70000 at 8-bit truecolor (pitch 210000). -/
theorem PNG_init_too_big_witness :
    (PNG_init (headerSession (ihdrBytes 0 1 17 112 0 0 0 1 8 2 0 0 0))).1 = PNG_TOO_BIG :=
  PNG_init_too_big (headerSession (ihdrBytes 0 1 17 112 0 0 0 1 8 2 0 0 0))
    (by decide) (by decide) (by decide) (by decide) (by decide) (by decide) (by decide)
    (by decide) (by rw [ceil_div8]; decide)

/-- C4: whenever the compression, filter and interlace bytes are zero and the
bit-depth byte is not one of 1, 2, 4, 8, 16 or the colour-type byte is not one
of 0, 2, 3, 4, 6, `PNG_init` returns `PNG_INVALID_FILE` and records it as the
last error.  (This holds whatever the signature, the declared length and the
marker are: their checks fail with the same code.) -/
theorem PNG_init_bad_depth_or_type {σ ζ δ : Type} (pPage : PNGIMAGE σ ζ δ)
    (hflags : peek (headerBytes pPage) 26 = 0 ∧ peek (headerBytes pPage) 27 = 0 ∧
      peek (headerBytes pPage) 28 = 0)
    (hbad : ¬ (peek (headerBytes pPage) 24 = 1 ∨ peek (headerBytes pPage) 24 = 2 ∨
        peek (headerBytes pPage) 24 = 4 ∨ peek (headerBytes pPage) 24 = 8 ∨
        peek (headerBytes pPage) 24 = 16) ∨
      ¬ (peek (headerBytes pPage) 25 = 0 ∨ peek (headerBytes pPage) 25 = 2 ∨
        peek (headerBytes pPage) 25 = 3 ∨ peek (headerBytes pPage) 25 = 4 ∨
        peek (headerBytes pPage) 25 = 6)) :
    (PNG_init pPage).1 = PNG_INVALID_FILE ∧
      PNG_getLastError (PNG_init pPage).2 = PNG_INVALID_FILE := by
  unfold PNG_init PNG_getLastError
  by_cases hearly : (pPage.pfnRead pPage.PNGFile 32).ret < 32 ∨
      (headerBytes pPage).take 8 ≠ signature ∨ i32 (MOTOLONG (headerBytes pPage) 8) < 13
  · rw [PNGParseInfo_early pPage hearly]
    exact ⟨rfl, rfl⟩
  have h1 : 32 ≤ (pPage.pfnRead pPage.PNGFile 32).ret := by
    by_contra h; exact hearly (Or.inl (by omega))
  have h2 : (headerBytes pPage).take 8 = signature := by
    by_contra h; exact hearly (Or.inr (Or.inl h))
  have h3 : 13 ≤ i32 (MOTOLONG (headerBytes pPage) 8) := by
    by_contra h; exact hearly (Or.inr (Or.inr (by omega)))
  by_cases hm : MOTOLONG (headerBytes pPage) 12 = IHDR
  swap
  · rw [PNGParseInfo_not_ihdr pPage h1 h2 h3 hm]
    exact ⟨rfl, rfl⟩
  rw [PNGParseInfo_ihdr pPage h1 h2 h3 hm]
  generalize headerBytes pPage = s at *
  have hf : ¬ (peek s 26 ≠ 0 ∨ peek s 27 ≠ 0 ∨ peek s 28 ≠ 0) := by
    rw [hflags.1, hflags.2.1, hflags.2.2]; simp
  by_cases hbd : peek s 24 = 1 ∨ peek s 24 = 2 ∨ peek s 24 = 4 ∨ peek s 24 = 8 ∨ peek s 24 = 16
  · rcases hbad with hb | hb
    · exact absurd hbd hb
    · exact parseIHDR_bad_type _ s hf hbd hb
  · exact parseIHDR_bad_depth _ s hf hbd

/-- Witness for C4: bit depth 3 in an otherwise well-formed header. -/
theorem PNG_init_bad_depth_or_type_witness :
    (PNG_init (headerSession (ihdrBytes 0 0 0 5 0 0 0 1 3 2 0 0 0))).1 = PNG_INVALID_FILE ∧
      PNG_getLastError (PNG_init (headerSession (ihdrBytes 0 0 0 5 0 0 0 1 3 2 0 0 0))).2 =
        PNG_INVALID_FILE :=
  PNG_init_bad_depth_or_type (headerSession (ihdrBytes 0 0 0 5 0 0 0 1 3 2 0 0 0))
    (by decide) (by decide)

/-- C5, as stated, fails: truecolor with bit depth 1 (a pairing PNG forbids) in
an otherwise well-formed header of width 1 is accepted: `PNG_init` returns
`PNG_SUCCESS`, not `PNG_INVALID_FILE`. -/
theorem PNG_init_combination_counterexample :
    peek (headerBytes (headerSession (ihdrBytes 0 0 0 1 0 0 0 1 1 2 0 0 0))) 24 = 1 ∧
      peek (headerBytes (headerSession (ihdrBytes 0 0 0 1 0 0 0 1 1 2 0 0 0))) 25 =
        PNG_PIXEL_TRUECOLOR ∧
      (PNG_init (headerSession (ihdrBytes 0 0 0 1 0 0 0 1 1 2 0 0 0))).1 = PNG_SUCCESS ∧
      (PNG_init (headerSession (ihdrBytes 0 0 0 1 0 0 0 1 1 2 0 0 0))).1 ≠ PNG_INVALID_FILE := by
  decide

/-- C5 (amended): for every 32-byte header with a valid signature, an `IHDR`
chunk of length at least 13 and zero method bytes, `PNG_init` fails with
`PNG_INVALID_FILE` exactly when the bit depth is not one of 1, 2, 4, 8, 16, or
the colour type is not one of 0, 2, 3, 4, 6, or the pitch it stores is
negative.  Bit depth and colour type are checked separately: their pairing is
not. -/
theorem PNG_init_invalid_file_iff {σ ζ δ : Type} (pPage : PNGIMAGE σ ζ δ)
    (hread : 32 ≤ (pPage.pfnRead pPage.PNGFile 32).ret)
    (hsig : (headerBytes pPage).take 8 = signature)
    (hlen : 13 ≤ i32 (MOTOLONG (headerBytes pPage) 8))
    (hmark : MOTOLONG (headerBytes pPage) 12 = IHDR)
    (hflags : peek (headerBytes pPage) 26 = 0 ∧ peek (headerBytes pPage) 27 = 0 ∧
      peek (headerBytes pPage) 28 = 0) :
    (PNG_init pPage).1 = PNG_INVALID_FILE ↔
      (¬ (peek (headerBytes pPage) 24 = 1 ∨ peek (headerBytes pPage) 24 = 2 ∨
          peek (headerBytes pPage) 24 = 4 ∨ peek (headerBytes pPage) 24 = 8 ∨
          peek (headerBytes pPage) 24 = 16) ∨
        ¬ (peek (headerBytes pPage) 25 = 0 ∨ peek (headerBytes pPage) 25 = 2 ∨
          peek (headerBytes pPage) 25 = 3 ∨ peek (headerBytes pPage) 25 = 4 ∨
          peek (headerBytes pPage) 25 = 6) ∨
        (PNG_init pPage).2.iPitch < 0) := by
  unfold PNG_init
  rw [PNGParseInfo_ihdr pPage hread hsig hlen hmark]
  generalize headerBytes pPage = s at *
  have hf : ¬ (peek s 26 ≠ 0 ∨ peek s 27 ≠ 0 ∨ peek s 28 ≠ 0) := by
    rw [hflags.1, hflags.2.1, hflags.2.2]; simp
  by_cases hbd : peek s 24 = 1 ∨ peek s 24 = 2 ∨ peek s 24 = 4 ∨ peek s 24 = 8 ∨ peek s 24 = 16
  swap
  · exact ⟨fun _ => Or.inl hbd, fun _ => (parseIHDR_bad_depth _ s hf hbd).1⟩
  by_cases hct : peek s 25 = 0 ∨ peek s 25 = 2 ∨ peek s 25 = 3 ∨ peek s 25 = 4 ∨ peek s 25 = 6
  swap
  · exact ⟨fun _ => Or.inr (Or.inl hct), fun _ => (parseIHDR_bad_type _ s hf hbd hct).1⟩
  obtain ⟨k1, k2, -⟩ := parseIHDR_valid (afterPrologue pPage) s hf hbd hct
  rw [k1, k2]
  constructor
  · intro h
    right; right
    by_contra hneg
    rw [if_neg hneg] at h
    by_cases hb : codePitch (i32 (MOTOLONG s 16)) (peek s 24) (peek s 25) ≥ 65534
    · rw [if_pos hb] at h; exact absurd h (by decide)
    · rw [if_neg hb] at h; exact absurd h (by decide)
  · intro h
    rcases h with h | h | h
    · exact absurd hbd h
    · exact absurd hct h
    · rw [if_pos h]

/-- Witness for C5 (amended): truecolor with bit depth 1 and width 1. -/
theorem PNG_init_invalid_file_iff_witness :
    (PNG_init (headerSession (ihdrBytes 0 0 0 1 0 0 0 1 1 2 0 0 0))).1 = PNG_INVALID_FILE ↔
      (¬ (peek (headerBytes (headerSession (ihdrBytes 0 0 0 1 0 0 0 1 1 2 0 0 0))) 24 = 1 ∨
          peek (headerBytes (headerSession (ihdrBytes 0 0 0 1 0 0 0 1 1 2 0 0 0))) 24 = 2 ∨
          peek (headerBytes (headerSession (ihdrBytes 0 0 0 1 0 0 0 1 1 2 0 0 0))) 24 = 4 ∨
          peek (headerBytes (headerSession (ihdrBytes 0 0 0 1 0 0 0 1 1 2 0 0 0))) 24 = 8 ∨
          peek (headerBytes (headerSession (ihdrBytes 0 0 0 1 0 0 0 1 1 2 0 0 0))) 24 = 16) ∨
        ¬ (peek (headerBytes (headerSession (ihdrBytes 0 0 0 1 0 0 0 1 1 2 0 0 0))) 25 = 0 ∨
          peek (headerBytes (headerSession (ihdrBytes 0 0 0 1 0 0 0 1 1 2 0 0 0))) 25 = 2 ∨
          peek (headerBytes (headerSession (ihdrBytes 0 0 0 1 0 0 0 1 1 2 0 0 0))) 25 = 3 ∨
          peek (headerBytes (headerSession (ihdrBytes 0 0 0 1 0 0 0 1 1 2 0 0 0))) 25 = 4 ∨
          peek (headerBytes (headerSession (ihdrBytes 0 0 0 1 0 0 0 1 1 2 0 0 0))) 25 = 6) ∨
        (PNG_init (headerSession (ihdrBytes 0 0 0 1 0 0 0 1 1 2 0 0 0))).2.iPitch < 0) :=
  PNG_init_invalid_file_iff (headerSession (ihdrBytes 0 0 0 1 0 0 0 1 1 2 0 0 0))
    (by decide) (by decide) (by decide) (by decide) (by decide)

/-- C6: for every 32-byte header with a valid signature, a declared `IHDR`
length of at least 13 (as the code reads it, into the signed 32-bit `iL`) and
the `IHDR` marker, if the interlace byte (offset 28) or either reserved method
byte (offsets 26, 27) is non-zero, `PNG_init` returns
`PNG_UNSUPPORTED_FEATURE` and records it as the last error, whatever the bit
depth, the colour type and the width are. -/
theorem PNG_init_unsupported {σ ζ δ : Type} (pPage : PNGIMAGE σ ζ δ)
    (hread : 32 ≤ (pPage.pfnRead pPage.PNGFile 32).ret)
    (hsig : (headerBytes pPage).take 8 = signature)
    (hlen : 13 ≤ i32 (MOTOLONG (headerBytes pPage) 8))
    (hmark : MOTOLONG (headerBytes pPage) 12 = IHDR)
    (hflag : peek (headerBytes pPage) 28 ≠ 0 ∨ peek (headerBytes pPage) 26 ≠ 0 ∨
      peek (headerBytes pPage) 27 ≠ 0) :
    (PNG_init pPage).1 = PNG_UNSUPPORTED_FEATURE ∧
      PNG_getLastError (PNG_init pPage).2 = PNG_UNSUPPORTED_FEATURE := by
  unfold PNG_init PNG_getLastError
  rw [PNGParseInfo_ihdr pPage hread hsig hlen hmark]
  apply parseIHDR_flags
  rcases hflag with h | h | h
  · exact Or.inr (Or.inr h)
  · exact Or.inl h
  · exact Or.inr (Or.inl h)

/-- Witness for C6: an interlaced header with bit depth 3 and colour type 9. -/
theorem PNG_init_unsupported_witness :
    (PNG_init (headerSession (ihdrBytes 0 0 0 5 0 0 0 1 3 9 0 0 1))).1 =
        PNG_UNSUPPORTED_FEATURE ∧
      PNG_getLastError (PNG_init (headerSession (ihdrBytes 0 0 0 5 0 0 0 1 3 9 0 0 1))).2 =
        PNG_UNSUPPORTED_FEATURE :=
  PNG_init_unsupported (headerSession (ihdrBytes 0 0 0 5 0 0 0 1 3 9 0 0 1))
    (by decide) (by decide) (by decide) (by decide) (by decide)

/-- C7: for every input whose first byte is not 0x89, or whose first 8 bytes
differ from the PNG signature, or whose declared header-chunk length is below
13 (read as unsigned, or as the signed 32-bit `iL` of the code), and also for
every input of which fewer than 32 bytes can be read, `PNG_init` returns
`PNG_INVALID_FILE`, records it as the last error, and leaves width, height, bit
depth, colour type and pitch as they were. -/
theorem PNG_init_bad_signature_or_length {σ ζ δ : Type} (pPage : PNGIMAGE σ ζ δ)
    (h : peek (headerBytes pPage) 0 ≠ 137 ∨ (headerBytes pPage).take 8 ≠ signature ∨
      MOTOLONG (headerBytes pPage) 8 < 13 ∨ i32 (MOTOLONG (headerBytes pPage) 8) < 13 ∨
      (pPage.pfnRead pPage.PNGFile 32).ret < 32) :
    (PNG_init pPage).1 = PNG_INVALID_FILE ∧
      PNG_getLastError (PNG_init pPage).2 = PNG_INVALID_FILE ∧
      (PNG_init pPage).2.iWidth = pPage.iWidth ∧
      (PNG_init pPage).2.iHeight = pPage.iHeight ∧
      (PNG_init pPage).2.ucBpp = pPage.ucBpp ∧
      (PNG_init pPage).2.ucPixelType = pPage.ucPixelType ∧
      (PNG_init pPage).2.iPitch = pPage.iPitch := by
  have hearly : (pPage.pfnRead pPage.PNGFile 32).ret < 32 ∨
      (headerBytes pPage).take 8 ≠ signature ∨
      i32 (MOTOLONG (headerBytes pPage) 8) < 13 := by
    rcases h with h | h | h | h | h
    · exact Or.inr (Or.inl (fun hs => h (peek_zero_of_take hs)))
    · exact Or.inr (Or.inl h)
    · have hr := MOTOLONG_range (headerBytes pPage) 8
      exact Or.inr (Or.inr (by rw [i32_of_range (by omega) (by omega)]; exact h))
    · exact Or.inr (Or.inr h)
    · exact Or.inl h
  unfold PNG_init PNG_getLastError
  rw [PNGParseInfo_early pPage hearly]
  exact ⟨rfl, rfl, rfl, rfl, rfl, rfl, rfl⟩

/-- Witness for C7: a file that starts with the byte 0x88. -/
theorem PNG_init_bad_signature_or_length_witness :
    peek (headerBytes (headerSession (136 :: (ihdrBytes 0 0 0 5 0 0 0 1 8 2 0 0 0).drop 1)))
        0 ≠ 137 ∧
      (PNG_init (headerSession (136 :: (ihdrBytes 0 0 0 5 0 0 0 1 8 2 0 0 0).drop 1))).1 =
        PNG_INVALID_FILE ∧
      PNG_getLastError
        (PNG_init (headerSession (136 :: (ihdrBytes 0 0 0 5 0 0 0 1 8 2 0 0 0).drop 1))).2 =
        PNG_INVALID_FILE :=
  ⟨by decide,
    (PNG_init_bad_signature_or_length
      (headerSession (136 :: (ihdrBytes 0 0 0 5 0 0 0 1 8 2 0 0 0).drop 1))
      (Or.inl (by decide))).1,
    (PNG_init_bad_signature_or_length
      (headerSession (136 :: (ihdrBytes 0 0 0 5 0 0 0 1 8 2 0 0 0).drop 1))
      (Or.inl (by decide))).2.1⟩

/-- Every failure code `PNG_init` returns, except `PNG_TOO_BIG`, is the code it
has stored in `iError`. -/
theorem PNG_init_records_other_codes {σ ζ δ : Type} (pPage : PNGIMAGE σ ζ δ)
    (hfail : (PNG_init pPage).1 ≠ PNG_SUCCESS) (hnot : (PNG_init pPage).1 ≠ PNG_TOO_BIG) :
    PNG_getLastError (PNG_init pPage).2 = (PNG_init pPage).1 := by
  unfold PNG_init PNG_getLastError at *
  by_cases hearly : (pPage.pfnRead pPage.PNGFile 32).ret < 32 ∨
      (headerBytes pPage).take 8 ≠ signature ∨ i32 (MOTOLONG (headerBytes pPage) 8) < 13
  · rw [PNGParseInfo_early pPage hearly]
    rfl
  have h1 : 32 ≤ (pPage.pfnRead pPage.PNGFile 32).ret := by
    by_contra h; exact hearly (Or.inl (by omega))
  have h2 : (headerBytes pPage).take 8 = signature := by
    by_contra h; exact hearly (Or.inr (Or.inl h))
  have h3 : 13 ≤ i32 (MOTOLONG (headerBytes pPage) 8) := by
    by_contra h; exact hearly (Or.inr (Or.inr (by omega)))
  by_cases hm : MOTOLONG (headerBytes pPage) 12 = IHDR
  swap
  · rw [PNGParseInfo_not_ihdr pPage h1 h2 h3 hm]
    rfl
  rw [PNGParseInfo_ihdr pPage h1 h2 h3 hm] at hfail hnot ⊢
  generalize headerBytes pPage = s at *
  by_cases hf : peek s 26 ≠ 0 ∨ peek s 27 ≠ 0 ∨ peek s 28 ≠ 0
  · rw [(parseIHDR_flags _ s hf).1, (parseIHDR_flags _ s hf).2]
  by_cases hbd : peek s 24 = 1 ∨ peek s 24 = 2 ∨ peek s 24 = 4 ∨ peek s 24 = 8 ∨ peek s 24 = 16
  swap
  · rw [(parseIHDR_bad_depth _ s hf hbd).1, (parseIHDR_bad_depth _ s hf hbd).2]
  by_cases hct : peek s 25 = 0 ∨ peek s 25 = 2 ∨ peek s 25 = 3 ∨ peek s 25 = 4 ∨ peek s 25 = 6
  swap
  · rw [(parseIHDR_bad_type _ s hf hbd hct).1, (parseIHDR_bad_type _ s hf hbd hct).2]
  obtain ⟨-, k2, k3⟩ := parseIHDR_valid (afterPrologue pPage) s hf hbd hct
  rw [k2] at hfail hnot ⊢
  rw [k3]
  by_cases hneg : codePitch (i32 (MOTOLONG s 16)) (peek s 24) (peek s 25) < 0
  · rw [if_pos hneg, if_pos hneg]
  · rw [if_neg hneg] at hfail hnot
    by_cases hbig : codePitch (i32 (MOTOLONG s 16)) (peek s 24) (peek s 25) ≥ 65534
    · rw [if_pos hbig] at hnot
      exact absurd rfl hnot
    · rw [if_neg hbig] at hfail
      exact absurd rfl hfail

/-- Whenever `PNG_decode` returns, the code it returns is the one stored in
`iError` of the session it leaves. -/
theorem PNG_decode_returns_last_error {σ ζ δ : Type} (Z : InflateEngine ζ) (fuel : Nat)
    (pPage : PNGIMAGE σ ζ δ) (User iOptions : Int) (world : δ)
    (r : Int × PNGIMAGE σ ζ δ × δ) (h : PNG_decode Z fuel pPage User iOptions world = some r) :
    PNG_getLastError r.2.1 = r.1 := by
  unfold PNG_decode at h
  split at h
  · dsimp only at h
    split at h
    · exact absurd h (by simp)
    · simp only [Option.some.injEq] at h
      rw [← h]
      rfl
  · simp only [Option.some.injEq] at h
    rw [← h]
    rfl

/-- C8 at its failing input: on the fresh session of `main` with a header of
width 70000 at 8-bit truecolor, `PNG_init` returns `PNG_TOO_BIG` (7) while
`PNG_getLastError` on the resulting session still returns `PNG_SUCCESS` (0):
the return at line 127 does not record the code in `iError`. -/
theorem PNG_init_last_error_mismatch :
    (PNG_init (headerSession (ihdrBytes 0 1 17 112 0 0 0 1 8 2 0 0 0))).1 = PNG_TOO_BIG ∧
      PNG_getLastError (PNG_init (headerSession (ihdrBytes 0 1 17 112 0 0 0 1 8 2 0 0 0))).2 =
        PNG_SUCCESS ∧
      (PNG_init (headerSession (ihdrBytes 0 1 17 112 0 0 0 1 8 2 0 0 0))).1 ≠
        PNG_getLastError (PNG_init (headerSession (ihdrBytes 0 1 17 112 0 0 0 1 8 2 0 0 0))).2 := by
  decide

/-! ## Theorems: the chunk loop of `PNG_decode` -/

theorem peek_nat (p : List Nat) (i : Nat) : peek p (i : Int) = (p.getD i 0 : Nat) := by
  simp [peek]

theorem peek_of_nonneg (p : List Nat) {i : Int} (h : 0 ≤ i) :
    peek p i = (p.getD i.toNat 0 : Nat) := by
  simp [peek, h]

theorem peek_beyond (p : List Nat) {i : Int} (h : (p.length : Int) ≤ i) : peek p i = 0 := by
  have h0 : 0 ≤ i := by omega
  rw [peek_of_nonneg p h0, List.getD_eq_default _ _ (by omega)]
  rfl

theorem blit_length (buf : List Nat) (off : Int) (data : List Nat) :
    (blit buf off data).length = buf.length := by
  unfold blit
  split_ifs with h
  · simp only [List.length_append, List.length_take, List.length_drop]
    omega
  · rfl

theorem getD_append_nat (a b : List Nat) (i : Nat) :
    (a ++ b).getD i 0 = if i < a.length then a.getD i 0 else b.getD (i - a.length) 0 := by
  split_ifs with h
  · simp [List.getD_eq_getElem?_getD, List.getElem?_append_left h]
  · simp [List.getD_eq_getElem?_getD, List.getElem?_append_right (Nat.le_of_not_lt h)]

theorem getD_take_nat (a : List Nat) (n i : Nat) :
    (a.take n).getD i 0 = if i < n then a.getD i 0 else 0 := by
  split_ifs with h
  · simp [List.getD_eq_getElem?_getD, List.getElem?_take, h]
  · simp [List.getD_eq_getElem?_getD, List.getElem?_take, h]

theorem getD_drop_nat (a : List Nat) (n i : Nat) : (a.drop n).getD i 0 = a.getD (n + i) 0 := by
  simp [List.getD_eq_getElem?_getD, List.getElem?_drop]

/-- Reading a buffer after `blit`: inside the stored range the stored bytes,
outside it the old contents. -/
theorem peek_blit (buf : List Nat) {off : Int} (data : List Nat) {i : Int} (hoff : 0 ≤ off)
    (hi : 0 ≤ i) (hfit : off + data.length ≤ buf.length) :
    peek (blit buf off data) i =
      if off ≤ i ∧ i < off + data.length then peek data (i - off) else peek buf i := by
  have hlen : (buf.take off.toNat).length = off.toNat := by
    rw [List.length_take]; omega
  have htk : data.take (buf.length - off.toNat) = data := by
    apply List.take_of_length_le; omega
  unfold blit
  rw [if_pos hoff, htk, peek_of_nonneg _ hi, peek_of_nonneg buf hi, List.append_assoc,
    getD_append_nat, hlen, getD_take_nat, getD_append_nat, getD_drop_nat]
  by_cases h1 : i < off
  · have a1 : i.toNat < off.toNat := by omega
    have a2 : ¬ (off ≤ i ∧ i < off + data.length) := by omega
    rw [if_pos a1, if_pos a1, if_neg a2]
  · have a1 : ¬ i.toNat < off.toNat := by omega
    rw [if_neg a1]
    by_cases h2 : i < off + data.length
    · have a2 : i.toNat - off.toNat < data.length := by omega
      have a3 : off ≤ i ∧ i < off + data.length := by omega
      have a4 : (i - off).toNat = i.toNat - off.toNat := by omega
      rw [if_pos a2, if_pos a3, peek_of_nonneg data (by omega), a4]
    · have a2 : ¬ i.toNat - off.toNat < data.length := by omega
      have a3 : ¬ (off ≤ i ∧ i < off + data.length) := by omega
      have a4 : off.toNat + data.length + (i.toNat - off.toNat - data.length) = i.toNat := by
        omega
      rw [if_neg a2, if_neg a3, a4]

theorem slice_length_le (buf : List Nat) (off n : Int) : ((slice buf off n).length : Int) ≤ n ∨
    (slice buf off n).length = 0 := by
  unfold slice
  split_ifs with h
  · rw [List.length_take, List.length_drop]; omega
  · right; rfl

theorem slice_length (buf : List Nat) {off n : Int} (hoff : 0 ≤ off) (hn : 0 ≤ n)
    (hfit : off + n ≤ buf.length) : ((slice buf off n).length : Int) = n := by
  unfold slice
  rw [if_pos hoff, List.length_take, List.length_drop]
  omega

theorem peek_slice (buf : List Nat) {off n j : Int} (hoff : 0 ≤ off) (hj : 0 ≤ j)
    (hjn : j < n) : peek (slice buf off n) j = peek buf (off + j) := by
  unfold slice
  rw [if_pos hoff, peek_of_nonneg _ hj, peek_of_nonneg _ (by omega), getD_take_nat,
    getD_drop_nat]
  have a1 : j.toNat < n.toNat := by omega
  have a2 : off.toNat + j.toNat = (off + j).toNat := by omega
  rw [if_pos a1, a2]

theorem MOTOLONG_congr (p q : List Nat) (i j : Int)
    (h : ∀ k : Int, 0 ≤ k → k < 4 → peek p (i + k) = peek q (j + k)) :
    MOTOLONG p i = MOTOLONG q j := by
  have h0 := h 0 (by omega) (by omega)
  have h1 := h 1 (by omega) (by omega)
  have h2 := h 2 (by omega) (by omega)
  have h3 := h 3 (by omega) (by omega)
  simp only [add_zero] at h0
  unfold MOTOLONG
  rw [h0, h1, h2, h3]

theorem refillPhase_idle {σ ζ δ : Type} (st : DecodeState σ ζ δ)
    (h : ¬ (i32 (st.iBytesRead - st.iOffset) < 8 ∨ st.more ≠ 0)) : refillPhase st = st := by
  unfold refillPhase
  dsimp only
  rw [if_neg h]

/-- What `refillPhase` leaves alone, and what a refill without error
establishes. -/
theorem refillPhase_frame {σ ζ δ : Type} (st : DecodeState σ ζ δ) :
    (refillPhase st).iMarker = st.iMarker ∧ (refillPhase st).iLen = st.iLen ∧
      (refillPhase st).y = st.y ∧ (refillPhase st).world = st.world ∧
      (refillPhase st).pPage.ucPalette = st.pPage.ucPalette ∧
      (refillPhase st).pPage.iPaletteCnt = st.pPage.iPaletteCnt ∧
      (refillPhase st).pPage.iTrans = st.pPage.iTrans ∧
      (refillPhase st).pPage.iTransLen = st.pPage.iTransLen ∧
      (refillPhase st).pPage.iHasAlpha = st.pPage.iHasAlpha ∧
      (refillPhase st).pPage.iBackground = st.pPage.iBackground ∧
      ((refillPhase st).pPage.iError = 0 →
        st.pPage.iError = 0 ∧ (refillPhase st).more = 0) := by
  unfold refillPhase
  dsimp only
  by_cases h : i32 (st.iBytesRead - st.iOffset) < 8 ∨ st.more ≠ 0
  · rw [if_pos h]
    split_ifs <;> dsimp only <;>
      refine ⟨rfl, rfl, rfl, rfl, rfl, rfl, rfl, rfl, rfl, rfl, ?_⟩ <;> intro he <;>
      first
        | exact absurd he (by decide)
        | exact ⟨he, rfl⟩
  · rw [if_neg h]
    refine ⟨rfl, rfl, rfl, rfl, rfl, rfl, rfl, rfl, rfl, rfl, ?_⟩
    intro he
    refine ⟨he, ?_⟩
    by_contra hm
    exact h (Or.inr hm)

theorem chunkPhase_skip {σ ζ δ : Type} (Z : InflateEngine ζ) (draw : PNGDRAW → δ → δ)
    (User iOptions hbo : Int) (fuel : Nat) (st : DecodeState σ ζ δ)
    (hmark : st.iMarker = 0)
    (hchk : ¬ (i32 (MOTOLONG st.pPage.ucFileBuf st.iOffset) < 0 ∨
      i32 (MOTOLONG st.pPage.ucFileBuf st.iOffset) + (st.iFileOffset - st.iBytesRead) >
        st.pPage.PNGFile.iSize))
    (hunk : ¬ (MOTOLONG st.pPage.ucFileBuf (st.iOffset + 4) = 0x504c5445 ∨
      MOTOLONG st.pPage.ucFileBuf (st.iOffset + 4) = 0x74524e53 ∨
      MOTOLONG st.pPage.ucFileBuf (st.iOffset + 4) = 0x49444154 ∨
      MOTOLONG st.pPage.ucFileBuf (st.iOffset + 4) = 0x44474b62)) :
    chunkPhase Z draw User iOptions hbo fuel st =
      some { st with
        iLen := i32 (MOTOLONG st.pPage.ucFileBuf st.iOffset)
        iMarker := 0
        iOffset := i32 (i32 (st.iOffset + 8) +
          i32 (i32 (MOTOLONG st.pPage.ucFileBuf st.iOffset) + 4)) } := by
  unfold chunkPhase
  dsimp only
  rw [if_pos hmark, if_neg hchk]
  dsimp only
  rw [if_pos hunk]

theorem Buffered.peek_eq {σ ζ δ : Type} {file : List Nat} {st : DecodeState σ ζ δ}
    (hb : Buffered file st) {i : Int} (h0 : 0 ≤ i) (h1 : i < st.iBytesRead) :
    peek st.pPage.ucFileBuf i = peek file (st.iFileOffset - st.iBytesRead + i) := by
  obtain ⟨-, -, -, -, -, hfo, hs⟩ := hb
  have e1 := peek_slice st.pPage.ucFileBuf (Int.le_refl 0) h0 h1
  have e2 := peek_slice file (show 0 ≤ st.iFileOffset - st.iBytesRead by omega) h0 h1
  rw [zero_add] at e1
  rw [← e1, ← e2, hs]

theorem refill_cursor {σ ζ δ : Type} (file : List Nat) (st : DecodeState σ ζ δ)
    (hb : Buffered file st) (hmore : st.more = 0)
    (hsrc : ReadsFrom file st.pPage) (herr : (refillPhase st).pPage.iError = 0) :
    (refillPhase st).iFileOffset - (refillPhase st).iBytesRead + (refillPhase st).iOffset =
        st.iFileOffset - st.iBytesRead + st.iOffset ∧
      0 ≤ (refillPhase st).iOffset ∧
      (refillPhase st).iOffset + 8 ≤ (refillPhase st).iBytesRead ∧
      ∀ i : Int, 0 ≤ i → i < 8 →
        peek (refillPhase st).pPage.ucFileBuf ((refillPhase st).iOffset + i) =
          peek file (st.iFileOffset - st.iBytesRead + st.iOffset + i) := by
  have hb' := hb
  obtain ⟨hlen, hbr0, hbr1, hoff, hoffmax, hfo, -⟩ := hb'
  unfold PNG_FILE_BUF_SIZE at hlen hbr1
  have hleft : i32 (st.iBytesRead - st.iOffset) = st.iBytesRead - st.iOffset :=
    i32_of_range (by omega) (by omega)
  by_cases h : i32 (st.iBytesRead - st.iOffset) < 8 ∨ st.more ≠ 0
  swap
  · rw [refillPhase_idle st h]
    rw [hleft] at h
    refine ⟨rfl, hoff, by omega, ?_⟩
    intro i hi0 hi8
    have := hb.peek_eq (show 0 ≤ st.iOffset + i by omega) (by omega)
    rw [this]
    congr 1
    omega
  · have hl8 : st.iBytesRead - st.iOffset < 8 := by
      rcases h with h | h
      · rw [hleft] at h; exact h
      · exact absurd hmore h
    unfold refillPhase at herr ⊢
    dsimp only at herr ⊢
    rw [if_pos h] at herr ⊢
    rw [hleft] at herr ⊢
    by_cases hpos : st.iBytesRead - st.iOffset > 0
    · simp only [if_pos hpos] at herr ⊢
      have hq : 0 ≤ st.iFileOffset := by omega
      have hl : (0 : Int) ≤ PNG_FILE_BUF_SIZE - (st.iBytesRead - st.iOffset) := by
        unfold PNG_FILE_BUF_SIZE; omega
      have hc := hsrc st.iFileOffset _ hq hl
      generalize st.pPage.pfnRead (st.pPage.pfnSeek st.pPage.PNGFile st.iFileOffset)
        (PNG_FILE_BUF_SIZE - (st.iBytesRead - st.iOffset)) = r at hc herr ⊢
      by_cases hneg : r.ret < 0
      · rw [if_pos hneg] at herr; dsimp only at herr; exact absurd herr (by decide)
      rw [if_neg hneg] at herr ⊢
      by_cases hshort : r.ret + (st.iBytesRead - st.iOffset) < 8
      · rw [if_pos hshort] at herr; dsimp only at herr; exact absurd herr (by decide)
      rw [if_neg hshort] at herr ⊢
      dsimp only
      obtain ⟨hc1, hc2, hc3⟩ := hc (by omega)
      unfold PNG_FILE_BUF_SIZE at hc1
      refine ⟨by omega, by omega, by omega, ?_⟩
      intro i hi0 hi8
      have hdl : (r.data.length : Int) = r.ret := hc2
      have hsl : ((slice st.pPage.ucFileBuf st.iOffset (st.iBytesRead - st.iOffset)).length :
          Int) = st.iBytesRead - st.iOffset :=
        slice_length _ hoff (by omega) (by omega)
      rw [zero_add, peek_blit _ _ (by omega) hi0 (by rw [blit_length]; omega)]
      by_cases hin : st.iBytesRead - st.iOffset ≤ i ∧
          i < st.iBytesRead - st.iOffset + r.data.length
      · rw [if_pos hin, hc3, peek_slice file hq (by omega) (by omega)]
        congr 1
        omega
      · rw [if_neg hin, peek_blit _ _ (Int.le_refl 0) hi0 (by omega)]
        have hin2 : 0 ≤ i ∧ i < 0 + ((slice st.pPage.ucFileBuf st.iOffset
            (st.iBytesRead - st.iOffset)).length : Int) := by omega
        rw [if_pos hin2, sub_zero, peek_slice _ hoff hi0 (by omega),
          hb.peek_eq (by omega) (by omega)]
        congr 1
        omega
    · simp only [if_neg hpos] at herr ⊢
      have hq : 0 ≤ st.iFileOffset - (st.iBytesRead - st.iOffset) := by omega
      have hl : (0 : Int) ≤ PNG_FILE_BUF_SIZE - 0 := by unfold PNG_FILE_BUF_SIZE; omega
      have hc := hsrc _ _ hq hl
      generalize st.pPage.pfnRead (st.pPage.pfnSeek st.pPage.PNGFile
        (st.iFileOffset - (st.iBytesRead - st.iOffset))) (PNG_FILE_BUF_SIZE - 0) = r
        at hc herr ⊢
      by_cases hneg : r.ret < 0
      · rw [if_pos hneg] at herr; dsimp only at herr; exact absurd herr (by decide)
      rw [if_neg hneg] at herr ⊢
      by_cases hshort : r.ret + 0 < 8
      · rw [if_pos hshort] at herr; dsimp only at herr; exact absurd herr (by decide)
      rw [if_neg hshort] at herr ⊢
      dsimp only
      obtain ⟨hc1, hc2, hc3⟩ := hc (by omega)
      unfold PNG_FILE_BUF_SIZE at hc1
      refine ⟨by omega, by omega, by omega, ?_⟩
      intro i hi0 hi8
      have hdl : (r.data.length : Int) = r.ret := hc2
      rw [zero_add, peek_blit _ _ (Int.le_refl 0) hi0 (by omega)]
      have hin : 0 ≤ i ∧ i < 0 + (r.data.length : Int) := by omega
      rw [if_pos hin, hc3, sub_zero, peek_slice file hq hi0 (by omega)]
      congr 1
      omega

theorem refillPhase_header {σ ζ δ : Type} (file : List Nat) (st0 : DecodeState σ ζ δ)
    (herr : (refillPhase st0).pPage.iError = 0) (hb : Buffered file (refillPhase st0)) :
    (refillPhase st0).iOffset + 8 ≤ (refillPhase st0).iBytesRead := by
  by_cases h : i32 (st0.iBytesRead - st0.iOffset) < 8 ∨ st0.more ≠ 0
  swap
  · rw [refillPhase_idle st0 h] at hb ⊢
    obtain ⟨-, hbr0, hbr1, hoff, hoffmax, -, -⟩ := hb
    unfold PNG_FILE_BUF_SIZE at hbr1
    by_contra hc
    apply h
    left
    unfold i32
    omega
  · unfold refillPhase at herr ⊢
    dsimp only at herr ⊢
    rw [if_pos h] at herr ⊢
    split_ifs at herr ⊢ <;> dsimp only at herr ⊢ <;>
      first
        | exact absurd herr (by decide)
        | omega

/-- C9 (unknown-chunk skipping).  Let the main loop of `PNG_decode`, after the
refill of an iteration (`refillPhase st0 = st`, no error), stand at file
position `p` with no current marker and the buffer holding bytes of `file`, and
let the chunk header at `p` declare a length `L ≥ 0` and an unrecognised marker,
the chunk lying inside the file (whose size is below `2^31`).  Then the
iteration ends with no current marker, at file position `p + 8 + L + 4`,
leaving the palette, the transparency key, the background, the row counter, the
draw-side state and the error state as they were; and after the refill of the
next iteration, unless that refill ends in an error, the 8 bytes at the buffer
offset, which the loop parses as the next chunk header, are the 8 bytes of
`file` at position `p + 8 + L + 4`.  No bound on `L` is assumed: `L` may exceed
the 2048-byte buffer. -/
theorem skip_unknown_chunk {σ ζ δ : Type} (Z : InflateEngine ζ) (draw : PNGDRAW → δ → δ)
    (User iOptions hbo : Int) (fuel : Nat) (file : List Nat) (st0 st : DecodeState σ ζ δ)
    (p L : Int)
    (hst : refillPhase st0 = st) (herr : st.pPage.iError = 0) (hmark : st.iMarker = 0)
    (hb : Buffered file st) (hsrc : ReadsFrom file st.pPage)
    (hp : st.iFileOffset - st.iBytesRead + st.iOffset = p)
    (hlen : i32 (MOTOLONG file p) = L) (hL : 0 ≤ L)
    (hin : p + 8 + L + 4 ≤ st.pPage.PNGFile.iSize)
    (hsize : st.pPage.PNGFile.iSize < 2147483648)
    (hunk : MOTOLONG file (p + 4) ≠ PLTE ∧ MOTOLONG file (p + 4) ≠ tRNS ∧
      MOTOLONG file (p + 4) ≠ IDAT ∧ MOTOLONG file (p + 4) ≠ DGKb) :
    ∃ st1, decodeStep Z draw User iOptions hbo fuel st0 = some st1 ∧
      st1.iMarker = 0 ∧
      st1.iFileOffset - st1.iBytesRead + st1.iOffset = p + 8 + L + 4 ∧
      st1.pPage.iError = st0.pPage.iError ∧ st1.y = st0.y ∧ st1.world = st0.world ∧
      st1.pPage.ucPalette = st0.pPage.ucPalette ∧
      st1.pPage.iPaletteCnt = st0.pPage.iPaletteCnt ∧
      st1.pPage.iTrans = st0.pPage.iTrans ∧ st1.pPage.iTransLen = st0.pPage.iTransLen ∧
      st1.pPage.iHasAlpha = st0.pPage.iHasAlpha ∧
      st1.pPage.iBackground = st0.pPage.iBackground ∧
      ∀ st2, refillPhase st1 = st2 → st2.pPage.iError = 0 →
        st2.iMarker = 0 ∧ 0 ≤ st2.iOffset ∧ st2.iOffset + 8 ≤ st2.iBytesRead ∧
        st2.iFileOffset - st2.iBytesRead + st2.iOffset = p + 8 + L + 4 ∧
        ∀ i : Int, 0 ≤ i → i < 8 →
          peek st2.pPage.ucFileBuf (st2.iOffset + i) = peek file (p + 8 + L + 4 + i) := by
  subst hst
  have hhdr := refillPhase_header file st0 herr hb
  obtain ⟨f1, f2, f3, f4, f5, f6, f7, f8, f9, f10, f11⟩ := refillPhase_frame st0
  obtain ⟨herr0, hmore⟩ := f11 herr
  have hb' := hb
  obtain ⟨hcap, hbr0, hbr1, hoff, hoffmax, hfo, hsl⟩ := hb'
  unfold PNG_FILE_BUF_SIZE at hbr1
  generalize hs : refillPhase st0 = st at *
  -- the header as the loop reads it from the buffer
  have e1 : MOTOLONG st.pPage.ucFileBuf st.iOffset = MOTOLONG file p := by
    apply MOTOLONG_congr
    intro k hk0 hk4
    rw [hb.peek_eq (by omega) (by omega)]
    congr 1
    omega
  have e2 : MOTOLONG st.pPage.ucFileBuf (st.iOffset + 4) = MOTOLONG file (p + 4) := by
    apply MOTOLONG_congr
    intro k hk0 hk4
    rw [hb.peek_eq (by omega) (by omega)]
    congr 1
    omega
  have hchk : ¬ (i32 (MOTOLONG st.pPage.ucFileBuf st.iOffset) < 0 ∨
      i32 (MOTOLONG st.pPage.ucFileBuf st.iOffset) + (st.iFileOffset - st.iBytesRead) >
        st.pPage.PNGFile.iSize) := by
    rw [e1, hlen]; omega
  have hunk' : ¬ (MOTOLONG st.pPage.ucFileBuf (st.iOffset + 4) = 0x504c5445 ∨
      MOTOLONG st.pPage.ucFileBuf (st.iOffset + 4) = 0x74524e53 ∨
      MOTOLONG st.pPage.ucFileBuf (st.iOffset + 4) = 0x49444154 ∨
      MOTOLONG st.pPage.ucFileBuf (st.iOffset + 4) = 0x44474b62) := by
    rw [e2]
    unfold PLTE tRNS IDAT DGKb at hunk
    tauto
  have hstep : decodeStep Z draw User iOptions hbo fuel st0 =
      chunkPhase Z draw User iOptions hbo fuel st := by
    unfold decodeStep
    dsimp only
    rw [hs, if_neg (not_not.mpr herr)]
  have hoff' : i32 (i32 (st.iOffset + 8) + i32 (L + 4)) = st.iOffset + 8 + L + 4 := by
    have a1 : i32 (st.iOffset + 8) = st.iOffset + 8 := i32_of_range (by omega) (by omega)
    have a2 : i32 (L + 4) = L + 4 := i32_of_range (by omega) (by omega)
    rw [a1, a2]
    have a3 : i32 (st.iOffset + 8 + (L + 4)) = st.iOffset + 8 + (L + 4) :=
      i32_of_range (by omega) (by omega)
    rw [a3]; omega
  rw [hstep, chunkPhase_skip Z draw User iOptions hbo fuel st hmark hchk hunk', e1, hlen,
    hoff']
  refine ⟨_, rfl, rfl, ?_, ?_, f3, f4, f5, f6, f7, f8, f9, f10, ?_⟩
  · dsimp only; omega
  · dsimp only; rw [herr, herr0]
  · intro st2 h2 herr2
    subst h2
    have hb1 : Buffered file
        { st with iLen := L, iMarker := 0, iOffset := st.iOffset + 8 + L + 4 } := by
      refine ⟨hcap, hbr0, ?_, ?_, ?_, hfo, hsl⟩
      · unfold PNG_FILE_BUF_SIZE; exact hbr1
      · dsimp only; omega
      · dsimp only; omega
    obtain ⟨c1, c2, c3, c4⟩ := refill_cursor file _ hb1 hmore hsrc herr2
    obtain ⟨g1, -⟩ := refillPhase_frame
      { st with iLen := L, iMarker := 0, iOffset := st.iOffset + 8 + L + 4 }
    dsimp only at c1 c4 g1
    refine ⟨g1, c2, c3, ?_, ?_⟩
    · rw [c1]; omega
    · intro i hi0 hi8
      rw [c4 i hi0 hi8]
      congr 1
      omega

theorem slice_slice_length (file : List Nat) (q len : Int) :
    slice file q ((slice file q len).length : Int) = slice file q len := by
  unfold slice
  split_ifs with h
  · simp only [Int.toNat_ofNat, List.length_take, List.length_drop]
    rw [List.take_eq_take]
    simp
  · rfl

/-- The byte source of `main.c` delivers the bytes of the file it was opened on. -/
theorem ReadsFrom_png {ζ δ : Type} (file : List Nat) (p : PNGIMAGE FileDesc ζ δ)
    (hr : p.pfnRead = pngRead) (hs : p.pfnSeek = pngSeek)
    (hf : p.PNGFile.fHandle.bytes = file) : ReadsFrom file p := by
  subst hf
  intro q len hq hlen _
  rw [hr, hs]
  unfold pngRead pngSeek
  rw [if_pos hq]
  dsimp only
  refine ⟨?_, rfl, ?_⟩
  · rcases slice_length_le p.PNGFile.fHandle.bytes q len with h | h
    · exact h
    · rw [h]; exact hlen
  · exact (slice_slice_length _ q len).symm

/-- The explicit state `stateAfterIHDR` is the state the loop reaches on the
sample file after its first iteration. -/
theorem stateAfterIHDR_reached :
    (decodeStep storedInflate recordRow 0 0 1 10
      (decodeInit storedInflate (readySession (sampleFile 3000)) [0, 0] [0, 0] [])).map
        observe = some (observe (stateAfterIHDR (sampleFile 3000))) := by
  decide!

/-- Witness for C9: the `tEXt` chunk of 3000 bytes at file position 33 of the
sample file, met by the loop in its second iteration. -/
theorem skip_unknown_chunk_witness :
    ∃ st1, decodeStep storedInflate recordRow 0 0 1 10 (stateAfterIHDR (sampleFile 3000)) =
        some st1 ∧
      st1.iMarker = 0 ∧
      st1.iFileOffset - st1.iBytesRead + st1.iOffset = 33 + 8 + 3000 + 4 ∧
      st1.pPage.iError = (stateAfterIHDR (sampleFile 3000)).pPage.iError ∧
      st1.y = (stateAfterIHDR (sampleFile 3000)).y ∧
      st1.world = (stateAfterIHDR (sampleFile 3000)).world ∧
      st1.pPage.ucPalette = (stateAfterIHDR (sampleFile 3000)).pPage.ucPalette ∧
      st1.pPage.iPaletteCnt = (stateAfterIHDR (sampleFile 3000)).pPage.iPaletteCnt ∧
      st1.pPage.iTrans = (stateAfterIHDR (sampleFile 3000)).pPage.iTrans ∧
      st1.pPage.iTransLen = (stateAfterIHDR (sampleFile 3000)).pPage.iTransLen ∧
      st1.pPage.iHasAlpha = (stateAfterIHDR (sampleFile 3000)).pPage.iHasAlpha ∧
      st1.pPage.iBackground = (stateAfterIHDR (sampleFile 3000)).pPage.iBackground ∧
      ∀ st2, refillPhase st1 = st2 → st2.pPage.iError = 0 →
        st2.iMarker = 0 ∧ 0 ≤ st2.iOffset ∧ st2.iOffset + 8 ≤ st2.iBytesRead ∧
        st2.iFileOffset - st2.iBytesRead + st2.iOffset = 33 + 8 + 3000 + 4 ∧
        ∀ i : Int, 0 ≤ i → i < 8 →
          peek st2.pPage.ucFileBuf (st2.iOffset + i) =
            peek (sampleFile 3000) (33 + 8 + 3000 + 4 + i) :=
  skip_unknown_chunk storedInflate recordRow 0 0 1 10 (sampleFile 3000)
    (stateAfterIHDR (sampleFile 3000)) (stateAfterIHDR (sampleFile 3000)) 33 3000
    (refillPhase_idle _ (by decide!)) (by decide!) (by decide!)
    (by unfold Buffered; decide!) (ReadsFrom_png _ _ rfl rfl rfl) (by decide!) (by decide!)
    (by decide) (by decide!) (by decide!) (by decide!)

theorem mainLoop_done {σ ζ δ : Type} (Z : InflateEngine ζ) (draw : PNGDRAW → δ → δ)
    (User iOptions hbo : Int) (fuel n : Nat) (st : DecodeState σ ζ δ)
    (h : st.pPage.iError ≠ 0) : mainLoop Z draw User iOptions hbo fuel n st = some st := by
  have hc : ¬ (st.pPage.iError = 0 ∧ st.y < st.pPage.iHeight) := fun hc => h hc.1
  cases n with
  | zero => unfold mainLoop; rw [if_neg hc]
  | succ n => unfold mainLoop; rw [if_neg hc]

/-- C10, as stated, fails: in the sample file the chunk at position 33 has the
unrecognised marker `tEXt` and the declared length 3000, above
`PNG_FILE_BUF_SIZE`; the main loop meets it in its second iteration, before any
row has been drawn, yet `PNG_decode` skips it, decodes the image and returns
`PNG_SUCCESS`, not `PNG_DECODE_ERROR`. -/
theorem oversized_chunk_counterexample :
    i32 (MOTOLONG (sampleFile 3000) 33) = 3000 ∧ (3000 : Int) > PNG_FILE_BUF_SIZE ∧
      MOTOLONG (sampleFile 3000) (33 + 4) ≠ IDAT ∧
      (decodeStep storedInflate recordRow 0 0 1 10
        (decodeInit storedInflate (readySession (sampleFile 3000)) [0, 0] [0, 0] [])).map
          (fun st => (st.iMarker, st.y, st.iFileOffset - st.iBytesRead + st.iOffset)) =
        some (0, 0, 33) ∧
      (PNG_decode storedInflate 10 (readySession (sampleFile 3000)) 0 0 []).map
          (fun r => (r.1, r.2.2)) = some (PNG_SUCCESS, [(0, [128])]) ∧
      (PNG_decode storedInflate 10 (readySession (sampleFile 3000)) 0 0 []).map
          (fun r => r.1) ≠ some PNG_DECODE_ERROR := by
  decide!

/-- C10 (amended): when the main loop of `PNG_decode`, after the refill of an
iteration, parses a chunk header whose marker is one of the recognised
non-image-data markers (`PLTE`, `tRNS`, or `0x44474b62`) and whose declared
length (as an unsigned 32-bit value) exceeds `PNG_FILE_BUF_SIZE = 2048`, the
iteration sets `PNG_DECODE_ERROR` and the loop ends there, so that `PNG_decode`
returns `PNG_DECODE_ERROR`.  (A chunk with an unrecognised marker is skipped
instead, whatever its length.) -/
theorem oversized_chunk_rejected {σ ζ δ : Type} (Z : InflateEngine ζ)
    (draw : PNGDRAW → δ → δ) (User iOptions hbo : Int) (fuel n : Nat)
    (st0 st : DecodeState σ ζ δ)
    (hrun : st0.pPage.iError = 0 ∧ st0.y < st0.pPage.iHeight)
    (hst : refillPhase st0 = st) (herr : st.pPage.iError = 0) (hmark : st.iMarker = 0)
    (hoff : 0 ≤ st.iOffset) (hhdr : st.iOffset + 8 ≤ st.iBytesRead)
    (hcap : st.iBytesRead ≤ PNG_FILE_BUF_SIZE)
    (hm : MOTOLONG st.pPage.ucFileBuf (st.iOffset + 4) = PLTE ∨
      MOTOLONG st.pPage.ucFileBuf (st.iOffset + 4) = tRNS ∨
      MOTOLONG st.pPage.ucFileBuf (st.iOffset + 4) = DGKb)
    (hbig : MOTOLONG st.pPage.ucFileBuf st.iOffset > PNG_FILE_BUF_SIZE) :
    ∃ st1, decodeStep Z draw User iOptions hbo fuel st0 = some st1 ∧
      st1.pPage.iError = PNG_DECODE_ERROR ∧
      mainLoop Z draw User iOptions hbo fuel (n + 1) st0 = some st1 ∧
      st1.y = st0.y ∧ st1.world = st0.world := by
  subst hst
  obtain ⟨-, -, f3, f4, -⟩ := refillPhase_frame st0
  generalize hs : refillPhase st0 = st at *
  unfold PNG_FILE_BUF_SIZE at hcap hbig
  have hstep : decodeStep Z draw User iOptions hbo fuel st0 =
      chunkPhase Z draw User iOptions hbo fuel st := by
    unfold decodeStep
    dsimp only
    rw [hs, if_neg (not_not.mpr herr)]
  have hloop : ∀ st1, chunkPhase Z draw User iOptions hbo fuel st = some st1 →
      st1.pPage.iError = PNG_DECODE_ERROR →
      mainLoop Z draw User iOptions hbo fuel (n + 1) st0 = some st1 := by
    intro st1 h1 h2
    unfold mainLoop
    rw [if_pos hrun, hstep, h1]
    dsimp only
    exact mainLoop_done Z draw User iOptions hbo fuel n st1 (by rw [h2]; decide)
  have hr := MOTOLONG_range st.pPage.ucFileBuf st.iOffset
  by_cases hchk : i32 (MOTOLONG st.pPage.ucFileBuf st.iOffset) < 0 ∨
      i32 (MOTOLONG st.pPage.ucFileBuf st.iOffset) + (st.iFileOffset - st.iBytesRead) >
        st.pPage.PNGFile.iSize
  · have h1 : chunkPhase Z draw User iOptions hbo fuel st =
        some { st with
          iLen := i32 (MOTOLONG st.pPage.ucFileBuf st.iOffset)
          pPage := { st.pPage with iError := PNG_DECODE_ERROR } } := by
      unfold chunkPhase
      dsimp only
      rw [if_pos hmark, if_pos hchk]
    exact ⟨_, by rw [hstep, h1], rfl, hloop _ h1 rfl, f3, f4⟩
  · have hlen : i32 (MOTOLONG st.pPage.ucFileBuf st.iOffset) =
        MOTOLONG st.pPage.ucFileBuf st.iOffset := by
      unfold i32 at hchk ⊢
      omega
    have hk : ¬ ¬ (MOTOLONG st.pPage.ucFileBuf (st.iOffset + 4) = 0x504c5445 ∨
        MOTOLONG st.pPage.ucFileBuf (st.iOffset + 4) = 0x74524e53 ∨
        MOTOLONG st.pPage.ucFileBuf (st.iOffset + 4) = 0x49444154 ∨
        MOTOLONG st.pPage.ucFileBuf (st.iOffset + 4) = 0x44474b62) := by
      unfold PLTE tRNS DGKb at hm
      tauto
    have hni : MOTOLONG st.pPage.ucFileBuf (st.iOffset + 4) ≠ 0x49444154 := by
      unfold PLTE tRNS DGKb at hm
      omega
    have ho8 : i32 (st.iOffset + 8) = st.iOffset + 8 := i32_of_range (by omega) (by omega)
    have hleft : i32 (st.iBytesRead - (st.iOffset + 8)) = st.iBytesRead - (st.iOffset + 8) :=
      i32_of_range (by omega) (by omega)
    have h1 : chunkPhase Z draw User iOptions hbo fuel st =
        some { st with
          iLen := MOTOLONG st.pPage.ucFileBuf st.iOffset
          iMarker := MOTOLONG st.pPage.ucFileBuf (st.iOffset + 4)
          iOffset := st.iOffset + 8
          pPage := { st.pPage with iError := PNG_DECODE_ERROR } } := by
      unfold chunkPhase
      dsimp only
      rw [if_pos hmark, if_neg hchk]
      dsimp only
      rw [if_neg hk, ho8, hleft, hlen, if_pos ⟨hni, by omega⟩,
        if_pos (by unfold PNG_FILE_BUF_SIZE; omega)]
    exact ⟨_, by rw [hstep, h1], rfl, hloop _ h1 rfl, f3, f4⟩

/-- Witness for C10 (amended): a `PLTE` chunk of 3000 bytes at position 33. -/
theorem oversized_chunk_rejected_witness :
    ∃ st1, decodeStep storedInflate recordRow 0 0 1 10
        (stateAfterIHDR (sampleFileWith 80 76 84 69 3000)) = some st1 ∧
      st1.pPage.iError = PNG_DECODE_ERROR ∧
      mainLoop storedInflate recordRow 0 0 1 10 (0 + 1)
        (stateAfterIHDR (sampleFileWith 80 76 84 69 3000)) = some st1 ∧
      st1.y = (stateAfterIHDR (sampleFileWith 80 76 84 69 3000)).y ∧
      st1.world = (stateAfterIHDR (sampleFileWith 80 76 84 69 3000)).world :=
  oversized_chunk_rejected storedInflate recordRow 0 0 1 10 0
    (stateAfterIHDR (sampleFileWith 80 76 84 69 3000))
    (stateAfterIHDR (sampleFileWith 80 76 84 69 3000))
    (by decide!) (refillPhase_idle _ (by decide!)) (by decide!) (by decide!) (by decide!)
    (by decide!) (by decide!) (by decide!) (by decide!)

/-- The whole run on the sample file with an oversized `PLTE` chunk: no row is
drawn and `PNG_decode` returns `PNG_DECODE_ERROR`. -/
theorem oversized_plte_run :
    (PNG_decode storedInflate 10 (readySession (sampleFileWith 80 76 84 69 3000)) 0 0 []).map
      (fun r => (r.1, r.2.2)) = some (PNG_DECODE_ERROR, []) := by
  decide!

/-! ## Theorems: errors, termination and rows of `PNG_decode` -/

/-- C20 (NoBuffer).  If the draw callback or one of the two line buffers of the
session is null, `PNG_decode` returns `PNG_NO_BUFFER` and the session it leaves
is the session it was given with `iError` set to `PNG_NO_BUFFER`: the state of
the byte source (no seek, no read), that of the inflate engine and every other
field are unchanged, and so is the state the draw callback acts on (no draw).
`PNG_getLastError` then returns `PNG_NO_BUFFER`.  This holds for every bound
`fuel`: no loop is entered. -/
theorem PNG_decode_no_buffer {σ ζ δ : Type} (Z : InflateEngine ζ) (fuel : Nat)
    (pPage : PNGIMAGE σ ζ δ) (User iOptions : Int) (world : δ)
    (h : pPage.pfnDraw = none ∨ pPage.uLine1 = none ∨ pPage.uLine2 = none) :
    PNG_decode Z fuel pPage User iOptions world =
        some (PNG_NO_BUFFER, { pPage with iError := PNG_NO_BUFFER }, world) ∧
      PNG_getLastError { pPage with iError := PNG_NO_BUFFER } = PNG_NO_BUFFER := by
  refine ⟨?_, rfl⟩
  unfold PNG_decode
  rcases h with h | h | h
  · rw [h]
  · rw [h]
    cases pPage.pfnDraw <;> rfl
  · rw [h]
    cases pPage.pfnDraw <;> cases pPage.uLine1 <;> rfl

/-- Reading below the offset of a `blit`: the old contents. -/
theorem peek_blit_below (buf : List Nat) {off : Int} (data : List Nat) {i : Int}
    (hi : 0 ≤ i) (hlt : i < off) : peek (blit buf off data) i = peek buf i := by
  have hoff : 0 ≤ off := by omega
  unfold blit
  rw [if_pos hoff, peek_of_nonneg _ hi, peek_of_nonneg buf hi, List.append_assoc,
    getD_append_nat, getD_take_nat]
  have a1 : i.toNat < off.toNat := by omega
  by_cases hb : i.toNat < buf.length
  · have a2 : i.toNat < (buf.take off.toNat).length := by
      rw [List.length_take]; omega
    rw [if_pos a2, if_pos a1]
  · have a2 : ¬ i.toNat < (buf.take off.toNat).length := by
      rw [List.length_take]; omega
    have a3 : buf.length ≤ off.toNat := by omega
    rw [if_neg a2, getD_append_nat, getD_take_nat, getD_drop_nat]
    have a4 : buf.length - off.toNat = 0 := by omega
    rw [a4]
    have a5 : (data.take 0).length = 0 := by simp
    rw [a5, if_neg (by omega), List.getD_eq_default _ _ (by omega),
      List.getD_eq_default buf _ (by omega)]

theorem refillPhase_cases {σ ζ δ : Type} (st : DecodeState σ ζ δ)
    (hneed : i32 (st.iBytesRead - st.iOffset) < 8 ∨ st.more ≠ 0) :
    ((refillRead st).ret < 0 → (refillPhase st).pPage.iError = PNG_IO_ERROR) ∧
    (0 ≤ (refillRead st).ret → (refillRead st).ret + carried st < 8 →
      (refillPhase st).pPage.iError = PNG_DECODE_ERROR) ∧
    (0 ≤ (refillRead st).ret → 8 ≤ (refillRead st).ret + carried st →
      (refillPhase st).pPage.iError = st.pPage.iError ∧ (refillPhase st).iOffset = 0 ∧
      (refillPhase st).iBytesRead = (refillRead st).ret + carried st ∧
      (refillPhase st).pPage.ucFileBuf =
        blit (if i32 (st.iBytesRead - st.iOffset) > 0 then
            blit st.pPage.ucFileBuf 0
              (slice st.pPage.ucFileBuf st.iOffset (i32 (st.iBytesRead - st.iOffset)))
          else st.pPage.ucFileBuf) (carried st) (refillRead st).data) := by
  unfold refillPhase refillRead carried
  dsimp only
  rw [if_pos hneed]
  refine ⟨?_, ?_, ?_⟩
  · intro h
    rw [if_pos h]
  · intro h1 h2
    rw [if_neg (by omega), if_pos h2]
  · intro h1 h2
    rw [if_neg (by omega), if_neg (by omega)]
    exact ⟨rfl, rfl, rfl, rfl⟩

theorem mainLoop_refill_error {σ ζ δ : Type} (Z : InflateEngine ζ) (draw : PNGDRAW → δ → δ)
    (User iOptions hbo : Int) (fuel n : Nat) (st : DecodeState σ ζ δ)
    (hrun : st.pPage.iError = 0 ∧ st.y < st.pPage.iHeight)
    (herr : (refillPhase st).pPage.iError ≠ 0) :
    mainLoop Z draw User iOptions hbo fuel (n + 1) st = some (refillPhase st) := by
  unfold mainLoop
  rw [if_pos hrun]
  unfold decodeStep
  dsimp only
  rw [if_pos herr]
  dsimp only
  exact mainLoop_done Z draw User iOptions hbo fuel n _ herr

/-- C17 (refill errors).  Take an iteration of the main loop of `PNG_decode`
that refills the buffer (fewer than 8 unconsumed bytes are left, or `more` is
set).  `refillRead st` is the call of the read callback and `carried st` the
number of unconsumed bytes carried over.  If the read returns a negative value,
the loop ends in this iteration with `PNG_IO_ERROR` (which `PNG_decode`
returns); otherwise, if carried-over and newly read bytes together are fewer
than 8, it ends with `PNG_DECODE_ERROR`; otherwise the refill sets no error,
resets `iOffset` to 0, counts both in `iBytesRead`, and the unconsumed bytes
(which lie inside the buffer) are at the front of the buffer in their original
order.  In the two error cases no row is drawn. -/
theorem refill_errors {σ ζ δ : Type} (Z : InflateEngine ζ) (draw : PNGDRAW → δ → δ)
    (User iOptions hbo : Int) (fuel n : Nat) (st : DecodeState σ ζ δ)
    (hrun : st.pPage.iError = 0 ∧ st.y < st.pPage.iHeight)
    (hneed : i32 (st.iBytesRead - st.iOffset) < 8 ∨ st.more ≠ 0) :
    ((refillRead st).ret < 0 →
      ∃ st1, mainLoop Z draw User iOptions hbo fuel (n + 1) st = some st1 ∧
        st1.pPage.iError = PNG_IO_ERROR ∧ st1.world = st.world ∧ st1.y = st.y) ∧
    (0 ≤ (refillRead st).ret → (refillRead st).ret + carried st < 8 →
      ∃ st1, mainLoop Z draw User iOptions hbo fuel (n + 1) st = some st1 ∧
        st1.pPage.iError = PNG_DECODE_ERROR ∧ st1.world = st.world ∧ st1.y = st.y) ∧
    (0 ≤ (refillRead st).ret → 8 ≤ (refillRead st).ret + carried st →
      (refillPhase st).pPage.iError = 0 ∧ (refillPhase st).iOffset = 0 ∧
      (refillPhase st).iBytesRead = (refillRead st).ret + carried st ∧
      (0 ≤ st.iOffset → st.iOffset + carried st ≤ st.pPage.ucFileBuf.length →
        ∀ k : Int, 0 ≤ k → k < carried st →
          peek (refillPhase st).pPage.ucFileBuf k =
            peek st.pPage.ucFileBuf (st.iOffset + k))) := by
  obtain ⟨c1, c2, c3⟩ := refillPhase_cases st hneed
  obtain ⟨-, -, f3, f4, -⟩ := refillPhase_frame st
  refine ⟨?_, ?_, ?_⟩
  · intro h
    have he := c1 h
    exact ⟨_, mainLoop_refill_error Z draw User iOptions hbo fuel n st hrun
      (by rw [he]; decide), he, f4, f3⟩
  · intro h1 h2
    have he := c2 h1 h2
    exact ⟨_, mainLoop_refill_error Z draw User iOptions hbo fuel n st hrun
      (by rw [he]; decide), he, f4, f3⟩
  · intro h1 h2
    obtain ⟨e1, e2, e3, e4⟩ := c3 h1 h2
    refine ⟨by rw [e1]; exact hrun.1, e2, e3, ?_⟩
    intro hoff hfit k hk0 hk
    rw [e4, peek_blit_below _ _ hk0 hk]
    unfold carried at hk hfit
    by_cases hpos : i32 (st.iBytesRead - st.iOffset) > 0
    · rw [if_pos hpos] at hk hfit
      rw [if_pos hpos]
      have hsl : ((slice st.pPage.ucFileBuf st.iOffset
          (i32 (st.iBytesRead - st.iOffset))).length : Int) =
            i32 (st.iBytesRead - st.iOffset) :=
        slice_length _ hoff (by omega) hfit
      rw [peek_blit _ _ (Int.le_refl 0) hk0 (by omega), if_pos (by omega), sub_zero,
        peek_slice _ hoff hk0 hk]
    · rw [if_neg hpos] at hk
      omega

theorem headerRead_of_marker {σ ζ δ : Type} (st : DecodeState σ ζ δ) (h : st.iMarker ≠ 0) :
    headerRead st = st := by
  unfold headerRead
  rw [if_neg h]

theorem headerRead_frame {σ ζ δ : Type} (st : DecodeState σ ζ δ) :
    (headerRead st).pPage = st.pPage ∧ (headerRead st).world = st.world ∧
      (headerRead st).y = st.y ∧ (headerRead st).iBytesRead = st.iBytesRead ∧
      (headerRead st).iFileOffset = st.iFileOffset ∧ (headerRead st).more = st.more := by
  unfold headerRead
  split_ifs <;> exact ⟨rfl, rfl, rfl, rfl, rfl, rfl⟩

/-- An iteration whose header check fails ends with `PNG_DECODE_ERROR`. -/
theorem chunkPhase_bad_header {σ ζ δ : Type} (Z : InflateEngine ζ) (draw : PNGDRAW → δ → δ)
    (User iOptions hbo : Int) (fuel : Nat) (st : DecodeState σ ζ δ) (hmark : st.iMarker = 0)
    (hchk : i32 (MOTOLONG st.pPage.ucFileBuf st.iOffset) < 0 ∨
      i32 (MOTOLONG st.pPage.ucFileBuf st.iOffset) + (st.iFileOffset - st.iBytesRead) >
        st.pPage.PNGFile.iSize) :
    chunkPhase Z draw User iOptions hbo fuel st =
      some { st with
        iLen := i32 (MOTOLONG st.pPage.ucFileBuf st.iOffset)
        pPage := { st.pPage with iError := PNG_DECODE_ERROR } } := by
  unfold chunkPhase
  dsimp only
  rw [if_pos hmark, if_pos hchk]

/-- Once the header of a chunk has been read and accepted, the iteration goes on
as from a state that has the marker in hand. -/
theorem chunkPhase_headerRead {σ ζ δ : Type} (Z : InflateEngine ζ) (draw : PNGDRAW → δ → δ)
    (User iOptions hbo : Int) (fuel : Nat) (st : DecodeState σ ζ δ)
    (hchk : st.iMarker = 0 → ¬ (i32 (MOTOLONG st.pPage.ucFileBuf st.iOffset) < 0 ∨
      i32 (MOTOLONG st.pPage.ucFileBuf st.iOffset) + (st.iFileOffset - st.iBytesRead) >
        st.pPage.PNGFile.iSize))
    (hne : (headerRead st).iMarker ≠ 0) :
    chunkPhase Z draw User iOptions hbo fuel st =
      chunkPhase Z draw User iOptions hbo fuel (headerRead st) := by
  by_cases hmark : st.iMarker = 0
  · have hc := hchk hmark
    unfold headerRead at hne ⊢
    rw [if_pos hmark] at hne ⊢
    dsimp only at hne
    unfold chunkPhase
    dsimp only
    rw [if_pos hmark, if_neg hc, if_neg hne]
  · rw [headerRead_of_marker st hmark]

theorem chunkPhase_plte_bad {σ ζ δ : Type} (Z : InflateEngine ζ) (draw : PNGDRAW → δ → δ)
    (User iOptions hbo : Int) (fuel : Nat) (st : DecodeState σ ζ δ)
    (hm : st.iMarker = PLTE) (hfull : ¬ i32 (st.iBytesRead - st.iOffset) < st.iLen)
    (hbad : st.iLen > 768 ∨ Int.tmod st.iLen 3 ≠ 0) :
    chunkPhase Z draw User iOptions hbo fuel st =
      some { st with pPage := { st.pPage with iError := PNG_DECODE_ERROR } } := by
  unfold PLTE at hm
  have h0 : st.iMarker ≠ 0 := by rw [hm]; decide
  have hk : ¬ ¬ (st.iMarker = 0x504c5445 ∨ st.iMarker = 0x74524e53 ∨
      st.iMarker = 0x49444154 ∨ st.iMarker = 0x44474b62) := by
    rw [hm]; decide
  have hnf : ¬ (st.iMarker ≠ 0x49444154 ∧ i32 (st.iBytesRead - st.iOffset) < st.iLen) :=
    fun h => hfull h.2
  have hnb : ¬ st.iMarker = 0x44474b62 := by rw [hm]; decide
  unfold chunkPhase
  dsimp only
  rw [if_neg h0]
  dsimp only
  rw [if_neg hk, if_neg hnf, if_neg hnb, if_pos hm]
  unfold plteCase
  rw [if_pos hbad]
  dsimp only
  rw [if_neg h0]

theorem chunkPhase_trns_bad {σ ζ δ : Type} (Z : InflateEngine ζ) (draw : PNGDRAW → δ → δ)
    (User iOptions hbo : Int) (fuel : Nat) (st : DecodeState σ ζ δ)
    (hm : st.iMarker = tRNS) (hfull : ¬ i32 (st.iBytesRead - st.iOffset) < st.iLen)
    (hidx : st.pPage.ucPixelType = PNG_PIXEL_INDEXED) (hbad : st.iLen > 256) :
    chunkPhase Z draw User iOptions hbo fuel st =
      some { st with pPage := { st.pPage with iError := PNG_DECODE_ERROR } } := by
  unfold tRNS at hm
  have h0 : st.iMarker ≠ 0 := by rw [hm]; decide
  have hk : ¬ ¬ (st.iMarker = 0x504c5445 ∨ st.iMarker = 0x74524e53 ∨
      st.iMarker = 0x49444154 ∨ st.iMarker = 0x44474b62) := by
    rw [hm]; decide
  have hnf : ¬ (st.iMarker ≠ 0x49444154 ∧ i32 (st.iBytesRead - st.iOffset) < st.iLen) :=
    fun h => hfull h.2
  have hnb : ¬ st.iMarker = 0x44474b62 := by rw [hm]; decide
  have hnp : ¬ st.iMarker = 0x504c5445 := by rw [hm]; decide
  unfold chunkPhase
  dsimp only
  rw [if_neg h0]
  dsimp only
  rw [if_neg hk, if_neg hnf, if_neg hnb, if_neg hnp, if_pos hm]
  unfold trnsCase
  dsimp only
  rw [if_pos hidx, if_pos hbad]
  dsimp only
  rw [if_neg h0]

theorem mainLoop_error_step {σ ζ δ : Type} (Z : InflateEngine ζ) (draw : PNGDRAW → δ → δ)
    (User iOptions hbo : Int) (fuel n : Nat) (st0 st1 : DecodeState σ ζ δ)
    (hrun : st0.pPage.iError = 0 ∧ st0.y < st0.pPage.iHeight)
    (herr : (refillPhase st0).pPage.iError = 0)
    (hstep : chunkPhase Z draw User iOptions hbo fuel (refillPhase st0) = some st1)
    (hend : ¬ (st1.pPage.iError = 0 ∧ st1.y < st1.pPage.iHeight)) :
    mainLoop Z draw User iOptions hbo fuel (n + 1) st0 = some st1 := by
  unfold mainLoop
  rw [if_pos hrun]
  unfold decodeStep
  dsimp only
  rw [if_neg (not_not.mpr herr), hstep]
  dsimp only
  cases n with
  | zero => unfold mainLoop; rw [if_neg hend]
  | succ n => unfold mainLoop; rw [if_neg hend]

/-- C18 (amended): malformed metadata length.  Take an iteration of the main
loop that, after its refill, has a `PLTE` or `tRNS` chunk in hand (`st` is the
state once the header has been read, or the state that carries the marker over
from an earlier iteration) with the payload complete in the buffer.  If the
chunk is `PLTE` and its length exceeds 768 or is not a multiple of 3, or the
chunk is `tRNS`, the image is indexed and the length exceeds 256, the loop ends
in this iteration with `PNG_DECODE_ERROR`, which is not `PNG_INVALID_FILE`, and
no row is drawn. -/
theorem malformed_metadata_length {σ ζ δ : Type} (Z : InflateEngine ζ)
    (draw : PNGDRAW → δ → δ) (User iOptions hbo : Int) (fuel n : Nat)
    (st0 st : DecodeState σ ζ δ)
    (hrun : st0.pPage.iError = 0 ∧ st0.y < st0.pPage.iHeight)
    (herr : (refillPhase st0).pPage.iError = 0)
    (hst : headerRead (refillPhase st0) = st)
    (hfull : st.iLen ≤ i32 (st.iBytesRead - st.iOffset))
    (hbad : (st.iMarker = PLTE ∧ (st.iLen > 768 ∨ ¬ (3 : Int) ∣ st.iLen)) ∨
      (st.iMarker = tRNS ∧ st.pPage.ucPixelType = PNG_PIXEL_INDEXED ∧ st.iLen > 256)) :
    ∃ st1, mainLoop Z draw User iOptions hbo fuel (n + 1) st0 = some st1 ∧
      st1.pPage.iError = PNG_DECODE_ERROR ∧ st1.pPage.iError ≠ PNG_INVALID_FILE ∧
      st1.world = st0.world ∧ st1.y = st0.y := by
  obtain ⟨-, -, f3, f4, -⟩ := refillPhase_frame st0
  obtain ⟨g1, g2, g3, -⟩ := headerRead_frame (refillPhase st0)
  rw [hst] at g1 g2 g3
  have hcode : PNG_DECODE_ERROR ≠ PNG_INVALID_FILE := by decide
  have hfin : ∀ st1 : DecodeState σ ζ δ, st1.pPage.iError = PNG_DECODE_ERROR →
      ¬ (st1.pPage.iError = 0 ∧ st1.y < st1.pPage.iHeight) := by
    intro st1 h1 h2
    rw [h1] at h2
    exact absurd h2.1 (by decide)
  by_cases hchk : (refillPhase st0).iMarker = 0 ∧
      (i32 (MOTOLONG (refillPhase st0).pPage.ucFileBuf (refillPhase st0).iOffset) < 0 ∨
      i32 (MOTOLONG (refillPhase st0).pPage.ucFileBuf (refillPhase st0).iOffset) +
        ((refillPhase st0).iFileOffset - (refillPhase st0).iBytesRead) >
          (refillPhase st0).pPage.PNGFile.iSize)
  · have h1 := chunkPhase_bad_header Z draw User iOptions hbo fuel _ hchk.1 hchk.2
    exact ⟨_, mainLoop_error_step Z draw User iOptions hbo fuel n st0 _ hrun herr h1
      (hfin _ rfl), rfl, hcode, f4, f3⟩
  · have hm0 : st.iMarker ≠ 0 := by
      rcases hbad with h | h
      · rw [h.1]; decide
      · rw [h.1]; decide
    have h1 := chunkPhase_headerRead Z draw User iOptions hbo fuel (refillPhase st0)
      (fun hm hc => hchk ⟨hm, hc⟩) (by rw [hst]; exact hm0)
    rw [hst] at h1
    have h2 : chunkPhase Z draw User iOptions hbo fuel st =
        some { st with pPage := { st.pPage with iError := PNG_DECODE_ERROR } } := by
      rcases hbad with ⟨hm, hb⟩ | ⟨hm, hidx, hb⟩
      · apply chunkPhase_plte_bad Z draw User iOptions hbo fuel st hm (by omega)
        rcases hb with hb | hb
        · exact Or.inl hb
        · exact Or.inr (fun h => hb (Int.dvd_of_tmod_eq_zero h))
      · exact chunkPhase_trns_bad Z draw User iOptions hbo fuel st hm (by omega) hidx hb
    rw [h2] at h1
    refine ⟨_, mainLoop_error_step Z draw User iOptions hbo fuel n st0 _ hrun herr h1
      (hfin _ rfl), rfl, hcode, ?_, ?_⟩
    · exact g2.trans f4
    · exact g3.trans f3

/-- A set of loop states that the loop condition accepts and that an iteration
does not leave is never left: the main loop does not end from any of them. -/
theorem mainLoop_spin {σ ζ δ : Type} (Z : InflateEngine ζ) (draw : PNGDRAW → δ → δ)
    (User iOptions hbo : Int) (fuel : Nat) (P : DecodeState σ ζ δ → Prop)
    (hP : ∀ st, P st → (st.pPage.iError = 0 ∧ st.y < st.pPage.iHeight) ∧
      ∃ st1, decodeStep Z draw User iOptions hbo fuel st = some st1 ∧ P st1) :
    ∀ (n : Nat) (st : DecodeState σ ζ δ), P st →
      mainLoop Z draw User iOptions hbo fuel n st = none := by
  intro n
  induction n with
  | zero =>
    intro st h
    unfold mainLoop
    rw [if_pos (hP st h).1]
  | succ n ih =>
    intro st h
    obtain ⟨hrun, st1, hstep, h1⟩ := hP st h
    unfold mainLoop
    rw [if_pos hrun, hstep]
    exact ih st1 h1

theorem bkgdCase_frame {σ ζ δ : Type} (hbo : Int) (st : DecodeState σ ζ δ) :
    (bkgdCase hbo st).pPage.iError = st.pPage.iError ∧
      (bkgdCase hbo st).pPage.iHeight = st.pPage.iHeight ∧
      (bkgdCase hbo st).y = st.y ∧ (bkgdCase hbo st).iMarker = st.iMarker ∧
      (bkgdCase hbo st).more = st.more ∧ (bkgdCase hbo st).iBytesRead = st.iBytesRead ∧
      (bkgdCase hbo st).iOffset = st.iOffset ∧ (bkgdCase hbo st).iLen = st.iLen ∧
      (bkgdCase hbo st).world = st.world := by
  unfold bkgdCase
  dsimp only
  split_ifs <;> exact ⟨rfl, rfl, rfl, rfl, rfl, rfl, rfl, rfl, rfl⟩

/-- The case of the marker `0x44474b62` leaves the marker in hand and the buffer
offset where they are. -/
theorem chunkPhase_bkgd {σ ζ δ : Type} (Z : InflateEngine ζ) (draw : PNGDRAW → δ → δ)
    (User iOptions hbo : Int) (fuel : Nat) (st : DecodeState σ ζ δ)
    (hm : st.iMarker = DGKb) (hfull : ¬ i32 (st.iBytesRead - st.iOffset) < st.iLen) :
    chunkPhase Z draw User iOptions hbo fuel st = some (bkgdCase hbo st) := by
  unfold DGKb at hm
  have h0 : st.iMarker ≠ 0 := by rw [hm]; decide
  have hk : ¬ ¬ (st.iMarker = 0x504c5445 ∨ st.iMarker = 0x74524e53 ∨
      st.iMarker = 0x49444154 ∨ st.iMarker = 0x44474b62) := by
    rw [hm]; decide
  have hnf : ¬ (st.iMarker ≠ 0x49444154 ∧ i32 (st.iBytesRead - st.iOffset) < st.iLen) :=
    fun h => hfull h.2
  have h1 : (bkgdCase hbo st).iMarker ≠ 0 := by
    rw [(bkgdCase_frame hbo st).2.2.2.1]; exact h0
  unfold chunkPhase
  dsimp only
  rw [if_neg h0]
  dsimp only
  rw [if_neg hk, if_neg hnf, if_pos hm]
  dsimp only
  rw [if_neg h1]

theorem background_case_step {σ ζ δ : Type} (Z : InflateEngine ζ) (draw : PNGDRAW → δ → δ)
    (User iOptions hbo : Int) (fuel : Nat) (st : DecodeState σ ζ δ)
    (h : InBackgroundCase st) :
    decodeStep Z draw User iOptions hbo fuel st = some (bkgdCase hbo st) ∧
      InBackgroundCase (bkgdCase hbo st) := by
  obtain ⟨hrun, hm, hmore, h8, hlen⟩ := h
  have hidle : ¬ (i32 (st.iBytesRead - st.iOffset) < 8 ∨ st.more ≠ 0) := by
    intro hc
    rcases hc with hc | hc
    · omega
    · exact hc hmore
  obtain ⟨f1, f2, f3, f4, f5, f6, f7, f8, -⟩ := bkgdCase_frame hbo st
  refine ⟨?_, ?_⟩
  · unfold decodeStep
    dsimp only
    rw [refillPhase_idle st hidle, if_neg (not_not.mpr hrun.1)]
    exact chunkPhase_bkgd Z draw User iOptions hbo fuel st hm (by omega)
  · unfold InBackgroundCase
    rw [f1, f2, f3, f4, f5, f6, f7, f8]
    exact ⟨hrun, hm, hmore, h8, hlen⟩

/-- From a state in the background case the main loop never ends. -/
theorem background_case_spins {σ ζ δ : Type} (Z : InflateEngine ζ) (draw : PNGDRAW → δ → δ)
    (User iOptions hbo : Int) (fuel n : Nat) (st : DecodeState σ ζ δ)
    (h : InBackgroundCase st) : mainLoop Z draw User iOptions hbo fuel n st = none :=
  mainLoop_spin Z draw User iOptions hbo fuel InBackgroundCase
    (fun st h => ⟨h.1, _, background_case_step Z draw User iOptions hbo fuel st h⟩) n st h
theorem decodeStep_chunk {σ ζ δ : Type} (Z : InflateEngine ζ) (draw : PNGDRAW → δ → δ)
    (User iOptions hbo : Int) (fuel : Nat) (st : DecodeState σ ζ δ)
    (herr : (refillPhase st).pPage.iError = 0) :
    decodeStep Z draw User iOptions hbo fuel st =
      chunkPhase Z draw User iOptions hbo fuel (refillPhase st) := by
  unfold decodeStep
  dsimp only
  rw [if_neg (not_not.mpr herr)]

theorem chunkPhase_skipped {σ ζ δ : Type} (Z : InflateEngine ζ) (draw : PNGDRAW → δ → δ)
    (User iOptions hbo : Int) (fuel : Nat) (st : DecodeState σ ζ δ)
    (hmark : st.iMarker = 0)
    (hchk : ¬ (i32 (MOTOLONG st.pPage.ucFileBuf st.iOffset) < 0 ∨
      i32 (MOTOLONG st.pPage.ucFileBuf st.iOffset) + (st.iFileOffset - st.iBytesRead) >
        st.pPage.PNGFile.iSize))
    (hunk : ¬ (MOTOLONG st.pPage.ucFileBuf (st.iOffset + 4) = 0x504c5445 ∨
      MOTOLONG st.pPage.ucFileBuf (st.iOffset + 4) = 0x74524e53 ∨
      MOTOLONG st.pPage.ucFileBuf (st.iOffset + 4) = 0x49444154 ∨
      MOTOLONG st.pPage.ucFileBuf (st.iOffset + 4) = 0x44474b62)) :
    chunkPhase Z draw User iOptions hbo fuel st = some (skipped st) :=
  chunkPhase_skip Z draw User iOptions hbo fuel st hmark hchk hunk

/-- The first iteration of the main loop on a sample file skips the `IHDR`
chunk. -/
theorem first_iteration (Z : InflateEngine StoredState)
    (draw : PNGDRAW → List (Int × List Nat) → List (Int × List Nat))
    (User iOptions hbo : Int) (fuel : Nat) (file : List Nat)
    (hrun : (firstState file).pPage.iError = 0 ∧
      (firstState file).y < (firstState file).pPage.iHeight)
    (herr : (refillPhase (firstState file)).pPage.iError = 0)
    (hmark : (refillPhase (firstState file)).iMarker = 0)
    (hchk : ¬ (i32 (MOTOLONG (refillPhase (firstState file)).pPage.ucFileBuf
        (refillPhase (firstState file)).iOffset) < 0 ∨
      i32 (MOTOLONG (refillPhase (firstState file)).pPage.ucFileBuf
        (refillPhase (firstState file)).iOffset) +
          ((refillPhase (firstState file)).iFileOffset -
            (refillPhase (firstState file)).iBytesRead) >
        (refillPhase (firstState file)).pPage.PNGFile.iSize))
    (hunk : ¬ (MOTOLONG (refillPhase (firstState file)).pPage.ucFileBuf
        ((refillPhase (firstState file)).iOffset + 4) = 0x504c5445 ∨
      MOTOLONG (refillPhase (firstState file)).pPage.ucFileBuf
        ((refillPhase (firstState file)).iOffset + 4) = 0x74524e53 ∨
      MOTOLONG (refillPhase (firstState file)).pPage.ucFileBuf
        ((refillPhase (firstState file)).iOffset + 4) = 0x49444154 ∨
      MOTOLONG (refillPhase (firstState file)).pPage.ucFileBuf
        ((refillPhase (firstState file)).iOffset + 4) = 0x44474b62))
    (n : Nat) :
    mainLoop Z draw User iOptions hbo fuel (n + 1) (firstState file) =
      mainLoop Z draw User iOptions hbo fuel n (secondState file) := by
  unfold secondState
  conv => lhs; unfold mainLoop
  rw [if_pos hrun, decodeStep_chunk Z draw User iOptions hbo fuel _ herr,
    chunkPhase_skipped Z draw User iOptions hbo fuel _ hmark hchk hunk]

theorem spinFile_first (fuel n : Nat) :
    mainLoop storedInflate recordRow 0 0 1 fuel (n + 1) (firstState spinFile) =
      mainLoop storedInflate recordRow 0 0 1 fuel n (secondState spinFile) :=
  first_iteration storedInflate recordRow 0 0 1 fuel spinFile (by decide!) (by decide!)
    (by decide!) (by decide!) (by decide!) n

theorem spinFile_second :
    InBackgroundCase (bkgdCase 1 (headerRead (secondState spinFile))) := by
  unfold InBackgroundCase
  decide!

theorem spinFile_loop (fuel n : Nat) :
    mainLoop storedInflate recordRow 0 0 1 fuel n (firstState spinFile) = none := by
  have hrun0 : (firstState spinFile).pPage.iError = 0 ∧
      (firstState spinFile).y < (firstState spinFile).pPage.iHeight := by decide!
  have hrun1 : (secondState spinFile).pPage.iError = 0 ∧
      (secondState spinFile).y < (secondState spinFile).pPage.iHeight := by decide!
  have hidle : ¬ (i32 ((secondState spinFile).iBytesRead - (secondState spinFile).iOffset) < 8 ∨
      (secondState spinFile).more ≠ 0) := by decide!
  have hchk : (secondState spinFile).iMarker = 0 →
      ¬ (i32 (MOTOLONG (secondState spinFile).pPage.ucFileBuf (secondState spinFile).iOffset) < 0 ∨
      i32 (MOTOLONG (secondState spinFile).pPage.ucFileBuf (secondState spinFile).iOffset) +
        ((secondState spinFile).iFileOffset - (secondState spinFile).iBytesRead) >
          (secondState spinFile).pPage.PNGFile.iSize) := by decide!
  have hne : (headerRead (secondState spinFile)).iMarker ≠ 0 := by decide!
  have hm : (headerRead (secondState spinFile)).iMarker = DGKb := by decide!
  have hfull : ¬ i32 ((headerRead (secondState spinFile)).iBytesRead -
      (headerRead (secondState spinFile)).iOffset) < (headerRead (secondState spinFile)).iLen := by
    decide!
  cases n with
  | zero => unfold mainLoop; rw [if_pos hrun0]
  | succ n =>
    rw [spinFile_first]
    cases n with
    | zero => unfold mainLoop; rw [if_pos hrun1]
    | succ n =>
      conv => lhs; unfold mainLoop
      rw [if_pos hrun1]
      unfold decodeStep
      dsimp only
      rw [refillPhase_idle _ hidle, if_neg (not_not.mpr hrun1.1),
        chunkPhase_headerRead storedInflate recordRow 0 0 1 fuel _ hchk hne,
        chunkPhase_bkgd storedInflate recordRow 0 0 1 fuel _ hm hfull]
      exact background_case_spins storedInflate recordRow 0 0 1 fuel n _ spinFile_second

theorem background_chunk_never_ends (fuel : Nat) :
    PNG_decode storedInflate fuel (readySession spinFile) 0 0 [] = none := by
  have hd : (readySession spinFile).pfnDraw = some recordRow := rfl
  have h1 : (readySession spinFile).uLine1 = some [0, 0] := by decide!
  have h2 : (readySession spinFile).uLine2 = some [0, 0] := by decide!
  have hb : (if (readySession spinFile).ucBpp > 8 then (0 : Int) else 1) = 1 := by decide!
  have hl := spinFile_loop fuel fuel
  unfold firstState at hl
  unfold PNG_decode
  rw [hd, h1, h2]
  dsimp only
  rw [hb, hl]

/-- What a refill does to the byte source and the file position. -/
theorem refillPhase_source {σ ζ δ : Type} (st : DecodeState σ ζ δ)
    (hneed : i32 (st.iBytesRead - st.iOffset) < 8 ∨ st.more ≠ 0) :
    (refillPhase st).pPage.pfnRead = st.pPage.pfnRead ∧
      (refillPhase st).pPage.pfnSeek = st.pPage.pfnSeek ∧
      (refillPhase st).pPage.iHeight = st.pPage.iHeight ∧
      (refillPhase st).pPage.ucPixelType = st.pPage.ucPixelType ∧
      (refillPhase st).pPage.PNGFile = (refillRead st).file ∧
      (0 ≤ (refillRead st).ret →
        (refillPhase st).iFileOffset =
          (if i32 (st.iBytesRead - st.iOffset) > 0 then st.iFileOffset
            else st.iFileOffset - i32 (st.iBytesRead - st.iOffset)) + (refillRead st).ret) := by
  unfold refillPhase refillRead carried
  dsimp only
  rw [if_pos hneed]
  split_ifs <;> dsimp only <;> refine ⟨rfl, rfl, rfl, rfl, rfl, ?_⟩ <;> intro h <;>
    first
      | rfl
      | omega

/-- At the end of the file `pngRead` delivers nothing. -/
theorem pngRead_at_end (pFile : PNGFILE FileDesc) (pos len : Int)
    (h : (pFile.fHandle.bytes.length : Int) ≤ pos) :
    (pngRead (pngSeek pFile pos) len).ret = 0 ∧
      (pngRead (pngSeek pFile pos) len).file.fHandle.bytes = pFile.fHandle.bytes := by
  have hpos : 0 ≤ pos := by omega
  unfold pngRead pngSeek
  rw [if_pos hpos]
  dsimp only
  unfold slice
  rw [if_pos hpos, List.drop_of_length_le (by omega), List.take_nil]
  exact ⟨rfl, rfl⟩

/-- A chunk that is not image data and is not yet complete in the buffer makes
the iteration ask for more data. -/
theorem chunkPhase_wait {σ ζ δ : Type} (Z : InflateEngine ζ) (draw : PNGDRAW → δ → δ)
    (User iOptions hbo : Int) (fuel : Nat) (st : DecodeState σ ζ δ)
    (hm : st.iMarker = PLTE ∨ st.iMarker = tRNS ∨ st.iMarker = DGKb)
    (hleft : i32 (st.iBytesRead - st.iOffset) < st.iLen)
    (hlen : st.iLen ≤ PNG_FILE_BUF_SIZE) :
    chunkPhase Z draw User iOptions hbo fuel st = some { st with more := 1 } := by
  unfold PLTE tRNS DGKb at hm
  have h0 : st.iMarker ≠ 0 := by omega
  have hk : ¬ ¬ (st.iMarker = 0x504c5445 ∨ st.iMarker = 0x74524e53 ∨
      st.iMarker = 0x49444154 ∨ st.iMarker = 0x44474b62) := by omega
  have hnf : st.iMarker ≠ 0x49444154 ∧ i32 (st.iBytesRead - st.iOffset) < st.iLen :=
    ⟨by omega, hleft⟩
  unfold chunkPhase
  dsimp only
  rw [if_neg h0]
  dsimp only
  rw [if_neg hk, if_pos hnf, if_neg (by omega)]

theorem starved_step {ζ δ : Type} (Z : InflateEngine ζ) (draw : PNGDRAW → δ → δ)
    (User iOptions hbo : Int) (fuel : Nat) (st : DecodeState FileDesc ζ δ)
    (h : Starved st) :
    (st.pPage.iError = 0 ∧ st.y < st.pPage.iHeight) ∧
      ∃ st1, decodeStep Z draw User iOptions hbo fuel st = some st1 ∧ Starved st1 := by
  obtain ⟨hrun, hm, hmore, h8, hlt, hlen, hrd, hsk, hend⟩ := h
  have hneed : i32 (st.iBytesRead - st.iOffset) < 8 ∨ st.more ≠ 0 := Or.inr hmore
  have hpos : i32 (st.iBytesRead - st.iOffset) > 0 := by omega
  have hcar : carried st = i32 (st.iBytesRead - st.iOffset) := by
    unfold carried; rw [if_pos hpos]
  have hread : (refillRead st).ret = 0 ∧
      (refillRead st).file.fHandle.bytes = st.pPage.PNGFile.fHandle.bytes := by
    unfold refillRead
    rw [if_pos hpos, hrd, hsk]
    exact pngRead_at_end _ _ _ hend
  obtain ⟨-, -, c3⟩ := refillPhase_cases st hneed
  obtain ⟨e1, e2, e3, -⟩ := c3 (by omega) (by omega)
  obtain ⟨f1, f2, f3, f4, -⟩ := refillPhase_frame st
  obtain ⟨s1, s2, s3, -, s5, s6⟩ := refillPhase_source st hneed
  have s6' := s6 (by omega)
  rw [if_pos hpos, hread.1, add_zero] at s6'
  rw [hread.1, zero_add, hcar] at e3
  have hleft' : i32 ((refillPhase st).iBytesRead - (refillPhase st).iOffset) =
      i32 (st.iBytesRead - st.iOffset) := by
    rw [e3, e2, sub_zero]
    unfold PNG_FILE_BUF_SIZE at hlen
    exact i32_of_range (by omega) (by omega)
  have herr : (refillPhase st).pPage.iError = 0 := by rw [e1]; exact hrun.1
  refine ⟨hrun, { refillPhase st with more := 1 }, ?_, ?_⟩
  · unfold decodeStep
    dsimp only
    rw [if_neg (not_not.mpr herr)]
    exact chunkPhase_wait Z draw User iOptions hbo fuel _ (by rw [f1]; exact hm)
      (by rw [hleft', f2]; exact hlt) (by rw [f2]; exact hlen)
  · unfold Starved
    dsimp only
    rw [herr, f3, s3, f1, hleft', f2, s1, s2, s5, hread.2, s6']
    exact ⟨⟨rfl, hrun.2⟩, hm, by decide, h8, hlt, hlen, hrd, hsk, hend⟩

/-- From a starved state the main loop never ends. -/
theorem starved_spins {ζ δ : Type} (Z : InflateEngine ζ) (draw : PNGDRAW → δ → δ)
    (User iOptions hbo : Int) (fuel n : Nat) (st : DecodeState FileDesc ζ δ)
    (h : Starved st) : mainLoop Z draw User iOptions hbo fuel n st = none :=
  mainLoop_spin Z draw User iOptions hbo fuel Starved
    (fun st h => starved_step Z draw User iOptions hbo fuel st h) n st h

theorem truncatedFile_first (fuel n : Nat) :
    mainLoop storedInflate recordRow 0 0 1 fuel (n + 1) (firstState truncatedFile) =
      mainLoop storedInflate recordRow 0 0 1 fuel n (secondState truncatedFile) :=
  first_iteration storedInflate recordRow 0 0 1 fuel truncatedFile (by decide!) (by decide!)
    (by decide!) (by decide!) (by decide!) n

theorem skipped_pPage {σ ζ δ : Type} (st : DecodeState σ ζ δ) :
    (skipped st).pPage = st.pPage := rfl

theorem decodeInit_source {σ ζ δ : Type} (Z : InflateEngine ζ) (pPage : PNGIMAGE σ ζ δ)
    (uLine1 uLine2 : List Nat) (world : δ) :
    (decodeInit Z pPage uLine1 uLine2 world).pPage.pfnRead = pPage.pfnRead ∧
      (decodeInit Z pPage uLine1 uLine2 world).pPage.pfnSeek = pPage.pfnSeek :=
  ⟨rfl, rfl⟩

theorem truncatedFile_source :
    (headerRead (secondState truncatedFile)).pPage.pfnRead = pngRead ∧
      (headerRead (secondState truncatedFile)).pPage.pfnSeek = pngSeek := by
  have hneed : i32 ((firstState truncatedFile).iBytesRead - (firstState truncatedFile).iOffset)
      < 8 ∨ (firstState truncatedFile).more ≠ 0 := by decide!
  obtain ⟨s1, s2, -⟩ := refillPhase_source (firstState truncatedFile) hneed
  obtain ⟨g1, -⟩ := headerRead_frame (secondState truncatedFile)
  have h1 : (secondState truncatedFile).pPage = (refillPhase (firstState truncatedFile)).pPage :=
    skipped_pPage _
  have h2 : (readySession truncatedFile).pfnRead = pngRead := rfl
  have h3 : (readySession truncatedFile).pfnSeek = pngSeek := rfl
  rw [g1, h1, s1, s2]
  unfold firstState
  rw [(decodeInit_source _ _ _ _ _).1, (decodeInit_source _ _ _ _ _).2]
  exact ⟨h2, h3⟩

theorem truncatedFile_third :
    Starved { headerRead (secondState truncatedFile) with more := 1 } := by
  obtain ⟨h1, h2⟩ := truncatedFile_source
  unfold Starved
  dsimp only
  refine ⟨by decide!, by decide!, by decide, by decide!, by decide!, by decide!, h1, h2, ?_⟩
  decide!

theorem truncatedFile_loop (fuel n : Nat) :
    mainLoop storedInflate recordRow 0 0 1 fuel n (firstState truncatedFile) = none := by
  have hrun0 : (firstState truncatedFile).pPage.iError = 0 ∧
      (firstState truncatedFile).y < (firstState truncatedFile).pPage.iHeight := by decide!
  have hrun1 : (secondState truncatedFile).pPage.iError = 0 ∧
      (secondState truncatedFile).y < (secondState truncatedFile).pPage.iHeight := by decide!
  have hidle : ¬ (i32 ((secondState truncatedFile).iBytesRead -
      (secondState truncatedFile).iOffset) < 8 ∨ (secondState truncatedFile).more ≠ 0) := by
    decide!
  have hchk : (secondState truncatedFile).iMarker = 0 →
      ¬ (i32 (MOTOLONG (secondState truncatedFile).pPage.ucFileBuf
          (secondState truncatedFile).iOffset) < 0 ∨
      i32 (MOTOLONG (secondState truncatedFile).pPage.ucFileBuf
          (secondState truncatedFile).iOffset) +
        ((secondState truncatedFile).iFileOffset - (secondState truncatedFile).iBytesRead) >
          (secondState truncatedFile).pPage.PNGFile.iSize) := by decide!
  have hne : (headerRead (secondState truncatedFile)).iMarker ≠ 0 := by decide!
  have hm : (headerRead (secondState truncatedFile)).iMarker = PLTE ∨
      (headerRead (secondState truncatedFile)).iMarker = tRNS ∨
      (headerRead (secondState truncatedFile)).iMarker = DGKb := by decide!
  have hleft : i32 ((headerRead (secondState truncatedFile)).iBytesRead -
      (headerRead (secondState truncatedFile)).iOffset) <
        (headerRead (secondState truncatedFile)).iLen := by decide!
  have hlen : (headerRead (secondState truncatedFile)).iLen ≤ PNG_FILE_BUF_SIZE := by decide!
  cases n with
  | zero => unfold mainLoop; rw [if_pos hrun0]
  | succ n =>
    rw [truncatedFile_first]
    cases n with
    | zero => unfold mainLoop; rw [if_pos hrun1]
    | succ n =>
      conv => lhs; unfold mainLoop
      rw [if_pos hrun1]
      unfold decodeStep
      dsimp only
      rw [refillPhase_idle _ hidle, if_neg (not_not.mpr hrun1.1),
        chunkPhase_headerRead storedInflate recordRow 0 0 1 fuel _ hchk hne,
        chunkPhase_wait storedInflate recordRow 0 0 1 fuel _ hm hleft hlen]
      exact starved_spins storedInflate recordRow 0 0 1 fuel n _ truncatedFile_third

theorem truncated_chunk_never_ends (fuel : Nat) :
    PNG_decode storedInflate fuel (readySession truncatedFile) 0 0 [] = none := by
  have hd : (readySession truncatedFile).pfnDraw = some recordRow := rfl
  have h1 : (readySession truncatedFile).uLine1 = some [0, 0] := by decide!
  have h2 : (readySession truncatedFile).uLine2 = some [0, 0] := by decide!
  have hb : (if (readySession truncatedFile).ucBpp > 8 then (0 : Int) else 1) = 1 := by decide!
  have hl := truncatedFile_loop fuel fuel
  unfold firstState at hl
  unfold PNG_decode
  rw [hd, h1, h2]
  dsimp only
  rw [hb, hl]

theorem emitRow_counts {σ ζ δ : Type} (draw : PNGDRAW → δ → δ) (User : Int)
    (st : DecodeState σ ζ (δ × Nat)) :
    (emitRow (counting draw) User st).y = st.y + 1 ∧
      (emitRow (counting draw) User st).world.2 = st.world.2 + 1 ∧
      (emitRow (counting draw) User st).pPage = st.pPage ∧
      (emitRow (counting draw) User st).err = st.err ∧
      (emitRow (counting draw) User st).d_stream = st.d_stream :=
  ⟨rfl, rfl, rfl, rfl, rfl⟩

/-- The inflate loop keeps the row counter equal to the number of rows drawn. -/
theorem inflateLoop_counts {σ ζ δ : Type} (Z : InflateEngine ζ) (draw : PNGDRAW → δ → δ)
    (User iOptions : Int) (fuel : Nat) :
    ∀ st st1 : DecodeState σ ζ (δ × Nat),
      inflateLoop Z (counting draw) User iOptions fuel st = some st1 →
      st.y = st.world.2 →
      st1.y = st1.world.2 ∧ st1.pPage.iHeight = st.pPage.iHeight ∧
        st1.pPage.iError = st.pPage.iError ∧ st.y ≤ st1.y := by
  induction fuel with
  | zero =>
    intro st st1 h hy
    unfold inflateLoop at h
    split_ifs at h
    cases h
    exact ⟨hy, rfl, rfl, le_refl _⟩
  | succ fuel ih =>
    intro st st1 h hy
    unfold inflateLoop at h
    by_cases herr : st.err = Z.Z_OK
    · rw [if_pos herr] at h
      dsimp only at h
      split_ifs at h
      all_goals
        obtain ⟨a1, a2, a3, a4⟩ := ih _ _ h (by
          first
            | exact hy
            | (rw [(emitRow_counts draw User _).1, (emitRow_counts draw User _).2.1]
               dsimp only
               rw [hy]
               push_cast
               rfl))
        refine ⟨a1, a2, a3, ?_⟩
        first
          | exact a4
          | (rw [(emitRow_counts draw User _).1] at a4
             dsimp only at a4
             omega)
    · rw [if_neg herr] at h
      cases h
      exact ⟨hy, rfl, rfl, le_refl _⟩

/-- The image-data loop keeps the row counter equal to the number of rows drawn,
unless it stops at the end of the stream. -/
theorem idatLoop_counts {σ ζ δ : Type} (Z : InflateEngine ζ) (draw : PNGDRAW → δ → δ)
    (User iOptions : Int) (inner fuel : Nat) :
    ∀ st st1 : DecodeState σ ζ (δ × Nat),
      idatLoop Z (counting draw) User iOptions inner fuel st = some st1 →
      st.y = st.world.2 →
      st1.pPage.iHeight = st.pPage.iHeight ∧
        (st1.y = st1.world.2 ∨ StoppedAtStreamEnd Z st1) := by
  induction fuel with
  | zero =>
    intro st st1 h hy
    unfold idatLoop at h
    split_ifs at h
    cases h
    exact ⟨rfl, Or.inl hy⟩
  | succ fuel ih =>
    intro st st1 h hy
    unfold idatLoop at h
    by_cases hlen : st.iLen ≠ 0
    · rw [if_pos hlen] at h
      by_cases hbuf : st.iOffset ≥ st.iBytesRead
      · rw [if_pos hbuf] at h
        dsimp only at h
        cases h
        split_ifs <;> exact ⟨rfl, Or.inl hy⟩
      · rw [if_neg hbuf] at h
        dsimp only at h
        split at h
        · cases h
        · rename_i st2 hinf
          obtain ⟨a1, a2, -, -⟩ := inflateLoop_counts Z draw User iOptions inner _ _ hinf hy
          split_ifs at h with hend herr
          · cases h
            exact ⟨a2, Or.inr ⟨hend.1, hend.2, rfl⟩⟩
          · cases h
            exact ⟨a2, Or.inl a1⟩
          · obtain ⟨b1, b2⟩ := ih _ _ h a1
            exact ⟨b1.trans a2, b2⟩
    · rw [if_neg hlen] at h
      cases h
      exact ⟨rfl, Or.inl hy⟩

theorem plteCase_frame {σ ζ δ : Type} (st : DecodeState σ ζ δ) :
    (plteCase st).pPage.iHeight = st.pPage.iHeight ∧ (plteCase st).y = st.y ∧
      (plteCase st).world = st.world := by
  unfold plteCase
  dsimp only
  split_ifs <;> exact ⟨rfl, rfl, rfl⟩

theorem trnsCase_frame {σ ζ δ : Type} (st : DecodeState σ ζ δ) :
    (trnsCase st).pPage.iHeight = st.pPage.iHeight ∧ (trnsCase st).y = st.y ∧
      (trnsCase st).world = st.world := by
  unfold trnsCase
  dsimp only
  split_ifs <;> exact ⟨rfl, rfl, rfl⟩

/-- The part of an iteration after the refill keeps the row counter equal to the
number of rows drawn, unless it stops at the end of the stream. -/
theorem chunkPhase_counts {σ ζ δ : Type} (Z : InflateEngine ζ) (draw : PNGDRAW → δ → δ)
    (User iOptions hbo : Int) (fuel : Nat) (st st1 : DecodeState σ ζ (δ × Nat))
    (h : chunkPhase Z (counting draw) User iOptions hbo fuel st = some st1)
    (hy : st.y = st.world.2) :
    st1.pPage.iHeight = st.pPage.iHeight ∧
      (st1.y = st1.world.2 ∨ StoppedAtStreamEnd Z st1) := by
  unfold chunkPhase at h
  dsimp only at h
  split at h
  · cases h
    exact ⟨rfl, Or.inl hy⟩
  · rename_i st2 hparsed
    have hp : st2.pPage.iHeight = st.pPage.iHeight ∧ st2.y = st.y ∧ st2.world = st.world := by
      split_ifs at hparsed <;> cases hparsed <;> exact ⟨rfl, rfl, rfl⟩
    obtain ⟨p1, p2, p3⟩ := hp
    have hy2 : st2.y = st2.world.2 := by rw [p2, p3]; exact hy
    rw [← p1]
    clear hparsed
    by_cases c1 : ¬ (st2.iMarker = 0x504c5445 ∨ st2.iMarker = 0x74524e53 ∨
        st2.iMarker = 0x49444154 ∨ st2.iMarker = 0x44474b62)
    · rw [if_pos c1] at h
      cases h
      exact ⟨rfl, Or.inl hy2⟩
    · rw [if_neg c1] at h
      by_cases c2 : st2.iMarker ≠ 0x49444154 ∧ i32 (st2.iBytesRead - st2.iOffset) < st2.iLen
      · rw [if_pos c2] at h
        split_ifs at h <;> cases h <;> exact ⟨rfl, Or.inl hy2⟩
      · rw [if_neg c2] at h
        split at h
        · cases h
        · rename_i st3 hafter
          cases h
          have hw : ∀ s : DecodeState σ ζ (δ × Nat),
              (if s.iMarker = 0 then
                { s with iOffset := i32 (s.iOffset + i32 (s.iLen + 4)) } else s).pPage =
                  s.pPage ∧
              (if s.iMarker = 0 then
                { s with iOffset := i32 (s.iOffset + i32 (s.iLen + 4)) } else s).y = s.y ∧
              (if s.iMarker = 0 then
                { s with iOffset := i32 (s.iOffset + i32 (s.iLen + 4)) } else s).world =
                  s.world ∧
              (if s.iMarker = 0 then
                { s with iOffset := i32 (s.iOffset + i32 (s.iLen + 4)) } else s).err = s.err ∧
              (if s.iMarker = 0 then
                { s with iOffset := i32 (s.iOffset + i32 (s.iLen + 4)) } else s).d_stream =
                  s.d_stream := by
            intro s
            split_ifs <;> exact ⟨rfl, rfl, rfl, rfl, rfl⟩
          obtain ⟨w1, w2, w3, w4, w5⟩ := hw st3
          unfold StoppedAtStreamEnd
          rw [w1, w2, w3, w4, w5]
          by_cases b1 : st2.iMarker = 0x44474b62
          · rw [if_pos b1] at hafter
            cases hafter
            obtain ⟨-, f2, f3, -, -, -, -, -, f9⟩ := bkgdCase_frame hbo st2
            rw [f2, f3, f9]
            exact ⟨rfl, Or.inl hy2⟩
          · rw [if_neg b1] at hafter
            by_cases b2 : st2.iMarker = 0x504c5445
            · rw [if_pos b2] at hafter
              cases hafter
              obtain ⟨f1, f2, f3⟩ := plteCase_frame st2
              rw [f1, f2, f3]
              exact ⟨rfl, Or.inl hy2⟩
            · rw [if_neg b2] at hafter
              by_cases b3 : st2.iMarker = 0x74524e53
              · rw [if_pos b3] at hafter
                cases hafter
                obtain ⟨f1, f2, f3⟩ := trnsCase_frame st2
                rw [f1, f2, f3]
                exact ⟨rfl, Or.inl hy2⟩
              · rw [if_neg b3] at hafter
                split at hafter
                · cases hafter
                · rename_i st4 hidat
                  cases hafter
                  obtain ⟨d1, d2⟩ := idatLoop_counts Z draw User iOptions fuel fuel _ _ hidat hy2
                  unfold StoppedAtStreamEnd at d2
                  split_ifs
                  · exact ⟨d1, d2⟩
                  · exact ⟨d1, d2⟩

theorem mainLoop_exit {σ ζ δ : Type} (Z : InflateEngine ζ) (draw : PNGDRAW → δ → δ)
    (User iOptions hbo : Int) (fuel n : Nat) :
    ∀ st fin : DecodeState σ ζ δ, mainLoop Z draw User iOptions hbo fuel n st = some fin →
      ¬ (fin.pPage.iError = 0 ∧ fin.y < fin.pPage.iHeight) := by
  induction n with
  | zero =>
    intro st fin h
    unfold mainLoop at h
    split_ifs at h with hc
    cases h
    exact hc
  | succ n ih =>
    intro st fin h
    unfold mainLoop at h
    split_ifs at h with hc
    · split at h
      · cases h
      · exact ih _ _ h
    · cases h
      exact hc

/-- The main loop keeps the row counter equal to the number of rows drawn,
unless it stops at the end of the stream. -/
theorem mainLoop_counts {σ ζ δ : Type} (Z : InflateEngine ζ) (draw : PNGDRAW → δ → δ)
    (User iOptions hbo : Int) (fuel n : Nat) :
    ∀ st fin : DecodeState σ ζ (δ × Nat),
      mainLoop Z (counting draw) User iOptions hbo fuel n st = some fin →
      st.y = st.world.2 →
      fin.pPage.iHeight = st.pPage.iHeight ∧
        (fin.y = fin.world.2 ∨ StoppedAtStreamEnd Z fin) := by
  induction n with
  | zero =>
    intro st fin h hy
    unfold mainLoop at h
    split_ifs at h
    cases h
    exact ⟨rfl, Or.inl hy⟩
  | succ n ih =>
    intro st fin h hy
    unfold mainLoop at h
    split_ifs at h with hc
    · split at h
      · cases h
      · rename_i st1 hstep
        unfold decodeStep at hstep
        dsimp only at hstep
        obtain ⟨-, -, f3, f4, -⟩ := refillPhase_frame st
        obtain ⟨s3⟩ : (refillPhase st).pPage.iHeight = st.pPage.iHeight ∧ True := by
          unfold refillPhase
          dsimp only
          split_ifs <;> exact ⟨rfl, trivial⟩
        have hy' : (refillPhase st).y = (refillPhase st).world.2 := by rw [f3, f4]; exact hy
        have h1 : st1.pPage.iHeight = st.pPage.iHeight ∧
            (st1.y = st1.world.2 ∨ StoppedAtStreamEnd Z st1) := by
          split_ifs at hstep
          · cases hstep
            exact ⟨s3, Or.inl hy'⟩
          · obtain ⟨a1, a2⟩ := chunkPhase_counts Z draw User iOptions hbo fuel _ _ hstep hy'
            exact ⟨a1.trans s3, a2⟩
        rcases h1.2 with hcount | hstop
        · obtain ⟨b1, b2⟩ := ih _ _ h hcount
          exact ⟨b1.trans h1.1, b2⟩
        · have hdone : mainLoop Z (counting draw) User iOptions hbo fuel n st1 = some st1 := by
            have hc1 : ¬ (st1.pPage.iError = 0 ∧ st1.y < st1.pPage.iHeight) := by
              intro hc1
              have := hstop.2.2
              omega
            cases n with
            | zero => unfold mainLoop; rw [if_neg hc1]
            | succ n => unfold mainLoop; rw [if_neg hc1]
          rw [hdone] at h
          cases h
          exact ⟨h1.1, Or.inr hstop⟩
    · cases h
      exact ⟨rfl, Or.inl hy⟩

/-- The inflate loop leaves the error code and the height of the session alone. -/
theorem inflateLoop_frame {σ ζ δ : Type} (Z : InflateEngine ζ) (draw : PNGDRAW → δ → δ)
    (User iOptions : Int) (fuel : Nat) :
    ∀ st st1 : DecodeState σ ζ δ,
      inflateLoop Z draw User iOptions fuel st = some st1 →
      st1.pPage.iError = st.pPage.iError ∧ st1.pPage.iHeight = st.pPage.iHeight ∧
        st1.pPage.iPaletteCnt = st.pPage.iPaletteCnt ∧
        st1.pPage.ucPixelType = st.pPage.ucPixelType := by
  induction fuel with
  | zero =>
    intro st st1 h
    unfold inflateLoop at h
    split_ifs at h
    cases h
    exact ⟨rfl, rfl, rfl, rfl⟩
  | succ fuel ih =>
    intro st st1 h
    unfold inflateLoop at h
    by_cases herr : st.err = Z.Z_OK
    · rw [if_pos herr] at h
      dsimp only at h
      split_ifs at h
      all_goals
        obtain ⟨a1, a2, a3, a4⟩ := ih _ _ h
        exact ⟨a1, a2, a3, a4⟩
    · rw [if_neg herr] at h
      cases h
      exact ⟨rfl, rfl, rfl, rfl⟩

/-- Lines 490-494: when the inflate loop ends with `Z_STREAM_END` and the
current row complete, the image-data loop stops with the row counter set to the
height. -/
theorem idatLoop_stop {σ ζ δ : Type} (Z : InflateEngine ζ) (draw : PNGDRAW → δ → δ)
    (User iOptions : Int) (inner fuel : Nat) (st st2 : DecodeState σ ζ δ)
    (hlen : st.iLen ≠ 0) (hbuf : st.iOffset < st.iBytesRead)
    (hinf : inflateLoop Z draw User iOptions inner (fed st) = some st2)
    (hend : st2.err = Z.Z_STREAM_END ∧ st2.d_stream.avail_out = 0) :
    idatLoop Z draw User iOptions inner (fuel + 1) st =
      some { st2 with y := st2.pPage.iHeight, iMarker := 0 } := by
  unfold fed at hinf
  unfold idatLoop
  rw [if_pos hlen, if_neg (by omega)]
  dsimp only
  rw [hinf]
  dsimp only
  rw [if_pos hend]

/-- An iteration on image data in which the inflate engine reports the end of
the stream on a row boundary. -/
theorem chunkPhase_idat_stop {σ ζ δ : Type} (Z : InflateEngine ζ) (draw : PNGDRAW → δ → δ)
    (User iOptions hbo : Int) (fuel : Nat) (st st2 : DecodeState σ ζ δ)
    (hm : st.iMarker = IDAT) (hlen : st.iLen ≠ 0) (hbuf : st.iOffset < st.iBytesRead)
    (hinf : inflateLoop Z draw User iOptions (fuel + 1) (fed st) = some st2)
    (hend : st2.err = Z.Z_STREAM_END ∧ st2.d_stream.avail_out = 0) :
    ∃ fin, chunkPhase Z draw User iOptions hbo (fuel + 1) st = some fin ∧
      fin.y = st2.pPage.iHeight ∧ fin.pPage = st2.pPage ∧ fin.world = st2.world ∧
      fin.err = st2.err ∧ fin.d_stream = st2.d_stream := by
  unfold IDAT at hm
  have h0 : st.iMarker ≠ 0 := by rw [hm]; decide
  have hk : ¬ ¬ (st.iMarker = 0x504c5445 ∨ st.iMarker = 0x74524e53 ∨
      st.iMarker = 0x49444154 ∨ st.iMarker = 0x44474b62) := by
    rw [hm]; decide
  have hnf : ¬ (st.iMarker ≠ 0x49444154 ∧ i32 (st.iBytesRead - st.iOffset) < st.iLen) :=
    fun h => h.1 hm
  have hnb : ¬ st.iMarker = 0x44474b62 := by rw [hm]; decide
  have hnp : ¬ st.iMarker = 0x504c5445 := by rw [hm]; decide
  have hnt : ¬ st.iMarker = 0x74524e53 := by rw [hm]; decide
  unfold chunkPhase
  dsimp only
  rw [if_neg h0]
  dsimp only
  rw [if_neg hk, if_neg hnf, if_neg hnb, if_neg hnp, if_neg hnt,
    idatLoop_stop Z draw User iOptions (fuel + 1) fuel st st2 hlen hbuf hinf hend]
  dsimp only
  split_ifs <;> exact ⟨_, rfl, rfl, rfl, rfl, rfl, rfl⟩

theorem refillPhase_height {σ ζ δ : Type} (st : DecodeState σ ζ δ) :
    (refillPhase st).pPage.iHeight = st.pPage.iHeight := by
  unfold refillPhase
  dsimp only
  split_ifs <;> rfl

/-- C14 (amended): premature end of the compressed stream, for an arbitrary
inflate engine `Z`.  The draw callback is instrumented with a count of its
invocations (`counting`).
(1) If the main loop, run from the initial state of `PNG_decode`, ends with no
error, then at least `iHeight` rows were drawn, or the loop stopped because the
engine reported `Z_STREAM_END` with the current row complete.
(2) In an iteration that hands image data to the engine (`st` is the state with
the `IDAT` header read, `fed st` the state on entry to the inflate loop), if the
inflate loop ends with `Z_STREAM_END` and `avail_out = 0`, that is at the end of
the stream on a row boundary, the main loop ends in this iteration with
`PNG_SUCCESS` and the row counter set to `iHeight`, whatever the number of rows
drawn so far. -/
theorem premature_stream_end {σ ζ δ : Type} (Z : InflateEngine ζ) (draw : PNGDRAW → δ → δ)
    (User iOptions hbo : Int) (fuel n : Nat) :
    (∀ (pPage : PNGIMAGE σ ζ (δ × Nat)) (uLine1 uLine2 : List Nat) (world : δ)
        (fin : DecodeState σ ζ (δ × Nat)),
      mainLoop Z (counting draw) User iOptions hbo fuel n
        (decodeInit Z pPage uLine1 uLine2 (world, 0)) = some fin →
      fin.pPage.iError = PNG_SUCCESS →
      pPage.iHeight ≤ fin.world.2 ∨
        (fin.err = Z.Z_STREAM_END ∧ fin.d_stream.avail_out = 0)) ∧
    (∀ st0 st st2 : DecodeState σ ζ (δ × Nat),
      (st0.pPage.iError = 0 ∧ st0.y < st0.pPage.iHeight) →
      (refillPhase st0).pPage.iError = 0 →
      ((refillPhase st0).iMarker = 0 →
        ¬ (i32 (MOTOLONG (refillPhase st0).pPage.ucFileBuf (refillPhase st0).iOffset) < 0 ∨
          i32 (MOTOLONG (refillPhase st0).pPage.ucFileBuf (refillPhase st0).iOffset) +
            ((refillPhase st0).iFileOffset - (refillPhase st0).iBytesRead) >
              (refillPhase st0).pPage.PNGFile.iSize)) →
      headerRead (refillPhase st0) = st →
      st.iMarker = IDAT → st.iLen ≠ 0 → st.iOffset < st.iBytesRead →
      inflateLoop Z (counting draw) User iOptions (fuel + 1) (fed st) = some st2 →
      (st2.err = Z.Z_STREAM_END ∧ st2.d_stream.avail_out = 0) →
      ∃ fin, mainLoop Z (counting draw) User iOptions hbo (fuel + 1) (n + 1) st0 = some fin ∧
        fin.pPage.iError = PNG_SUCCESS ∧ fin.world = st2.world ∧
        fin.y = st0.pPage.iHeight) := by
  refine ⟨?_, ?_⟩
  · intro pPage uLine1 uLine2 world fin hrun herr
    have hexit := mainLoop_exit Z (counting draw) User iOptions hbo fuel n _ _ hrun
    obtain ⟨a1, a2⟩ := mainLoop_counts Z draw User iOptions hbo fuel n _ _ hrun rfl
    have hh : fin.pPage.iHeight = pPage.iHeight := a1
    unfold PNG_SUCCESS at herr
    rcases a2 with hc | hs
    · left
      rw [← hh, ← hc]
      by_contra hlt
      exact hexit ⟨herr, by omega⟩
    · right
      exact ⟨hs.1, hs.2.1⟩
  · intro st0 st st2 hrun herr hchk hst hm hlen hbuf hinf hend
    have hm0 : (headerRead (refillPhase st0)).iMarker ≠ 0 := by
      rw [hst, hm]; decide
    have h1 := chunkPhase_headerRead Z (counting draw) User iOptions hbo (fuel + 1)
      (refillPhase st0) hchk hm0
    rw [hst] at h1
    obtain ⟨fin, h2, e1, e2, e3, -, -⟩ :=
      chunkPhase_idat_stop Z (counting draw) User iOptions hbo fuel st st2 hm hlen hbuf hinf hend
    rw [h2] at h1
    obtain ⟨i1, -⟩ := inflateLoop_frame Z (counting draw) User iOptions (fuel + 1) _ _ hinf
    obtain ⟨g1, -⟩ := headerRead_frame (refillPhase st0)
    rw [hst] at g1
    have hfe : fin.pPage.iError = 0 := by
      rw [e2, i1]
      show st.pPage.iError = 0
      rw [g1]
      exact herr
    obtain ⟨-, i2, -, -⟩ := inflateLoop_frame Z (counting draw) User iOptions (fuel + 1) _ _ hinf
    have hfy0 : fin.y = fin.pPage.iHeight := by rw [e1, e2]
    have hfy : fin.y = st0.pPage.iHeight := by
      rw [e1, i2]
      show st.pPage.iHeight = st0.pPage.iHeight
      rw [g1]
      exact refillPhase_height st0
    refine ⟨fin, ?_, hfe, e3, hfy⟩
    exact mainLoop_error_step Z (counting draw) User iOptions hbo (fuel + 1) n st0 fin hrun herr
      h1 (by intro hc; omega)

/-- Witness for C20: the session of `main` after `PNG_init`, before the line
buffers are allocated. -/
theorem PNG_decode_no_buffer_witness :
    PNG_decode storedInflate 10
        (PNG_init (mainSession (sampleFile 10) (StoredState.mk 0 0) (some recordRow))).2
        0 0 [] =
      some (PNG_NO_BUFFER,
        { (PNG_init (mainSession (sampleFile 10) (StoredState.mk 0 0) (some recordRow))).2 with
          iError := PNG_NO_BUFFER }, []) ∧
    PNG_getLastError
      { (PNG_init (mainSession (sampleFile 10) (StoredState.mk 0 0) (some recordRow))).2 with
        iError := PNG_NO_BUFFER } = PNG_NO_BUFFER :=
  PNG_decode_no_buffer storedInflate 10 _ 0 0 [] (Or.inr (Or.inl rfl))

/-- C18, as stated, fails: a `PLTE` chunk of 4 bytes (not a multiple of 3), and
a `tRNS` chunk of 257 bytes in an indexed image, each make `PNG_decode` return
`PNG_DECODE_ERROR`, which is not `PNG_INVALID_FILE`; no row is drawn. -/
theorem malformed_metadata_length_counterexample :
    i32 (MOTOLONG (pngFile 1 1 8 3 (chunkBytes 80 76 84 69 [1, 2, 3, 4]) [0, 0]) 33) = 4 ∧
    MOTOLONG (pngFile 1 1 8 3 (chunkBytes 80 76 84 69 [1, 2, 3, 4]) [0, 0]) 37 = PLTE ∧
    ¬ (3 : Int) ∣ 4 ∧
    (PNG_decode storedInflate 10
      (readyWith recordCall (pngFile 1 1 8 3 (chunkBytes 80 76 84 69 [1, 2, 3, 4]) [0, 0]))
        0 0 []).map (fun r => (r.1, r.2.2)) = some (PNG_DECODE_ERROR, []) ∧
    (PNG_decode storedInflate 10
      (readyWith recordCall
        (pngFile 1 1 8 3 (chunkBytes 80 76 84 69 [1, 2, 3] ++
          chunkBytes 116 82 78 83 (List.replicate 257 0)) [0, 0]))
        0 0 []).map (fun r => (r.1, r.2.2)) = some (PNG_DECODE_ERROR, []) ∧
    PNG_DECODE_ERROR ≠ PNG_INVALID_FILE := by
  decide!

/-- Witness for C18 (amended): a `PLTE` chunk of 2000 bytes, complete in the
buffer. -/
theorem malformed_metadata_length_witness :
    ∃ st1, mainLoop storedInflate recordRow 0 0 1 10 (0 + 1)
        (stateAfterIHDR (sampleFileWith 80 76 84 69 2000)) = some st1 ∧
      st1.pPage.iError = PNG_DECODE_ERROR ∧ st1.pPage.iError ≠ PNG_INVALID_FILE ∧
      st1.world = (stateAfterIHDR (sampleFileWith 80 76 84 69 2000)).world ∧
      st1.y = (stateAfterIHDR (sampleFileWith 80 76 84 69 2000)).y :=
  malformed_metadata_length storedInflate recordRow 0 0 1 10 0
    (stateAfterIHDR (sampleFileWith 80 76 84 69 2000))
    (headerRead (refillPhase (stateAfterIHDR (sampleFileWith 80 76 84 69 2000))))
    (by decide!) (by decide!) rfl (by decide!) (by decide!)

/-- Witness for C17: a refill with 3 unconsumed bytes at the end of a full
buffer. -/
theorem refill_errors_witness :
    ((refillRead refillSample).ret < 0 →
      ∃ st1, mainLoop storedInflate recordRow 0 0 1 10 (0 + 1) refillSample = some st1 ∧
        st1.pPage.iError = PNG_IO_ERROR ∧ st1.world = refillSample.world ∧
        st1.y = refillSample.y) ∧
    (0 ≤ (refillRead refillSample).ret →
      (refillRead refillSample).ret + carried refillSample < 8 →
      ∃ st1, mainLoop storedInflate recordRow 0 0 1 10 (0 + 1) refillSample = some st1 ∧
        st1.pPage.iError = PNG_DECODE_ERROR ∧ st1.world = refillSample.world ∧
        st1.y = refillSample.y) ∧
    (0 ≤ (refillRead refillSample).ret → 8 ≤ (refillRead refillSample).ret + carried refillSample →
      (refillPhase refillSample).pPage.iError = 0 ∧ (refillPhase refillSample).iOffset = 0 ∧
      (refillPhase refillSample).iBytesRead =
        (refillRead refillSample).ret + carried refillSample ∧
      (0 ≤ refillSample.iOffset →
        refillSample.iOffset + carried refillSample ≤ refillSample.pPage.ucFileBuf.length →
        ∀ k : Int, 0 ≤ k → k < carried refillSample →
          peek (refillPhase refillSample).pPage.ucFileBuf k =
            peek refillSample.pPage.ucFileBuf (refillSample.iOffset + k))) :=
  refill_errors storedInflate recordRow 0 0 1 10 0 refillSample (by decide!) (by decide!)

/-- The refill of the sample state: 3 bytes are carried over and 1026 are read. -/
theorem refillSample_run :
    carried refillSample = 3 ∧ (refillRead refillSample).ret = 1026 ∧
      (refillPhase refillSample).iBytesRead = 1029 ∧
      (refillPhase refillSample).iOffset = 0 ∧
      peek (refillPhase refillSample).pPage.ucFileBuf 2 =
        peek refillSample.pPage.ucFileBuf 2047 := by
  decide!

/-- C14, as stated, fails: `shortFile` declares two rows and its stream ends,
on a row boundary, after one; `PNG_decode` draws that row and returns
`PNG_SUCCESS`, not `PNG_DECODE_ERROR`. -/
theorem premature_stream_end_counterexample :
    (readyWith recordCall shortFile).iHeight = 2 ∧
    (PNG_decode storedInflate 10 (readyWith recordCall shortFile) 0 0 []).map
        (fun r => (r.1, r.2.2)) = some (PNG_SUCCESS, [([0, -1, 0], [128])]) ∧
    (PNG_decode storedInflate 10 (readyWith recordCall shortFile) 0 0 []).map
        (fun r => r.1) ≠ some PNG_DECODE_ERROR := by
  decide!

theorem shortInit_run : (mainLoop storedInflate (counting recordRow) 0 0 1 10 10 shortInit).isSome := by
  decide!

theorem shortInit_inflate :
    (inflateLoop storedInflate (counting recordRow) 0 0 (9 + 1)
      (fed (headerRead (refillPhase (skipped (refillPhase shortInit)))))).isSome := by
  decide!

/-- Witness for C14 (amended): the run on `shortFile`, height 2, one row drawn. -/
theorem premature_stream_end_witness :
    (∃ fin, mainLoop storedInflate (counting recordRow) 0 0 1 10 10 shortInit = some fin ∧
      fin.pPage.iError = PNG_SUCCESS ∧ fin.world.2 = 1 ∧
      ((2 : Int) ≤ fin.world.2 ∨
        (fin.err = storedInflate.Z_STREAM_END ∧ fin.d_stream.avail_out = 0))) ∧
    (∃ fin, mainLoop storedInflate (counting recordRow) 0 0 1 (9 + 1) (0 + 1)
        (skipped (refillPhase shortInit)) = some fin ∧
      fin.pPage.iError = PNG_SUCCESS ∧ fin.world.2 = 1 ∧ fin.y = 2) := by
  obtain ⟨h1, h2⟩ := @premature_stream_end FileDesc StoredState (List (Int × List Nat))
    storedInflate recordRow 0 0 1 10 10
  obtain ⟨-, h3⟩ := @premature_stream_end FileDesc StoredState (List (Int × List Nat))
    storedInflate recordRow 0 0 1 9 0
  constructor
  · refine ⟨(mainLoop storedInflate (counting recordRow) 0 0 1 10 10 shortInit).get
      shortInit_run, (Option.some_get _).symm, by decide!, by decide!, ?_⟩
    exact h1 (readyWith (counting recordRow) shortFile) [0, 0] [0, 0] [] _
      (Option.some_get shortInit_run).symm (by decide!)
  · obtain ⟨fin, e1, e2, e3, e4⟩ := h3 (skipped (refillPhase shortInit))
      (headerRead (refillPhase (skipped (refillPhase shortInit))))
      ((inflateLoop storedInflate (counting recordRow) 0 0 (9 + 1)
        (fed (headerRead (refillPhase (skipped (refillPhase shortInit)))))).get
          shortInit_inflate)
      (by decide!) (by decide!) (by decide!) rfl (by decide!) (by decide!) (by decide!)
      (Option.some_get shortInit_inflate).symm (by decide!)
    refine ⟨fin, e1, e2, ?_, ?_⟩
    · rw [e3]; decide!
    · rw [e4]; decide!

/-- C11 (background chunk), evaluated at a failing input.  `bkgdFile` is a
one-pixel 8-bit truecolor image whose chunk at position 33 has the marker bytes
`'b','K','G','D'` and the colour (0x11, 0x22, 0x33).  Under `MOTOLONG` the
marker is `0x624B4744`, not the constant `0x44474b62` of the chunk switch, so
the chunk is skipped as unknown: `PNG_decode` succeeds, the session background
is still the default `0x999999`, and the draw callback is given
`iBackground = 0x999999`, not the colour of the chunk. -/
theorem background_chunk_ignored :
    slice bkgdFile 37 4 = [0x62, 0x4B, 0x47, 0x44] ∧
    MOTOLONG bkgdFile 37 ≠ DGKb ∧
    (PNG_decode storedInflate 10 (readyWith recordCall bkgdFile) 0 0 []).map
        (fun r => ([r.1, r.2.1.iBackground], r.2.2)) =
      some ([PNG_SUCCESS, 0x999999], [([0, 0x999999, 0], [1, 2, 3])]) ∧
    (0x999999 : Int) ≠ 0x11 + 0x22 * 256 + 0x33 * 65536 := by
  decide!

/-- C15 (row emission), evaluated at a failing input.  `longFile` declares one
row and its compressed stream holds two: `PNG_decode` invokes the draw callback
with `y = 0` and then with `y = 1`, which is not below `iHeight = 1`, so the
callback is invoked more than `iHeight` times. -/
theorem row_index_beyond_height :
    (readyWith recordCall longFile).iHeight = 1 ∧
    (PNG_decode storedInflate 10 (readyWith recordCall longFile) 0 0 []).map
        (fun r => ([r.1, r.2.1.iHeight], r.2.2.map fun c => c.1.take 1)) =
      some ([PNG_SUCCESS, 1], [[0], [1]]) := by
  decide!

/-- C16 (no endless loop), evaluated at two failing inputs.  `spinFile` has a
6-byte chunk with the marker of the background case; `truncatedFile` is cut off
inside the payload of its `PLTE` chunk, so that reads at its end return 0.  On
either file, whatever the bound `fuel` on the number of iterations, the main
loop of `PNG_decode` has not reached a terminal state when the bound is
reached. -/
theorem main_loop_never_ends :
    (∀ fuel : Nat, PNG_decode storedInflate fuel (readySession spinFile) 0 0 [] = none) ∧
    (∀ fuel : Nat, PNG_decode storedInflate fuel (readySession truncatedFile) 0 0 [] = none) :=
  ⟨background_chunk_never_ends, truncated_chunk_never_ends⟩

/-! ## Theorems: the converter -/

theorem poke_length (p : List Nat) (i v : Int) : (poke p i v).length = p.length := by
  unfold poke
  split_ifs <;> simp

theorem peek_poke (p : List Nat) (i v j : Int) (hi : 0 ≤ i) (hlen : i < p.length) :
    peek (poke p i v) j = if j = i then v % 256 else peek p j := by
  unfold poke
  rw [if_pos hi]
  by_cases hj : 0 ≤ j
  · rw [peek_of_nonneg _ hj, peek_of_nonneg _ hj]
    by_cases h : j = i
    · subst h
      rw [if_pos rfl, List.getD_eq_getElem?_getD, List.getElem?_set_self (by omega)]
      simp only [Option.getD_some]
      omega
    · rw [if_neg h, List.getD_eq_getElem?_getD, List.getD_eq_getElem?_getD,
        List.getElem?_set_ne (by omega)]
  · have hne : j ≠ i := by omega
    rw [if_neg hne]
    unfold peek
    rw [if_neg hj, if_neg hj]

/-- Three stores at consecutive offsets, in ascending order. -/
theorem peek_poke3 (l : List Nat) (o x0 x1 x2 idx : Int) (ho : 0 ≤ o)
    (hfit : o + 3 ≤ l.length) :
    peek (poke (poke (poke l (o + 0) x0) (o + 1) x1) (o + 2) x2) idx =
      if idx = o then x0 % 256 else if idx = o + 1 then x1 % 256
      else if idx = o + 2 then x2 % 256 else peek l idx := by
  rw [peek_poke _ _ _ _ (by omega) (by rw [poke_length, poke_length]; omega),
    peek_poke _ _ _ _ (by omega) (by rw [poke_length]; omega),
    peek_poke _ _ _ _ (by omega) (by omega)]
  split_ifs <;> first | rfl | omega

/-- Three stores at consecutive offsets, in descending order. -/
theorem peek_poke3_desc (l : List Nat) (o x0 x1 x2 idx : Int) (ho : 0 ≤ o)
    (hfit : o + 3 ≤ l.length) :
    peek (poke (poke (poke l (o + 2) x2) (o + 1) x1) (o + 0) x0) idx =
      if idx = o then x0 % 256 else if idx = o + 1 then x1 % 256
      else if idx = o + 2 then x2 % 256 else peek l idx := by
  rw [peek_poke _ _ _ _ (by omega) (by rw [poke_length, poke_length]; omega),
    peek_poke _ _ _ _ (by omega) (by rw [poke_length]; omega),
    peek_poke _ _ _ _ (by omega) (by omega)]
  split_ifs <;> first | rfl | omega

theorem tdiv_mul_cancel (m : Int) (j : Nat) (hm : 0 < m) : Int.tdiv (m * j) m = j := by
  have hj : (0 : Int) ≤ j := Int.ofNat_nonneg j
  rw [Int.tdiv_eq_ediv (Int.mul_nonneg (le_of_lt hm) hj) (le_of_lt hm),
    Int.mul_ediv_cancel_left _ (ne_of_gt hm)]

/-- The three stores of one pixel of a grayscale-with-alpha row. -/
theorem gray_pixel_peek (line : List Nat) (o v a br bg bb idx : Int) (ho : 0 ≤ o)
    (hfit : o + 3 ≤ line.length) :
    peek (if a = 255 then poke (poke (poke line (o + 0) v) (o + 1) v) (o + 2) v
        else if a = 0 then poke (poke (poke line (o + 0) bb) (o + 1) bg) (o + 2) br
        else poke (poke (poke line (o + 0) (blend v a bb)) (o + 1) (blend v a bg))
          (o + 2) (blend v a br)) idx =
      if idx = o then composite v a bb % 256 else if idx = o + 1 then composite v a bg % 256
      else if idx = o + 2 then composite v a br % 256 else peek line idx := by
  unfold composite
  by_cases h1 : a = 255
  · simp only [if_pos h1]
    exact peek_poke3 line o v v v idx ho hfit
  · simp only [if_neg h1]
    by_cases h2 : a = 0
    · simp only [if_pos h2]
      exact peek_poke3 line o bb bg br idx ho hfit
    · simp only [if_neg h2]
      exact peek_poke3 line o _ _ _ idx ho hfit

theorem gray_pixel_length (line : List Nat) (o v a br bg bb : Int) :
    (if a = 255 then poke (poke (poke line (o + 0) v) (o + 1) v) (o + 2) v
        else if a = 0 then poke (poke (poke line (o + 0) bb) (o + 1) bg) (o + 2) br
        else poke (poke (poke line (o + 0) (blend v a bb)) (o + 1) (blend v a bg))
          (o + 2) (blend v a br)).length = line.length := by
  split_ifs <;> simp only [poke_length]

/-- What the loop of a grayscale-with-alpha row leaves in the line buffer. -/
theorem grayAlphaLoop_peek (d : PNGDRAW) (unit br bg bb : Int) (hunit : 0 < unit) :
    ∀ (n j : Nat) (line : List Nat) (idx : Int),
      3 * ((j : Int) + n) ≤ line.length →
      peek (grayAlphaLoop d unit br bg bb n (2 * unit * j) line) idx =
        if 3 * (j : Int) ≤ idx ∧ idx < 3 * ((j : Int) + n) then
          composite (peek d.pPixels (2 * unit * (idx / 3)))
            (peek d.pPixels (2 * unit * (idx / 3) + unit))
            (if idx % 3 = 0 then bb else if idx % 3 = 1 then bg else br) % 256
        else peek line idx := by
  intro n
  induction n with
  | zero =>
    intro j line idx _
    unfold grayAlphaLoop
    rw [if_neg (by push_cast; omega)]
  | succ n ih =>
    intro j line idx hlen
    push_cast at hlen
    have ho : Int.tdiv (2 * unit * j) (2 * unit) * 3 = 3 * j := by
      rw [tdiv_mul_cancel (2 * unit) j (by omega)]; ring
    have hnext : 2 * unit * (j : Int) + 2 * unit = 2 * unit * ((j + 1 : Nat) : Int) := by
      push_cast; ring
    unfold grayAlphaLoop
    dsimp only
    rw [ho, hnext, ih (j + 1) _ idx (by rw [gray_pixel_length]; push_cast; omega),
      gray_pixel_peek line (3 * j) _ _ br bg bb idx (by omega) (by omega)]
    push_cast
    clear ho hnext
    by_cases h1 : 3 * ((j : Int) + 1) ≤ idx ∧ idx < 3 * ((j : Int) + 1 + n)
    · have hc : 3 * (j : Int) ≤ idx ∧ idx < 3 * ((j : Int) + (n + 1)) := by omega
      rw [if_pos h1, if_pos hc]
    · rw [if_neg h1]
      by_cases h2 : idx = 3 * (j : Int)
      · have hc : 3 * (j : Int) ≤ idx ∧ idx < 3 * ((j : Int) + (n + 1)) := by omega
        have e1 : idx / 3 = j := by omega
        have e2 : idx % 3 = 0 := by omega
        rw [if_pos h2, if_pos hc, e1, e2, if_pos rfl]
      · rw [if_neg h2]
        by_cases h3 : idx = 3 * (j : Int) + 1
        · have hc : 3 * (j : Int) ≤ idx ∧ idx < 3 * ((j : Int) + (n + 1)) := by omega
          have e1 : idx / 3 = j := by omega
          have e2 : idx % 3 = 1 := by omega
          have n0 : ¬ (1 : Int) = 0 := by decide
          rw [if_pos h3, if_pos hc, e1, e2, if_neg n0, if_pos rfl]
        · rw [if_neg h3]
          by_cases h4 : idx = 3 * (j : Int) + 2
          · have hc : 3 * (j : Int) ≤ idx ∧ idx < 3 * ((j : Int) + (n + 1)) := by omega
            have e1 : idx / 3 = j := by omega
            have e2 : idx % 3 = 2 := by omega
            have n0 : ¬ (2 : Int) = 0 := by decide
            have n1 : ¬ (2 : Int) = 1 := by decide
            rw [if_pos h4, if_pos hc, e1, e2, if_neg n0, if_neg n1]
          · have hc : ¬ (3 * (j : Int) ≤ idx ∧ idx < 3 * ((j : Int) + (n + 1))) := by omega
            rw [if_neg h4, if_neg hc]

/-- The three stores of one pixel of a truecolor-with-alpha row. -/
theorem true_pixel_peek (line : List Nat) (o r g b a br bg bb idx : Int) (ho : 0 ≤ o)
    (hfit : o + 3 ≤ line.length) :
    peek (if a = 255 then poke (poke (poke line (o + 2) r) (o + 1) g) (o + 0) b
        else if a = 0 then poke (poke (poke line (o + 0) bb) (o + 1) bg) (o + 2) br
        else poke (poke (poke line (o + 0) (blend b a bb)) (o + 1) (blend g a bg))
          (o + 2) (blend r a br)) idx =
      if idx = o then composite b a bb % 256 else if idx = o + 1 then composite g a bg % 256
      else if idx = o + 2 then composite r a br % 256 else peek line idx := by
  unfold composite
  by_cases h1 : a = 255
  · simp only [if_pos h1]
    exact peek_poke3_desc line o b g r idx ho hfit
  · simp only [if_neg h1]
    by_cases h2 : a = 0
    · simp only [if_pos h2]
      exact peek_poke3 line o bb bg br idx ho hfit
    · simp only [if_neg h2]
      exact peek_poke3 line o _ _ _ idx ho hfit

theorem true_pixel_length (line : List Nat) (o r g b a br bg bb : Int) :
    (if a = 255 then poke (poke (poke line (o + 2) r) (o + 1) g) (o + 0) b
        else if a = 0 then poke (poke (poke line (o + 0) bb) (o + 1) bg) (o + 2) br
        else poke (poke (poke line (o + 0) (blend b a bb)) (o + 1) (blend g a bg))
          (o + 2) (blend r a br)).length = line.length := by
  split_ifs <;> simp only [poke_length]

/-- What the loop of a truecolor-with-alpha row leaves in the line buffer. -/
theorem trueAlphaLoop_peek (d : PNGDRAW) (unit br bg bb : Int) (hunit : 0 < unit) :
    ∀ (n j : Nat) (line : List Nat) (idx : Int),
      3 * ((j : Int) + n) ≤ line.length →
      peek (trueAlphaLoop d unit br bg bb n (4 * unit * j) line) idx =
        if 3 * (j : Int) ≤ idx ∧ idx < 3 * ((j : Int) + n) then
          (if idx % 3 = 0 then
            composite (peek d.pPixels (4 * unit * (idx / 3) + 2 * unit))
              (peek d.pPixels (4 * unit * (idx / 3) + 3 * unit)) bb
          else if idx % 3 = 1 then
            composite (peek d.pPixels (4 * unit * (idx / 3) + unit))
              (peek d.pPixels (4 * unit * (idx / 3) + 3 * unit)) bg
          else
            composite (peek d.pPixels (4 * unit * (idx / 3) + 0))
              (peek d.pPixels (4 * unit * (idx / 3) + 3 * unit)) br) % 256
        else peek line idx := by
  intro n
  induction n with
  | zero =>
    intro j line idx _
    unfold trueAlphaLoop
    rw [if_neg (by push_cast; omega)]
  | succ n ih =>
    intro j line idx hlen
    push_cast at hlen
    have ho : Int.tdiv (4 * unit * j) (4 * unit) * 3 = 3 * j := by
      rw [tdiv_mul_cancel (4 * unit) j (by omega)]; ring
    have hnext : 4 * unit * (j : Int) + 4 * unit = 4 * unit * ((j + 1 : Nat) : Int) := by
      push_cast; ring
    unfold trueAlphaLoop
    dsimp only
    rw [ho, hnext, ih (j + 1) _ idx (by rw [true_pixel_length]; push_cast; omega),
      true_pixel_peek line (3 * j) _ _ _ _ br bg bb idx (by omega) (by omega)]
    push_cast
    clear ho hnext
    by_cases h1 : 3 * ((j : Int) + 1) ≤ idx ∧ idx < 3 * ((j : Int) + 1 + n)
    · have hc : 3 * (j : Int) ≤ idx ∧ idx < 3 * ((j : Int) + (n + 1)) := by omega
      rw [if_pos h1, if_pos hc]
    · rw [if_neg h1]
      by_cases h2 : idx = 3 * (j : Int)
      · have hc : 3 * (j : Int) ≤ idx ∧ idx < 3 * ((j : Int) + (n + 1)) := by omega
        have e1 : idx / 3 = j := by omega
        have e2 : idx % 3 = 0 := by omega
        rw [if_pos h2, if_pos hc, e1, e2, if_pos rfl]
      · rw [if_neg h2]
        by_cases h3 : idx = 3 * (j : Int) + 1
        · have hc : 3 * (j : Int) ≤ idx ∧ idx < 3 * ((j : Int) + (n + 1)) := by omega
          have e1 : idx / 3 = j := by omega
          have e2 : idx % 3 = 1 := by omega
          have n0 : ¬ (1 : Int) = 0 := by decide
          rw [if_pos h3, if_pos hc, e1, e2, if_neg n0, if_pos rfl]
        · rw [if_neg h3]
          by_cases h4 : idx = 3 * (j : Int) + 2
          · have hc : 3 * (j : Int) ≤ idx ∧ idx < 3 * ((j : Int) + (n + 1)) := by omega
            have e1 : idx / 3 = j := by omega
            have e2 : idx % 3 = 2 := by omega
            have n0 : ¬ (2 : Int) = 0 := by decide
            have n1 : ¬ (2 : Int) = 1 := by decide
            rw [if_pos h4, if_pos hc, e1, e2, if_neg n0, if_neg n1]
          · have hc : ¬ (3 * (j : Int) ≤ idx ∧ idx < 3 * ((j : Int) + (n + 1))) := by omega
            rw [if_neg h4, if_neg hc]

theorem peek_byte (p : List Nat) (h : ∀ x ∈ p, x < 256) (i : Int) :
    0 ≤ peek p i ∧ peek p i ≤ 255 := by
  unfold peek
  split_ifs with hi
  · by_cases hlt : i.toNat < p.length
    · have hm : p.getD i.toNat 0 ∈ p := by
        rw [List.getD_eq_getElem _ _ hlt]
        exact List.getElem_mem hlt
      have := h _ hm
      omega
    · rw [List.getD_eq_default _ _ (by omega)]
      omega
  · omega

/-- The values of the alpha paths: pass-through at 255, background at 0, the
integer blend in between, which stays within one below the smaller and the
larger of foreground and background. -/
theorem composite_bounds (fg a bg : Int) (hfg : 0 ≤ fg ∧ fg ≤ 255) (hbg : 0 ≤ bg ∧ bg ≤ 255)
    (ha : 0 ≤ a ∧ a ≤ 255) :
    (a = 255 → composite fg a bg = fg) ∧ (a = 0 → composite fg a bg = bg) ∧
      (0 < a → a < 255 →
        composite fg a bg = (fg * a + bg * (255 - a)) / 256 ∧
        min fg bg - 1 ≤ composite fg a bg ∧ composite fg a bg ≤ max fg bg) ∧
      0 ≤ composite fg a bg ∧ composite fg a bg ≤ 255 := by
  have key : 0 < a → a < 255 →
      min fg bg * 255 ≤ fg * a + bg * (255 - a) ∧ fg * a + bg * (255 - a) ≤ max fg bg * 255 := by
    intro h0 h1
    have m1 : min fg bg ≤ fg := min_le_left _ _
    have m2 : min fg bg ≤ bg := min_le_right _ _
    have m3 : fg ≤ max fg bg := le_max_left _ _
    have m4 : bg ≤ max fg bg := le_max_right _ _
    have p1 : min fg bg * a ≤ fg * a := Int.mul_le_mul_of_nonneg_right m1 (by omega)
    have p2 : min fg bg * (255 - a) ≤ bg * (255 - a) :=
      Int.mul_le_mul_of_nonneg_right m2 (by omega)
    have p3 : fg * a ≤ max fg bg * a := Int.mul_le_mul_of_nonneg_right m3 (by omega)
    have p4 : bg * (255 - a) ≤ max fg bg * (255 - a) :=
      Int.mul_le_mul_of_nonneg_right m4 (by omega)
    have q1 : min fg bg * 255 = min fg bg * a + min fg bg * (255 - a) := by ring
    have q2 : max fg bg * 255 = max fg bg * a + max fg bg * (255 - a) := by ring
    rw [q1, q2]
    exact ⟨by omega, by omega⟩
  have hmin : 0 ≤ min fg bg := le_min hfg.1 hbg.1
  have hmax : max fg bg ≤ 255 := max_le hfg.2 hbg.2
  unfold composite blend
  refine ⟨?_, ?_, ?_, ?_⟩
  · intro h; rw [if_pos h]
  · intro h
    have h2 : ¬ a = 255 := by omega
    rw [if_neg h2, if_pos h]
  · intro h0 h1
    have h2 : ¬ a = 255 := by omega
    have h3 : ¬ a = 0 := by omega
    obtain ⟨k1, k2⟩ := key h0 h1
    rw [if_neg h2, if_neg h3]
    refine ⟨rfl, ?_, ?_⟩
    · omega
    · omega
  · by_cases h2 : a = 255
    · rw [if_pos h2]; exact hfg
    · rw [if_neg h2]
      by_cases h3 : a = 0
      · rw [if_pos h3]; exact hbg
      · rw [if_neg h3]
        obtain ⟨k1, k2⟩ := key (by omega) (by omega)
        constructor
        · omega
        · omega

/-- The three bytes the loop of a grayscale-with-alpha row stores for pixel `k`. -/
theorem grayAlphaLoop_pixel (d : PNGDRAW) (unit br bg bb : Int) (hunit : 0 < unit)
    (n k : Nat) (line : List Nat) (hk : k < n) (hfit : 3 * n ≤ line.length) :
    peek (grayAlphaLoop d unit br bg bb n 0 line) (3 * k + 0) =
        composite (peek d.pPixels (2 * unit * k)) (peek d.pPixels (2 * unit * k + unit)) bb
          % 256 ∧
      peek (grayAlphaLoop d unit br bg bb n 0 line) (3 * k + 1) =
        composite (peek d.pPixels (2 * unit * k)) (peek d.pPixels (2 * unit * k + unit)) bg
          % 256 ∧
      peek (grayAlphaLoop d unit br bg bb n 0 line) (3 * k + 2) =
        composite (peek d.pPixels (2 * unit * k)) (peek d.pPixels (2 * unit * k + unit)) br
          % 256 := by
  have hfit' : 3 * (((0 : Nat) : Int) + n) ≤ line.length := by push_cast; omega
  have h0 : (2 * unit * ((0 : Nat) : Int)) = 0 := by push_cast; ring
  have n0 : ¬ (1 : Int) = 0 := by decide
  have n1 : ¬ (2 : Int) = 0 := by decide
  have n2 : ¬ (2 : Int) = 1 := by decide
  refine ⟨?_, ?_, ?_⟩
  · have h := grayAlphaLoop_peek d unit br bg bb hunit n 0 line (3 * k + 0) hfit'
    have hc : 3 * ((0 : Nat) : Int) ≤ 3 * (k : Int) + 0 ∧
        3 * (k : Int) + 0 < 3 * (((0 : Nat) : Int) + n) := by push_cast; omega
    have e1 : (3 * (k : Int) + 0) / 3 = k := by omega
    have e2 : (3 * (k : Int) + 0) % 3 = 0 := by omega
    rw [h0, if_pos hc, e1, e2, if_pos rfl] at h
    exact h
  · have h := grayAlphaLoop_peek d unit br bg bb hunit n 0 line (3 * k + 1) hfit'
    have hc : 3 * ((0 : Nat) : Int) ≤ 3 * (k : Int) + 1 ∧
        3 * (k : Int) + 1 < 3 * (((0 : Nat) : Int) + n) := by push_cast; omega
    have e1 : (3 * (k : Int) + 1) / 3 = k := by omega
    have e2 : (3 * (k : Int) + 1) % 3 = 1 := by omega
    rw [h0, if_pos hc, e1, e2, if_neg n0, if_pos rfl] at h
    exact h
  · have h := grayAlphaLoop_peek d unit br bg bb hunit n 0 line (3 * k + 2) hfit'
    have hc : 3 * ((0 : Nat) : Int) ≤ 3 * (k : Int) + 2 ∧
        3 * (k : Int) + 2 < 3 * (((0 : Nat) : Int) + n) := by push_cast; omega
    have e1 : (3 * (k : Int) + 2) / 3 = k := by omega
    have e2 : (3 * (k : Int) + 2) % 3 = 2 := by omega
    rw [h0, if_pos hc, e1, e2, if_neg n1, if_neg n2] at h
    exact h

/-- The three bytes the loop of a truecolor-with-alpha row stores for pixel
`k`: blue, green, red. -/
theorem trueAlphaLoop_pixel (d : PNGDRAW) (unit br bg bb : Int) (hunit : 0 < unit)
    (n k : Nat) (line : List Nat) (hk : k < n) (hfit : 3 * n ≤ line.length) :
    peek (trueAlphaLoop d unit br bg bb n 0 line) (3 * k + 0) =
        composite (peek d.pPixels (4 * unit * k + 2 * unit))
          (peek d.pPixels (4 * unit * k + 3 * unit)) bb % 256 ∧
      peek (trueAlphaLoop d unit br bg bb n 0 line) (3 * k + 1) =
        composite (peek d.pPixels (4 * unit * k + unit))
          (peek d.pPixels (4 * unit * k + 3 * unit)) bg % 256 ∧
      peek (trueAlphaLoop d unit br bg bb n 0 line) (3 * k + 2) =
        composite (peek d.pPixels (4 * unit * k + 0))
          (peek d.pPixels (4 * unit * k + 3 * unit)) br % 256 := by
  have hfit' : 3 * (((0 : Nat) : Int) + n) ≤ line.length := by push_cast; omega
  have h0 : (4 * unit * ((0 : Nat) : Int)) = 0 := by push_cast; ring
  have n0 : ¬ (1 : Int) = 0 := by decide
  have n1 : ¬ (2 : Int) = 0 := by decide
  have n2 : ¬ (2 : Int) = 1 := by decide
  refine ⟨?_, ?_, ?_⟩
  · have h := trueAlphaLoop_peek d unit br bg bb hunit n 0 line (3 * k + 0) hfit'
    have hc : 3 * ((0 : Nat) : Int) ≤ 3 * (k : Int) + 0 ∧
        3 * (k : Int) + 0 < 3 * (((0 : Nat) : Int) + n) := by push_cast; omega
    have e1 : (3 * (k : Int) + 0) / 3 = k := by omega
    have e2 : (3 * (k : Int) + 0) % 3 = 0 := by omega
    rw [h0, if_pos hc, e1, e2, if_pos rfl] at h
    exact h
  · have h := trueAlphaLoop_peek d unit br bg bb hunit n 0 line (3 * k + 1) hfit'
    have hc : 3 * ((0 : Nat) : Int) ≤ 3 * (k : Int) + 1 ∧
        3 * (k : Int) + 1 < 3 * (((0 : Nat) : Int) + n) := by push_cast; omega
    have e1 : (3 * (k : Int) + 1) / 3 = k := by omega
    have e2 : (3 * (k : Int) + 1) % 3 = 1 := by omega
    rw [h0, if_pos hc, e1, e2, if_neg n0, if_pos rfl] at h
    exact h
  · have h := trueAlphaLoop_peek d unit br bg bb hunit n 0 line (3 * k + 2) hfit'
    have hc : 3 * ((0 : Nat) : Int) ≤ 3 * (k : Int) + 2 ∧
        3 * (k : Int) + 2 < 3 * (((0 : Nat) : Int) + n) := by push_cast; omega
    have e1 : (3 * (k : Int) + 2) / 3 = k := by omega
    have e2 : (3 * (k : Int) + 2) % 3 = 2 := by omega
    rw [h0, if_pos hc, e1, e2, if_neg n1, if_neg n2] at h
    exact h

/-- The line the alpha paths of `pngDraw` produce, byte by byte: the byte of
channel `ch` (0 red, 1 green, 2 blue) of pixel `k` is at offset
`3 * k + (2 - ch)`. -/
theorem drawRow_alpha (d : PNGDRAW) (c : Converter) (br bg bb : Int) (k : Nat) (ch : Int)
    (htype : d.iPixelType = PNG_PIXEL_GRAY_ALPHA ∨ d.iPixelType = PNG_PIXEL_TRUECOLOR_ALPHA)
    (hk : k < alphaPixels d) (hfit : 3 * alphaPixels d ≤ c.BMPLine.length)
    (hch : ch = 0 ∨ ch = 1 ∨ ch = 2) :
    peek (drawRow d c br bg bb).1 (3 * k + (2 - ch)) =
      composite (foreground d k ch) (alphaOf d k) (pick ch br bg bb) % 256 := by
  have n0 : ¬ (1 : Int) = 0 := by decide
  have n1 : ¬ (2 : Int) = 0 := by decide
  have n2 : ¬ (2 : Int) = 1 := by decide
  have i0 : 3 * (k : Int) + (2 - 0) = 3 * k + 2 := by omega
  have i1 : 3 * (k : Int) + (2 - 1) = 3 * k + 1 := by omega
  have i2 : 3 * (k : Int) + (2 - 2) = 3 * k + 0 := by omega
  unfold drawRow foreground alphaOf pick
  unfold alphaPixels alphaSamples sampleBytes at hk hfit
  unfold sampleBytes
  dsimp only
  rcases htype with ht | ht
  · have t1 : ¬ (d.iPixelType = PNG_PIXEL_GRAYSCALE ∨ d.iPixelType = PNG_PIXEL_INDEXED) := by
      rw [ht]; decide
    have t2 : ¬ d.iPixelType = PNG_PIXEL_TRUECOLOR := by rw [ht]; decide
    rw [if_neg t1, if_neg t2, if_pos ht, if_pos ht, if_pos ht]
    rw [if_pos ht] at hk hfit
    dsimp only
    by_cases hb : d.iBpp > 8
    · simp only [if_pos hb] at hk hfit ⊢
      obtain ⟨p0, p1, p2⟩ := grayAlphaLoop_pixel d 2 br bg bb (by decide)
        (trips d.iPitch (2 * 2)) k c.BMPLine hk hfit
      rcases hch with hc | hc | hc <;> subst hc
      · rw [i0, if_pos rfl]; exact p2
      · rw [i1, if_neg n0, if_pos rfl]; exact p1
      · rw [i2, if_neg n1, if_neg n2]; exact p0
    · simp only [if_neg hb] at hk hfit ⊢
      obtain ⟨p0, p1, p2⟩ := grayAlphaLoop_pixel d 1 br bg bb (by decide)
        (trips d.iPitch (2 * 1)) k c.BMPLine hk hfit
      rcases hch with hc | hc | hc <;> subst hc
      · rw [i0, if_pos rfl]; exact p2
      · rw [i1, if_neg n0, if_pos rfl]; exact p1
      · rw [i2, if_neg n1, if_neg n2]; exact p0
  · have t1 : ¬ (d.iPixelType = PNG_PIXEL_GRAYSCALE ∨ d.iPixelType = PNG_PIXEL_INDEXED) := by
      rw [ht]; decide
    have t2 : ¬ d.iPixelType = PNG_PIXEL_TRUECOLOR := by rw [ht]; decide
    have t3 : ¬ d.iPixelType = PNG_PIXEL_GRAY_ALPHA := by rw [ht]; decide
    rw [if_neg t1, if_neg t2, if_neg t3, if_pos ht, if_neg t3, if_neg t3]
    rw [if_neg t3] at hk hfit
    dsimp only
    by_cases hb : d.iBpp > 8
    · simp only [if_pos hb] at hk hfit ⊢
      obtain ⟨p0, p1, p2⟩ := trueAlphaLoop_pixel d 2 br bg bb (by decide)
        (trips d.iPitch (4 * 2)) k c.BMPLine hk hfit
      rcases hch with hc | hc | hc <;> subst hc
      · rw [i0, if_pos rfl, zero_mul]; exact p2
      · rw [i1, if_neg n0, if_pos rfl, one_mul]; exact p1
      · rw [i2, if_neg n1, if_neg n2]; exact p0
    · simp only [if_neg hb] at hk hfit ⊢
      obtain ⟨p0, p1, p2⟩ := trueAlphaLoop_pixel d 1 br bg bb (by decide)
        (trips d.iPitch (4 * 1)) k c.BMPLine hk hfit
      rcases hch with hc | hc | hc <;> subst hc
      · rw [i0, if_pos rfl, zero_mul]; exact p2
      · rw [i1, if_neg n0, if_pos rfl, one_mul]; exact p1
      · rw [i2, if_neg n1, if_neg n2]; exact p0

theorem pick_range (ch br bg bb : Int)
    (hbk : (0 ≤ br ∧ br ≤ 255) ∧ (0 ≤ bg ∧ bg ≤ 255) ∧ (0 ≤ bb ∧ bb ≤ 255)) :
    0 ≤ pick ch br bg bb ∧ pick ch br bg bb ≤ 255 := by
  unfold pick
  split_ifs
  · exact hbk.1
  · exact hbk.2.1
  · exact hbk.2.2

/-- C13 (amended): alpha compositing.  Take a row with alpha (grayscale or
truecolor, 8- or 16-bit samples) whose pixel bytes are bytes, a background
`(br, bg, bb)` of bytes and a line buffer that holds the output row.  For every
pixel `k` of the row and every channel `ch` (0 red, 1 green, 2 blue), the
foreground sample and the alpha are in 0..255, and the byte the alpha path of
`pngDraw` stores for that channel equals the foreground sample when the alpha
is 255, the background sample when the alpha is 0, and otherwise the integer
blend `(fg * a + bg * (255 - a)) >> 8`, which is at most the larger of the two
samples and at least the smaller minus 1. -/
theorem alpha_compositing (d : PNGDRAW) (c : Converter) (br bg bb : Int) (k : Nat) (ch : Int)
    (htype : d.iPixelType = PNG_PIXEL_GRAY_ALPHA ∨ d.iPixelType = PNG_PIXEL_TRUECOLOR_ALPHA)
    (hpix : ∀ x ∈ d.pPixels, x < 256)
    (hbk : (0 ≤ br ∧ br ≤ 255) ∧ (0 ≤ bg ∧ bg ≤ 255) ∧ (0 ≤ bb ∧ bb ≤ 255))
    (hk : k < alphaPixels d) (hfit : 3 * alphaPixels d ≤ c.BMPLine.length)
    (hch : ch = 0 ∨ ch = 1 ∨ ch = 2) :
    (0 ≤ foreground d k ch ∧ foreground d k ch ≤ 255) ∧
    (0 ≤ alphaOf d k ∧ alphaOf d k ≤ 255) ∧
    (alphaOf d k = 255 →
      peek (drawRow d c br bg bb).1 (3 * k + (2 - ch)) = foreground d k ch) ∧
    (alphaOf d k = 0 →
      peek (drawRow d c br bg bb).1 (3 * k + (2 - ch)) = pick ch br bg bb) ∧
    (0 < alphaOf d k → alphaOf d k < 255 →
      peek (drawRow d c br bg bb).1 (3 * k + (2 - ch)) =
          (foreground d k ch * alphaOf d k + pick ch br bg bb * (255 - alphaOf d k)) / 256 ∧
        min (foreground d k ch) (pick ch br bg bb) - 1 ≤
          peek (drawRow d c br bg bb).1 (3 * k + (2 - ch)) ∧
        peek (drawRow d c br bg bb).1 (3 * k + (2 - ch)) ≤
          max (foreground d k ch) (pick ch br bg bb)) := by
  have hfg : 0 ≤ foreground d k ch ∧ foreground d k ch ≤ 255 := by
    unfold foreground
    split_ifs <;> exact peek_byte _ hpix _
  have ha : 0 ≤ alphaOf d k ∧ alphaOf d k ≤ 255 := by
    unfold alphaOf
    split_ifs <;> exact peek_byte _ hpix _
  have hp := pick_range ch br bg bb hbk
  obtain ⟨b1, b2, b3, b4, b5⟩ := composite_bounds _ _ _ hfg hp ha
  have hout := drawRow_alpha d c br bg bb k ch htype hk hfit hch
  have hmod : composite (foreground d k ch) (alphaOf d k) (pick ch br bg bb) % 256 =
      composite (foreground d k ch) (alphaOf d k) (pick ch br bg bb) := by omega
  rw [hmod] at hout
  rw [hout]
  exact ⟨hfg, ha, b1, b2, b3⟩

/-- C13, as stated, fails: with foreground 255, background 255 and alpha 128
the grayscale-with-alpha path stores `(255 * 128 + 255 * 127) >> 8 = 254`, which
is below the smaller of foreground and background. -/
theorem alpha_compositing_counterexample :
    peek (drawRow (drawOf PNG_PIXEL_GRAY_ALPHA 8 1 2 255 [255, 128]) (converterOf 4 (-1))
        255 255 255).1 0 = 254 ∧
      drawBackground (-1) (drawOf PNG_PIXEL_GRAY_ALPHA 8 1 2 255 [255, 128]) = (255, 255, 255) ∧
      ¬ (min (255 : Int) 255 ≤ 254) := by
  decide

/-- Witness for C13 (amended): the green channel of a pixel with alpha 128 over
the default background. -/
theorem alpha_compositing_witness :
    (0 ≤ foreground alphaDraw 0 1 ∧ foreground alphaDraw 0 1 ≤ 255) ∧
    (0 ≤ alphaOf alphaDraw 0 ∧ alphaOf alphaDraw 0 ≤ 255) ∧
    (alphaOf alphaDraw 0 = 255 →
      peek (drawRow alphaDraw (converterOf 4 (-1)) 0x99 0x99 0x99).1 (3 * (0 : Nat) + (2 - 1)) =
        foreground alphaDraw 0 1) ∧
    (alphaOf alphaDraw 0 = 0 →
      peek (drawRow alphaDraw (converterOf 4 (-1)) 0x99 0x99 0x99).1 (3 * (0 : Nat) + (2 - 1)) =
        pick 1 0x99 0x99 0x99) ∧
    (0 < alphaOf alphaDraw 0 → alphaOf alphaDraw 0 < 255 →
      peek (drawRow alphaDraw (converterOf 4 (-1)) 0x99 0x99 0x99).1 (3 * (0 : Nat) + (2 - 1)) =
          (foreground alphaDraw 0 1 * alphaOf alphaDraw 0 +
            pick 1 0x99 0x99 0x99 * (255 - alphaOf alphaDraw 0)) / 256 ∧
        min (foreground alphaDraw 0 1) (pick 1 0x99 0x99 0x99) - 1 ≤
          peek (drawRow alphaDraw (converterOf 4 (-1)) 0x99 0x99 0x99).1
            (3 * (0 : Nat) + (2 - 1)) ∧
        peek (drawRow alphaDraw (converterOf 4 (-1)) 0x99 0x99 0x99).1
            (3 * (0 : Nat) + (2 - 1)) ≤
          max (foreground alphaDraw 0 1) (pick 1 0x99 0x99 0x99)) :=
  alpha_compositing alphaDraw (converterOf 4 (-1)) 0x99 0x99 0x99 0 1 (by decide) (by decide)
    (by decide) (by decide) (by decide) (by decide)

/-- The sample row: green 20 with alpha 128 over 0x99 gives 85. -/
theorem alphaDraw_run :
    peek (drawRow alphaDraw (converterOf 4 (-1)) 0x99 0x99 0x99).1 1 = 85 ∧
      (20 * 128 + 0x99 * (255 - 128)) / 256 = (85 : Int) := by
  decide

theorem pitchSwitch_background {σ ζ δ : Type} (p q : PNGIMAGE σ ζ δ)
    (h : pitchSwitch p = some q) :
    q.ucPixelType = p.ucPixelType ∧
      q.iBackground =
        (if p.ucPixelType = PNG_PIXEL_TRUECOLOR ∨ p.ucPixelType = PNG_PIXEL_TRUECOLOR_ALPHA then
          0x999999
        else if p.ucPixelType = PNG_PIXEL_GRAY_ALPHA then 0x99 else p.iBackground) := by
  unfold pitchSwitch at h
  by_cases c1 : p.ucPixelType = PNG_PIXEL_GRAYSCALE ∨ p.ucPixelType = PNG_PIXEL_INDEXED
  · rw [if_pos c1] at h
    cases h
    have n1 : ¬ (p.ucPixelType = PNG_PIXEL_TRUECOLOR ∨
        p.ucPixelType = PNG_PIXEL_TRUECOLOR_ALPHA) := by
      unfold PNG_PIXEL_GRAYSCALE PNG_PIXEL_INDEXED at c1
      unfold PNG_PIXEL_TRUECOLOR PNG_PIXEL_TRUECOLOR_ALPHA
      omega
    have n2 : ¬ p.ucPixelType = PNG_PIXEL_GRAY_ALPHA := by
      unfold PNG_PIXEL_GRAYSCALE PNG_PIXEL_INDEXED at c1
      unfold PNG_PIXEL_GRAY_ALPHA
      omega
    rw [if_neg n1, if_neg n2]
    exact ⟨rfl, rfl⟩
  · rw [if_neg c1] at h
    by_cases c2 : p.ucPixelType = PNG_PIXEL_TRUECOLOR
    · rw [if_pos c2] at h
      cases h
      rw [if_pos (Or.inl c2)]
      exact ⟨rfl, rfl⟩
    · rw [if_neg c2] at h
      by_cases c3 : p.ucPixelType = PNG_PIXEL_GRAY_ALPHA
      · rw [if_pos c3] at h
        cases h
        have n1 : ¬ (p.ucPixelType = PNG_PIXEL_TRUECOLOR ∨
            p.ucPixelType = PNG_PIXEL_TRUECOLOR_ALPHA) := by
          rw [c3]; decide
        rw [if_neg n1, if_pos c3]
        exact ⟨rfl, rfl⟩
      · rw [if_neg c3] at h
        by_cases c4 : p.ucPixelType = PNG_PIXEL_TRUECOLOR_ALPHA
        · rw [if_pos c4] at h
          cases h
          rw [if_pos (Or.inr c4)]
          exact ⟨rfl, rfl⟩
        · rw [if_neg c4] at h
          cases h

theorem checkPitch_background {σ ζ δ : Type} (q : PNGIMAGE σ ζ δ) :
    (checkPitch q).2.iBackground = q.iBackground ∧
      (checkPitch q).2.ucPixelType = q.ucPixelType := by
  unfold checkPitch failWith
  split_ifs <;> exact ⟨rfl, rfl⟩

theorem parseIHDR_background {σ ζ δ : Type} (pPage : PNGIMAGE σ ζ δ) (s : List Nat)
    (hok : (parseIHDR pPage s).1 = PNG_SUCCESS) :
    (parseIHDR pPage s).2.iBackground =
      (if (parseIHDR pPage s).2.ucPixelType = PNG_PIXEL_TRUECOLOR ∨
          (parseIHDR pPage s).2.ucPixelType = PNG_PIXEL_TRUECOLOR_ALPHA then 0x999999
        else if (parseIHDR pPage s).2.ucPixelType = PNG_PIXEL_GRAY_ALPHA then 0x99
        else pPage.iBackground) := by
  have hcode : ∀ e : Int, e ≠ 0 → e ≠ PNG_SUCCESS := fun e he => he
  by_cases h : peek s 26 ≠ 0 ∨ peek s 27 ≠ 0 ∨ peek s 28 ≠ 0
  · rw [(parseIHDR_flags pPage s h).1] at hok
    exact absurd hok (by decide)
  by_cases hbd : peek s 24 = 1 ∨ peek s 24 = 2 ∨ peek s 24 = 4 ∨ peek s 24 = 8 ∨ peek s 24 = 16
  swap
  · rw [(parseIHDR_bad_depth pPage s h hbd).1] at hok
    exact absurd hok (by decide)
  by_cases hct : peek s 25 = 0 ∨ peek s 25 = 2 ∨ peek s 25 = 3 ∨ peek s 25 = 4 ∨ peek s 25 = 6
  swap
  · rw [(parseIHDR_bad_type pPage s h hbd hct).1] at hok
    exact absurd hok (by decide)
  unfold parseIHDR
  dsimp only
  rw [if_neg h, if_neg (not_not.mpr hbd)]
  obtain ⟨q, hq, -⟩ := pitchSwitch_valid
    { pPage with
      iWidth := i32 (MOTOLONG s 16)
      iHeight := i32 (MOTOLONG s 20)
      ucBpp := peek s 24
      ucPixelType := peek s 25
      iInterlaced := peek s 28 } hct
  rw [hq]
  dsimp only
  obtain ⟨k1, k2⟩ := pitchSwitch_background _ _ hq
  obtain ⟨c1, c2⟩ := checkPitch_background q
  dsimp only at k1 k2
  rw [c1, c2, k1, k2]

/-- The background a successful `PNG_init` leaves in the session: `0x999999` for
truecolor with or without alpha, `0x99` for grayscale with alpha, and the
"unspecified" value `-1` (as `uint32_t`) for grayscale and indexed images. -/
theorem PNG_init_background {σ ζ δ : Type} (pPNG : PNGIMAGE σ ζ δ)
    (hok : (PNG_init pPNG).1 = PNG_SUCCESS) :
    (PNG_init pPNG).2.iBackground =
      (if (PNG_init pPNG).2.ucPixelType = PNG_PIXEL_TRUECOLOR ∨
          (PNG_init pPNG).2.ucPixelType = PNG_PIXEL_TRUECOLOR_ALPHA then 0x999999
        else if (PNG_init pPNG).2.ucPixelType = PNG_PIXEL_GRAY_ALPHA then 0x99
        else u32 (-1)) := by
  unfold PNG_init at hok ⊢
  by_cases hearly : (pPNG.pfnRead pPNG.PNGFile 32).ret < 32 ∨
      (headerBytes pPNG).take 8 ≠ signature ∨ i32 (MOTOLONG (headerBytes pPNG) 8) < 13
  · rw [PNGParseInfo_early pPNG hearly, failWith_fst] at hok
    exact absurd hok (by decide)
  · have h1 : 32 ≤ (pPNG.pfnRead pPNG.PNGFile 32).ret := by omega
    have h2 : (headerBytes pPNG).take 8 = signature := by
      by_contra hc; exact hearly (Or.inr (Or.inl hc))
    have h3 : 13 ≤ i32 (MOTOLONG (headerBytes pPNG) 8) := by omega
    by_cases hmark : MOTOLONG (headerBytes pPNG) 12 = IHDR
    · rw [PNGParseInfo_ihdr pPNG h1 h2 h3 hmark] at hok ⊢
      exact parseIHDR_background _ _ hok
    · rw [PNGParseInfo_not_ihdr pPNG h1 h2 h3 hmark, failWith_fst] at hok
      exact absurd hok (by decide)

theorem lowBytes_of_bytes (x b0 b1 b2 b3 : Int) (h0 : 0 ≤ b0 ∧ b0 < 256)
    (h1 : 0 ≤ b1 ∧ b1 < 256) (h2 : 0 ≤ b2 ∧ b2 < 256)
    (hx : x = b0 + 256 * b1 + 65536 * b2 + 16777216 * b3) : lowBytes x = (b0, b1, b2) := by
  unfold lowBytes
  have e0 : x % 256 = b0 := by omega
  have e1 : x / 256 % 256 = b1 := by omega
  have e2 : x / 65536 % 256 = b2 := by omega
  rw [e0, e1, e2]

/-- C12 (background precedence in the converter).  `drawBackground` is the
background switch of `pngDraw` (rows of truecolor, truecolor with alpha and
grayscale with alpha), `indexedBackground` the one of the palette transform of
`pngDraw_init`.
(1) With the override set (`desiredBackground ≥ 0`, written by its bytes
`b0 .. b3`), both give its three low bytes.
(2) Without the override they give the value delivered in `iBackground`: its
three bytes for truecolor, the byte in all three channels for grayscale with
alpha, and for an indexed image, when the value is non-negative, the palette
entry at that index.
(3) Without the override and with `iBackground` as a successful `PNG_init` left
it (what the decoder passes when no background chunk was processed), every
channel is `0x99`. -/
theorem background_precedence {σ ζ δ : Type} (desiredBackground : Int) (d : PNGDRAW) :
    (∀ b0 b1 b2 b3 : Int, (0 ≤ b0 ∧ b0 < 256) → (0 ≤ b1 ∧ b1 < 256) → (0 ≤ b2 ∧ b2 < 256) →
      0 ≤ b3 → desiredBackground = b0 + 256 * b1 + 65536 * b2 + 16777216 * b3 →
      ((d.iPixelType = PNG_PIXEL_TRUECOLOR ∨ d.iPixelType = PNG_PIXEL_TRUECOLOR_ALPHA ∨
          d.iPixelType = PNG_PIXEL_GRAY_ALPHA) →
        drawBackground desiredBackground d = (b0, b1, b2)) ∧
      indexedBackground desiredBackground d = (b0, b1, b2)) ∧
    (desiredBackground < 0 →
      (∀ r g b : Int, (0 ≤ r ∧ r < 256) → (0 ≤ g ∧ g < 256) → (0 ≤ b ∧ b < 256) →
        d.iBackground = r + 256 * g + 65536 * b →
        (d.iPixelType = PNG_PIXEL_TRUECOLOR ∨ d.iPixelType = PNG_PIXEL_TRUECOLOR_ALPHA) →
        drawBackground desiredBackground d = (r, g, b)) ∧
      (∀ v : Int, (0 ≤ v ∧ v < 256) → d.iBackground = v →
        d.iPixelType = PNG_PIXEL_GRAY_ALPHA →
        drawBackground desiredBackground d = (v, v, v)) ∧
      (0 ≤ d.iBackground →
        indexedBackground desiredBackground d =
          (peek d.pPalette (d.iBackground * 3 + 0), peek d.pPalette (d.iBackground * 3 + 1),
            peek d.pPalette (d.iBackground * 3 + 2)))) ∧
    (desiredBackground < 0 →
      ∀ pPNG : PNGIMAGE σ ζ δ, (PNG_init pPNG).1 = PNG_SUCCESS →
        d.iPixelType = (PNG_init pPNG).2.ucPixelType →
        d.iBackground = i32 (PNG_init pPNG).2.iBackground →
        ((d.iPixelType = PNG_PIXEL_TRUECOLOR ∨ d.iPixelType = PNG_PIXEL_TRUECOLOR_ALPHA ∨
            d.iPixelType = PNG_PIXEL_GRAY_ALPHA) →
          drawBackground desiredBackground d = (0x99, 0x99, 0x99)) ∧
        (d.iPixelType = PNG_PIXEL_INDEXED →
          indexedBackground desiredBackground d = (0x99, 0x99, 0x99))) := by
  have hga : ¬ (PNG_PIXEL_GRAY_ALPHA = PNG_PIXEL_TRUECOLOR ∨
      PNG_PIXEL_GRAY_ALPHA = PNG_PIXEL_TRUECOLOR_ALPHA) := by decide
  refine ⟨?_, ?_, ?_⟩
  · intro b0 b1 b2 b3 h0 h1 h2 h3 hdes
    have hpos : desiredBackground ≥ 0 := by omega
    have hl := lowBytes_of_bytes desiredBackground b0 b1 b2 b3 h0 h1 h2 hdes
    refine ⟨?_, ?_⟩
    · intro ht
      unfold drawBackground
      by_cases c1 : d.iPixelType = PNG_PIXEL_TRUECOLOR ∨ d.iPixelType = PNG_PIXEL_TRUECOLOR_ALPHA
      · rw [if_pos c1, if_pos hpos, hl]
      · have c2 : d.iPixelType = PNG_PIXEL_GRAY_ALPHA := by
          rcases ht with h | h | h
          · exact absurd (Or.inl h) c1
          · exact absurd (Or.inr h) c1
          · exact h
        rw [if_neg c1, if_pos c2, if_pos hpos, hl]
    · unfold indexedBackground
      rw [if_pos hpos, hl]
  · intro hneg
    have hn : ¬ desiredBackground ≥ 0 := by omega
    refine ⟨?_, ?_, ?_⟩
    · intro r g b hr hg hb hbk ht
      unfold drawBackground
      rw [if_pos ht, if_neg hn]
      exact lowBytes_of_bytes d.iBackground r g b 0 hr hg hb (by omega)
    · intro v hv hbk ht
      have c1 : ¬ (d.iPixelType = PNG_PIXEL_TRUECOLOR ∨
          d.iPixelType = PNG_PIXEL_TRUECOLOR_ALPHA) := by rw [ht]; exact hga
      have e : d.iBackground % 256 = v := by omega
      unfold drawBackground
      rw [if_neg c1, if_pos ht, if_neg hn, e]
    · intro hb
      unfold indexedBackground
      rw [if_neg hn, if_pos hb]
  · intro hneg pPNG hok ht hbk
    have hn : ¬ desiredBackground ≥ 0 := by omega
    have hinit := PNG_init_background pPNG hok
    rw [← ht] at hinit
    refine ⟨?_, ?_⟩
    · intro htype
      unfold drawBackground
      by_cases c1 : d.iPixelType = PNG_PIXEL_TRUECOLOR ∨ d.iPixelType = PNG_PIXEL_TRUECOLOR_ALPHA
      · rw [if_pos c1] at hinit
        rw [if_pos c1, if_neg hn, hbk, hinit]
        decide
      · have c2 : d.iPixelType = PNG_PIXEL_GRAY_ALPHA := by
          rcases htype with h | h | h
          · exact absurd (Or.inl h) c1
          · exact absurd (Or.inr h) c1
          · exact h
        rw [if_neg c1, if_pos c2] at hinit
        rw [if_neg c1, if_pos c2, if_neg hn, hbk, hinit]
        decide
    · intro hidx
      have c1 : ¬ (d.iPixelType = PNG_PIXEL_TRUECOLOR ∨
          d.iPixelType = PNG_PIXEL_TRUECOLOR_ALPHA) := by rw [hidx]; decide
      have c2 : ¬ d.iPixelType = PNG_PIXEL_GRAY_ALPHA := by rw [hidx]; decide
      rw [if_neg c1, if_neg c2] at hinit
      have hb : ¬ d.iBackground ≥ 0 := by
        rw [hbk, hinit]; decide
      unfold indexedBackground
      rw [if_neg hn, if_neg hb]

/-! ## Theorems: the run up to the first row -/

theorem drawn_append {δ : Type} (draw : PNGDRAW → δ → δ) (a b : List PNGDRAW) (w : δ) :
    drawn draw (a ++ b) w = drawn draw b (drawn draw a w) := by
  unfold drawn
  rw [List.foldl_append]

theorem Handed_refl {σ ζ δ : Type} (draw : PNGDRAW → δ → δ) (st : DecodeState σ ζ δ) :
    Handed draw st st := by
  refine ⟨[], rfl, ?_, ?_, ?_⟩
  · intro d hd
    cases hd
  · intro d hd
    cases hd
  · intro _
    exact Or.inl rfl

/-- A state that differs from `st` in neither the draw-side state nor the row
counter has been handed nothing. -/
theorem Handed_same {σ ζ δ : Type} (draw : PNGDRAW → δ → δ) (st st1 : DecodeState σ ζ δ)
    (hw : st1.world = st.world) (hy : st1.y = st.y) : Handed draw st st1 := by
  refine ⟨[], hw, ?_, ?_, ?_⟩
  · intro d hd
    cases hd
  · intro d hd
    cases hd
  · intro _
    exact Or.inl hy

/-- The start of a `Handed` segment can be replaced by a state with the same
draw-side state, row counter, palette count and pixel type. -/
theorem Handed_from {σ ζ δ : Type} (draw : PNGDRAW → δ → δ) (st st0 st1 : DecodeState σ ζ δ)
    (hw : st0.world = st.world) (hy : st0.y = st.y)
    (hp : st0.pPage.iPaletteCnt = st.pPage.iPaletteCnt)
    (ht : st0.pPage.ucPixelType = st.pPage.ucPixelType)
    (h : Handed draw st0 st1) : Handed draw st st1 := by
  obtain ⟨calls, h1, h2, h3, h4⟩ := h
  rw [hw, hp, ht, hy] at *
  exact ⟨calls, h1, h2, h3, h4⟩

/-- A segment whose calls are known, followed by another segment. -/
theorem Handed_append {σ ζ δ : Type} (draw : PNGDRAW → δ → δ) (st st2 st1 : DecodeState σ ζ δ)
    (c1 : List PNGDRAW) (a1 : st2.world = drawn draw c1 st.world)
    (a2 : ∀ d ∈ c1, d.iPaletteCnt = st.pPage.iPaletteCnt ∧ d.iPixelType = st.pPage.ucPixelType)
    (a3 : ∀ d ∈ c1.head?, d.y = st.y) (a4 : c1 = [] → st2.y = st.y)
    (h2 : Handed draw st2 st1)
    (hp : st2.pPage.iPaletteCnt = st.pPage.iPaletteCnt)
    (ht : st2.pPage.ucPixelType = st.pPage.ucPixelType) : Handed draw st st1 := by
  obtain ⟨c2, b1, b2, b3, b4⟩ := h2
  rw [hp, ht] at b2
  refine ⟨c1 ++ c2, ?_, ?_, ?_, ?_⟩
  · rw [drawn_append, ← a1]
    exact b1
  · intro d hd
    rcases List.mem_append.mp hd with h | h
    · exact a2 d h
    · exact b2 d h
  · cases c1 with
    | nil =>
      intro d hd
      rw [List.nil_append] at hd
      rw [b3 d hd]
      exact a4 rfl
    | cons x xs =>
      intro d hd
      exact a3 d hd
  · intro hnil
    obtain ⟨n1, n2⟩ := List.append_eq_nil.mp hnil
    rcases b4 n2 with h | h
    · left
      rw [h]
      exact a4 n1
    · right
      exact h

/-- Two segments in a row, when the first one has not stopped at the end of the
stream without a call. -/
theorem Handed_trans {σ ζ δ : Type} (draw : PNGDRAW → δ → δ) (st st2 st1 : DecodeState σ ζ δ)
    (h1 : Handed draw st st2) (h2 : Handed draw st2 st1)
    (hp : st2.pPage.iPaletteCnt = st.pPage.iPaletteCnt)
    (ht : st2.pPage.ucPixelType = st.pPage.ucPixelType)
    (hy : st2.y = st2.pPage.iHeight → st2.y = st.y) : Handed draw st st1 := by
  obtain ⟨c1, a1, a2, a3, a4⟩ := h1
  exact Handed_append draw st st2 st1 c1 a1 a2 a3 (fun h => (a4 h).elim id hy) h2 hp ht

/-- The inflate loop: every completed row is handed to the callback with the
palette count and the pixel type of the session; the session keeps them, the
error code and the chunk bookkeeping. -/
theorem inflateLoop_handed {σ ζ δ : Type} (Z : InflateEngine ζ) (draw : PNGDRAW → δ → δ)
    (User iOptions : Int) (fuel : Nat) :
    ∀ st st1 : DecodeState σ ζ δ,
      inflateLoop Z draw User iOptions fuel st = some st1 →
      (∃ calls : List PNGDRAW, st1.world = drawn draw calls st.world ∧
        (∀ d ∈ calls, d.iPaletteCnt = st.pPage.iPaletteCnt ∧
          d.iPixelType = st.pPage.ucPixelType) ∧
        (∀ d ∈ calls.head?, d.y = st.y) ∧ (calls = [] → st1.y = st.y)) ∧
      st1.iOffset = st.iOffset ∧ st1.iLen = st.iLen ∧ st1.iBytesRead = st.iBytesRead ∧
      st1.iMarker = st.iMarker ∧ st1.more = st.more := by
  induction fuel with
  | zero =>
    intro st st1 h
    unfold inflateLoop at h
    split_ifs at h
    cases h
    refine ⟨⟨[], rfl, ?_, ?_, fun _ => rfl⟩, rfl, rfl, rfl, rfl, rfl⟩
    · intro d hd
      cases hd
    · intro d hd
      cases hd
  | succ fuel ih =>
    intro st st1 h
    unfold inflateLoop at h
    by_cases herr : st.err = Z.Z_OK
    · rw [if_pos herr] at h
      dsimp only at h
      split_ifs at h
      all_goals
        obtain ⟨⟨calls, a1, a2, a3, a4⟩, f1, f2, f3, f4, f5⟩ := ih _ _ h
        first
          | exact ⟨⟨calls, a1, a2, a3, a4⟩, f1, f2, f3, f4, f5⟩
          | (refine ⟨⟨_ :: calls, a1, ?_, ?_, ?_⟩, f1, f2, f3, f4, f5⟩
             · intro d hd
               rcases List.mem_cons.mp hd with h0 | h0
               · rw [h0]
                 exact ⟨rfl, rfl⟩
               · exact a2 d h0
             · intro d hd
               cases hd
               rfl
             · intro hnil
               cases hnil)
    · rw [if_neg herr] at h
      cases h
      refine ⟨⟨[], rfl, ?_, ?_, fun _ => rfl⟩, rfl, rfl, rfl, rfl, rfl⟩
      · intro d hd
        cases hd
      · intro d hd
        cases hd

/-- The image-data loop: completed rows are handed to the callback with the
palette count and the pixel type of the session, which it keeps; the only error
it sets is for `Z_DATA_ERROR` or `Z_STREAM_ERROR` of the engine. -/
theorem idatLoop_handed {σ ζ δ : Type} (Z : InflateEngine ζ) (draw : PNGDRAW → δ → δ)
    (User iOptions : Int) (inner fuel : Nat) :
    ∀ st st1 : DecodeState σ ζ δ,
      idatLoop Z draw User iOptions inner fuel st = some st1 →
      Handed draw st st1 ∧ st1.pPage.iPaletteCnt = st.pPage.iPaletteCnt ∧
        st1.pPage.ucPixelType = st.pPage.ucPixelType ∧
        (st1.pPage.iError = st.pPage.iError ∨
          st1.err = Z.Z_DATA_ERROR ∨ st1.err = Z.Z_STREAM_ERROR) := by
  induction fuel with
  | zero =>
    intro st st1 h
    unfold idatLoop at h
    split_ifs at h
    cases h
    exact ⟨Handed_refl draw _, rfl, rfl, Or.inl rfl⟩
  | succ fuel ih =>
    intro st st1 h
    unfold idatLoop at h
    by_cases hlen : st.iLen ≠ 0
    · rw [if_pos hlen] at h
      by_cases hbuf : st.iOffset ≥ st.iBytesRead
      · rw [if_pos hbuf] at h
        dsimp only at h
        cases h
        split_ifs <;> exact ⟨Handed_same draw _ _ rfl rfl, rfl, rfl, Or.inl rfl⟩
      · rw [if_neg hbuf] at h
        dsimp only at h
        split at h
        · cases h
        · rename_i st2 hinf
          obtain ⟨⟨c1, a1, a2, a3, a4⟩, -⟩ :=
            inflateLoop_handed Z draw User iOptions inner _ _ hinf
          obtain ⟨e1, -, e3, e4⟩ := inflateLoop_frame Z draw User iOptions inner _ _ hinf
          split_ifs at h with hend herr
          · cases h
            exact ⟨⟨c1, a1, a2, a3, fun _ => Or.inr rfl⟩, e3, e4, Or.inl e1⟩
          · cases h
            exact ⟨⟨c1, a1, a2, a3, fun hn => Or.inl (a4 hn)⟩, e3, e4, Or.inr herr⟩
          · obtain ⟨b1, b2, b3, b4⟩ := ih _ _ h
            refine ⟨Handed_append draw st st2 st1 c1 a1 a2 a3 a4 b1 e3 e4, b2.trans e3,
              b3.trans e4, ?_⟩
            rcases b4 with g | g
            · left
              rw [g]
              exact e1
            · right
              exact g
    · rw [if_neg hlen] at h
      cases h
      exact ⟨Handed_refl draw _, rfl, rfl, Or.inl rfl⟩

theorem bkgdCase_session {σ ζ δ : Type} (hbo : Int) (st : DecodeState σ ζ δ) :
    (bkgdCase hbo st).pPage.iPaletteCnt = st.pPage.iPaletteCnt ∧
      (bkgdCase hbo st).pPage.ucPixelType = st.pPage.ucPixelType := by
  unfold bkgdCase
  dsimp only
  split_ifs <;> exact ⟨rfl, rfl⟩

theorem trnsCase_session {σ ζ δ : Type} (st : DecodeState σ ζ δ) :
    (trnsCase st).pPage.iPaletteCnt = st.pPage.iPaletteCnt ∧
      (trnsCase st).pPage.ucPixelType = st.pPage.ucPixelType := by
  unfold trnsCase
  dsimp only
  split_ifs <;> exact ⟨rfl, rfl⟩

theorem plteCase_pixelType {σ ζ δ : Type} (st : DecodeState σ ζ δ) :
    (plteCase st).pPage.ucPixelType = st.pPage.ucPixelType := by
  unfold plteCase
  dsimp only
  split_ifs <;> rfl

theorem refillPhase_pixelType {σ ζ δ : Type} (st : DecodeState σ ζ δ) :
    (refillPhase st).pPage.ucPixelType = st.pPage.ucPixelType := by
  unfold refillPhase
  dsimp only
  split_ifs <;> rfl

/-- The part of an iteration after the refill: completed rows are handed to the
callback with the palette count and the pixel type the session holds at the
start; the pixel type is kept, and so is the palette count unless the chunk in
hand is `PLTE`. -/
theorem chunkPhase_handed {σ ζ δ : Type} (Z : InflateEngine ζ) (draw : PNGDRAW → δ → δ)
    (User iOptions hbo : Int) (fuel : Nat) (st st1 : DecodeState σ ζ δ)
    (h : chunkPhase Z draw User iOptions hbo fuel st = some st1) :
    Handed draw st st1 ∧ st1.pPage.ucPixelType = st.pPage.ucPixelType ∧
      ((headerRead st).iMarker ≠ PLTE → st1.pPage.iPaletteCnt = st.pPage.iPaletteCnt) := by
  unfold chunkPhase at h
  dsimp only at h
  split at h
  · cases h
    exact ⟨Handed_same draw _ _ rfl rfl, rfl, fun _ => rfl⟩
  · rename_i st2 hparsed
    have hp : st2 = headerRead st := by
      unfold headerRead
      split_ifs at hparsed with c1 c2
      · cases hparsed
        rw [if_pos c1]
      · cases hparsed
        rw [if_neg c1]
    obtain ⟨p1, p2, p3, -⟩ := headerRead_frame st
    rw [← hp] at p1 p2 p3
    rw [← hp]
    clear hparsed hp
    have key : Handed draw st2 st1 ∧ st1.pPage.ucPixelType = st2.pPage.ucPixelType ∧
        (st2.iMarker ≠ PLTE → st1.pPage.iPaletteCnt = st2.pPage.iPaletteCnt) := by
      by_cases c1 : ¬ (st2.iMarker = 0x504c5445 ∨ st2.iMarker = 0x74524e53 ∨
          st2.iMarker = 0x49444154 ∨ st2.iMarker = 0x44474b62)
      · rw [if_pos c1] at h
        cases h
        exact ⟨Handed_same draw _ _ rfl rfl, rfl, fun _ => rfl⟩
      · rw [if_neg c1] at h
        by_cases c2 : st2.iMarker ≠ 0x49444154 ∧ i32 (st2.iBytesRead - st2.iOffset) < st2.iLen
        · rw [if_pos c2] at h
          split_ifs at h <;> cases h <;>
            exact ⟨Handed_same draw _ _ rfl rfl, rfl, fun _ => rfl⟩
        · rw [if_neg c2] at h
          split at h
          · cases h
          · rename_i st3 hafter
            cases h
            have hw : ∀ s : DecodeState σ ζ δ,
                (if s.iMarker = 0 then
                  { s with iOffset := i32 (s.iOffset + i32 (s.iLen + 4)) } else s).pPage =
                    s.pPage ∧
                (if s.iMarker = 0 then
                  { s with iOffset := i32 (s.iOffset + i32 (s.iLen + 4)) } else s).y = s.y ∧
                (if s.iMarker = 0 then
                  { s with iOffset := i32 (s.iOffset + i32 (s.iLen + 4)) } else s).world =
                    s.world := by
              intro s
              split_ifs <;> exact ⟨rfl, rfl, rfl⟩
            have hfin : ∀ s3 : DecodeState σ ζ δ, Handed draw st2 s3 →
                Handed draw st2 (if s3.iMarker = 0 then
                  { s3 with iOffset := i32 (s3.iOffset + i32 (s3.iLen + 4)) } else s3) := by
              intro s3 hs3
              obtain ⟨v1, v2, v3⟩ := hw s3
              obtain ⟨calls, a1, a2, a3, a4⟩ := hs3
              refine ⟨calls, ?_, a2, a3, ?_⟩
              · rw [v3]
                exact a1
              · rw [v1, v2]
                exact a4
            have h3 : Handed draw st2 st3 ∧ st3.pPage.ucPixelType = st2.pPage.ucPixelType ∧
                (st2.iMarker ≠ PLTE → st3.pPage.iPaletteCnt = st2.pPage.iPaletteCnt) := by
              by_cases b1 : st2.iMarker = 0x44474b62
              · rw [if_pos b1] at hafter
                cases hafter
                obtain ⟨-, -, f3, -, -, -, -, -, f9⟩ := bkgdCase_frame hbo st2
                obtain ⟨g1, g2⟩ := bkgdCase_session hbo st2
                exact ⟨Handed_same draw _ _ f9 f3, g2, fun _ => g1⟩
              · rw [if_neg b1] at hafter
                by_cases b2 : st2.iMarker = 0x504c5445
                · rw [if_pos b2] at hafter
                  cases hafter
                  obtain ⟨-, f2, f3⟩ := plteCase_frame st2
                  exact ⟨Handed_same draw _ _ f3 f2, plteCase_pixelType st2,
                    fun hne => absurd b2 hne⟩
                · rw [if_neg b2] at hafter
                  by_cases b3 : st2.iMarker = 0x74524e53
                  · rw [if_pos b3] at hafter
                    cases hafter
                    obtain ⟨-, f2, f3⟩ := trnsCase_frame st2
                    obtain ⟨g1, g2⟩ := trnsCase_session st2
                    exact ⟨Handed_same draw _ _ f3 f2, g2, fun _ => g1⟩
                  · rw [if_neg b3] at hafter
                    split at hafter
                    · cases hafter
                    · rename_i st4 hidat
                      cases hafter
                      obtain ⟨d1, d2, d3, -⟩ :=
                        idatLoop_handed Z draw User iOptions fuel fuel _ _ hidat
                      split_ifs
                      · exact ⟨d1, d3, fun _ => d2⟩
                      · exact ⟨d1, d3, fun _ => d2⟩
            obtain ⟨w1, -, -⟩ := hw st3
            refine ⟨hfin st3 h3.1, ?_, ?_⟩
            · rw [w1]
              exact h3.2.1
            · rw [w1]
              exact h3.2.2
    obtain ⟨k1, k2, k3⟩ := key
    refine ⟨Handed_from draw st st2 st1 p2 p3 (by rw [p1]) (by rw [p1]) k1, ?_, ?_⟩
    · rw [k2, p1]
    · intro hne
      rw [k3 hne, p1]

/-- One iteration of the main loop: completed rows are handed to the callback
with the palette count and the pixel type the session holds at the start; the
pixel type is kept, and so is the palette count unless the iteration works on a
`PLTE` chunk. -/
theorem decodeStep_handed {σ ζ δ : Type} (Z : InflateEngine ζ) (draw : PNGDRAW → δ → δ)
    (User iOptions hbo : Int) (fuel : Nat) (st st1 : DecodeState σ ζ δ)
    (h : decodeStep Z draw User iOptions hbo fuel st = some st1) :
    Handed draw st st1 ∧ st1.pPage.ucPixelType = st.pPage.ucPixelType ∧
      (chunkInHand st ≠ PLTE → st1.pPage.iPaletteCnt = st.pPage.iPaletteCnt) := by
  unfold decodeStep at h
  dsimp only at h
  obtain ⟨-, -, f3, f4, -, f6, -⟩ := refillPhase_frame st
  have f7 := refillPhase_pixelType st
  split_ifs at h
  · cases h
    exact ⟨Handed_same draw _ _ f4 f3, f7, fun _ => f6⟩
  · obtain ⟨k1, k2, k3⟩ := chunkPhase_handed Z draw User iOptions hbo fuel _ _ h
    refine ⟨Handed_from draw st _ st1 f4 f3 f6 f7 k1, k2.trans f7, ?_⟩
    intro hne
    rw [k3 hne, f6]

theorem iterations_zero {σ ζ δ : Type} (Z : InflateEngine ζ) (draw : PNGDRAW → δ → δ)
    (User iOptions hbo : Int) (fuel : Nat) (st : DecodeState σ ζ δ) :
    iterations Z draw User iOptions hbo fuel 0 st = some st := by
  unfold iterations
  rfl

/-- An unfolding of `iterations`: the first iteration, then the others. -/
theorem iterations_succ {σ ζ δ : Type} (Z : InflateEngine ζ) (draw : PNGDRAW → δ → δ)
    (User iOptions hbo : Int) (fuel k : Nat) (st sk : DecodeState σ ζ δ)
    (h : iterations Z draw User iOptions hbo fuel (k + 1) st = some sk) :
    (st.pPage.iError = 0 ∧ st.y < st.pPage.iHeight) ∧
      ∃ st1, decodeStep Z draw User iOptions hbo fuel st = some st1 ∧
        iterations Z draw User iOptions hbo fuel k st1 = some sk := by
  unfold iterations at h
  split_ifs at h with hc
  split at h
  · cases h
  · rename_i st1 hstep
    exact ⟨hc, st1, hstep, h⟩

/-- The first iterations of the main loop, as long as none of them works on a
`PLTE` chunk: the session keeps its palette count and pixel type, and every
completed row is handed to the callback with them. -/
theorem iterations_handed {σ ζ δ : Type} (Z : InflateEngine ζ) (draw : PNGDRAW → δ → δ)
    (User iOptions hbo : Int) (fuel k : Nat) :
    ∀ st sk : DecodeState σ ζ δ,
      iterations Z draw User iOptions hbo fuel k st = some sk →
      (∀ j s, j < k → iterations Z draw User iOptions hbo fuel j st = some s →
        chunkInHand s ≠ PLTE) →
      sk.pPage.iPaletteCnt = st.pPage.iPaletteCnt ∧
        sk.pPage.ucPixelType = st.pPage.ucPixelType ∧ Handed draw st sk := by
  induction k with
  | zero =>
    intro st sk h _
    rw [iterations_zero] at h
    cases h
    exact ⟨rfl, rfl, Handed_refl draw _⟩
  | succ k ih =>
    intro st sk h hfree
    obtain ⟨hc, st1, hstep, hrest⟩ := iterations_succ Z draw User iOptions hbo fuel k st sk h
    obtain ⟨a1, a2, a3⟩ := decodeStep_handed Z draw User iOptions hbo fuel st st1 hstep
    have hp := a3 (hfree 0 st (Nat.succ_pos k) (iterations_zero Z draw User iOptions hbo fuel st))
    have hfree1 : ∀ j s, j < k → iterations Z draw User iOptions hbo fuel j st1 = some s →
        chunkInHand s ≠ PLTE := by
      intro j s hj hs
      refine hfree (j + 1) s (Nat.succ_lt_succ hj) ?_
      unfold iterations
      rw [if_pos hc, hstep]
      exact hs
    obtain ⟨b1, b2, b3⟩ := ih st1 sk hrest hfree1
    refine ⟨b1.trans hp, b2.trans a2, ?_⟩
    cases k with
    | zero =>
      rw [iterations_zero] at hrest
      cases hrest
      exact a1
    | succ k =>
      obtain ⟨hc1, -⟩ := iterations_succ Z draw User iOptions hbo fuel k st1 sk hrest
      refine Handed_trans draw st st1 sk a1 b3 hp a2 ?_
      intro hy
      omega

/-- One iteration of the inflate loop: the call of the engine, and the row is
drawn when it is complete. -/
theorem inflateLoop_step {σ ζ δ : Type} (Z : InflateEngine ζ) (draw : PNGDRAW → δ → δ)
    (User iOptions : Int) (fuel : Nat) (q : DecodeState σ ζ δ) (h : q.err = Z.Z_OK) :
    inflateLoop Z draw User iOptions (fuel + 1) q =
      inflateLoop Z draw User iOptions fuel
        (if ((afterInflate Z iOptions q).err = Z.Z_OK ∨
            (afterInflate Z iOptions q).err = Z.Z_STREAM_END) ∧
            (afterInflate Z iOptions q).d_stream.avail_out = 0 then
          emitRow draw User (afterInflate Z iOptions q)
        else afterInflate Z iOptions q) := by
  conv_lhs => unfold inflateLoop
  rw [if_pos h]
  rfl

theorem afterInflate_frame {σ ζ δ : Type} (Z : InflateEngine ζ) (iOptions : Int)
    (q : DecodeState σ ζ δ) :
    (afterInflate Z iOptions q).y = q.y ∧ (afterInflate Z iOptions q).world = q.world ∧
      (afterInflate Z iOptions q).pPage.iPaletteCnt = q.pPage.iPaletteCnt ∧
      (afterInflate Z iOptions q).pPage.ucPixelType = q.pPage.ucPixelType :=
  ⟨rfl, rfl, rfl, rfl⟩

/-- When a call of the engine in the inflate loop completes a row, the callback
is invoked with a record that carries the row index, the palette count and the
pixel type of the loop state; whatever the loop calls later comes after that. -/
theorem inflateLoop_completes {σ ζ δ : Type} (Z : InflateEngine ζ) (draw : PNGDRAW → δ → δ)
    (User iOptions : Int) (n : Nat) :
    ∀ (fuel : Nat) (q st2 : DecodeState σ ζ δ), CompletesRow Z iOptions n q →
      inflateLoop Z draw User iOptions fuel q = some st2 →
      ∃ (d0 : PNGDRAW) (calls : List PNGDRAW), d0.y = q.y ∧
        d0.iPaletteCnt = q.pPage.iPaletteCnt ∧ d0.iPixelType = q.pPage.ucPixelType ∧
        st2.world = drawn draw calls (draw d0 q.world) := by
  induction n with
  | zero =>
    intro fuel q st2 hrow h
    unfold CompletesRow RowDone at hrow
    obtain ⟨r1, r2⟩ := hrow
    cases fuel with
    | zero =>
      unfold inflateLoop at h
      rw [if_pos r1] at h
      cases h
    | succ fuel =>
      rw [inflateLoop_step Z draw User iOptions fuel q r1, if_pos r2] at h
      obtain ⟨⟨calls, a1, -, -, -⟩, -⟩ := inflateLoop_handed Z draw User iOptions fuel _ _ h
      exact ⟨_, calls, rfl, rfl, rfl, a1⟩
  | succ n ih =>
    intro fuel q st2 hrow h
    unfold CompletesRow at hrow
    obtain ⟨r1, r2, r3⟩ := hrow
    unfold RowDone at r2
    cases fuel with
    | zero =>
      unfold inflateLoop at h
      rw [if_pos r1] at h
      cases h
    | succ fuel =>
      rw [inflateLoop_step Z draw User iOptions fuel q r1, if_neg r2] at h
      obtain ⟨d0, calls, b1, b2, b3, b4⟩ := ih fuel _ st2 r3 h
      exact ⟨d0, calls, b1, b2, b3, b4⟩

theorem fed_frame {σ ζ δ : Type} (st : DecodeState σ ζ δ) :
    (fed st).pPage = st.pPage ∧ (fed st).world = st.world ∧ (fed st).y = st.y ∧
      (fed st).iBytesRead = st.iBytesRead ∧ (fed st).err = 0 :=
  ⟨rfl, rfl, rfl, rfl, rfl⟩

/-- The bytes of the chunk that are in the buffer are all handed to the engine:
afterwards the chunk is exhausted or the buffer is. -/
theorem fed_exhausts {σ ζ δ : Type} (st : DecodeState σ ζ δ) (hoff : 0 ≤ st.iOffset)
    (hbuf : st.iOffset < st.iBytesRead) (hread : st.iBytesRead ≤ PNG_FILE_BUF_SIZE) :
    (fed st).iLen = 0 ∨ (fed st).iOffset ≥ (fed st).iBytesRead := by
  unfold PNG_FILE_BUF_SIZE at hread
  have hl : i32 (st.iBytesRead - st.iOffset) = st.iBytesRead - st.iOffset :=
    i32_of_range (by omega) (by omega)
  unfold fed
  dsimp only
  rw [hl]
  by_cases hc : st.iBytesRead - st.iOffset > st.iLen
  · left
    rw [if_pos hc, sub_self]
    rfl
  · right
    rw [if_neg hc]
    have h2 : st.iOffset + (st.iBytesRead - st.iOffset) = st.iBytesRead := by omega
    rw [h2, i32_of_range (by omega) (by omega)]

/-- The image-data loop when the buffer holds image data: the inflate loop runs
once, and the loop ends at the end of the stream, on an error of the engine, at
the end of the chunk or at the end of the buffer. -/
theorem idatLoop_once {σ ζ δ : Type} (Z : InflateEngine ζ) (draw : PNGDRAW → δ → δ)
    (User iOptions : Int) (inner fuel : Nat) (st st2 : DecodeState σ ζ δ)
    (hlen : st.iLen ≠ 0) (hoff : 0 ≤ st.iOffset) (hbuf : st.iOffset < st.iBytesRead)
    (hread : st.iBytesRead ≤ PNG_FILE_BUF_SIZE)
    (hinf : inflateLoop Z draw User iOptions inner (fed st) = some st2) :
    ∃ st5, idatLoop Z draw User iOptions inner (fuel + 2) st = some st5 ∧
      st5.world = st2.world ∧ st5.err = st2.err ∧
      (st5.pPage.iError = st2.pPage.iError ∨
        st5.err = Z.Z_DATA_ERROR ∨ st5.err = Z.Z_STREAM_ERROR) := by
  obtain ⟨-, f1, f2, f3, -, -⟩ := inflateLoop_handed Z draw User iOptions inner _ _ hinf
  have hex := fed_exhausts st hoff hbuf hread
  rw [← f1, ← f2, ← f3] at hex
  unfold fed at hinf
  unfold idatLoop
  rw [if_pos hlen, if_neg (by omega)]
  dsimp only
  rw [hinf]
  dsimp only
  by_cases hend : st2.err = Z.Z_STREAM_END ∧ st2.d_stream.avail_out = 0
  · rw [if_pos hend]
    exact ⟨_, rfl, rfl, rfl, Or.inl rfl⟩
  · rw [if_neg hend]
    by_cases herr : st2.err = Z.Z_DATA_ERROR ∨ st2.err = Z.Z_STREAM_ERROR
    · rw [if_pos herr]
      exact ⟨_, rfl, rfl, rfl, Or.inr herr⟩
    · rw [if_neg herr]
      unfold idatLoop
      by_cases hl2 : st2.iLen ≠ 0
      · have hge : st2.iOffset ≥ st2.iBytesRead := by
          rcases hex with h | h
          · exact absurd h hl2
          · exact h
        rw [if_pos hl2, if_pos hge]
        dsimp only
        split_ifs <;> exact ⟨_, rfl, rfl, rfl, Or.inl rfl⟩
      · rw [if_neg hl2]
        exact ⟨_, rfl, rfl, rfl, Or.inl rfl⟩

/-- The part of an iteration after the refill, for a state that has an `IDAT`
chunk in hand: it is the image-data loop. -/
theorem chunkPhase_idat {σ ζ δ : Type} (Z : InflateEngine ζ) (draw : PNGDRAW → δ → δ)
    (User iOptions hbo : Int) (fuel : Nat) (st st5 : DecodeState σ ζ δ)
    (hm : st.iMarker = IDAT)
    (hidat : idatLoop Z draw User iOptions fuel fuel st = some st5) :
    ∃ fin, chunkPhase Z draw User iOptions hbo fuel st = some fin ∧
      fin.pPage = st5.pPage ∧ fin.world = st5.world ∧ fin.err = st5.err ∧ fin.y = st5.y := by
  unfold IDAT at hm
  have h0 : st.iMarker ≠ 0 := by rw [hm]; decide
  have hk : ¬ ¬ (st.iMarker = 0x504c5445 ∨ st.iMarker = 0x74524e53 ∨
      st.iMarker = 0x49444154 ∨ st.iMarker = 0x44474b62) := by
    rw [hm]; decide
  have hnf : ¬ (st.iMarker ≠ 0x49444154 ∧ i32 (st.iBytesRead - st.iOffset) < st.iLen) :=
    fun h => h.1 hm
  have hnb : ¬ st.iMarker = 0x44474b62 := by rw [hm]; decide
  have hnp : ¬ st.iMarker = 0x504c5445 := by rw [hm]; decide
  have hnt : ¬ st.iMarker = 0x74524e53 := by rw [hm]; decide
  unfold chunkPhase
  dsimp only
  rw [if_neg h0]
  dsimp only
  rw [if_neg hk, if_neg hnf, if_neg hnb, if_neg hnp, if_neg hnt, hidat]
  dsimp only
  split_ifs <;> exact ⟨_, rfl, rfl, rfl, rfl, rfl⟩

/-- An iteration of the main loop that hands image data to the engine, when a
call of the engine completes the current row and the inflate loop ends:
the iteration ends, the callback has been invoked for the row with the palette
count and the pixel type of the session, and no error is set, unless the engine
has reported `Z_DATA_ERROR` or `Z_STREAM_ERROR` later on. -/
theorem decodeStep_first_row {σ ζ δ : Type} (Z : InflateEngine ζ) (draw : PNGDRAW → δ → δ)
    (User iOptions hbo : Int) (fuel n : Nat) (s0 st st2 : DecodeState σ ζ δ)
    (herr : (refillPhase s0).pPage.iError = 0)
    (hchk : (refillPhase s0).iMarker = 0 →
      ¬ (i32 (MOTOLONG (refillPhase s0).pPage.ucFileBuf (refillPhase s0).iOffset) < 0 ∨
        i32 (MOTOLONG (refillPhase s0).pPage.ucFileBuf (refillPhase s0).iOffset) +
          ((refillPhase s0).iFileOffset - (refillPhase s0).iBytesRead) >
            (refillPhase s0).pPage.PNGFile.iSize))
    (hst : headerRead (refillPhase s0) = st)
    (hm : st.iMarker = IDAT) (hlen : st.iLen ≠ 0) (hoff : 0 ≤ st.iOffset)
    (hbuf : st.iOffset < st.iBytesRead) (hread : st.iBytesRead ≤ PNG_FILE_BUF_SIZE)
    (hrow : CompletesRow Z iOptions n (fed st))
    (hinf : inflateLoop Z draw User iOptions (fuel + 2) (fed st) = some st2) :
    ∃ (fin : DecodeState σ ζ δ) (d0 : PNGDRAW) (calls : List PNGDRAW),
      decodeStep Z draw User iOptions hbo (fuel + 2) s0 = some fin ∧
      d0.y = s0.y ∧ d0.iPaletteCnt = s0.pPage.iPaletteCnt ∧
      d0.iPixelType = s0.pPage.ucPixelType ∧
      fin.world = drawn draw calls (draw d0 s0.world) ∧
      (fin.pPage.iError = PNG_SUCCESS ∨
        fin.err = Z.Z_DATA_ERROR ∨ fin.err = Z.Z_STREAM_ERROR) := by
  have hm0 : (headerRead (refillPhase s0)).iMarker ≠ 0 := by
    rw [hst, hm]; decide
  have h1 := chunkPhase_headerRead Z draw User iOptions hbo (fuel + 2) (refillPhase s0) hchk hm0
  rw [hst] at h1
  obtain ⟨st5, i1, i2, i3, i4⟩ :=
    idatLoop_once Z draw User iOptions (fuel + 2) fuel st st2 hlen hoff hbuf hread hinf
  obtain ⟨fin, c1, c2, c3, c4, -⟩ := chunkPhase_idat Z draw User iOptions hbo (fuel + 2) st st5 hm i1
  obtain ⟨d0, calls, r1, r2, r3, r4⟩ :=
    inflateLoop_completes Z draw User iOptions n (fuel + 2) (fed st) st2 hrow hinf
  obtain ⟨e1, -⟩ := inflateLoop_frame Z draw User iOptions (fuel + 2) _ _ hinf
  obtain ⟨g1, g2, g3, -⟩ := headerRead_frame (refillPhase s0)
  rw [hst] at g1 g2 g3
  obtain ⟨-, -, f3, f4, -, f6, -⟩ := refillPhase_frame s0
  have f7 := refillPhase_pixelType s0
  have hstep : decodeStep Z draw User iOptions hbo (fuel + 2) s0 = some fin := by
    unfold decodeStep
    dsimp only
    rw [if_neg (not_not.mpr herr), h1, c1]
  have p1 : (fed st).pPage = st.pPage := rfl
  have p2 : (fed st).world = st.world := rfl
  have p3 : (fed st).y = st.y := rfl
  refine ⟨fin, d0, calls, hstep, ?_, ?_, ?_, ?_, ?_⟩
  · rw [r1, p3, g3, f3]
  · rw [r2, p1, g1, f6]
  · rw [r3, p1, g1, f7]
  · rw [c3, i2, r4, p2, g2, f4]
  · rcases i4 with h | h
    · left
      rw [c2, h, e1, p1, g1]
      exact herr
    · right
      rw [c4]
      exact h

/-- Once the converter has ended the program, the draw callback does nothing. -/
theorem pngDraw_exited (d : PNGDRAW) (c : Converter) (h : c.exited ≠ none) :
    pngDraw d c = c := by
  unfold pngDraw
  rw [if_pos h]

theorem drawn_exited (calls : List PNGDRAW) :
    ∀ c : Converter, c.exited ≠ none → drawn pngDraw calls c = c := by
  induction calls with
  | nil =>
    intro c _
    rfl
  | cons d rest ih =>
    intro c h
    show drawn pngDraw rest (pngDraw d c) = c
    rw [pngDraw_exited d c h]
    exact ih c h

/-- Lines 180-185 of `main.c`: the draw callback of the converter, given row 0
of an indexed image with no palette, ends the program with exit status 4. -/
theorem pngDraw_no_palette (d : PNGDRAW) (c : Converter) (hy : d.y = 0)
    (hidx : d.iPixelType = PNG_PIXEL_INDEXED) (hcnt : d.iPaletteCnt = 0)
    (hlive : c.exited = none) : pngDraw d c = { c with exited := some 4 } := by
  have n1 : ¬ c.exited ≠ none := not_not.mpr hlive
  have n2 : ¬ d.iPixelType = PNG_PIXEL_GRAYSCALE := by rw [hidx]; decide
  have hinit : pngDraw_init d c = { c with exited := some 4 } := by
    unfold pngDraw_init
    rw [if_neg n2, if_pos hidx]
    unfold initIndexed
    dsimp only
    rw [if_pos hcnt]
  unfold pngDraw
  rw [if_neg n1]
  dsimp only
  rw [if_pos hy, hinit]
  have n3 : ({ c with exited := some 4 } : Converter).exited ≠ none := by
    intro h; cases h
  rw [if_pos n3]

/-- The converter after a first call for row 0 of an indexed image with no
palette, whatever calls follow. -/
theorem drawn_no_palette (d : PNGDRAW) (calls : List PNGDRAW) (c : Converter) (hy : d.y = 0)
    (hidx : d.iPixelType = PNG_PIXEL_INDEXED) (hcnt : d.iPaletteCnt = 0)
    (hlive : c.exited = none) :
    drawn pngDraw calls (pngDraw d c) = { c with exited := some 4 } := by
  rw [pngDraw_no_palette d c hy hidx hcnt hlive]
  apply drawn_exited
  intro h
  cases h

/-- The converter after a segment of the run on an indexed image with no
palette: untouched, when no row has been completed, or else ended with exit
status 4 by the call for row 0. -/
theorem Handed_converter {σ ζ : Type} (st sk : DecodeState σ ζ Converter)
    (h : Handed pngDraw st sk) (hidx : st.pPage.ucPixelType = PNG_PIXEL_INDEXED)
    (hcnt : st.pPage.iPaletteCnt = 0) (hy : st.y = 0) (hlive : st.world.exited = none) :
    (sk.world = st.world ∧ (sk.y = 0 ∨ sk.y = sk.pPage.iHeight)) ∨
      sk.world = { st.world with exited := some 4 } := by
  obtain ⟨calls, a1, a2, a3, a4⟩ := h
  cases calls with
  | nil =>
    left
    refine ⟨a1, ?_⟩
    rw [← hy]
    exact a4 rfl
  | cons d rest =>
    right
    obtain ⟨b1, b2⟩ := a2 d (List.mem_cons_self d rest)
    have b3 : d.y = 0 := by
      rw [a3 d rfl]
      exact hy
    rw [a1]
    exact drawn_no_palette d rest st.world b3 (b2.trans hidx) (b1.trans hcnt) hlive

/-- A run of the main loop that ends is a number of iterations. -/
theorem mainLoop_iterations {σ ζ δ : Type} (Z : InflateEngine ζ) (draw : PNGDRAW → δ → δ)
    (User iOptions hbo : Int) (fuel n : Nat) :
    ∀ st fin : DecodeState σ ζ δ,
      mainLoop Z draw User iOptions hbo fuel n st = some fin →
      ∃ k, k ≤ n ∧ iterations Z draw User iOptions hbo fuel k st = some fin := by
  induction n with
  | zero =>
    intro st fin h
    unfold mainLoop at h
    split_ifs at h
    cases h
    exact ⟨0, le_refl _, iterations_zero Z draw User iOptions hbo fuel _⟩
  | succ n ih =>
    intro st fin h
    unfold mainLoop at h
    split_ifs at h with hc
    · split at h
      · cases h
      · rename_i st1 hstep
        obtain ⟨k, k1, k2⟩ := ih _ _ h
        refine ⟨k + 1, Nat.succ_le_succ k1, ?_⟩
        unfold iterations
        rw [if_pos hc, hstep]
        exact k2
    · cases h
      exact ⟨0, Nat.zero_le _, iterations_zero Z draw User iOptions hbo fuel _⟩

theorem decodeEntry_zero {σ ζ δ : Type} (Z : InflateEngine ζ) (pPage : PNGIMAGE σ ζ δ)
    (uLine1 uLine2 : List Nat) (world : δ) :
    decodeEntry Z pPage uLine1 uLine2 world 0 0 = decodeInit Z pPage uLine1 uLine2 world := rfl

/-- C19 (amended): missing palette.  `PNG_decode` has no check of the palette;
the check is in the draw callback of the converter.  The statement is for an
arbitrary inflate engine and byte source; `decodeEntry` is the state in which
`PNG_decode` enters its main loop, whatever the two fields of `d_stream` hold
that the source leaves uninitialised (`decodeInit` has zeros there), and
`iterations` is the state after a number of iterations of that loop.
(1) After any number of iterations none of which works on a `PLTE` chunk, the
session holds the palette count and the pixel type it started with, and the
draw-side state is the result of the invocations of the callback made so far:
each received that palette count (0 for a fresh session) and that pixel type,
the first one row index 0.
(2) If, after such iterations, an iteration hands the data of an `IDAT` chunk to
the engine and a call of the engine (call number `n + 1` of the inflate loop)
completes the current row, then, provided the inflate loop ends, the iteration
ends too: it has invoked the callback for that row with the palette count and
the pixel type of the session, and it sets no error, unless the engine reports
`Z_DATA_ERROR` or `Z_STREAM_ERROR` later in the iteration.
(3) With the draw callback of the converter, an indexed image and a palette
count of 0, the iteration of (2) ends with the converter ended by exit status 4
and otherwise as it was on entry to `PNG_decode`: nothing has been written.
(4) Whenever `PNG_decode` returns for such an image and no iteration has worked
on a `PLTE` chunk, the converter is either untouched (no row was completed) or
ended with exit status 4 by the call for row 0. -/
theorem missing_palette {σ ζ : Type} (Z : InflateEngine ζ) (User iOptions hbo : Int)
    (fuel : Nat) :
    (∀ (δ : Type) (draw : PNGDRAW → δ → δ) (pPage : PNGIMAGE σ ζ δ)
        (uLine1 uLine2 : List Nat)
        (w : δ) (next_in avail_in : Int) (k : Nat) (sk : DecodeState σ ζ δ),
      iterations Z draw User iOptions hbo fuel k
        (decodeEntry Z pPage uLine1 uLine2 w next_in avail_in) = some sk →
      (∀ j s, j < k →
        iterations Z draw User iOptions hbo fuel j
          (decodeEntry Z pPage uLine1 uLine2 w next_in avail_in) = some s →
        chunkInHand s ≠ PLTE) →
      sk.pPage.iPaletteCnt = pPage.iPaletteCnt ∧ sk.pPage.ucPixelType = pPage.ucPixelType ∧
        ∃ calls : List PNGDRAW, sk.world = drawn draw calls w ∧
          (∀ d ∈ calls, d.iPaletteCnt = pPage.iPaletteCnt ∧
            d.iPixelType = pPage.ucPixelType) ∧
          (∀ d ∈ calls.head?, d.y = 0) ∧
          (calls = [] → sk.y = 0 ∨ sk.y = sk.pPage.iHeight)) ∧
    (∀ (δ : Type) (draw : PNGDRAW → δ → δ) (pPage : PNGIMAGE σ ζ δ)
        (uLine1 uLine2 : List Nat)
        (w : δ) (next_in avail_in : Int) (k n : Nat) (s0 st st2 : DecodeState σ ζ δ),
      iterations Z draw User iOptions hbo (fuel + 2) k
        (decodeEntry Z pPage uLine1 uLine2 w next_in avail_in) = some s0 →
      (∀ j s, j < k →
        iterations Z draw User iOptions hbo (fuel + 2) j
          (decodeEntry Z pPage uLine1 uLine2 w next_in avail_in) = some s →
        chunkInHand s ≠ PLTE) →
      (refillPhase s0).pPage.iError = 0 →
      ((refillPhase s0).iMarker = 0 →
        ¬ (i32 (MOTOLONG (refillPhase s0).pPage.ucFileBuf (refillPhase s0).iOffset) < 0 ∨
          i32 (MOTOLONG (refillPhase s0).pPage.ucFileBuf (refillPhase s0).iOffset) +
            ((refillPhase s0).iFileOffset - (refillPhase s0).iBytesRead) >
              (refillPhase s0).pPage.PNGFile.iSize)) →
      headerRead (refillPhase s0) = st →
      st.iMarker = IDAT → st.iLen ≠ 0 →
      0 ≤ st.iOffset → st.iOffset < st.iBytesRead → st.iBytesRead ≤ PNG_FILE_BUF_SIZE →
      CompletesRow Z iOptions n (fed st) →
      inflateLoop Z draw User iOptions (fuel + 2) (fed st) = some st2 →
      ∃ (fin : DecodeState σ ζ δ) (d0 : PNGDRAW) (calls : List PNGDRAW),
        decodeStep Z draw User iOptions hbo (fuel + 2) s0 = some fin ∧
        d0.y = s0.y ∧ d0.iPaletteCnt = pPage.iPaletteCnt ∧
        d0.iPixelType = pPage.ucPixelType ∧
        fin.world = drawn draw calls (draw d0 s0.world) ∧
        (fin.pPage.iError = PNG_SUCCESS ∨
          fin.err = Z.Z_DATA_ERROR ∨ fin.err = Z.Z_STREAM_ERROR)) ∧
    (∀ (pPage : PNGIMAGE σ ζ Converter) (uLine1 uLine2 : List Nat) (c : Converter)
        (next_in avail_in : Int) (k n : Nat) (s0 st st2 : DecodeState σ ζ Converter),
      pPage.ucPixelType = PNG_PIXEL_INDEXED → pPage.iPaletteCnt = 0 → c.exited = none →
      iterations Z pngDraw User iOptions hbo (fuel + 2) k
        (decodeEntry Z pPage uLine1 uLine2 c next_in avail_in) = some s0 →
      (∀ j s, j < k →
        iterations Z pngDraw User iOptions hbo (fuel + 2) j
          (decodeEntry Z pPage uLine1 uLine2 c next_in avail_in) = some s →
        chunkInHand s ≠ PLTE) →
      (s0.pPage.iError = 0 ∧ s0.y < s0.pPage.iHeight) →
      (refillPhase s0).pPage.iError = 0 →
      ((refillPhase s0).iMarker = 0 →
        ¬ (i32 (MOTOLONG (refillPhase s0).pPage.ucFileBuf (refillPhase s0).iOffset) < 0 ∨
          i32 (MOTOLONG (refillPhase s0).pPage.ucFileBuf (refillPhase s0).iOffset) +
            ((refillPhase s0).iFileOffset - (refillPhase s0).iBytesRead) >
              (refillPhase s0).pPage.PNGFile.iSize)) →
      headerRead (refillPhase s0) = st →
      st.iMarker = IDAT → st.iLen ≠ 0 →
      0 ≤ st.iOffset → st.iOffset < st.iBytesRead → st.iBytesRead ≤ PNG_FILE_BUF_SIZE →
      CompletesRow Z iOptions n (fed st) →
      inflateLoop Z pngDraw User iOptions (fuel + 2) (fed st) = some st2 →
      ∃ fin : DecodeState σ ζ Converter,
        decodeStep Z pngDraw User iOptions hbo (fuel + 2) s0 = some fin ∧
        fin.world = { c with exited := some 4 }) ∧
    (∀ (pPage : PNGIMAGE σ ζ Converter) (uLine1 uLine2 : List Nat) (c : Converter) (rc : Int)
        (page : PNGIMAGE σ ζ Converter) (c1 : Converter),
      pPage.pfnDraw = some pngDraw → pPage.uLine1 = some uLine1 → pPage.uLine2 = some uLine2 →
      pPage.ucPixelType = PNG_PIXEL_INDEXED → pPage.iPaletteCnt = 0 → c.exited = none →
      (∀ j s, j < fuel →
        iterations Z pngDraw User iOptions (if pPage.ucBpp > 8 then 0 else 1) fuel j
          (decodeInit Z pPage uLine1 uLine2 c) = some s →
        chunkInHand s ≠ PLTE) →
      PNG_decode Z fuel pPage User iOptions c = some (rc, page, c1) →
      c1 = c ∨ c1 = { c with exited := some 4 }) := by
  refine ⟨?_, ?_, ?_, ?_⟩
  · intro δ draw pPage uLine1 uLine2 w next_in avail_in k sk hrun hfree
    obtain ⟨a1, a2, a3⟩ := iterations_handed Z draw User iOptions hbo fuel k _ _ hrun hfree
    exact ⟨a1, a2, a3⟩
  · intro δ draw pPage uLine1 uLine2 w next_in avail_in k n s0 st st2 hrun hfree herr hchk hst
      hm hlen hoff hbuf hread hrow hinf
    obtain ⟨a1, a2, -⟩ := iterations_handed Z draw User iOptions hbo (fuel + 2) k _ _ hrun hfree
    obtain ⟨fin, d0, calls, b1, b2, b3, b4, b5, b6⟩ :=
      decodeStep_first_row Z draw User iOptions hbo fuel n s0 st st2 herr hchk hst hm hlen hoff
        hbuf hread hrow hinf
    exact ⟨fin, d0, calls, b1, b2, b3.trans a1, b4.trans a2, b5, b6⟩
  · intro pPage uLine1 uLine2 c next_in avail_in k n s0 st st2 hidx hcnt hlive hrun hfree hcond
      herr hchk hst hm hlen hoff hbuf hread hrow hinf
    obtain ⟨a1, a2, a3⟩ :=
      iterations_handed Z pngDraw User iOptions hbo (fuel + 2) k _ _ hrun hfree
    obtain ⟨fin, d0, calls, b1, b2, b3, b4, b5, -⟩ :=
      decodeStep_first_row Z pngDraw User iOptions hbo fuel n s0 st st2 herr hchk hst hm hlen hoff
        hbuf hread hrow hinf
    refine ⟨fin, b1, ?_⟩
    rw [b5]
    rcases Handed_converter _ _ a3 hidx hcnt rfl hlive with ⟨g1, g2⟩ | g
    · have hy0 : s0.y = 0 := by
        rcases g2 with h | h
        · exact h
        · omega
      rw [g1]
      exact drawn_no_palette d0 calls c (b2.trans hy0) ((b4.trans a2).trans hidx)
        ((b3.trans a1).trans hcnt) hlive
    · rw [g]
      have hx : ({ c with exited := some 4 } : Converter).exited ≠ none := by
        intro h; cases h
      show drawn pngDraw calls (pngDraw d0 { c with exited := some 4 }) = _
      rw [pngDraw_exited d0 _ hx]
      exact drawn_exited calls _ hx
  · intro pPage uLine1 uLine2 c rc page c1 hd h1 h2 hidx hcnt hlive hfree hrun
    unfold PNG_decode at hrun
    rw [hd, h1, h2] at hrun
    dsimp only at hrun
    split at hrun
    · cases hrun
    · rename_i fin hloop
      cases hrun
      obtain ⟨k, k1, k2⟩ := mainLoop_iterations Z pngDraw User iOptions _ fuel fuel _ _ hloop
      obtain ⟨-, -, a3⟩ := iterations_handed Z pngDraw User iOptions _ fuel k _ _ k2
        (fun j s hj hs => hfree j s (lt_of_lt_of_le hj k1) hs)
      rcases Handed_converter _ _ a3 hidx hcnt rfl hlive with ⟨g1, -⟩ | g
      · left
        exact g1
      · right
        exact g


/-- C19, as stated, fails: `noPaletteFile` is an indexed image without a `PLTE`
chunk; with a draw callback that records its calls `PNG_decode` returns
`PNG_SUCCESS`, not `PNG_DECODE_ERROR`, after one call of the callback (row 0,
`iPaletteCnt = 0`); with the draw callback of the converter the program ends
with exit status 4 inside that call, no error being set by the decoder. -/
theorem missing_palette_counterexample :
    (readyWith recordCall noPaletteFile).ucPixelType = PNG_PIXEL_INDEXED ∧
    (PNG_decode storedInflate 10 (readyWith recordCall noPaletteFile) 0 0 []).map
        (fun r => (r.1, r.2.2)) = some (PNG_SUCCESS, [([0, -1, 0], [0])]) ∧
    (PNG_decode storedInflate 10 (readyWith recordCall noPaletteFile) 0 0 []).map
        (fun r => r.1) ≠ some PNG_DECODE_ERROR ∧
    (PNG_decode storedInflate 10 (readyWith pngDraw noPaletteFile) 0 0
        (converterInit (readyWith pngDraw noPaletteFile))).map
        (fun r => ([r.1, r.2.1.iError], r.2.2.exited, r.2.2.output.bytes)) =
      some ([PNG_SUCCESS, PNG_SUCCESS], some 4, []) := by
  decide!

/-- The first iteration of the main loop on `noPaletteFile` skips the `IHDR`
chunk. -/
theorem noPaletteInit_first :
    iterations storedInflate pngDraw 0 0 1 10 1 noPaletteInit =
      some (skipped (refillPhase noPaletteInit)) := by
  have hc : noPaletteInit.pPage.iError = 0 ∧ noPaletteInit.y < noPaletteInit.pPage.iHeight := by
    decide!
  have hstep : decodeStep storedInflate pngDraw 0 0 1 10 noPaletteInit =
      some (skipped (refillPhase noPaletteInit)) := by
    rw [decodeStep_chunk storedInflate pngDraw 0 0 1 10 noPaletteInit (by decide!)]
    exact chunkPhase_skipped storedInflate pngDraw 0 0 1 10 _ (by decide!) (by decide!)
      (by decide!)
  show iterations storedInflate pngDraw 0 0 1 10 (0 + 1) noPaletteInit = _
  unfold iterations
  rw [if_pos hc, hstep]
  exact iterations_zero storedInflate pngDraw 0 0 1 10 _

theorem noPaletteInit_inflate :
    (inflateLoop storedInflate pngDraw 0 0 (8 + 2)
      (fed (headerRead (refillPhase (skipped (refillPhase noPaletteInit)))))).isSome := by
  decide!

theorem noPaletteInit_row :
    CompletesRow storedInflate 0 0
      (fed (headerRead (refillPhase (skipped (refillPhase noPaletteInit))))) := by
  unfold CompletesRow RowDone
  decide!

theorem noPaletteInit_free :
    ∀ j, j < 10 → ∀ hj : (iterations storedInflate pngDraw 0 0 1 10 j noPaletteInit).isSome,
      chunkInHand ((iterations storedInflate pngDraw 0 0 1 10 j noPaletteInit).get hj) ≠ PLTE := by
  decide!

theorem noPaletteInit_run :
    (PNG_decode storedInflate 10 (readyWith pngDraw noPaletteFile) 0 0
      (converterInit (readyWith pngDraw noPaletteFile))).isSome := by
  decide!

theorem noPaletteInit_draw : (readyWith pngDraw noPaletteFile).pfnDraw = some pngDraw := rfl

/-- A form of the condition that no iteration works on a `PLTE` chunk that can
be evaluated. -/
theorem iterations_free_of_get {σ ζ δ : Type} (Z : InflateEngine ζ) (draw : PNGDRAW → δ → δ)
    (User iOptions hbo : Int) (fuel n : Nat) (st : DecodeState σ ζ δ)
    (h : ∀ j, j < n → ∀ hj : (iterations Z draw User iOptions hbo fuel j st).isSome,
      chunkInHand ((iterations Z draw User iOptions hbo fuel j st).get hj) ≠ PLTE) :
    ∀ j s, j < n → iterations Z draw User iOptions hbo fuel j st = some s →
      chunkInHand s ≠ PLTE := by
  intro j s hj hs
  have h1 := h j hj (by rw [hs]; rfl)
  rw [Option.get_of_mem _ hs] at h1
  exact h1

/-- Witness for C19 (amended): the run of `PNG_decode` on `noPaletteFile` with
the draw callback of the converter.  The first iteration of the main loop skips
the `IHDR` chunk; the second one hands the `IDAT` chunk to the engine, whose
first call completes row 0: the callback is invoked for row 0 with
`iPaletteCnt = 0`, and the converter ends the program with exit status 4. -/
theorem missing_palette_witness :
    (∃ (fin : DecodeState FileDesc StoredState Converter) (d0 : PNGDRAW) (calls : List PNGDRAW),
      decodeStep storedInflate pngDraw 0 0 1 (8 + 2) (skipped (refillPhase noPaletteInit)) =
        some fin ∧
      d0.y = 0 ∧ d0.iPaletteCnt = 0 ∧ d0.iPixelType = PNG_PIXEL_INDEXED ∧
      fin.world = drawn pngDraw calls
        (pngDraw d0 (converterInit (readyWith pngDraw noPaletteFile))) ∧
      (fin.pPage.iError = PNG_SUCCESS ∨ fin.err = storedInflate.Z_DATA_ERROR ∨
        fin.err = storedInflate.Z_STREAM_ERROR)) ∧
    (∃ fin : DecodeState FileDesc StoredState Converter,
      decodeStep storedInflate pngDraw 0 0 1 (8 + 2) (skipped (refillPhase noPaletteInit)) =
        some fin ∧
      fin.world = { converterInit (readyWith pngDraw noPaletteFile) with exited := some 4 }) ∧
    ((PNG_decode storedInflate 10 (readyWith pngDraw noPaletteFile) 0 0
        (converterInit (readyWith pngDraw noPaletteFile))).get noPaletteInit_run).2.2 =
      { converterInit (readyWith pngDraw noPaletteFile) with exited := some 4 } := by
  obtain ⟨-, h2, h3, -⟩ := @missing_palette FileDesc StoredState storedInflate 0 0 1 8
  obtain ⟨-, -, -, h4⟩ := @missing_palette FileDesc StoredState storedInflate 0 0 1 10
  have hfree : ∀ j s, j < 1 →
      iterations storedInflate pngDraw 0 0 1 (8 + 2) j
        (decodeInit storedInflate (readyWith pngDraw noPaletteFile) [0, 0] [0, 0]
          (converterInit (readyWith pngDraw noPaletteFile))) = some s →
      chunkInHand s ≠ PLTE := by
    intro j s hj hs
    obtain rfl : j = 0 := by omega
    rw [iterations_zero] at hs
    cases hs
    decide!
  refine ⟨?_, ?_, ?_⟩
  · have h2s := h2 Converter pngDraw (readyWith pngDraw noPaletteFile) [0, 0] [0, 0]
      (converterInit (readyWith pngDraw noPaletteFile)) 0 0 1 0
      (skipped (refillPhase noPaletteInit))
      (headerRead (refillPhase (skipped (refillPhase noPaletteInit))))
      ((inflateLoop storedInflate pngDraw 0 0 (8 + 2)
        (fed (headerRead (refillPhase (skipped (refillPhase noPaletteInit)))))).get
          noPaletteInit_inflate)
    rw [decodeEntry_zero] at h2s
    obtain ⟨fin, d0, calls, e1, e2, e3, e4, e5, e6⟩ :=
      h2s noPaletteInit_first hfree (by decide!) (by decide!) rfl (by decide!) (by decide!)
        (by decide!) (by decide!) (by decide!) noPaletteInit_row
        (Option.some_get noPaletteInit_inflate).symm
    refine ⟨fin, d0, calls, e1, ?_, ?_, ?_, ?_, e6⟩
    · rw [e2]; decide!
    · rw [e3]; decide!
    · rw [e4]; decide!
    · rw [e5]
      rfl
  · have h3s := h3 (readyWith pngDraw noPaletteFile) [0, 0] [0, 0]
      (converterInit (readyWith pngDraw noPaletteFile)) 0 0 1 0
      (skipped (refillPhase noPaletteInit))
      (headerRead (refillPhase (skipped (refillPhase noPaletteInit))))
      ((inflateLoop storedInflate pngDraw 0 0 (8 + 2)
        (fed (headerRead (refillPhase (skipped (refillPhase noPaletteInit)))))).get
          noPaletteInit_inflate)
    rw [decodeEntry_zero] at h3s
    exact h3s (by decide!) (by decide!) (by decide!) noPaletteInit_first hfree (by decide!)
      (by decide!) (by decide!) rfl (by decide!) (by decide!)
      (by decide!) (by decide!) (by decide!) noPaletteInit_row
      (Option.some_get noPaletteInit_inflate).symm
  · have hrun := (Option.some_get noPaletteInit_run).symm
    have hx : ((PNG_decode storedInflate 10 (readyWith pngDraw noPaletteFile) 0 0
        (converterInit (readyWith pngDraw noPaletteFile))).get noPaletteInit_run).2.2.exited =
        some 4 := by decide!
    have hy : (converterInit (readyWith pngDraw noPaletteFile)).exited = none := by decide!
    have hb : (if (readyWith pngDraw noPaletteFile).ucBpp > 8 then (0 : Int) else 1) = 1 := by
      decide!
    have h5 := h4 (readyWith pngDraw noPaletteFile) [0, 0] [0, 0]
      (converterInit (readyWith pngDraw noPaletteFile))
    rw [hb] at h5
    generalize (PNG_decode storedInflate 10 (readyWith pngDraw noPaletteFile) 0 0
        (converterInit (readyWith pngDraw noPaletteFile))).get noPaletteInit_run = r at hrun hx ⊢
    obtain ⟨rc, page, c1⟩ := r
    have hd := h5 rc page c1 noPaletteInit_draw
      (by decide!) (by decide!) (by decide!) (by decide!) hy
      (iterations_free_of_get storedInflate pngDraw 0 0 1 10 10 noPaletteInit noPaletteInit_free)
      hrun
    rcases hd with h | h
    · exfalso
      rw [h, hy] at hx
      cases hx
    · exact h


/-! ## Theorems: the converter, witnesses -/

/-- Witness for C12: the override `0x112233`, a background `0x332211` delivered
for a truecolor row, `0x42` for a grayscale row with alpha, and the default. -/
theorem background_precedence_witness :
    drawBackground 0x112233 (drawOf PNG_PIXEL_TRUECOLOR 8 1 3 0x999999 [1, 2, 3]) =
        (0x33, 0x22, 0x11) ∧
      indexedBackground 0x112233 (drawOf PNG_PIXEL_INDEXED 8 1 1 (-1) [0]) = (0x33, 0x22, 0x11) ∧
      drawBackground (-1) (drawOf PNG_PIXEL_TRUECOLOR 8 1 3 0x332211 [1, 2, 3]) =
        (0x11, 0x22, 0x33) ∧
      drawBackground (-1) (drawOf PNG_PIXEL_GRAY_ALPHA 8 1 2 0x42 [1, 2]) = (0x42, 0x42, 0x42) ∧
      drawBackground (-1) (drawOf PNG_PIXEL_TRUECOLOR 8 1 3 0x999999 [1, 2, 3]) =
        (0x99, 0x99, 0x99) := by
  have hA := (@background_precedence FileDesc Unit Unit 0x112233
    (drawOf PNG_PIXEL_TRUECOLOR 8 1 3 0x999999 [1, 2, 3])).1 0x33 0x22 0x11 0
    (by decide) (by decide) (by decide) (by decide) (by decide)
  have hA2 := (@background_precedence FileDesc Unit Unit 0x112233
    (drawOf PNG_PIXEL_INDEXED 8 1 1 (-1) [0])).1 0x33 0x22 0x11 0
    (by decide) (by decide) (by decide) (by decide) (by decide)
  have hB := (@background_precedence FileDesc Unit Unit (-1)
    (drawOf PNG_PIXEL_TRUECOLOR 8 1 3 0x332211 [1, 2, 3])).2.1 (by decide)
  have hB2 := (@background_precedence FileDesc Unit Unit (-1)
    (drawOf PNG_PIXEL_GRAY_ALPHA 8 1 2 0x42 [1, 2])).2.1 (by decide)
  have hC := (@background_precedence FileDesc Unit Unit (-1)
    (drawOf PNG_PIXEL_TRUECOLOR 8 1 3 0x999999 [1, 2, 3])).2.2 (by decide)
    (headerSession (pngFile 1 1 8 2 [] [0, 1, 2, 3])) (by decide!) (by decide!) (by decide!)
  exact ⟨hA.1 (by decide), hA2.2,
    hB.1 0x11 0x22 0x33 (by decide) (by decide) (by decide) (by decide) (by decide),
    hB2.2.1 0x42 (by decide) (by decide) (by decide), hC.1 (by decide)⟩

/-! ## Theorems: the filters of `DeFilter`, byte by byte -/

theorem peek_poke_ne (p : List Nat) (i v j : Int) (h : j ≠ i) :
    peek (poke p i v) j = peek p j := by
  unfold poke
  by_cases hi : 0 ≤ i
  · rw [if_pos hi]
    unfold peek
    by_cases hj : 0 ≤ j
    · rw [if_pos hj, if_pos hj, List.getD_eq_getElem?_getD, List.getD_eq_getElem?_getD,
        List.getElem?_set_ne (by omega)]
    · rw [if_neg hj, if_neg hj]
  · rw [if_neg hi]

theorem backLoop_length (g : Int → Int → Int → Int) (dist : Int) :
    ∀ (n : Nat) (x : Int) (p : List Nat), (backLoop g dist n x p).length = p.length := by
  intro n
  induction n with
  | zero => intro x p; rfl
  | succ n ih =>
    intro x p
    unfold backLoop
    rw [ih, poke_length]

/-- The loop touches the positions it visits only. -/
theorem backLoop_frame (g : Int → Int → Int → Int) (dist : Int) :
    ∀ (n : Nat) (x : Int) (p : List Nat) (j : Int), (j < x + 1 ∨ x + 1 + n ≤ j) →
      peek (backLoop g dist n x p) j = peek p j := by
  intro n
  induction n with
  | zero => intro x p j _; rfl
  | succ n ih =>
    intro x p j hj
    unfold backLoop
    have hj2 : j < x + 1 + 1 ∨ x + 1 + 1 + (n : Int) ≤ j := by
      push_cast at hj; omega
    have hne : j ≠ x + 1 := by push_cast at hj; omega
    rw [ih (x + 1) _ j hj2, peek_poke_ne _ _ _ _ hne]

/-- What the loop leaves at a position it has visited, in terms of the byte
that was there and of the final byte `dist` positions back. -/
theorem backLoop_spec (g : Int → Int → Int → Int) (dist : Int) (hd : 1 ≤ dist) :
    ∀ (n : Nat) (x0 : Int) (p : List Nat), 0 ≤ x0 → x0 + n + 1 ≤ p.length →
      ∀ x : Int, x0 ≤ x → x < x0 + n →
        peek (backLoop g dist n x0 p) (x + 1) =
          g x (peek p (x + 1)) (peek (backLoop g dist n x0 p) (x - dist + 1)) % 256 := by
  intro n
  induction n with
  | zero => intro x0 p _ _ x h1 h2; simp at h2; omega
  | succ n ih =>
    intro x0 p h0 hlen x h1 h2
    push_cast at hlen h2
    unfold backLoop
    by_cases hx : x = x0
    · subst hx
      have hb : peek (backLoop g dist n (x + 1)
          (poke p (x + 1) (g x (peek p (x + 1)) (peek p (x - dist + 1))))) (x - dist + 1) =
          peek p (x - dist + 1) := by
        have hj : x - dist + 1 < x + 1 + 1 ∨ x + 1 + 1 + (n : Int) ≤ x - dist + 1 := by omega
        have hne : x - dist + 1 ≠ x + 1 := by omega
        rw [backLoop_frame g dist n (x + 1) _ _ hj, peek_poke_ne _ _ _ _ hne]
      have hj : x + 1 < x + 1 + 1 ∨ x + 1 + 1 + (n : Int) ≤ x + 1 := by omega
      rw [hb, backLoop_frame g dist n (x + 1) _ _ hj,
        peek_poke _ _ _ _ (by omega) (by omega), if_pos rfl]
    · have hl2 : x0 + 1 + (n : Int) + 1 ≤
          ((poke p (x0 + 1) (g x0 (peek p (x0 + 1)) (peek p (x0 - dist + 1)))).length : Int) := by
        rw [poke_length]; omega
      have hne : x + 1 ≠ x0 + 1 := by omega
      rw [ih (x0 + 1) _ (by omega) hl2 x (by omega) (by omega), peek_poke_ne _ _ _ _ hne]

theorem subLoop_eq (iBpp : Int) : ∀ (n : Nat) (x : Int) (p : List Nat),
    subLoop iBpp n x p = backLoop (fun _ c l => c + l) iBpp n x p := by
  intro n
  induction n with
  | zero => intro x p; rfl
  | succ n ih => intro x p; unfold subLoop backLoop; rw [ih]

theorem upLoop_eq (pPrev : List Nat) (dist : Int) : ∀ (n : Nat) (x : Int) (p : List Nat),
    upLoop pPrev n x p = backLoop (fun x c _ => c + peek pPrev (x + 1)) dist n x p := by
  intro n
  induction n with
  | zero => intro x p; rfl
  | succ n ih => intro x p; unfold upLoop backLoop; rw [ih]

theorem avgLoopFirst_eq (pPrev : List Nat) (dist : Int) : ∀ (n : Nat) (x : Int) (p : List Nat),
    avgLoopFirst pPrev n x p =
      backLoop (fun x c _ => c + peek pPrev (x + 1) / 2) dist n x p := by
  intro n
  induction n with
  | zero => intro x p; rfl
  | succ n ih => intro x p; unfold avgLoopFirst backLoop; rw [ih]

theorem avgLoopRest_eq (iBpp : Int) (pPrev : List Nat) : ∀ (n : Nat) (x : Int) (p : List Nat),
    avgLoopRest iBpp pPrev n x p =
      backLoop (fun x c l => c + (peek pPrev (x + 1) + l) / 2) iBpp n x p := by
  intro n
  induction n with
  | zero => intro x p; rfl
  | succ n ih => intro x p; unfold avgLoopRest backLoop; rw [ih]

theorem paethLoopFirst_eq (pPrev : List Nat) (dist : Int) :
    ∀ (n : Nat) (x : Int) (p : List Nat),
      paethLoopFirst pPrev n x p =
        backLoop (fun x c _ => c + peek pPrev (x + 1)) dist n x p := by
  intro n
  induction n with
  | zero => intro x p; rfl
  | succ n ih => intro x p; unfold paethLoopFirst backLoop; rw [ih]

theorem paethLoopRest_eq (iBpp : Int) (pPrev : List Nat) :
    ∀ (n : Nat) (x : Int) (p : List Nat),
      paethLoopRest iBpp pPrev n x p =
        backLoop (fun x c l =>
          paethChoice l (peek pPrev (x + 1)) (peek pPrev (x - iBpp + 1)) + c) iBpp n x p := by
  intro n
  induction n with
  | zero => intro x p; rfl
  | succ n ih => intro x p; unfold paethLoopRest backLoop; dsimp only; rw [ih]

/-- The single-byte Paeth loop carries in `a` and `c` what the multi-byte loop
reads back from the two line buffers. -/
theorem paethLoop1_eq (pPrev : List Nat) :
    ∀ (n : Nat) (i a c : Int) (p : List Nat), 0 ≤ i → i + n + 1 ≤ p.length →
      a % 256 = peek p i → c = peek pPrev i →
      paethLoop1 pPrev n i a c p = paethLoopRest 1 pPrev n i p := by
  intro n
  induction n with
  | zero => intro i a c p _ _ _ _; rfl
  | succ n ih =>
    intro i a c p h0 hlen ha hc
    push_cast at hlen
    unfold paethLoop1 paethLoopRest
    dsimp only
    have e : i - 1 + 1 = i := by omega
    rw [e, ha, hc]
    apply ih
    · omega
    · rw [poke_length]; omega
    · rw [peek_poke _ _ _ _ (by omega) (by omega), if_pos rfl]
    · rfl

theorem filterDistance_le_pitch (iWidth iPitch : Int) (hp : 1 ≤ iPitch) :
    filterDistance iWidth iPitch ≤ iPitch := by
  unfold filterDistance
  split_ifs with h
  · exact hp
  · by_cases hw : 0 ≤ iWidth
    · rw [Int.tdiv_eq_ediv (by omega) hw]
      exact Int.ediv_le_self _ (by omega)
    · have : Int.tdiv iPitch iWidth ≤ 0 := by
        have h1 := Int.tdiv_neg iPitch (-iWidth)
        rw [neg_neg] at h1
        rw [h1]
        have h2 : 0 ≤ Int.tdiv iPitch (-iWidth) := Int.tdiv_nonneg (by omega) (by omega)
        omega
      omega

theorem DeFilter_avg (pCurr pPrev : List Nat) (iWidth iPitch : Int)
    (htag : peek pCurr 0 = PNG_FILTER_AVG) :
    DeFilter pCurr pPrev iWidth iPitch =
      avgLoopRest (filterDistance iWidth iPitch) pPrev
        (iPitch - filterDistance iWidth iPitch).toNat (filterDistance iWidth iPitch)
        (avgLoopFirst pPrev (filterDistance iWidth iPitch).toNat 0 pCurr) := by
  have h0 : ¬ PNG_FILTER_AVG = PNG_FILTER_NONE := by decide
  have h1 : ¬ PNG_FILTER_AVG = PNG_FILTER_SUB := by decide
  have h2 : ¬ PNG_FILTER_AVG = PNG_FILTER_UP := by decide
  unfold DeFilter filterDistance
  dsimp only
  rw [htag, if_neg h0, if_neg h1, if_neg h2, if_pos rfl]

theorem DeFilter_paeth (pCurr pPrev : List Nat) (iWidth iPitch : Int)
    (htag : peek pCurr 0 = PNG_FILTER_PAETH) :
    DeFilter pCurr pPrev iWidth iPitch =
      if filterDistance iWidth iPitch = 1 then
        paethLoop1 pPrev (iPitch - 1).toNat 1 (peek pCurr 1 + peek pPrev 1) (peek pPrev 1)
          (poke pCurr 1 (peek pCurr 1 + peek pPrev 1))
      else
        paethLoopRest (filterDistance iWidth iPitch) pPrev
          (iPitch - ((filterDistance iWidth iPitch).toNat : Int)).toNat
          ((filterDistance iWidth iPitch).toNat : Int)
          (paethLoopFirst pPrev (filterDistance iWidth iPitch).toNat 0 pCurr) := by
  have h0 : ¬ PNG_FILTER_PAETH = PNG_FILTER_NONE := by decide
  have h1 : ¬ PNG_FILTER_PAETH = PNG_FILTER_SUB := by decide
  have h2 : ¬ PNG_FILTER_PAETH = PNG_FILTER_UP := by decide
  have h3 : ¬ PNG_FILTER_PAETH = PNG_FILTER_AVG := by decide
  unfold DeFilter filterDistance
  dsimp only
  rw [htag, if_neg h0, if_neg h1, if_neg h2, if_neg h3, if_pos rfl]

/-- C25 (Average reconstruction): take a current line whose filter tag is 3, any
previous line, and a width and pitch for which the back-reference distance
`DeFilter` derives is at least 1, the line buffer holding the tag and the
`iPitch` row bytes.  For every row byte `x` below `iPitch`, `DeFilter` leaves
`(raw[x] + floor ((prev[x] + left) / 2)) mod 256` there, where `left` is the
already reconstructed byte `dist` positions back, and 0 for `x < dist`; the sum
`prev[x] + left` is an integer sum, not reduced modulo 256 before the halving. -/
theorem average_reconstruction (pCurr pPrev : List Nat) (iWidth iPitch : Int) (x : Nat)
    (htag : peek pCurr 0 = PNG_FILTER_AVG)
    (hbpp : 1 ≤ filterDistance iWidth iPitch)
    (hlen : iPitch + 1 ≤ pCurr.length) (hx : (x : Int) < iPitch) :
    peek (DeFilter pCurr pPrev iWidth iPitch) (x + 1) =
      (peek pCurr (x + 1) +
        (peek pPrev (x + 1) +
          backByte (DeFilter pCurr pPrev iWidth iPitch) (filterDistance iWidth iPitch) x) / 2) %
        256 := by
  have hx0 : (0 : Int) ≤ x := Int.ofNat_nonneg x
  have hle := filterDistance_le_pitch iWidth iPitch (by omega)
  rw [DeFilter_avg pCurr pPrev iWidth iPitch htag]
  generalize filterDistance iWidth iPitch = d at hbpp hle ⊢
  rw [avgLoopRest_eq, avgLoopFirst_eq pPrev d]
  have hd : ((d.toNat : Nat) : Int) = d := Int.toNat_of_nonneg (by omega)
  have hn : (((iPitch - d).toNat : Nat) : Int) = iPitch - d := Int.toNat_of_nonneg (by omega)
  unfold backByte
  by_cases hxd : (x : Int) < d
  · rw [if_pos hxd, backLoop_frame _ _ _ _ _ _ (Or.inl (by omega)),
      backLoop_spec _ d hbpp _ 0 pCurr (le_refl 0) (by omega) x hx0 (by omega)]
    simp only [add_zero]
  · rw [if_neg hxd,
      backLoop_spec _ d hbpp _ d _ (by omega) (by rw [backLoop_length]; omega) x (by omega)
        (by omega),
      backLoop_frame _ _ d.toNat 0 pCurr _ (Or.inr (by omega))]

/-- C24 (Paeth reconstruction): take a current line whose filter tag is 4, any
previous line, and a width and pitch for which the back-reference distance
`DeFilter` derives is at least 1 (it is 1 on the single-byte path and more on
the multi-byte path), the line buffer holding the tag and the `iPitch` row
bytes.  For every row byte `x` below `iPitch`, `DeFilter` leaves
`(raw[x] + P (a, b, c)) mod 256` there, where `a` is the already reconstructed
byte `dist` positions back (0 for `x < dist`), `b` the byte above in the
previous line, `c` the byte of the previous line `dist` positions back (0 for
`x < dist`), and `P` is `paethPredictor`: the neighbour closest to `a + b - c`,
ties broken in the order `a`, `b`, `c`. -/
theorem paeth_reconstruction (pCurr pPrev : List Nat) (iWidth iPitch : Int) (x : Nat)
    (htag : peek pCurr 0 = PNG_FILTER_PAETH)
    (hbpp : 1 ≤ filterDistance iWidth iPitch)
    (hlen : iPitch + 1 ≤ pCurr.length) (hx : (x : Int) < iPitch) :
    peek (DeFilter pCurr pPrev iWidth iPitch) (x + 1) =
      (peek pCurr (x + 1) +
        paethPredictor
          (backByte (DeFilter pCurr pPrev iWidth iPitch) (filterDistance iWidth iPitch) x)
          (peek pPrev (x + 1)) (backByte pPrev (filterDistance iWidth iPitch) x)) % 256 := by
  have hx0 : (0 : Int) ≤ x := Int.ofNat_nonneg x
  have hle := filterDistance_le_pitch iWidth iPitch (by omega)
  have hb0 : 0 ≤ peek pPrev (x + 1) := by
    unfold peek; split_ifs <;> omega
  rw [DeFilter_paeth pCurr pPrev iWidth iPitch htag]
  generalize filterDistance iWidth iPitch = d at hbpp hle ⊢
  have hd : ((d.toNat : Nat) : Int) = d := Int.toNat_of_nonneg (by omega)
  unfold backByte
  by_cases h1 : d = 1
  · subst h1
    rw [if_pos rfl]
    have hn : (((iPitch - 1).toNat : Nat) : Int) = iPitch - 1 :=
      Int.toNat_of_nonneg (by omega)
    have hl1 : (1 : Int) + ((iPitch - 1).toNat : Nat) + 1 ≤
        ((poke pCurr 1 (peek pCurr 1 + peek pPrev 1)).length : Int) := by
      rw [poke_length]; omega
    rw [paethLoop1_eq pPrev _ 1 _ _ _ (by omega) hl1
        (by rw [peek_poke _ _ _ _ (by omega) (by omega), if_pos rfl]) rfl,
      paethLoopRest_eq]
    by_cases hx1 : (x : Int) < 1
    · have hxz : (x : Int) = 0 := by omega
      rw [if_pos hx1, if_pos hx1, backLoop_frame _ _ _ _ _ _ (Or.inl (by omega)), hxz,
        peek_poke _ _ _ _ (by omega) (by omega)]
      rw [hxz] at hb0
      simp only [zero_add, if_true] at hb0 ⊢
      rw [paethPredictor_first hb0]
    · rw [if_neg hx1, if_neg hx1,
        backLoop_spec _ 1 (le_refl 1) _ 1 _ (by omega) hl1 x (by omega) (by omega),
        peek_poke_ne _ _ _ _ (by omega), paethChoice_eq, add_comm]
  · rw [if_neg h1, paethLoopRest_eq, paethLoopFirst_eq pPrev d, hd]
    have hn : (((iPitch - d).toNat : Nat) : Int) = iPitch - d :=
      Int.toNat_of_nonneg (by omega)
    by_cases hxd : (x : Int) < d
    · rw [if_pos hxd, if_pos hxd, backLoop_frame _ _ _ _ _ _ (Or.inl (by omega)),
        backLoop_spec _ d hbpp _ 0 pCurr (le_refl 0) (by omega) x hx0 (by omega),
        paethPredictor_first hb0]
    · rw [if_neg hxd, if_neg hxd,
        backLoop_spec _ d hbpp _ d _ (by omega) (by rw [backLoop_length]; omega) x (by omega)
          (by omega),
        backLoop_frame _ _ d.toNat 0 pCurr _ (Or.inr (by omega)), paethChoice_eq, add_comm]

/-- What `parseIHDR` stores when it accepts a header. -/
theorem parseIHDR_accepted {σ ζ δ : Type} (pPage : PNGIMAGE σ ζ δ) (s : List Nat)
    (hok : (parseIHDR pPage s).1 = PNG_SUCCESS) :
    (peek s 24 = 1 ∨ peek s 24 = 2 ∨ peek s 24 = 4 ∨ peek s 24 = 8 ∨ peek s 24 = 16) ∧
      (peek s 25 = 0 ∨ peek s 25 = 2 ∨ peek s 25 = 3 ∨ peek s 25 = 4 ∨ peek s 25 = 6) ∧
      (parseIHDR pPage s).2.iWidth = i32 (MOTOLONG s 16) ∧
      (parseIHDR pPage s).2.ucBpp = peek s 24 ∧
      (parseIHDR pPage s).2.ucPixelType = peek s 25 ∧
      (parseIHDR pPage s).2.iPitch = codePitch (i32 (MOTOLONG s 16)) (peek s 24) (peek s 25) ∧
      0 ≤ (parseIHDR pPage s).2.iPitch ∧ (parseIHDR pPage s).2.iPitch < 65534 := by
  have hne1 : PNG_UNSUPPORTED_FEATURE ≠ PNG_SUCCESS := by decide
  have hne2 : PNG_INVALID_FILE ≠ PNG_SUCCESS := by decide
  have hne3 : PNG_TOO_BIG ≠ PNG_SUCCESS := by decide
  by_cases hf : peek s 26 ≠ 0 ∨ peek s 27 ≠ 0 ∨ peek s 28 ≠ 0
  · rw [(parseIHDR_flags _ s hf).1] at hok
    exact absurd hok hne1
  by_cases hbd : peek s 24 = 1 ∨ peek s 24 = 2 ∨ peek s 24 = 4 ∨ peek s 24 = 8 ∨ peek s 24 = 16
  swap
  · rw [(parseIHDR_bad_depth _ s hf hbd).1] at hok
    exact absurd hok hne2
  by_cases hct : peek s 25 = 0 ∨ peek s 25 = 2 ∨ peek s 25 = 3 ∨ peek s 25 = 4 ∨ peek s 25 = 6
  swap
  · rw [(parseIHDR_bad_type _ s hf hbd hct).1] at hok
    exact absurd hok hne2
  obtain ⟨v1, v2, -⟩ := parseIHDR_valid pPage s hf hbd hct
  rw [v2] at hok
  have hp0 : ¬ codePitch (i32 (MOTOLONG s 16)) (peek s 24) (peek s 25) < 0 := by
    intro h; rw [if_pos h] at hok; exact absurd hok hne2
  rw [if_neg hp0] at hok
  have hp1 : ¬ codePitch (i32 (MOTOLONG s 16)) (peek s 24) (peek s 25) ≥ 65534 := by
    intro h; rw [if_pos h] at hok; exact absurd hok hne3
  refine ⟨hbd, hct, ?_, ?_, ?_, v1, by rw [v1]; omega, by rw [v1]; omega⟩
  all_goals
    unfold parseIHDR
    dsimp only
    rw [if_neg hf, if_neg (not_not.mpr hbd)]
    obtain ⟨q, hq, -, -, w1, -, w2, w3⟩ := pitchSwitch_valid
      { pPage with
        iWidth := i32 (MOTOLONG s 16)
        iHeight := i32 (MOTOLONG s 20)
        ucBpp := peek s 24
        ucPixelType := peek s 25
        iInterlaced := peek s 28 } hct
    rw [hq]
    dsimp only at w1 w2 w3 ⊢
    obtain ⟨-, -, -, k1, -, k2, k3⟩ := checkPitch_spec q
    first
      | rw [k1, w1]
      | rw [k2, w2]
      | rw [k3, w3]

/-- What `PNG_init` stores when it accepts a header. -/
theorem PNG_init_accepted {σ ζ δ : Type} (pPage : PNGIMAGE σ ζ δ)
    (hok : (PNG_init pPage).1 = PNG_SUCCESS) :
    (peek (headerBytes pPage) 24 = 1 ∨ peek (headerBytes pPage) 24 = 2 ∨
        peek (headerBytes pPage) 24 = 4 ∨ peek (headerBytes pPage) 24 = 8 ∨
        peek (headerBytes pPage) 24 = 16) ∧
      (peek (headerBytes pPage) 25 = 0 ∨ peek (headerBytes pPage) 25 = 2 ∨
        peek (headerBytes pPage) 25 = 3 ∨ peek (headerBytes pPage) 25 = 4 ∨
        peek (headerBytes pPage) 25 = 6) ∧
      (PNG_init pPage).2.iWidth = i32 (MOTOLONG (headerBytes pPage) 16) ∧
      (PNG_init pPage).2.ucBpp = peek (headerBytes pPage) 24 ∧
      (PNG_init pPage).2.ucPixelType = peek (headerBytes pPage) 25 ∧
      (PNG_init pPage).2.iPitch =
        codePitch (i32 (MOTOLONG (headerBytes pPage) 16)) (peek (headerBytes pPage) 24)
          (peek (headerBytes pPage) 25) ∧
      0 ≤ (PNG_init pPage).2.iPitch ∧ (PNG_init pPage).2.iPitch < 65534 := by
  have hne2 : PNG_INVALID_FILE ≠ PNG_SUCCESS := by decide
  unfold PNG_init at hok ⊢
  by_cases hearly : (pPage.pfnRead pPage.PNGFile 32).ret < 32 ∨
      (headerBytes pPage).take 8 ≠ signature ∨ i32 (MOTOLONG (headerBytes pPage) 8) < 13
  · rw [PNGParseInfo_early pPage hearly, failWith_fst] at hok
    exact absurd hok hne2
  have h1 : 32 ≤ (pPage.pfnRead pPage.PNGFile 32).ret := by
    by_contra h; exact hearly (Or.inl (by omega))
  have h2 : (headerBytes pPage).take 8 = signature := by
    by_contra h; exact hearly (Or.inr (Or.inl h))
  have h3 : 13 ≤ i32 (MOTOLONG (headerBytes pPage) 8) := by
    by_contra h; exact hearly (Or.inr (Or.inr (by omega)))
  by_cases hm : MOTOLONG (headerBytes pPage) 12 = IHDR
  swap
  · rw [PNGParseInfo_not_ihdr pPage h1 h2 h3 hm, failWith_fst] at hok
    exact absurd hok hne2
  rw [PNGParseInfo_ihdr pPage h1 h2 h3 hm] at hok ⊢
  exact parseIHDR_accepted _ _ hok

theorem filterDistance_small (w pitch : Int) (hp : pitch ≤ w) :
    filterDistance w pitch = 1 := by
  unfold filterDistance
  rw [if_pos hp]

theorem filterDistance_whole (w m : Int) (hw : 1 ≤ w) (hm : 2 ≤ m) :
    filterDistance w (m * w) = m := by
  unfold filterDistance
  have h : ¬ m * w ≤ w := by nlinarith
  rw [if_neg h]
  exact Int.mul_tdiv_cancel _ (by omega)

theorem i32_pos_eq {m : Int} (h0 : 0 ≤ m) (h1 : m < 4294967296) (h : 1 ≤ i32 m) : i32 m = m := by
  unfold i32 at h ⊢
  omega

/-- C27 (filter back-reference distance): for every header `PNG_init` accepts
with a stored width of at least 1, a combination of colour type and bit depth
that PNG permits and no 32-bit overflow in the pitch computation, the distance
`DeFilter` derives from the stored width and pitch (1 if `iPitch ≤ iWidth`, else
`iPitch / iWidth`) equals `max 1 (channels * bitdepth / 8)`, the number of whole
bytes per pixel; it is not 0, and where the division is executed its divisor
`iWidth` is not 0. -/
theorem filter_distance {σ ζ δ : Type} (pPage : PNGIMAGE σ ζ δ)
    (hok : (PNG_init pPage).1 = PNG_SUCCESS)
    (hw : 1 ≤ (PNG_init pPage).2.iWidth)
    (hperm : permitted (PNG_init pPage).2.ucPixelType (PNG_init pPage).2.ucBpp)
    (hfit : (PNG_init pPage).2.iWidth * (PNG_init pPage).2.ucBpp *
      channels (PNG_init pPage).2.ucPixelType + 7 < 2147483648) :
    filterDistance (PNG_init pPage).2.iWidth (PNG_init pPage).2.iPitch =
        max 1 (channels (PNG_init pPage).2.ucPixelType * (PNG_init pPage).2.ucBpp / 8) ∧
      filterDistance (PNG_init pPage).2.iWidth (PNG_init pPage).2.iPitch ≠ 0 ∧
      ((PNG_init pPage).2.iWidth < (PNG_init pPage).2.iPitch →
        (PNG_init pPage).2.iWidth ≠ 0) := by
  obtain ⟨hbd, hct, e1, e2, e3, e4, -, -⟩ := PNG_init_accepted pPage hok
  obtain ⟨r0, r1⟩ := MOTOLONG_range (headerBytes pPage) 16
  rw [e1] at hw
  have ew := i32_pos_eq r0 r1 hw
  rw [e1, e2, e3, ew] at hfit
  rw [e2, e3] at hperm
  rw [e4, codePitch_exact r0 hbd hct hfit, e1, e2, e3, ew]
  rw [ew] at hw
  generalize MOTOLONG (headerBytes pPage) 16 = w at hw hfit
  generalize peek (headerBytes pPage) 24 = bd at hperm
  generalize peek (headerBytes pPage) 25 = ct at hperm
  have key : filterDistance w ((w * bd * channels ct + 7) / 8) =
      max 1 (channels ct * bd / 8) := by
    unfold permitted at hperm
    simp only [PNG_PIXEL_GRAYSCALE, PNG_PIXEL_INDEXED, PNG_PIXEL_TRUECOLOR,
      PNG_PIXEL_GRAY_ALPHA, PNG_PIXEL_TRUECOLOR_ALPHA] at hperm
    rcases hperm with ⟨hc, hb⟩ | ⟨hc, hb⟩ | ⟨hc, hb⟩ | ⟨hc, hb⟩ | ⟨hc, hb⟩
    · subst hc
      have c1 : channels 0 = 1 := by decide
      rw [c1]
      rcases hb with hb | hb | hb | hb | hb <;> subst hb
      · rw [filterDistance_small w _ (by omega)]; decide
      · rw [filterDistance_small w _ (by omega)]; decide
      · rw [filterDistance_small w _ (by omega)]; decide
      · rw [filterDistance_small w _ (by omega)]; decide
      · have e : (w * 16 * 1 + 7) / 8 = 2 * w := by omega
        rw [e, filterDistance_whole w 2 hw (by omega)]; decide
    · subst hc
      have c1 : channels 2 = 3 := by decide
      rw [c1]
      rcases hb with hb | hb <;> subst hb
      · have e : (w * 8 * 3 + 7) / 8 = 3 * w := by omega
        rw [e, filterDistance_whole w 3 hw (by omega)]; decide
      · have e : (w * 16 * 3 + 7) / 8 = 6 * w := by omega
        rw [e, filterDistance_whole w 6 hw (by omega)]; decide
    · subst hc
      have c1 : channels 3 = 1 := by decide
      rw [c1]
      rcases hb with hb | hb | hb | hb <;> subst hb
      · rw [filterDistance_small w _ (by omega)]; decide
      · rw [filterDistance_small w _ (by omega)]; decide
      · rw [filterDistance_small w _ (by omega)]; decide
      · rw [filterDistance_small w _ (by omega)]; decide
    · subst hc
      have c1 : channels 4 = 2 := by decide
      rw [c1]
      rcases hb with hb | hb <;> subst hb
      · have e : (w * 8 * 2 + 7) / 8 = 2 * w := by omega
        rw [e, filterDistance_whole w 2 hw (by omega)]; decide
      · have e : (w * 16 * 2 + 7) / 8 = 4 * w := by omega
        rw [e, filterDistance_whole w 4 hw (by omega)]; decide
    · subst hc
      have c1 : channels 6 = 4 := by decide
      rw [c1]
      rcases hb with hb | hb <;> subst hb
      · have e : (w * 8 * 4 + 7) / 8 = 4 * w := by omega
        rw [e, filterDistance_whole w 4 hw (by omega)]; decide
      · have e : (w * 16 * 4 + 7) / 8 = 8 * w := by omega
        rw [e, filterDistance_whole w 8 hw (by omega)]; decide
  refine ⟨key, ?_, ?_⟩
  · rw [key]
    have : (1 : Int) ≤ max 1 (channels ct * bd / 8) := le_max_left _ _
    omega
  · intro _; omega

theorem tdiv8_nonpos {a : Int} (h : a ≤ 6) : Int.tdiv a 8 ≤ 0 := by
  by_cases h0 : 0 ≤ a
  · rw [Int.tdiv_eq_ediv h0 (by omega)]; omega
  · have e : a = -(-a) := by omega
    rw [e, Int.neg_tdiv]
    have : 0 ≤ Int.tdiv (-a) 8 := Int.tdiv_nonneg (by omega) (by omega)
    omega

theorem tdiv_small_neg {p w : Int} (h0 : 0 ≤ p) (hw : w < 0) (h : p < -w) :
    Int.tdiv p w = 0 := by
  have e : w = -(-w) := by omega
  rw [e, Int.tdiv_neg, Int.tdiv_eq_ediv h0 (by omega), Int.ediv_eq_zero_of_lt h0 h]
  rfl

theorem pitch_term_nonpos {t : Int} (h1 : -4194112 ≤ t) (h2 : t < 0) :
    Int.tdiv (i32 (i32 t + 7)) 8 ≤ 0 := by
  rw [i32_of_range (n := t) (by omega) (by omega), i32_of_range (by omega) (by omega)]
  exact tdiv8_nonpos (by omega)

theorem codePitch_nonpos (w bd ct : Int) (h1 : -65533 ≤ w) (h2 : w < 0)
    (hbd : bd = 1 ∨ bd = 2 ∨ bd = 4 ∨ bd = 8 ∨ bd = 16) : codePitch w bd ct ≤ 0 := by
  unfold codePitch
  split_ifs <;> rcases hbd with hb | hb | hb | hb | hb <;> subst hb <;>
    (apply pitch_term_nonpos <;> omega)

/-- For every header `PNG_init` accepts, whatever its width field, the
back-reference distance `DeFilter` derives from the stored width and pitch is
not negative. -/
theorem accepted_distance_nonneg {σ ζ δ : Type} (pPage : PNGIMAGE σ ζ δ)
    (hok : (PNG_init pPage).1 = PNG_SUCCESS) :
    0 ≤ filterDistance (PNG_init pPage).2.iWidth (PNG_init pPage).2.iPitch := by
  obtain ⟨hbd, -, e1, -, -, e4, p0, p1⟩ := PNG_init_accepted pPage hok
  rw [e1]
  rw [e4] at p0 p1
  rw [e4]
  generalize i32 (MOTOLONG (headerBytes pPage) 16) = w at p0 p1 ⊢
  unfold filterDistance
  split_ifs with h
  · omega
  · by_cases hw : 0 ≤ w
    · exact Int.tdiv_nonneg (by omega) hw
    · by_cases hs : w < -65533
      · rw [tdiv_small_neg p0 (by omega) (by omega)]
      · have := codePitch_nonpos w (peek (headerBytes pPage) 24) (peek (headerBytes pPage) 25)
          (by omega) (by omega) hbd
        rw [tdiv_small_neg p0 (by omega) (by omega)]

theorem DeFilter_sub (pCurr pPrev : List Nat) (iWidth iPitch : Int)
    (htag : peek pCurr 0 = PNG_FILTER_SUB) :
    DeFilter pCurr pPrev iWidth iPitch =
      subLoop (filterDistance iWidth iPitch) (iPitch - filterDistance iWidth iPitch).toNat
        (filterDistance iWidth iPitch) pCurr := by
  have h0 : ¬ PNG_FILTER_SUB = PNG_FILTER_NONE := by decide
  unfold DeFilter filterDistance
  dsimp only
  rw [htag, if_neg h0, if_pos rfl]

theorem DeFilter_up (pCurr pPrev : List Nat) (iWidth iPitch : Int)
    (htag : peek pCurr 0 = PNG_FILTER_UP) :
    DeFilter pCurr pPrev iWidth iPitch = upLoop pPrev iPitch.toNat 0 pCurr := by
  have h0 : ¬ PNG_FILTER_UP = PNG_FILTER_NONE := by decide
  have h1 : ¬ PNG_FILTER_UP = PNG_FILTER_SUB := by decide
  unfold DeFilter
  dsimp only
  rw [htag, if_neg h0, if_neg h1, if_pos rfl]

theorem DeFilter_other (pCurr pPrev : List Nat) (iWidth iPitch : Int)
    (htag : peek pCurr 0 = 0 ∨ 5 ≤ peek pCurr 0) :
    DeFilter pCurr pPrev iWidth iPitch = pCurr := by
  unfold DeFilter
  dsimp only
  simp only [PNG_FILTER_NONE, PNG_FILTER_SUB, PNG_FILTER_UP, PNG_FILTER_AVG, PNG_FILTER_PAETH]
  split_ifs <;> first | rfl | omega

theorem paethLoop1_length (pPrev : List Nat) :
    ∀ (n : Nat) (i a c : Int) (p : List Nat), (paethLoop1 pPrev n i a c p).length = p.length := by
  intro n
  induction n with
  | zero => intro i a c p; rfl
  | succ n ih => intro i a c p; unfold paethLoop1; dsimp only; rw [ih, poke_length]

theorem paethLoop1_frame (pPrev : List Nat) :
    ∀ (n : Nat) (i a c : Int) (p : List Nat) (j : Int), j < i + 1 →
      peek (paethLoop1 pPrev n i a c p) j = peek p j := by
  intro n
  induction n with
  | zero => intro i a c p j _; rfl
  | succ n ih =>
    intro i a c p j hj
    unfold paethLoop1
    dsimp only
    rw [ih _ _ _ _ j (by omega), peek_poke_ne _ _ _ _ (by omega)]

theorem DeFilter_length (pCurr pPrev : List Nat) (iWidth iPitch : Int) :
    (DeFilter pCurr pPrev iWidth iPitch).length = pCurr.length := by
  by_cases t1 : peek pCurr 0 = PNG_FILTER_SUB
  · rw [DeFilter_sub _ _ _ _ t1, subLoop_eq, backLoop_length]
  by_cases t2 : peek pCurr 0 = PNG_FILTER_UP
  · rw [DeFilter_up _ _ _ _ t2, upLoop_eq pPrev 1, backLoop_length]
  by_cases t3 : peek pCurr 0 = PNG_FILTER_AVG
  · rw [DeFilter_avg _ _ _ _ t3, avgLoopRest_eq, backLoop_length, avgLoopFirst_eq pPrev 1,
      backLoop_length]
  by_cases t4 : peek pCurr 0 = PNG_FILTER_PAETH
  · rw [DeFilter_paeth _ _ _ _ t4]
    split_ifs
    · rw [paethLoop1_length, poke_length]
    · rw [paethLoopRest_eq, backLoop_length, paethLoopFirst_eq pPrev 1, backLoop_length]
  · have h : peek pCurr 0 = 0 ∨ 5 ≤ peek pCurr 0 := by
      have h0 : 0 ≤ peek pCurr 0 := by unfold peek; split_ifs <;> omega
      simp only [PNG_FILTER_SUB, PNG_FILTER_UP, PNG_FILTER_AVG, PNG_FILTER_PAETH] at t1 t2 t3 t4
      omega
    rw [DeFilter_other _ _ _ _ h]

theorem DeFilter_tag_kept (pCurr pPrev : List Nat) (iWidth iPitch : Int)
    (hd : 0 ≤ filterDistance iWidth iPitch) :
    peek (DeFilter pCurr pPrev iWidth iPitch) 0 = peek pCurr 0 := by
  by_cases t1 : peek pCurr 0 = PNG_FILTER_SUB
  · rw [DeFilter_sub _ _ _ _ t1, subLoop_eq, backLoop_frame _ _ _ _ _ _ (Or.inl (by omega))]
  by_cases t2 : peek pCurr 0 = PNG_FILTER_UP
  · rw [DeFilter_up _ _ _ _ t2, upLoop_eq pPrev 1,
      backLoop_frame _ _ _ _ _ _ (Or.inl (by omega))]
  by_cases t3 : peek pCurr 0 = PNG_FILTER_AVG
  · rw [DeFilter_avg _ _ _ _ t3, avgLoopRest_eq, avgLoopFirst_eq pPrev 1,
      backLoop_frame _ _ _ _ _ _ (Or.inl (by omega)),
      backLoop_frame _ _ _ _ _ _ (Or.inl (by omega))]
  by_cases t4 : peek pCurr 0 = PNG_FILTER_PAETH
  · rw [DeFilter_paeth _ _ _ _ t4]
    split_ifs
    · rw [paethLoop1_frame _ _ _ _ _ _ _ (by omega), peek_poke_ne _ _ _ _ (by omega)]
    · rw [paethLoopRest_eq, paethLoopFirst_eq pPrev 1,
        backLoop_frame _ _ _ _ _ _ (Or.inl (by omega)),
        backLoop_frame _ _ _ _ _ _ (Or.inl (by omega))]
  · have h : peek pCurr 0 = 0 ∨ 5 ≤ peek pCurr 0 := by
      have h0 : 0 ≤ peek pCurr 0 := by unfold peek; split_ifs <;> omega
      simp only [PNG_FILTER_SUB, PNG_FILTER_UP, PNG_FILTER_AVG, PNG_FILTER_PAETH] at t1 t2 t3 t4
      omega
    rw [DeFilter_other _ _ _ _ h]

/-! ## Theorems: palettes and sub-byte rows of the converter -/

theorem blockLoop_length (step : Int → List Nat → List Nat)
    (hlen : ∀ i p, (step i p).length = p.length) :
    ∀ (n : Nat) (i : Int) (p : List Nat), (blockLoop step n i p).length = p.length := by
  intro n
  induction n with
  | zero => intro i p; rfl
  | succ n ih => intro i p; unfold blockLoop; rw [ih, hlen]

/-- A position outside the blocks of the iterations is left as it is. -/
theorem blockLoop_frame (step : Int → List Nat → List Nat) (lo : Int → Int)
    (hframe : ∀ i p idx, ¬ (lo i ≤ idx ∧ idx < lo (i + 1)) → peek (step i p) idx = peek p idx) :
    ∀ (n : Nat) (i0 : Int) (p : List Nat) (idx : Int),
      (∀ j : Int, i0 ≤ j → j < i0 + n → ¬ (lo j ≤ idx ∧ idx < lo (j + 1))) →
      peek (blockLoop step n i0 p) idx = peek p idx := by
  intro n
  induction n with
  | zero => intro i0 p idx _; rfl
  | succ n ih =>
    intro i0 p idx h
    unfold blockLoop
    rw [ih (i0 + 1) _ idx (fun j h1 h2 => h j (by omega) (by push_cast; omega)),
      hframe i0 p idx (h i0 (le_refl _) (by push_cast; omega))]

/-- A position in the block of iteration `j` holds what `step j` puts there. -/
theorem blockLoop_block (step : Int → List Nat → List Nat) (lo : Int → Int)
    (φ : Int → Int → Int → Int)
    (hmono : ∀ a b : Int, a ≤ b → lo a ≤ lo b)
    (hlen : ∀ i p, (step i p).length = p.length)
    (hframe : ∀ i p idx, ¬ (lo i ≤ idx ∧ idx < lo (i + 1)) → peek (step i p) idx = peek p idx)
    (hpoint : ∀ i p idx, 0 ≤ lo i → lo (i + 1) ≤ p.length → lo i ≤ idx → idx < lo (i + 1) →
      peek (step i p) idx = φ i idx (peek p idx)) :
    ∀ (n : Nat) (i0 : Int) (p : List Nat), 0 ≤ lo i0 → lo (i0 + n) ≤ p.length →
      ∀ (j idx : Int), i0 ≤ j → j < i0 + n → lo j ≤ idx → idx < lo (j + 1) →
        peek (blockLoop step n i0 p) idx = φ j idx (peek p idx) := by
  intro n
  induction n with
  | zero => intro i0 p _ _ j idx h1 h2; simp at h2; omega
  | succ n ih =>
    intro i0 p h0 hfit j idx h1 h2 h3 h4
    push_cast at hfit h2
    unfold blockLoop
    by_cases hj : j = i0
    · subst hj
      rw [blockLoop_frame step lo hframe n (j + 1) _ idx, hpoint j p idx h0
        (le_trans (hmono _ _ (by omega)) hfit) h3 h4]
      intro j' g1 g2 hc
      have := hmono (j + 1) j' g1
      omega
    · have e : i0 + 1 + (n : Int) = i0 + (n + 1) := by omega
      rw [ih (i0 + 1) (step i0 p) (le_trans h0 (hmono _ _ (by omega)))
        (by rw [hlen, e]; exact hfit) j idx (by omega) (by omega) h3 h4,
        hframe i0 p idx]
      intro hc
      have := hmono (i0 + 1) j (by omega)
      omega

theorem expandbits8_byte (idx bits : Int) :
    0 ≤ expandbits8 idx bits ∧ expandbits8 idx bits < 256 := by
  unfold expandbits8
  split_ifs <;> omega

theorem grayPaletteLoop_eq (bits : Int) : ∀ (n : Nat) (i : Int) (hdr : List Nat),
    grayPaletteLoop bits n i hdr =
      blockLoop (fun i hdr =>
        poke (poke (poke hdr (54 + (i * 4 + 0)) (expandbits8 i bits))
          (54 + (i * 4 + 1)) (expandbits8 i bits)) (54 + (i * 4 + 2)) (expandbits8 i bits))
        n i hdr := by
  intro n
  induction n with
  | zero => intro i hdr; rfl
  | succ n ih => intro i hdr; unfold grayPaletteLoop blockLoop; dsimp only; rw [ih]

/-- The synthesised gray palette: the three colour bytes of entry `i` are
`expandbits8 i bits`; every other byte of the header is left as it is. -/
theorem grayPaletteLoop_peek (bits : Int) (n : Nat) (hdr : List Nat)
    (hfit : 54 + 4 * (n : Int) ≤ hdr.length) :
    (∀ (i ch : Int), 0 ≤ i → i < n → 0 ≤ ch → ch < 3 →
      peek (grayPaletteLoop bits n 0 hdr) (54 + 4 * i + ch) = expandbits8 i bits) ∧
    (∀ idx : Int, idx < 54 ∨ 54 + 4 * (n : Int) ≤ idx →
      peek (grayPaletteLoop bits n 0 hdr) idx = peek hdr idx) ∧
    (grayPaletteLoop bits n 0 hdr).length = hdr.length := by
  rw [grayPaletteLoop_eq]
  have hlen : ∀ (i : Int) (p : List Nat),
      (poke (poke (poke p (54 + (i * 4 + 0)) (expandbits8 i bits))
        (54 + (i * 4 + 1)) (expandbits8 i bits)) (54 + (i * 4 + 2)) (expandbits8 i bits)).length =
        p.length := by
    intro i p; rw [poke_length, poke_length, poke_length]
  have hframe : ∀ (i : Int) (p : List Nat) (idx : Int),
      ¬ (54 + 4 * i ≤ idx ∧ idx < 54 + 4 * (i + 1)) →
      peek (poke (poke (poke p (54 + (i * 4 + 0)) (expandbits8 i bits))
        (54 + (i * 4 + 1)) (expandbits8 i bits)) (54 + (i * 4 + 2)) (expandbits8 i bits)) idx =
        peek p idx := by
    intro i p idx h
    rw [peek_poke_ne _ _ _ _ (by omega), peek_poke_ne _ _ _ _ (by omega),
      peek_poke_ne _ _ _ _ (by omega)]
  refine ⟨?_, ?_, ?_⟩
  · intro i ch hi0 hin hc0 hc3
    obtain ⟨b0, b1⟩ := expandbits8_byte i bits
    rw [blockLoop_block _ (fun i => 54 + 4 * i)
      (fun i idx old => if idx < 54 + 4 * i + 3 then expandbits8 i bits else old)
      (fun a b h => by dsimp only; omega) hlen hframe ?_ n 0 hdr (by dsimp only; omega)
      (by dsimp only; omega) i (54 + 4 * i + ch) hi0 (by omega) (by dsimp only; omega)
      (by dsimp only; omega)]
    · rw [if_pos (by omega)]
    · intro j p idx g0 g1 g2 g3
      dsimp only at g0 g1 g2 g3 ⊢
      have q := peek_poke3 p (54 + 4 * j) (expandbits8 j bits) (expandbits8 j bits)
        (expandbits8 j bits) idx (by omega) (by omega)
      have e0 : (54 : Int) + (j * 4 + 0) = 54 + 4 * j + 0 := by omega
      have e1 : (54 : Int) + (j * 4 + 1) = 54 + 4 * j + 1 := by omega
      have e2 : (54 : Int) + (j * 4 + 2) = 54 + 4 * j + 2 := by omega
      obtain ⟨c0, c1⟩ := expandbits8_byte j bits
      rw [e0, e1, e2, q]
      split_ifs <;> omega
  · intro idx h
    exact blockLoop_frame _ (fun i => 54 + 4 * i) hframe n 0 hdr idx
      (fun j g1 g2 hc => by dsimp only at hc; omega)
  · exact blockLoop_length _ hlen n 0 hdr

theorem pokeShort_peek (p : List Nat) (i v idx : Int) (h : idx < i ∨ i + 2 ≤ idx) :
    peek (pokeShort p i v) idx = peek p idx := by
  unfold pokeShort
  rw [peek_poke_ne _ _ _ _ (by omega), peek_poke_ne _ _ _ _ (by omega)]

theorem pokeLong_peek (p : List Nat) (i v idx : Int) (h : idx < i ∨ i + 4 ≤ idx) :
    peek (pokeLong p i v) idx = peek p idx := by
  unfold pokeLong
  rw [peek_poke_ne _ _ _ _ (by omega), peek_poke_ne _ _ _ _ (by omega),
    peek_poke_ne _ _ _ _ (by omega), peek_poke_ne _ _ _ _ (by omega)]

/-- The tail of `pngDraw_init` leaves the palette as it is. -/
theorem initTail_palette (d : PNGDRAW) (c : Converter) (n idx : Int) (h : 54 ≤ idx) :
    peek (initTail d c n).winbmphdr idx = peek c.winbmphdr idx := by
  have e : (initTail d c n).winbmphdr =
      pokeLong (pokeLong (pokeShort (pokeLong (pokeShort c.winbmphdr 46 n) 2
        (i32 (54 + 4 * n + i32 (c.pngHeight * c.BmpStride)))) 10 (54 + 4 * n)) 18 d.iWidth) 22
        c.pngHeight := by
    unfold initTail wwrite
    dsimp only
    split_ifs <;> rfl
  rw [e, pokeLong_peek _ _ _ _ (by omega), pokeLong_peek _ _ _ _ (by omega),
    pokeShort_peek _ _ _ _ (by omega), pokeLong_peek _ _ _ _ (by omega),
    pokeShort_peek _ _ _ _ (by omega)]

/-- The palette `pngDraw_init` leaves in the bitmap header for a grayscale
image: the three colour bytes of every entry other than a one-byte transparency
key are `expandbits8 i bits`. -/
theorem initGrayscale_entry (d : PNGDRAW) (c : Converter) (i ch : Int)
    (hfit : 54 + 4 * grayEntries d.iBpp ≤ c.winbmphdr.length)
    (hi0 : 0 ≤ i) (hi : i < grayEntries d.iBpp) (hc0 : 0 ≤ ch) (hc : ch < 3)
    (hkey : ¬ (d.iTransLen = 1 ∧ peek d.iTrans 0 = i)) :
    peek (initGrayscale d c).winbmphdr (54 + 4 * i + ch) = expandbits8 i d.iBpp := by
  have hn0 : 0 ≤ grayEntries d.iBpp := by omega
  have hn : (((grayEntries d.iBpp).toNat : Nat) : Int) = grayEntries d.iBpp :=
    Int.toNat_of_nonneg hn0
  obtain ⟨g1, g2, g3⟩ := grayPaletteLoop_peek d.iBpp (grayEntries d.iBpp).toNat c.winbmphdr
    (by rw [hn]; exact hfit)
  have hloop := g1 i ch hi0 (by rw [hn]; exact hi) hc0 hc
  unfold initGrayscale
  dsimp only
  rw [initTail_palette _ _ _ _ (by omega)]
  dsimp only
  have e : (if d.iBpp = 1 then (2 : Int) else if d.iBpp = 2 then 4 else if d.iBpp = 4 then 16
      else if d.iBpp = 8 then 256 else if d.iBpp = 16 then 256 else 0) = grayEntries d.iBpp := rfl
  rw [e]
  by_cases hk : d.iTransLen = 1
  · have hne : peek d.iTrans 0 ≠ i := fun h => hkey ⟨hk, h⟩
    rw [if_pos hk, peek_poke_ne _ _ _ _ (by omega), peek_poke_ne _ _ _ _ (by omega),
      peek_poke_ne _ _ _ _ (by omega), peek_poke_ne _ _ _ _ (by omega), hloop]
  · rw [if_neg hk, peek_poke_ne _ _ _ _ (by omega), hloop]

theorem expandbits8_table (b v : Int) (hb : b = 1 ∨ b = 2 ∨ b = 4) (h0 : 0 ≤ v)
    (h1 : v < 2 ^ b.toNat) : expandbits8 v b = v * 255 / (2 ^ b.toNat - 1) := by
  rcases hb with hb | hb | hb <;> subst hb
  · have h2 : v < 2 := h1
    interval_cases v <;> decide
  · have h2 : v < 4 := h1
    interval_cases v <;> decide
  · have h2 : v < 16 := h1
    interval_cases v <;> decide

theorem expandbits8_four (v : Int) (h0 : 0 ≤ v) (h1 : v < 16) :
    expandbits8 v 4 = Int.lor (v * 16) v ∧ expandbits8 v 4 = 17 * v := by
  interval_cases v <;> decide

theorem expandbits8_wide (b v : Int) (hb : 8 ≤ b) (h0 : 0 ≤ v) (h1 : v < 256) :
    expandbits8 v b = v := by
  unfold expandbits8
  rw [if_pos hb]
  omega

/-- C21 (sample expansion table).  (1) For every bit depth `b` in 1, 2, 4 and
every sample value `0 ≤ v < 2 ^ b`, `expandbits8 v b = v * 255 / (2 ^ b - 1)`:
0 and 0xFF for 1 bit, 0, 0x55, 0xAA, 0xFF for 2 bits, `(v << 4) | v` for 4 bits.
(2) For `b ≥ 8` a byte `v` is returned unchanged (the result is a `uint8_t`).
(3) The synthesised gray palette, the loop of lines 134-139 run for `n`
entries, has all three colour bytes of entry `i` equal to `expandbits8 i b`;
and so has the bitmap header `pngDraw_init` leaves for a grayscale image, for
every entry `i` below the palette count other than the entry of a one-byte
transparency key, which lines 141-157 fill with the background. -/
theorem sample_expansion (d : PNGDRAW) (c : Converter) :
    (∀ b v : Int, b = 1 ∨ b = 2 ∨ b = 4 → 0 ≤ v → v < 2 ^ b.toNat →
      expandbits8 v b = v * 255 / (2 ^ b.toNat - 1)) ∧
    (expandbits8 0 1 = 0 ∧ expandbits8 1 1 = 0xFF) ∧
    (expandbits8 0 2 = 0 ∧ expandbits8 1 2 = 0x55 ∧ expandbits8 2 2 = 0xAA ∧
      expandbits8 3 2 = 0xFF) ∧
    (∀ v : Int, 0 ≤ v → v < 16 → expandbits8 v 4 = Int.lor (v * 16) v) ∧
    (∀ b v : Int, 8 ≤ b → 0 ≤ v → v < 256 → expandbits8 v b = v) ∧
    (∀ (n : Nat) (hdr : List Nat) (i ch : Int), 54 + 4 * (n : Int) ≤ hdr.length →
      0 ≤ i → i < n → 0 ≤ ch → ch < 3 →
      peek (grayPaletteLoop d.iBpp n 0 hdr) (54 + 4 * i + ch) = expandbits8 i d.iBpp) ∧
    (d.iPixelType = PNG_PIXEL_GRAYSCALE →
      54 + 4 * grayEntries d.iBpp ≤ c.winbmphdr.length →
      ∀ i ch : Int, 0 ≤ i → i < grayEntries d.iBpp → 0 ≤ ch → ch < 3 →
        ¬ (d.iTransLen = 1 ∧ peek d.iTrans 0 = i) →
        peek (pngDraw_init d c).winbmphdr (54 + 4 * i + ch) = expandbits8 i d.iBpp) := by
  refine ⟨expandbits8_table, by decide, by decide, fun v h0 h1 => (expandbits8_four v h0 h1).1,
    expandbits8_wide, ?_, ?_⟩
  · intro n hdr i ch hfit hi0 hi hc0 hc
    exact (grayPaletteLoop_peek d.iBpp n hdr hfit).1 i ch hi0 hi hc0 hc
  · intro ht hfit i ch hi0 hi hc0 hc hkey
    unfold pngDraw_init
    rw [if_pos ht]
    exact initGrayscale_entry d c i ch hfit hi0 hi hc0 hc hkey

theorem and_byte (v m : Nat) (hm : m < 256) : v &&& m = (v % 256) &&& m := by
  apply Nat.eq_of_testBit_eq
  intro i
  have e : (256 : Nat) = 2 ^ 8 := rfl
  rw [Nat.testBit_and, Nat.testBit_and, e, Nat.testBit_mod_two_pow]
  by_cases hi : i < 8
  · simp [hi]
  · have h2 : m < 2 ^ i := lt_of_lt_of_le hm (by
      rw [e]; exact Nat.pow_le_pow_right (by omega) (by omega))
    rw [Nat.testBit_lt_two_pow h2]
    simp

theorem unpack1_table : ∀ r : Nat, r < 256 →
    (((r &&& 0x80) >>> 3) ||| ((r &&& 0x40) >>> 6)) = 16 * (r / 128 % 2) + r / 64 % 2 ∧
    (((r &&& 0x20) >>> 1) ||| ((r &&& 0x10) >>> 4)) = 16 * (r / 32 % 2) + r / 16 % 2 ∧
    (((r &&& 0x08) <<< 1) ||| ((r &&& 0x04) >>> 2)) = 16 * (r / 8 % 2) + r / 4 % 2 ∧
    (((r &&& 0x02) <<< 3) ||| (r &&& 0x01)) = 16 * (r / 2 % 2) + r % 2 := by
  decide!

theorem unpack2_table : ∀ r : Nat, r < 256 →
    (((r &&& 0xC0) >>> 2) ||| ((r &&& 0x30) >>> 4)) = 16 * (r / 64 % 4) + r / 16 % 4 ∧
    (((r &&& 0x0C) <<< 2) ||| (r &&& 0x03)) = 16 * (r / 4 % 4) + r % 4 := by
  decide!

/-- The four bytes the 1-bit loop makes of a source byte `v`: two samples per
byte, each in a nibble of its own. -/
theorem unpack1_bytes (v : Nat) :
    (((v &&& 0x80) >>> 3) ||| ((v &&& 0x40) >>> 6)) = 16 * (v / 128 % 2) + v / 64 % 2 ∧
    (((v &&& 0x20) >>> 1) ||| ((v &&& 0x10) >>> 4)) = 16 * (v / 32 % 2) + v / 16 % 2 ∧
    (((v &&& 0x08) <<< 1) ||| ((v &&& 0x04) >>> 2)) = 16 * (v / 8 % 2) + v / 4 % 2 ∧
    (((v &&& 0x02) <<< 3) ||| (v &&& 0x01)) = 16 * (v / 2 % 2) + v % 2 := by
  have m7 : v % 256 / 128 % 2 = v / 128 % 2 := by omega
  have m6 : v % 256 / 64 % 2 = v / 64 % 2 := by omega
  have m5 : v % 256 / 32 % 2 = v / 32 % 2 := by omega
  have m4 : v % 256 / 16 % 2 = v / 16 % 2 := by omega
  have m3 : v % 256 / 8 % 2 = v / 8 % 2 := by omega
  have m2 : v % 256 / 4 % 2 = v / 4 % 2 := by omega
  have m1 : v % 256 / 2 % 2 = v / 2 % 2 := by omega
  have m0 : v % 256 % 2 = v % 2 := by omega
  have hlt : v % 256 < 256 := Nat.mod_lt _ (by omega)
  have a7 := and_byte v 0x80 (by omega)
  have a6 := and_byte v 0x40 (by omega)
  have a5 := and_byte v 0x20 (by omega)
  have a4 := and_byte v 0x10 (by omega)
  have a3 := and_byte v 0x08 (by omega)
  have a2 := and_byte v 0x04 (by omega)
  have a1 := and_byte v 0x02 (by omega)
  have a0 := and_byte v 0x01 (by omega)
  obtain ⟨t0, t1, t2, t3⟩ := unpack1_table (v % 256) hlt
  rw [m7, m6] at t0
  rw [m5, m4] at t1
  rw [m3, m2] at t2
  rw [m1, m0] at t3
  rw [a7, a6, a5, a4, a3, a2, a1, a0]
  exact ⟨t0, t1, t2, t3⟩

/-- The two bytes the 2-bit loop makes of a source byte `v`. -/
theorem unpack2_bytes (v : Nat) :
    (((v &&& 0xC0) >>> 2) ||| ((v &&& 0x30) >>> 4)) = 16 * (v / 64 % 4) + v / 16 % 4 ∧
    (((v &&& 0x0C) <<< 2) ||| (v &&& 0x03)) = 16 * (v / 4 % 4) + v % 4 := by
  have m3 : v % 256 / 64 % 4 = v / 64 % 4 := by omega
  have m2 : v % 256 / 16 % 4 = v / 16 % 4 := by omega
  have m1 : v % 256 / 4 % 4 = v / 4 % 4 := by omega
  have m0 : v % 256 % 4 = v % 4 := by omega
  have hlt : v % 256 < 256 := Nat.mod_lt _ (by omega)
  have a3 := and_byte v 0xC0 (by omega)
  have a2 := and_byte v 0x30 (by omega)
  have a1 := and_byte v 0x0C (by omega)
  have a0 := and_byte v 0x03 (by omega)
  obtain ⟨t0, t1⟩ := unpack2_table (v % 256) hlt
  rw [m3, m2] at t0
  rw [m1, m0] at t1
  rw [a3, a2, a1, a0]
  exact ⟨t0, t1⟩

theorem byteAt_cast (p : List Nat) (i : Int) : ((byteAt p i : Nat) : Int) = peek p i := by
  unfold byteAt
  exact Int.toNat_of_nonneg (by unfold peek; split_ifs <;> omega)

theorem unpack1Loop_eq (pPixels : List Nat) : ∀ (n : Nat) (i : Int) (line : List Nat),
    unpack1Loop pPixels n i line = blockLoop (unpack1Step pPixels) n i line := by
  intro n
  induction n with
  | zero => intro i line; rfl
  | succ n ih => intro i line; unfold unpack1Loop blockLoop; dsimp only; rw [ih]; rfl

theorem unpack2Loop_eq (pPixels : List Nat) : ∀ (n : Nat) (i : Int) (line : List Nat),
    unpack2Loop pPixels n i line = blockLoop (unpack2Step pPixels) n i line := by
  intro n
  induction n with
  | zero => intro i line; rfl
  | succ n ih => intro i line; unfold unpack2Loop blockLoop; dsimp only; rw [ih]; rfl

theorem peek_nonneg (p : List Nat) (i : Int) : 0 ≤ peek p i := by
  unfold peek; split_ifs <;> omega

theorem unpack1Step_peek (pPixels : List Nat) (j : Int) (p : List Nat) (idx : Int)
    (h0 : 0 ≤ 4 * j) (hfit : 4 * (j + 1) ≤ p.length) :
    peek (unpack1Step pPixels j p) idx =
      if idx = 4 * j then 16 * (peek pPixels j / 128 % 2) + peek pPixels j / 64 % 2
      else if idx = 4 * j + 1 then 16 * (peek pPixels j / 32 % 2) + peek pPixels j / 16 % 2
      else if idx = 4 * j + 2 then 16 * (peek pPixels j / 8 % 2) + peek pPixels j / 4 % 2
      else if idx = 4 * j + 3 then 16 * (peek pPixels j / 2 % 2) + peek pPixels j % 2
      else peek p idx := by
  unfold unpack1Step
  obtain ⟨u0, u1, u2, u3⟩ := unpack1_bytes (byteAt pPixels j)
  rw [u0, u1, u2, u3]
  clear u0 u1 u2 u3
  push_cast
  rw [byteAt_cast]
  have hv := peek_nonneg pPixels j
  generalize peek pPixels j = v at hv ⊢
  rw [peek_poke _ _ _ _ (by omega) (by simp only [poke_length]; omega),
    peek_poke _ _ _ _ (by omega) (by simp only [poke_length]; omega),
    peek_poke _ _ _ _ (by omega) (by simp only [poke_length]; omega),
    peek_poke _ _ _ _ (by omega) (by omega)]
  split_ifs <;> omega

theorem unpack2Step_peek (pPixels : List Nat) (j : Int) (p : List Nat) (idx : Int)
    (h0 : 0 ≤ 2 * j) (hfit : 2 * (j + 1) ≤ p.length) :
    peek (unpack2Step pPixels j p) idx =
      if idx = 2 * j then 16 * (peek pPixels j / 64 % 4) + peek pPixels j / 16 % 4
      else if idx = 2 * j + 1 then 16 * (peek pPixels j / 4 % 4) + peek pPixels j % 4
      else peek p idx := by
  unfold unpack2Step
  obtain ⟨u0, u1⟩ := unpack2_bytes (byteAt pPixels j)
  rw [u0, u1]
  clear u0 u1
  push_cast
  rw [byteAt_cast]
  have hv := peek_nonneg pPixels j
  generalize peek pPixels j = v at hv ⊢
  rw [peek_poke _ _ _ _ (by omega) (by simp only [poke_length]; omega),
    peek_poke _ _ _ _ (by omega) (by omega)]
  split_ifs <;> omega

theorem unpack1Step_length (pPixels : List Nat) (j : Int) (p : List Nat) :
    (unpack1Step pPixels j p).length = p.length := by
  unfold unpack1Step
  simp only [poke_length]

theorem unpack2Step_length (pPixels : List Nat) (j : Int) (p : List Nat) :
    (unpack2Step pPixels j p).length = p.length := by
  unfold unpack2Step
  simp only [poke_length]

theorem unpack1Step_frame (pPixels : List Nat) (j : Int) (p : List Nat) (idx : Int)
    (h : ¬ (4 * j ≤ idx ∧ idx < 4 * (j + 1))) :
    peek (unpack1Step pPixels j p) idx = peek p idx := by
  unfold unpack1Step
  rw [peek_poke_ne _ _ _ _ (by omega), peek_poke_ne _ _ _ _ (by omega),
    peek_poke_ne _ _ _ _ (by omega), peek_poke_ne _ _ _ _ (by omega)]

theorem unpack2Step_frame (pPixels : List Nat) (j : Int) (p : List Nat) (idx : Int)
    (h : ¬ (2 * j ≤ idx ∧ idx < 2 * (j + 1))) :
    peek (unpack2Step pPixels j p) idx = peek p idx := by
  unfold unpack2Step
  rw [peek_poke_ne _ _ _ _ (by omega), peek_poke_ne _ _ _ _ (by omega)]

/-- What the 1-bit loop leaves in the line buffer: source byte `i` becomes the
four bytes at `4 * i`, each holding two samples as 4-bit indices. -/
theorem unpack1Loop_peek (pPixels : List Nat) (n : Nat) (line : List Nat)
    (hfit : 4 * (n : Int) ≤ line.length) (i idx : Int) (hi0 : 0 ≤ i) (hi : i < n)
    (h1 : 4 * i ≤ idx) (h2 : idx < 4 * (i + 1)) :
    peek (unpack1Loop pPixels n 0 line) idx =
      if idx = 4 * i then 16 * (peek pPixels i / 128 % 2) + peek pPixels i / 64 % 2
      else if idx = 4 * i + 1 then 16 * (peek pPixels i / 32 % 2) + peek pPixels i / 16 % 2
      else if idx = 4 * i + 2 then 16 * (peek pPixels i / 8 % 2) + peek pPixels i / 4 % 2
      else 16 * (peek pPixels i / 2 % 2) + peek pPixels i % 2 := by
  rw [unpack1Loop_eq]
  rw [blockLoop_block (unpack1Step pPixels) (fun i => 4 * i)
    (fun i idx _ =>
      if idx = 4 * i then 16 * (peek pPixels i / 128 % 2) + peek pPixels i / 64 % 2
      else if idx = 4 * i + 1 then 16 * (peek pPixels i / 32 % 2) + peek pPixels i / 16 % 2
      else if idx = 4 * i + 2 then 16 * (peek pPixels i / 8 % 2) + peek pPixels i / 4 % 2
      else 16 * (peek pPixels i / 2 % 2) + peek pPixels i % 2)
    (fun a b h => by dsimp only; omega) (unpack1Step_length pPixels)
    (unpack1Step_frame pPixels) ?_ n 0 line (by dsimp only; omega) (by dsimp only; omega)
    i idx hi0 (by omega) h1 h2]
  intro j p idx g0 g1 g2 g3
  dsimp only at g0 g1 g2 g3 ⊢
  rw [unpack1Step_peek pPixels j p idx g0 g1]
  split_ifs <;> first | rfl | omega

/-- What the 2-bit loop leaves in the line buffer. -/
theorem unpack2Loop_peek (pPixels : List Nat) (n : Nat) (line : List Nat)
    (hfit : 2 * (n : Int) ≤ line.length) (i idx : Int) (hi0 : 0 ≤ i) (hi : i < n)
    (h1 : 2 * i ≤ idx) (h2 : idx < 2 * (i + 1)) :
    peek (unpack2Loop pPixels n 0 line) idx =
      if idx = 2 * i then 16 * (peek pPixels i / 64 % 4) + peek pPixels i / 16 % 4
      else 16 * (peek pPixels i / 4 % 4) + peek pPixels i % 4 := by
  rw [unpack2Loop_eq]
  rw [blockLoop_block (unpack2Step pPixels) (fun i => 2 * i)
    (fun i idx _ =>
      if idx = 2 * i then 16 * (peek pPixels i / 64 % 4) + peek pPixels i / 16 % 4
      else 16 * (peek pPixels i / 4 % 4) + peek pPixels i % 4)
    (fun a b h => by dsimp only; omega) (unpack2Step_length pPixels)
    (unpack2Step_frame pPixels) ?_ n 0 line (by dsimp only; omega) (by dsimp only; omega)
    i idx hi0 (by omega) h1 h2]
  intro j p idx g0 g1 g2 g3
  dsimp only at g0 g1 g2 g3 ⊢
  rw [unpack2Step_peek pPixels j p idx g0 g1]
  split_ifs <;> first | rfl | omega

theorem nibble_one (out pix : List Nat) (i c : Nat) (hc : c < 8)
    (L0 : peek out (4 * (i : Int)) = 16 * (peek pix i / 128 % 2) + peek pix i / 64 % 2)
    (L1 : peek out (4 * (i : Int) + 1) = 16 * (peek pix i / 32 % 2) + peek pix i / 16 % 2)
    (L2 : peek out (4 * (i : Int) + 2) = 16 * (peek pix i / 8 % 2) + peek pix i / 4 % 2)
    (L3 : peek out (4 * (i : Int) + 3) = 16 * (peek pix i / 2 % 2) + peek pix i % 2) :
    nibbleAt out (8 * i + c) = sampleAt 1 pix (8 * i + c) := by
  have e1 : (8 * i + c) / 2 = 4 * i + c / 2 := by omega
  have e2 : (8 * i + c) % 2 = c % 2 := by omega
  have e3 : (8 * i + c) * 1 / 8 = i := by omega
  have e4 : (8 * i + c) * 1 % 8 = c := by omega
  unfold nibbleAt sampleAt
  rw [e1, e2, e3, e4]
  generalize peek pix i = v at L0 L1 L2 L3 ⊢
  interval_cases c
  · norm_num
    rw [L0]; omega
  · norm_num
    rw [L0]; omega
  · norm_num
    rw [L1]; omega
  · norm_num
    rw [L1]; omega
  · norm_num
    rw [L2]; omega
  · norm_num
    rw [L2]; omega
  · norm_num
    rw [L3]; omega
  · norm_num
    rw [L3]; omega

theorem nibble_two (out pix : List Nat) (i c : Nat) (hc : c < 4)
    (L0 : peek out (2 * (i : Int)) = 16 * (peek pix i / 64 % 4) + peek pix i / 16 % 4)
    (L1 : peek out (2 * (i : Int) + 1) = 16 * (peek pix i / 4 % 4) + peek pix i % 4) :
    nibbleAt out (4 * i + c) = sampleAt 2 pix (4 * i + c) := by
  have e1 : (4 * i + c) / 2 = 2 * i + c / 2 := by omega
  have e2 : (4 * i + c) % 2 = c % 2 := by omega
  have e3 : (4 * i + c) * 2 / 8 = i := by omega
  have e4 : (4 * i + c) * 2 % 8 = 2 * c := by omega
  unfold nibbleAt sampleAt
  rw [e1, e2, e3, e4]
  generalize peek pix i = v at L0 L1 ⊢
  interval_cases c
  · norm_num
    rw [L0]; omega
  · norm_num
    rw [L0]; omega
  · norm_num
    rw [L1]; omega
  · norm_num
    rw [L1]; omega

theorem trips_one (p : Int) : trips p 1 = p.toNat := by
  unfold trips
  have e : (p + 1 - 1) / 1 = p := by omega
  rw [e]

theorem drawRow_one (d : PNGDRAW) (c : Converter) (br bg bb : Int)
    (htype : d.iPixelType = PNG_PIXEL_GRAYSCALE ∨ d.iPixelType = PNG_PIXEL_INDEXED)
    (hb : d.iBpp = 1) :
    drawRow d c br bg bb =
      (unpack1Loop d.pPixels d.iPitch.toNat 0 c.BMPLine,
        unpack1Loop d.pPixels d.iPitch.toNat 0 c.BMPLine, c.BmpStride) := by
  unfold drawRow
  dsimp only
  rw [if_pos htype, if_pos hb, trips_one]

theorem drawRow_two (d : PNGDRAW) (c : Converter) (br bg bb : Int)
    (htype : d.iPixelType = PNG_PIXEL_GRAYSCALE ∨ d.iPixelType = PNG_PIXEL_INDEXED)
    (hb : d.iBpp = 2) :
    drawRow d c br bg bb =
      (unpack2Loop d.pPixels d.iPitch.toNat 0 c.BMPLine,
        unpack2Loop d.pPixels d.iPitch.toNat 0 c.BMPLine, c.BmpStride) := by
  have h1 : ¬ d.iBpp = 1 := by omega
  unfold drawRow
  dsimp only
  rw [if_pos htype, if_neg h1, if_pos hb, trips_one]

/-- The 4-bit indices of a 1-bit row. -/
theorem drawRow_one_nibble (d : PNGDRAW) (c : Converter) (br bg bb : Int) (k : Nat)
    (htype : d.iPixelType = PNG_PIXEL_GRAYSCALE ∨ d.iPixelType = PNG_PIXEL_INDEXED)
    (hb : d.iBpp = 1) (hfit : 4 * d.iPitch ≤ c.BMPLine.length) (hk : (k : Int) < 8 * d.iPitch) :
    nibbleAt (drawRow d c br bg bb).1 k = sampleAt 1 d.pPixels k := by
  rw [drawRow_one d c br bg bb htype hb]
  dsimp only
  obtain ⟨i, r, hr, rfl⟩ : ∃ i r : Nat, r < 8 ∧ k = 8 * i + r :=
    ⟨k / 8, k % 8, by omega, by omega⟩
  push_cast at hk
  have hn : ((d.iPitch.toNat : Nat) : Int) = d.iPitch := Int.toNat_of_nonneg (by omega)
  have hf : 4 * ((d.iPitch.toNat : Nat) : Int) ≤ c.BMPLine.length := by rw [hn]; exact hfit
  have hi : (i : Int) < (d.iPitch.toNat : Nat) := by rw [hn]; omega
  have hi0 : (0 : Int) ≤ i := Int.ofNat_nonneg i
  have L0 := unpack1Loop_peek d.pPixels d.iPitch.toNat c.BMPLine hf i (4 * i) hi0 hi
    (by omega) (by omega)
  have L1 := unpack1Loop_peek d.pPixels d.iPitch.toNat c.BMPLine hf i (4 * i + 1) hi0 hi
    (by omega) (by omega)
  have L2 := unpack1Loop_peek d.pPixels d.iPitch.toNat c.BMPLine hf i (4 * i + 2) hi0 hi
    (by omega) (by omega)
  have L3 := unpack1Loop_peek d.pPixels d.iPitch.toNat c.BMPLine hf i (4 * i + 3) hi0 hi
    (by omega) (by omega)
  rw [if_pos rfl] at L0
  rw [if_neg (by omega), if_pos rfl] at L1
  rw [if_neg (by omega), if_neg (by omega), if_pos rfl] at L2
  rw [if_neg (by omega), if_neg (by omega), if_neg (by omega)] at L3
  exact nibble_one _ _ i r hr L0 L1 L2 L3

/-- The 4-bit indices of a 2-bit row. -/
theorem drawRow_two_nibble (d : PNGDRAW) (c : Converter) (br bg bb : Int) (k : Nat)
    (htype : d.iPixelType = PNG_PIXEL_GRAYSCALE ∨ d.iPixelType = PNG_PIXEL_INDEXED)
    (hb : d.iBpp = 2) (hfit : 2 * d.iPitch ≤ c.BMPLine.length) (hk : (k : Int) < 4 * d.iPitch) :
    nibbleAt (drawRow d c br bg bb).1 k = sampleAt 2 d.pPixels k := by
  rw [drawRow_two d c br bg bb htype hb]
  dsimp only
  obtain ⟨i, r, hr, rfl⟩ : ∃ i r : Nat, r < 4 ∧ k = 4 * i + r :=
    ⟨k / 4, k % 4, by omega, by omega⟩
  push_cast at hk
  have hn : ((d.iPitch.toNat : Nat) : Int) = d.iPitch := Int.toNat_of_nonneg (by omega)
  have hf : 2 * ((d.iPitch.toNat : Nat) : Int) ≤ c.BMPLine.length := by rw [hn]; exact hfit
  have hi : (i : Int) < (d.iPitch.toNat : Nat) := by rw [hn]; omega
  have hi0 : (0 : Int) ≤ i := Int.ofNat_nonneg i
  have L0 := unpack2Loop_peek d.pPixels d.iPitch.toNat c.BMPLine hf i (2 * i) hi0 hi
    (by omega) (by omega)
  have L1 := unpack2Loop_peek d.pPixels d.iPitch.toNat c.BMPLine hf i (2 * i + 1) hi0 hi
    (by omega) (by omega)
  rw [if_pos rfl] at L0
  rw [if_neg (by omega)] at L1
  exact nibble_two _ _ i r hr L0 L1

theorem sampleAt_one_range (row : List Nat) (k : Nat) :
    sampleAt 1 row k = 0 ∨ sampleAt 1 row k = 1 := by
  unfold sampleAt
  have e : (2 : Int) ^ 1 = 2 := by norm_num
  rw [e]
  omega

/-- Through the synthesised palette a 1-bit gray sample becomes 0xFF or 0. -/
theorem gray_one_colour (d : PNGDRAW) (c : Converter) (s ch : Int)
    (ht : d.iPixelType = PNG_PIXEL_GRAYSCALE) (hb : d.iBpp = 1) (hkey : d.iTransLen ≠ 1)
    (hfit : 62 ≤ c.winbmphdr.length) (hs : s = 0 ∨ s = 1) (hc0 : 0 ≤ ch) (hc : ch < 3) :
    peek (pngDraw_init d c).winbmphdr (54 + 4 * s + ch) = if s = 1 then 0xFF else 0 := by
  have hg : grayEntries d.iBpp = 2 := by rw [hb]; decide
  unfold pngDraw_init
  rw [if_pos ht, initGrayscale_entry d c s ch (by rw [hg]; omega) (by omega) (by rw [hg]; omega)
    hc0 hc (fun h => hkey h.1), hb]
  rcases hs with h | h <;> subst h <;> decide

/-- A byte written by `fileWrite` is found in the file at the offset where it
was written. -/
theorem fileWrite_peek (f : FileDesc) (data : List Nat) (j : Nat) (h0 : 0 ≤ f.offset)
    (hj : j < data.length) :
    peek (fileWrite f data).bytes (f.offset + j) = (data.getD j 0 : Nat) := by
  have hpos : (0 : Int) ≤ f.offset + j := by omega
  have e : (f.offset + (j : Int)).toNat = f.offset.toNat + j := by omega
  unfold fileWrite
  dsimp only
  rw [peek_of_nonneg _ hpos, e, getD_append_nat, getD_append_nat]
  have hl : ((f.bytes ++ List.replicate (f.offset.toNat - f.bytes.length) 0).take
      f.offset.toNat).length = f.offset.toNat := by
    rw [List.length_take, List.length_append, List.length_replicate]
    omega
  rw [List.length_append, hl, if_pos (by omega), if_neg (by omega)]
  have e2 : f.offset.toNat + j - f.offset.toNat = j := by omega
  rw [e2]

theorem drawBackground_plain (desiredBackground : Int) (d : PNGDRAW)
    (htype : d.iPixelType = PNG_PIXEL_GRAYSCALE ∨ d.iPixelType = PNG_PIXEL_INDEXED) :
    drawBackground desiredBackground d = (0, 0, 0) := by
  have h1 : ¬ (d.iPixelType = PNG_PIXEL_TRUECOLOR ∨ d.iPixelType = PNG_PIXEL_TRUECOLOR_ALPHA) := by
    simp only [PNG_PIXEL_GRAYSCALE, PNG_PIXEL_INDEXED, PNG_PIXEL_TRUECOLOR,
      PNG_PIXEL_TRUECOLOR_ALPHA] at htype ⊢
    omega
  have h2 : ¬ d.iPixelType = PNG_PIXEL_GRAY_ALPHA := by
    simp only [PNG_PIXEL_GRAYSCALE, PNG_PIXEL_INDEXED, PNG_PIXEL_GRAY_ALPHA] at htype ⊢
    omega
  unfold drawBackground
  rw [if_neg h1, if_neg h2]

theorem pngDraw_body (d : PNGDRAW) (c : Converter) (hrun : c.exited = none) :
    pngDraw d c = drawBody d (started d c) := by
  unfold pngDraw
  rw [if_neg (not_not.mpr hrun)]
  rfl

theorem drawBody_subbyte (d : PNGDRAW) (c : Converter)
    (htype : d.iPixelType = PNG_PIXEL_GRAYSCALE ∨ d.iPixelType = PNG_PIXEL_INDEXED)
    (hb : d.iBpp = 1 ∨ d.iBpp = 2) (hrun : c.exited = none)
    (hs0 : 0 < c.BmpStride) (hs1 : c.BmpStride < 4294967296) :
    (drawBody d c).output =
      fileWrite (lseek c.output (rowPosition d c))
        ((List.range (u32 c.BmpStride).toNat).map fun i => (drawRow d c 0 0 0).1.getD i 0) := by
  have hr : (drawRow d c 0 0 0).2.2 = c.BmpStride := by
    rcases hb with h | h
    · rw [drawRow_one d c 0 0 0 htype h]
    · rw [drawRow_two d c 0 0 0 htype h]
  have hrow : ∀ x : FileDesc, drawRow d { c with output := x } 0 0 0 = drawRow d c 0 0 0 :=
    fun _ => rfl
  have hu : u32 c.BmpStride = c.BmpStride := by
    unfold u32; omega
  have hu0 : ¬ u32 c.BmpStride = 0 := by rw [hu]; omega
  unfold drawBody
  rw [if_neg (not_not.mpr hrun)]
  dsimp only
  rw [drawBackground_plain _ d htype]
  dsimp only
  rw [hrow, hr]
  unfold wwrite
  dsimp only
  rw [if_neg hu0]
  dsimp only
  rw [if_neg (not_not.mpr hrun), if_neg (lt_irrefl _)]
  rfl

/-- The bytes `pngDraw` writes for a 1-bit or 2-bit row: the line buffer the
unpacking loop has filled, at the file position of the row. -/
theorem pngDraw_subbyte_written (d : PNGDRAW) (c : Converter) (j : Nat)
    (htype : d.iPixelType = PNG_PIXEL_GRAYSCALE ∨ d.iPixelType = PNG_PIXEL_INDEXED)
    (hb : d.iBpp = 1 ∨ d.iBpp = 2) (hrun : c.exited = none)
    (hrun1 : (started d c).exited = none)
    (hs0 : 0 < (started d c).BmpStride) (hs1 : (started d c).BmpStride < 4294967296)
    (hpos : 0 ≤ rowPosition d (started d c)) (hj : (j : Int) < (started d c).BmpStride) :
    peek (pngDraw d c).output.bytes (rowPosition d (started d c) + j) =
      peek (drawRow d (started d c) 0 0 0).1 j := by
  rw [pngDraw_body d c hrun, drawBody_subbyte d _ htype hb hrun1 hs0 hs1]
  generalize started d c = c1 at *
  have hu : u32 c1.BmpStride = c1.BmpStride := by
    unfold u32; omega
  have hlen : ((List.range (u32 c1.BmpStride).toNat).map
      fun i => (drawRow d c1 0 0 0).1.getD i 0).length = c1.BmpStride.toNat := by
    rw [List.length_map, List.length_range, hu]
  have hjn : j < c1.BmpStride.toNat := by omega
  have hoff : (lseek c1.output (rowPosition d c1)).offset = rowPosition d c1 := by
    unfold lseek
    rw [if_pos hpos]
  have h := fileWrite_peek (lseek c1.output (rowPosition d c1)) _ j
    (by rw [hoff]; exact hpos) (by rw [hlen]; exact hjn)
  rw [hoff] at h
  rw [h, peek_nat]
  congr 1
  rw [List.getD_eq_getElem?_getD, List.getElem?_map, List.getElem?_range (by rw [hu]; exact hjn)]
  rfl

/-- C22 (sub-byte unpacking), for a row `d` of a grayscale or indexed image and
a line buffer that holds the unpacked row.  (1) 1-bit rows: for every pixel
position `k` below `8 * iPitch`, the `k`-th 4-bit index of the line `pngDraw`
fills (two per byte, high nibble first) is the `k`-th bit of the row, most
significant bit first.  (2) 2-bit rows: the same for `k` below `4 * iPitch` and
the `k`-th 2-bit sample.  (3) That line is what `pngDraw` writes: unless the
process has ended, byte `j` of it, for `j` below the stride, is in the output
file at the position of the row plus `j`.  (4) Through the palette
`pngDraw_init` synthesises for a 1-bit grayscale image without transparency key
the index of pixel `k` selects the colour bytes 0xFF when the pixel is 1 and
0x00 when it is 0. -/
theorem subbyte_unpacking (d : PNGDRAW) (c : Converter) (k : Nat)
    (htype : d.iPixelType = PNG_PIXEL_GRAYSCALE ∨ d.iPixelType = PNG_PIXEL_INDEXED) :
    (d.iBpp = 1 → 4 * d.iPitch ≤ c.BMPLine.length → (k : Int) < 8 * d.iPitch →
      nibbleAt (drawRow d c 0 0 0).1 k = sampleAt 1 d.pPixels k) ∧
    (d.iBpp = 2 → 2 * d.iPitch ≤ c.BMPLine.length → (k : Int) < 4 * d.iPitch →
      nibbleAt (drawRow d c 0 0 0).1 k = sampleAt 2 d.pPixels k) ∧
    (d.iBpp = 1 ∨ d.iBpp = 2 → c.exited = none → (started d c).exited = none →
      0 < (started d c).BmpStride → (started d c).BmpStride < 4294967296 →
      0 ≤ rowPosition d (started d c) →
      ∀ j : Nat, (j : Int) < (started d c).BmpStride →
        peek (pngDraw d c).output.bytes (rowPosition d (started d c) + j) =
          peek (drawRow d (started d c) 0 0 0).1 j) ∧
    (d.iBpp = 1 → d.iPixelType = PNG_PIXEL_GRAYSCALE → d.iTransLen ≠ 1 →
      4 * d.iPitch ≤ c.BMPLine.length → (k : Int) < 8 * d.iPitch →
      62 ≤ c.winbmphdr.length → ∀ ch : Int, 0 ≤ ch → ch < 3 →
        peek (pngDraw_init d c).winbmphdr (54 + 4 * nibbleAt (drawRow d c 0 0 0).1 k + ch) =
          if sampleAt 1 d.pPixels k = 1 then 0xFF else 0) := by
  refine ⟨?_, ?_, ?_, ?_⟩
  · intro hb hfit hk
    exact drawRow_one_nibble d c 0 0 0 k htype hb hfit hk
  · intro hb hfit hk
    exact drawRow_two_nibble d c 0 0 0 k htype hb hfit hk
  · intro hb hrun hrun1 hs0 hs1 hpos j hj
    exact pngDraw_subbyte_written d c j htype hb hrun hrun1 hs0 hs1 hpos hj
  · intro hb ht hkey hfit hk hhdr ch hc0 hc
    rw [drawRow_one_nibble d c 0 0 0 k htype hb hfit hk]
    exact gray_one_colour d c _ ch ht hb hkey hhdr (sampleAt_one_range _ _) hc0 hc

theorem bitsDraw_run :
    (List.range 4).map (fun k => sampleAt 1 bitsDraw.pPixels k) = [1, 0, 1, 0] ∧
    (List.range 4).map (fun k => nibbleAt (drawRow bitsDraw (converterOf 4 (-1)) 0 0 0).1 k) =
      [1, 0, 1, 0] ∧
    (List.range 4).map (fun k =>
      peek (pngDraw_init bitsDraw (converterOf 4 (-1))).winbmphdr
        (54 + 4 * nibbleAt (drawRow bitsDraw (converterOf 4 (-1)) 0 0 0).1 k + 0)) =
      [0xFF, 0, 0xFF, 0] ∧
    (pngDraw bitsDraw (converterOf 4 (-1))).output.bytes.drop 54 =
      [0, 0, 0, 0, 0xFF, 0xFF, 0xFF, 0, 0x10, 0x10, 0, 0] := by
  decide!

theorem indexedPaletteLoop_eq (pPalette : List Nat) : ∀ (n : Nat) (i : Int) (hdr : List Nat),
    indexedPaletteLoop pPalette n i hdr = blockLoop (indexedPaletteStep pPalette) n i hdr := by
  intro n
  induction n with
  | zero => intro i hdr; rfl
  | succ n ih => intro i hdr; unfold indexedPaletteLoop blockLoop; rw [ih]; rfl

theorem indexedAlphaLoop_eq (pPalette : List Nat) (br bg bb : Int) :
    ∀ (n : Nat) (i : Int) (hdr : List Nat),
      indexedAlphaLoop pPalette br bg bb n i hdr =
        blockLoop (indexedAlphaStep pPalette br bg bb) n i hdr := by
  intro n
  induction n with
  | zero => intro i hdr; rfl
  | succ n ih => intro i hdr; unfold indexedAlphaLoop blockLoop; dsimp only; rw [ih]; rfl

theorem indexedPaletteStep_length (pPalette : List Nat) (j : Int) (p : List Nat) :
    (indexedPaletteStep pPalette j p).length = p.length := by
  unfold indexedPaletteStep
  simp only [poke_length]

theorem indexedAlphaStep_length (pPalette : List Nat) (br bg bb : Int) (j : Int)
    (p : List Nat) : (indexedAlphaStep pPalette br bg bb j p).length = p.length := by
  unfold indexedAlphaStep
  split_ifs <;> simp only [poke_length]

theorem indexedPaletteStep_frame (pPalette : List Nat) (j : Int) (p : List Nat) (idx : Int)
    (h : ¬ (54 + 4 * j ≤ idx ∧ idx < 54 + 4 * (j + 1))) :
    peek (indexedPaletteStep pPalette j p) idx = peek p idx := by
  unfold indexedPaletteStep
  rw [peek_poke_ne _ _ _ _ (by omega), peek_poke_ne _ _ _ _ (by omega),
    peek_poke_ne _ _ _ _ (by omega), peek_poke_ne _ _ _ _ (by omega)]

theorem indexedAlphaStep_frame (pPalette : List Nat) (br bg bb : Int) (j : Int)
    (p : List Nat) (idx : Int)
    (h : ¬ (54 + 4 * j ≤ idx ∧ idx < 54 + 4 * (j + 1)) ∨ idx = 54 + 4 * j + 3) :
    peek (indexedAlphaStep pPalette br bg bb j p) idx = peek p idx := by
  unfold indexedAlphaStep
  split_ifs
  · rfl
  · rw [peek_poke_ne _ _ _ _ (by omega), peek_poke_ne _ _ _ _ (by omega),
      peek_poke_ne _ _ _ _ (by omega)]
  · rw [peek_poke_ne _ _ _ _ (by omega), peek_poke_ne _ _ _ _ (by omega),
      peek_poke_ne _ _ _ _ (by omega)]

theorem indexedPaletteStep_peek (pPalette : List Nat) (j : Int) (p : List Nat) (idx : Int)
    (h0 : 0 ≤ 54 + 4 * j) (hfit : 54 + 4 * (j + 1) ≤ p.length)
    (h1 : 54 + 4 * j ≤ idx) (h2 : idx < 54 + 4 * (j + 1)) :
    peek (indexedPaletteStep pPalette j p) idx =
      if idx = 54 + 4 * j + 3 then 0
      else peek pPalette (3 * j + (2 - (idx - (54 + 4 * j)))) % 256 := by
  unfold indexedPaletteStep
  rw [peek_poke _ _ _ _ (by omega) (by simp only [poke_length]; omega),
    peek_poke _ _ _ _ (by omega) (by simp only [poke_length]; omega),
    peek_poke _ _ _ _ (by omega) (by simp only [poke_length]; omega),
    peek_poke _ _ _ _ (by omega) (by omega)]
  by_cases c3 : idx = 54 + 4 * j + 3
  · rw [if_pos (by omega), if_pos c3]; rfl
  · rw [if_neg (by omega), if_neg c3]
    by_cases c2 : idx = 54 + 4 * j + 2
    · rw [if_pos (by omega)]
      congr 2; omega
    · rw [if_neg (by omega)]
      by_cases c1 : idx = 54 + 4 * j + 1
      · rw [if_pos (by omega)]
        congr 2; omega
      · rw [if_neg (by omega), if_pos (by omega)]
        congr 2; omega

/-- One step of the alpha loop: a colour byte of entry `j` is composited with
the background byte of its channel. -/
theorem indexedAlphaStep_peek (pPalette : List Nat) (br bg bb : Int) (j : Int) (p : List Nat)
    (idx : Int) (h0 : 0 ≤ 54 + 4 * j) (hfit : 54 + 4 * (j + 1) ≤ p.length)
    (h1 : 54 + 4 * j ≤ idx) (h2 : idx < 54 + 4 * j + 3) :
    peek (indexedAlphaStep pPalette br bg bb j p) idx =
      if peek pPalette (768 + j) = 255 then peek p idx
      else composite (peek p idx) (peek pPalette (768 + j))
        (if idx = 54 + 4 * j then bb else if idx = 54 + 4 * j + 1 then bg else br) % 256 := by
  have e0 : (54 : Int) + (j * 4 + 0) = 54 + 4 * j + 0 := by omega
  have e1 : (54 : Int) + (j * 4 + 1) = 54 + 4 * j + 1 := by omega
  have e2 : (54 : Int) + (j * 4 + 2) = 54 + 4 * j + 2 := by omega
  unfold indexedAlphaStep composite
  rw [e0, e1, e2]
  by_cases a1 : peek pPalette (768 + j) = 255
  · rw [if_pos a1, if_pos a1]
  · rw [if_neg a1, if_neg a1, if_neg a1]
    by_cases a2 : peek pPalette (768 + j) = 0
    · rw [if_pos a2, if_pos a2, peek_poke3 _ _ _ _ _ _ (by omega) (by omega)]
      split_ifs <;> first | rfl | omega
    · rw [if_neg a2, if_neg a2, peek_poke3_desc _ _ _ _ _ _ (by omega) (by omega)]
      by_cases c0 : idx = 54 + 4 * j
      · rw [if_pos c0, if_pos c0, c0, add_zero]
      · rw [if_neg c0, if_neg c0]
        by_cases c1 : idx = 54 + 4 * j + 1
        · rw [if_pos c1, if_pos c1, c1]
        · have c2 : idx = 54 + 4 * j + 2 := by omega
          rw [if_neg c1, if_neg c1, if_pos c2, c2]

/-- The palette of the file in the bitmap header: the colour bytes of entry `i`
are the bytes of palette entry `i` in reverse order. -/
theorem indexedPaletteLoop_peek (pPalette : List Nat) (n : Nat) (hdr : List Nat)
    (hfit : 54 + 4 * (n : Int) ≤ hdr.length) (i idx : Int) (hi0 : 0 ≤ i) (hi : i < n)
    (h1 : 54 + 4 * i ≤ idx) (h2 : idx < 54 + 4 * i + 3) :
    peek (indexedPaletteLoop pPalette n 0 hdr) idx =
      peek pPalette (3 * i + (2 - (idx - (54 + 4 * i)))) % 256 := by
  rw [indexedPaletteLoop_eq]
  rw [blockLoop_block (indexedPaletteStep pPalette) (fun i => 54 + 4 * i)
    (fun i idx _ => if idx = 54 + 4 * i + 3 then 0
      else peek pPalette (3 * i + (2 - (idx - (54 + 4 * i)))) % 256)
    (fun a b h => by dsimp only; omega) (indexedPaletteStep_length pPalette)
    (indexedPaletteStep_frame pPalette) ?_ n 0 hdr (by dsimp only; omega)
    (by dsimp only; omega) i idx hi0 (by omega) h1 (by dsimp only; omega)]
  · rw [if_neg (by omega)]
  · intro j p idx g0 g1 g2 g3
    dsimp only at g0 g1 g2 g3 ⊢
    exact indexedPaletteStep_peek pPalette j p idx g0 g1 g2 g3

theorem indexedPaletteLoop_length (pPalette : List Nat) (n : Nat) (hdr : List Nat) :
    (indexedPaletteLoop pPalette n 0 hdr).length = hdr.length := by
  rw [indexedPaletteLoop_eq]
  exact blockLoop_length _ (indexedPaletteStep_length pPalette) n 0 hdr

/-- The palette after the alpha loop: a colour byte of an entry with alpha 255
is left as it is, the others are composited with the background byte of their
channel. -/
theorem indexedAlphaLoop_peek (pPalette : List Nat) (br bg bb : Int) (n : Nat)
    (hdr : List Nat) (hfit : 54 + 4 * (n : Int) ≤ hdr.length) (i idx : Int) (hi0 : 0 ≤ i)
    (hi : i < n) (h1 : 54 + 4 * i ≤ idx) (h2 : idx < 54 + 4 * i + 3) :
    peek (indexedAlphaLoop pPalette br bg bb n 0 hdr) idx =
      if peek pPalette (768 + i) = 255 then peek hdr idx
      else composite (peek hdr idx) (peek pPalette (768 + i))
        (if idx = 54 + 4 * i then bb else if idx = 54 + 4 * i + 1 then bg else br) % 256 := by
  rw [indexedAlphaLoop_eq]
  rw [blockLoop_block (indexedAlphaStep pPalette br bg bb) (fun i => 54 + 4 * i)
    (fun i idx old => if idx = 54 + 4 * i + 3 then old
      else if peek pPalette (768 + i) = 255 then old
      else composite old (peek pPalette (768 + i))
        (if idx = 54 + 4 * i then bb else if idx = 54 + 4 * i + 1 then bg else br) % 256)
    (fun a b h => by dsimp only; omega) (indexedAlphaStep_length pPalette br bg bb)
    (fun j p idx h => indexedAlphaStep_frame pPalette br bg bb j p idx (Or.inl h)) ?_ n 0 hdr
    (by dsimp only; omega) (by dsimp only; omega) i idx hi0 (by omega) h1
    (by dsimp only; omega)]
  · rw [if_neg (by omega)]
  · intro j p idx g0 g1 g2 g3
    dsimp only at g0 g1 g2 g3 ⊢
    by_cases c3 : idx = 54 + 4 * j + 3
    · rw [if_pos c3, indexedAlphaStep_frame pPalette br bg bb j p idx (Or.inr c3)]
    · rw [if_neg c3]
      exact indexedAlphaStep_peek pPalette br bg bb j p idx g0 g1 g2 (by omega)

theorem lowBytes_range (x : Int) :
    (0 ≤ (lowBytes x).1 ∧ (lowBytes x).1 ≤ 255) ∧ (0 ≤ (lowBytes x).2.1 ∧ (lowBytes x).2.1 ≤ 255) ∧
      (0 ≤ (lowBytes x).2.2 ∧ (lowBytes x).2.2 ≤ 255) := by
  unfold lowBytes
  dsimp only
  omega

/-- The background of an indexed image consists of bytes. -/
theorem indexedBackground_range (desiredBackground : Int) (d : PNGDRAW)
    (hpal : ∀ x ∈ d.pPalette, x < 256) :
    (0 ≤ (indexedBackground desiredBackground d).1 ∧
        (indexedBackground desiredBackground d).1 ≤ 255) ∧
      (0 ≤ (indexedBackground desiredBackground d).2.1 ∧
        (indexedBackground desiredBackground d).2.1 ≤ 255) ∧
      (0 ≤ (indexedBackground desiredBackground d).2.2 ∧
        (indexedBackground desiredBackground d).2.2 ≤ 255) := by
  unfold indexedBackground
  split_ifs
  · exact lowBytes_range _
  · exact ⟨peek_byte _ hpal _, peek_byte _ hpal _, peek_byte _ hpal _⟩
  · decide

/-- The colour table entry `pngDraw_init` leaves for palette entry `i` of an
indexed image with alpha, channel `ch` (0 red, 1 green, 2 blue). -/
theorem initIndexed_entry (d : PNGDRAW) (c : Converter) (i ch : Int)
    (halpha : d.iHasAlpha ≠ 0) (hcnt : 0 < d.iPaletteCnt)
    (hfit : 54 + 4 * d.iPaletteCnt ≤ c.winbmphdr.length)
    (hpal : ∀ x ∈ d.pPalette, x < 256)
    (hi0 : 0 ≤ i) (hi : i < d.iPaletteCnt) (hch : ch = 0 ∨ ch = 1 ∨ ch = 2) :
    peek (initIndexed d c).winbmphdr (54 + 4 * i + (2 - ch)) =
      composite (peek d.pPalette (3 * i + ch)) (peek d.pPalette (768 + i))
        (pick ch (indexedBackground c.desiredBackground d).1
          (indexedBackground c.desiredBackground d).2.1
          (indexedBackground c.desiredBackground d).2.2) := by
  have hn : (((d.iPaletteCnt).toNat : Nat) : Int) = d.iPaletteCnt :=
    Int.toNat_of_nonneg (by omega)
  have hsrc := peek_byte d.pPalette hpal (3 * i + ch)
  have ha := peek_byte d.pPalette hpal (768 + i)
  have hbk := indexedBackground_range c.desiredBackground d hpal
  have hp := pick_range ch _ _ _ hbk
  obtain ⟨-, -, -, b4, b5⟩ := composite_bounds _ _ _ hsrc hp ha
  have hl0 : (if d.iBpp = 1 ∨ d.iBpp = 2 ∨ d.iBpp = 4 then poke c.winbmphdr 28 4
      else c.winbmphdr).length = c.winbmphdr.length := by
    split_ifs
    · rw [poke_length]
    · rfl
  unfold initIndexed
  dsimp only
  rw [if_neg (by omega), initTail_palette _ _ _ _ (by omega)]
  dsimp only
  rw [if_pos halpha,
    indexedAlphaLoop_peek _ _ _ _ _ _ (by rw [indexedPaletteLoop_length, hl0, hn]; exact hfit)
      i _ hi0 (by rw [hn]; exact hi) (by omega) (by omega),
    indexedPaletteLoop_peek _ _ _ (by rw [hl0, hn]; exact hfit) i _ hi0 (by rw [hn]; exact hi)
      (by omega) (by omega)]
  have e : 3 * i + (2 - (54 + 4 * i + (2 - ch) - (54 + 4 * i))) = 3 * i + ch := by omega
  have hmod : peek d.pPalette (3 * i + ch) % 256 = peek d.pPalette (3 * i + ch) := by omega
  have hchan : (if 54 + 4 * i + (2 - ch) = 54 + 4 * i then
        (indexedBackground c.desiredBackground d).2.2
      else if 54 + 4 * i + (2 - ch) = 54 + 4 * i + 1 then
        (indexedBackground c.desiredBackground d).2.1
      else (indexedBackground c.desiredBackground d).1) =
      pick ch (indexedBackground c.desiredBackground d).1
        (indexedBackground c.desiredBackground d).2.1
        (indexedBackground c.desiredBackground d).2.2 := by
    unfold pick
    rcases hch with h | h | h <;> subst h <;> simp
  rw [e, hmod, hchan]
  by_cases a1 : peek d.pPalette (768 + i) = 255
  · rw [if_pos a1]
    unfold composite
    rw [if_pos a1]
  · rw [if_neg a1]
    omega

/-- C23 (indexed palette pre-compositing): for an indexed image with
transparency (`iHasAlpha` set), a palette of bytes and a bitmap header with room
for the colour table, take an entry `i` below the palette count and a channel
`ch` (0 red, 1 green, 2 blue; the colour table stores blue, green, red, so the
channel is at offset `2 - ch` of the entry).  The byte `pngDraw_init` leaves
there is the source byte of the palette when `alpha[i] = 255`, the byte of the
background (`indexedBackground`: the caller's override, else the palette entry
named by the background index, else 0x99) when `alpha[i] = 0`, and
`(c * a + bg * (255 - a)) >> 8` otherwise; with no override and no background
index an entry with alpha 0 becomes 0x99 in every channel. -/
theorem indexed_precompositing (d : PNGDRAW) (c : Converter) (i ch : Int)
    (htype : d.iPixelType = PNG_PIXEL_INDEXED) (halpha : d.iHasAlpha ≠ 0)
    (hcnt : 0 < d.iPaletteCnt) (hfit : 54 + 4 * d.iPaletteCnt ≤ c.winbmphdr.length)
    (hpal : ∀ x ∈ d.pPalette, x < 256)
    (hi0 : 0 ≤ i) (hi : i < d.iPaletteCnt) (hch : ch = 0 ∨ ch = 1 ∨ ch = 2) :
    (peek d.pPalette (768 + i) = 255 →
      peek (pngDraw_init d c).winbmphdr (54 + 4 * i + (2 - ch)) =
        peek d.pPalette (3 * i + ch)) ∧
    (peek d.pPalette (768 + i) = 0 →
      peek (pngDraw_init d c).winbmphdr (54 + 4 * i + (2 - ch)) =
        pick ch (indexedBackground c.desiredBackground d).1
          (indexedBackground c.desiredBackground d).2.1
          (indexedBackground c.desiredBackground d).2.2) ∧
    (peek d.pPalette (768 + i) ≠ 255 → peek d.pPalette (768 + i) ≠ 0 →
      peek (pngDraw_init d c).winbmphdr (54 + 4 * i + (2 - ch)) =
        (peek d.pPalette (3 * i + ch) * peek d.pPalette (768 + i) +
          pick ch (indexedBackground c.desiredBackground d).1
            (indexedBackground c.desiredBackground d).2.1
            (indexedBackground c.desiredBackground d).2.2 *
              (255 - peek d.pPalette (768 + i))) / 256) ∧
    (c.desiredBackground < 0 → d.iBackground < 0 → peek d.pPalette (768 + i) = 0 →
      peek (pngDraw_init d c).winbmphdr (54 + 4 * i + (2 - ch)) = 0x99) := by
  have h1 : ¬ d.iPixelType = PNG_PIXEL_GRAYSCALE := by rw [htype]; decide
  have hout : peek (pngDraw_init d c).winbmphdr (54 + 4 * i + (2 - ch)) =
      composite (peek d.pPalette (3 * i + ch)) (peek d.pPalette (768 + i))
        (pick ch (indexedBackground c.desiredBackground d).1
          (indexedBackground c.desiredBackground d).2.1
          (indexedBackground c.desiredBackground d).2.2) := by
    unfold pngDraw_init
    rw [if_neg h1, if_pos htype]
    exact initIndexed_entry d c i ch halpha hcnt hfit hpal hi0 hi hch
  rw [hout]
  unfold composite blend
  refine ⟨?_, ?_, ?_, ?_⟩
  · intro a1
    rw [if_pos a1]
  · intro a0
    rw [if_neg (by omega), if_pos a0]
  · intro a1 a0
    rw [if_neg a1, if_neg a0]
  · intro hd hb a0
    have e : indexedBackground c.desiredBackground d = (0x99, 0x99, 0x99) := by
      unfold indexedBackground
      rw [if_neg (by omega), if_neg (by omega)]
    rw [if_neg (by omega), if_pos a0, e]
    unfold pick
    split_ifs <;> rfl

theorem paletteDraw_run :
    (List.range 12).map (fun k =>
      peek (pngDraw_init paletteDraw (converterOf 4 (-1))).winbmphdr (54 + (k : Int))) =
      [0, 0, 255, 0, 75, 203, 75, 0, 0x99, 0x99, 0x99, 0] ∧
    (0 * 128 + 0x99 * (255 - 128)) / 256 = (75 : Int) ∧
    (255 * 128 + 0x99 * (255 - 128)) / 256 = (203 : Int) := by
  decide!

/-- Witness for C23: the green channel of entry 1 (green, alpha 128) of
`paletteDraw`. -/
theorem indexed_precompositing_witness :
    (peek paletteDraw.pPalette (768 + 1) = 255 →
      peek (pngDraw_init paletteDraw (converterOf 4 (-1))).winbmphdr (54 + 4 * 1 + (2 - 1)) =
        peek paletteDraw.pPalette (3 * 1 + 1)) ∧
    (peek paletteDraw.pPalette (768 + 1) = 0 →
      peek (pngDraw_init paletteDraw (converterOf 4 (-1))).winbmphdr (54 + 4 * 1 + (2 - 1)) =
        pick 1 (indexedBackground (converterOf 4 (-1)).desiredBackground paletteDraw).1
          (indexedBackground (converterOf 4 (-1)).desiredBackground paletteDraw).2.1
          (indexedBackground (converterOf 4 (-1)).desiredBackground paletteDraw).2.2) ∧
    (peek paletteDraw.pPalette (768 + 1) ≠ 255 → peek paletteDraw.pPalette (768 + 1) ≠ 0 →
      peek (pngDraw_init paletteDraw (converterOf 4 (-1))).winbmphdr (54 + 4 * 1 + (2 - 1)) =
        (peek paletteDraw.pPalette (3 * 1 + 1) * peek paletteDraw.pPalette (768 + 1) +
          pick 1 (indexedBackground (converterOf 4 (-1)).desiredBackground paletteDraw).1
            (indexedBackground (converterOf 4 (-1)).desiredBackground paletteDraw).2.1
            (indexedBackground (converterOf 4 (-1)).desiredBackground paletteDraw).2.2 *
              (255 - peek paletteDraw.pPalette (768 + 1))) / 256) ∧
    ((converterOf 4 (-1)).desiredBackground < 0 → paletteDraw.iBackground < 0 →
      peek paletteDraw.pPalette (768 + 1) = 0 →
      peek (pngDraw_init paletteDraw (converterOf 4 (-1))).winbmphdr (54 + 4 * 1 + (2 - 1)) =
        0x99) :=
  indexed_precompositing paletteDraw (converterOf 4 (-1)) 1 1 (by decide) (by decide)
    (by decide) (by decide!) (by decide!) (by decide) (by decide) (by decide)

/-- The state in which the sample row is drawn. -/
theorem bitsDraw_started :
    (started bitsDraw (converterOf 4 (-1))).exited = none ∧
      (started bitsDraw (converterOf 4 (-1))).BmpStride = 4 ∧
      rowPosition bitsDraw (started bitsDraw (converterOf 4 (-1))) = 62 := by
  decide!

/-- Witness for C22: pixel 2 of the row with the bits 1, 0, 1, 0 and byte 1 of
the line written for it. -/
theorem subbyte_unpacking_witness :
    (bitsDraw.iPixelType = PNG_PIXEL_GRAYSCALE ∨ bitsDraw.iPixelType = PNG_PIXEL_INDEXED) ∧
    nibbleAt (drawRow bitsDraw (converterOf 4 (-1)) 0 0 0).1 2 = sampleAt 1 bitsDraw.pPixels 2 ∧
    peek (pngDraw bitsDraw (converterOf 4 (-1))).output.bytes
        (rowPosition bitsDraw (started bitsDraw (converterOf 4 (-1))) + (1 : Nat)) =
      peek (drawRow bitsDraw (started bitsDraw (converterOf 4 (-1))) 0 0 0).1 (1 : Nat) ∧
    peek (pngDraw_init bitsDraw (converterOf 4 (-1))).winbmphdr
        (54 + 4 * nibbleAt (drawRow bitsDraw (converterOf 4 (-1)) 0 0 0).1 2 + 0) =
      (if sampleAt 1 bitsDraw.pPixels 2 = 1 then 0xFF else 0) :=
  ⟨by decide,
    (subbyte_unpacking bitsDraw (converterOf 4 (-1)) 2 (by decide)).1 (by decide) (by decide)
      (by decide),
    (subbyte_unpacking bitsDraw (converterOf 4 (-1)) 2 (by decide)).2.2.1 (by decide)
      (by decide) bitsDraw_started.1 (by rw [bitsDraw_started.2.1]; decide)
      (by rw [bitsDraw_started.2.1]; decide) (by rw [bitsDraw_started.2.2]; decide) 1
      (by rw [bitsDraw_started.2.1]; decide),
    (subbyte_unpacking bitsDraw (converterOf 4 (-1)) 2 (by decide)).2.2.2 (by decide)
      (by decide) (by decide) (by decide) (by decide) (by decide!) 0 (by decide) (by decide)⟩

/-! ## Theorems: sample rows, the line buffers and the chunk switch -/

/-- Witness for C24: byte 3 of a row of two 2-byte pixels. -/
theorem paeth_reconstruction_witness :
    peek [4, 10, 20, 30, 40] 0 = PNG_FILTER_PAETH ∧ 1 ≤ filterDistance 2 4 ∧
    peek (DeFilter [4, 10, 20, 30, 40] [0, 1, 2, 3, 4] 2 4) (((3 : Nat) : Int) + 1) =
      (peek [4, 10, 20, 30, 40] (((3 : Nat) : Int) + 1) +
        paethPredictor
          (backByte (DeFilter [4, 10, 20, 30, 40] [0, 1, 2, 3, 4] 2 4) (filterDistance 2 4) 3)
          (peek [0, 1, 2, 3, 4] (((3 : Nat) : Int) + 1))
          (backByte [0, 1, 2, 3, 4] (filterDistance 2 4) 3)) % 256 :=
  ⟨by decide, by decide,
    paeth_reconstruction [4, 10, 20, 30, 40] [0, 1, 2, 3, 4] 2 4 3 (by decide) (by decide)
      (by decide) (by decide)⟩

/-- Witness for C25: byte 3 of a row of two 2-byte pixels. -/
theorem average_reconstruction_witness :
    peek [3, 10, 20, 30, 40] 0 = PNG_FILTER_AVG ∧ 1 ≤ filterDistance 2 4 ∧
    peek (DeFilter [3, 10, 20, 30, 40] [0, 1, 2, 3, 4] 2 4) (((3 : Nat) : Int) + 1) =
      (peek [3, 10, 20, 30, 40] (((3 : Nat) : Int) + 1) +
        (peek [0, 1, 2, 3, 4] (((3 : Nat) : Int) + 1) +
          backByte (DeFilter [3, 10, 20, 30, 40] [0, 1, 2, 3, 4] 2 4) (filterDistance 2 4) 3) /
            2) % 256 :=
  ⟨by decide, by decide,
    average_reconstruction [3, 10, 20, 30, 40] [0, 1, 2, 3, 4] 2 4 3 (by decide) (by decide)
      (by decide) (by decide)⟩

theorem filter_runs :
    DeFilter [4, 10, 20, 30, 40] [0, 1, 2, 3, 4] 2 4 = [4, 11, 22, 41, 62] ∧
    DeFilter [3, 10, 20, 30, 40] [0, 1, 2, 3, 4] 2 4 = [3, 10, 21, 36, 52] ∧
    DeFilter [1, 10, 20, 30, 40] [0, 1, 2, 3, 4] 2 4 = [1, 10, 20, 40, 60] ∧
    DeFilter [7, 10, 20, 30, 40] [0, 1, 2, 3, 4] 2 4 = [7, 10, 20, 30, 40] := by
  decide

/-- Witness for C27: an 8-bit truecolor header of width 5, distance 3. -/
theorem filter_distance_witness :
    (PNG_init (headerSession (ihdrBytes 0 0 0 5 0 0 0 1 8 2 0 0 0))).1 = PNG_SUCCESS ∧
    filterDistance (PNG_init (headerSession (ihdrBytes 0 0 0 5 0 0 0 1 8 2 0 0 0))).2.iWidth
        (PNG_init (headerSession (ihdrBytes 0 0 0 5 0 0 0 1 8 2 0 0 0))).2.iPitch =
      max 1 (channels (PNG_init (headerSession (ihdrBytes 0 0 0 5 0 0 0 1 8 2 0 0 0))).2.ucPixelType *
        (PNG_init (headerSession (ihdrBytes 0 0 0 5 0 0 0 1 8 2 0 0 0))).2.ucBpp / 8) ∧
    filterDistance (PNG_init (headerSession (ihdrBytes 0 0 0 5 0 0 0 1 8 2 0 0 0))).2.iWidth
        (PNG_init (headerSession (ihdrBytes 0 0 0 5 0 0 0 1 8 2 0 0 0))).2.iPitch ≠ 0 ∧
    ((PNG_init (headerSession (ihdrBytes 0 0 0 5 0 0 0 1 8 2 0 0 0))).2.iWidth <
        (PNG_init (headerSession (ihdrBytes 0 0 0 5 0 0 0 1 8 2 0 0 0))).2.iPitch →
      (PNG_init (headerSession (ihdrBytes 0 0 0 5 0 0 0 1 8 2 0 0 0))).2.iWidth ≠ 0) :=
  ⟨by decide,
    filter_distance (headerSession (ihdrBytes 0 0 0 5 0 0 0 1 8 2 0 0 0)) (by decide)
      (by decide) (by decide) (by decide)⟩

theorem truecolor_distance_run :
    filterDistance (PNG_init (headerSession (ihdrBytes 0 0 0 5 0 0 0 1 8 2 0 0 0))).2.iWidth
      (PNG_init (headerSession (ihdrBytes 0 0 0 5 0 0 0 1 8 2 0 0 0))).2.iPitch = 3 := by
  decide

/-- C26 (first row defiltered against zeros), evaluated at a failing input.
`upFile` has two rows of one 8-bit grayscale pixel; row 0 has filter type Up and
the byte 128.  On the session of `main` with zero-filled line buffers
`PNG_decode` hands the rows 128 and 7 to the draw callback and leaves row 1 in
`uLine2`.  A second `PNG_decode` on the session the first call returned hands
out 135 for row 0, and so does a first call on a session whose `uLine2` holds
the bytes 0, 7: `PNG_decode` takes `uLine2` as the previous row of row 0
without clearing it.  (Other bytes in `uLine1` leave the rows of this run as
they are: the first row overwrites that buffer.) -/
theorem first_row_reads_stale_buffer :
    (PNG_decode storedInflate 20 (readyWith recordRow upFile) 0 0 []).map
        (fun r => ([r.1], r.2.2)) = some ([PNG_SUCCESS], [(0, [128]), (1, [7])]) ∧
    ((PNG_decode storedInflate 20 (readyWith recordRow upFile) 0 0 []).bind
        (fun r => PNG_decode storedInflate 20 r.2.1 0 0 [])).map
        (fun r => ([r.1], r.2.2)) = some ([PNG_SUCCESS], [(0, [135]), (1, [7])]) ∧
    (PNG_decode storedInflate 20
        { readyWith recordRow upFile with uLine2 := some [0, 7] } 0 0 []).map
        (fun r => ([r.1], r.2.2)) = some ([PNG_SUCCESS], [(0, [135]), (1, [7])]) ∧
    (PNG_decode storedInflate 20
        { readyWith recordRow upFile with uLine1 := some [9, 9] } 0 0 []).map
        (fun r => ([r.1], r.2.2)) = some ([PNG_SUCCESS], [(0, [128]), (1, [7])]) :=
  ⟨by decide!, by decide!, by decide!, by decide!⟩

/-- The `PLTE` case ends in an error or, clearing the marker, leaves the offset
and the length as they are. -/
theorem plteCase_marker {σ ζ δ : Type} (st : DecodeState σ ζ δ) :
    ((plteCase st).pPage.iError = PNG_DECODE_ERROR ∧ (plteCase st).iMarker = st.iMarker) ∨
      ((plteCase st).iMarker = 0 ∧ (plteCase st).iOffset = st.iOffset ∧
        (plteCase st).iLen = st.iLen ∧ (plteCase st).pPage.iError = st.pPage.iError) := by
  unfold plteCase
  dsimp only
  split_ifs
  · exact Or.inl ⟨rfl, rfl⟩
  · exact Or.inr ⟨rfl, rfl, rfl, rfl⟩

/-- The `tRNS` case ends in an error or, clearing the marker, leaves the offset
and the length as they are. -/
theorem trnsCase_marker {σ ζ δ : Type} (st : DecodeState σ ζ δ) :
    ((trnsCase st).pPage.iError = PNG_DECODE_ERROR ∧ (trnsCase st).iMarker = st.iMarker) ∨
      ((trnsCase st).iMarker = 0 ∧ (trnsCase st).iOffset = st.iOffset ∧
        (trnsCase st).iLen = st.iLen ∧ (trnsCase st).pPage.iError = st.pPage.iError) := by
  unfold trnsCase
  dsimp only
  split_ifs
  · exact Or.inl ⟨rfl, rfl⟩
  all_goals exact Or.inr ⟨rfl, rfl, rfl, rfl⟩

theorem chunkPhase_plte {σ ζ δ : Type} (Z : InflateEngine ζ) (draw : PNGDRAW → δ → δ)
    (User iOptions hbo : Int) (fuel : Nat) (st : DecodeState σ ζ δ)
    (hm : st.iMarker = PLTE) (hfull : ¬ i32 (st.iBytesRead - st.iOffset) < st.iLen) :
    chunkPhase Z draw User iOptions hbo fuel st =
      some (if (plteCase st).iMarker = 0 then
        { plteCase st with
          iOffset := i32 ((plteCase st).iOffset + i32 ((plteCase st).iLen + 4)) }
        else plteCase st) := by
  unfold PLTE at hm
  have h0 : st.iMarker ≠ 0 := by rw [hm]; decide
  have hk : ¬ ¬ (st.iMarker = 0x504c5445 ∨ st.iMarker = 0x74524e53 ∨
      st.iMarker = 0x49444154 ∨ st.iMarker = 0x44474b62) := by
    rw [hm]; decide
  have hnf : ¬ (st.iMarker ≠ 0x49444154 ∧ i32 (st.iBytesRead - st.iOffset) < st.iLen) :=
    fun h => hfull h.2
  have hnb : ¬ st.iMarker = 0x44474b62 := by rw [hm]; decide
  unfold chunkPhase
  dsimp only
  rw [if_neg h0]
  dsimp only
  rw [if_neg hk, if_neg hnf, if_neg hnb, if_pos hm]

theorem chunkPhase_trns {σ ζ δ : Type} (Z : InflateEngine ζ) (draw : PNGDRAW → δ → δ)
    (User iOptions hbo : Int) (fuel : Nat) (st : DecodeState σ ζ δ)
    (hm : st.iMarker = tRNS) (hfull : ¬ i32 (st.iBytesRead - st.iOffset) < st.iLen) :
    chunkPhase Z draw User iOptions hbo fuel st =
      some (if (trnsCase st).iMarker = 0 then
        { trnsCase st with
          iOffset := i32 ((trnsCase st).iOffset + i32 ((trnsCase st).iLen + 4)) }
        else trnsCase st) := by
  unfold tRNS at hm
  have h0 : st.iMarker ≠ 0 := by rw [hm]; decide
  have hk : ¬ ¬ (st.iMarker = 0x504c5445 ∨ st.iMarker = 0x74524e53 ∨
      st.iMarker = 0x49444154 ∨ st.iMarker = 0x44474b62) := by
    rw [hm]; decide
  have hnf : ¬ (st.iMarker ≠ 0x49444154 ∧ i32 (st.iBytesRead - st.iOffset) < st.iLen) :=
    fun h => hfull h.2
  have hnb : ¬ st.iMarker = 0x44474b62 := by rw [hm]; decide
  have hnp : ¬ st.iMarker = 0x504c5445 := by rw [hm]; decide
  unfold chunkPhase
  dsimp only
  rw [if_neg h0]
  dsimp only
  rw [if_neg hk, if_neg hnf, if_neg hnb, if_neg hnp, if_pos hm]

/-- The part of C28 that holds: when the switch handles a `PLTE` or a `tRNS`
chunk whose payload is in the buffer and raises no error, the decoder has no
marker in hand afterwards and the buffer offset has advanced by the length of
the payload plus 4. -/
theorem metadata_chunk_done {σ ζ δ : Type} (Z : InflateEngine ζ) (draw : PNGDRAW → δ → δ)
    (User iOptions hbo : Int) (fuel : Nat) (st : DecodeState σ ζ δ)
    (hm : st.iMarker = PLTE ∨ st.iMarker = tRNS)
    (hfull : ¬ i32 (st.iBytesRead - st.iOffset) < st.iLen) :
    ∃ st1, chunkPhase Z draw User iOptions hbo fuel st = some st1 ∧
      (st1.pPage.iError ≠ PNG_DECODE_ERROR →
        st1.iMarker = 0 ∧ st1.iOffset = i32 (st.iOffset + i32 (st.iLen + 4)) ∧
          st1.iLen = st.iLen ∧ st1.pPage.iError = st.pPage.iError) := by
  rcases hm with hm | hm
  · have hne : st.iMarker ≠ 0 := by rw [hm]; decide
    refine ⟨_, chunkPhase_plte Z draw User iOptions hbo fuel st hm hfull, ?_⟩
    rcases plteCase_marker st with ⟨e1, e2⟩ | ⟨e1, e2, e3, e4⟩
    · rw [if_neg (by rw [e2]; exact hne)]
      intro h; exact absurd e1 h
    · rw [if_pos e1]
      intro _
      exact ⟨e1, by rw [e2, e3], e3, e4⟩
  · have hne : st.iMarker ≠ 0 := by rw [hm]; decide
    refine ⟨_, chunkPhase_trns Z draw User iOptions hbo fuel st hm hfull, ?_⟩
    rcases trnsCase_marker st with ⟨e1, e2⟩ | ⟨e1, e2, e3, e4⟩
    · rw [if_neg (by rw [e2]; exact hne)]
      intro h; exact absurd e1 h
    · rw [if_pos e1]
      intro _
      exact ⟨e1, by rw [e2, e3], e3, e4⟩

/-- The second iteration of the main loop on `spinFile` reads the header of the
chunk with the marker `0x44474b62` and enters the background case. -/
theorem spinFile_step (fuel : Nat) :
    decodeStep storedInflate recordRow 0 0 1 fuel (secondState spinFile) =
      some (bkgdCase 1 (headerRead (secondState spinFile))) := by
  have hrun1 : (secondState spinFile).pPage.iError = 0 := by decide!
  have hidle : ¬ (i32 ((secondState spinFile).iBytesRead - (secondState spinFile).iOffset) < 8 ∨
      (secondState spinFile).more ≠ 0) := by decide!
  have hchk : (secondState spinFile).iMarker = 0 →
      ¬ (i32 (MOTOLONG (secondState spinFile).pPage.ucFileBuf (secondState spinFile).iOffset) < 0 ∨
      i32 (MOTOLONG (secondState spinFile).pPage.ucFileBuf (secondState spinFile).iOffset) +
        ((secondState spinFile).iFileOffset - (secondState spinFile).iBytesRead) >
          (secondState spinFile).pPage.PNGFile.iSize) := by decide!
  have hne : (headerRead (secondState spinFile)).iMarker ≠ 0 := by decide!
  have hm : (headerRead (secondState spinFile)).iMarker = DGKb := by decide!
  have hfull : ¬ i32 ((headerRead (secondState spinFile)).iBytesRead -
      (headerRead (secondState spinFile)).iOffset) < (headerRead (secondState spinFile)).iLen := by
    decide!
  unfold decodeStep
  dsimp only
  rw [refillPhase_idle _ hidle, if_neg (not_not.mpr hrun1),
    chunkPhase_headerRead storedInflate recordRow 0 0 1 fuel _ hchk hne,
    chunkPhase_bkgd storedInflate recordRow 0 0 1 fuel _ hm hfull]

/-- C28 (chunk state machine), the background case.  (1) Whenever the switch
enters the case of the marker `0x44474b62` with the payload in the buffer, the
iteration ends with the same error state, the marker still in hand and the
buffer offset where it was: the decoder does not return to the state without a
marker.  (2) On `spinFile`: at the start of the second iteration no marker is
in hand and the chunk header (length 6, marker bytes `'D','G','K','b'`) is at
buffer offset 25; after that iteration the marker is in hand, the offset is 33
(the start of the payload, of which all 6 bytes are among the 47 buffered), no
error is set; and after the next iteration the state is the same, the offset
not being 33 + 6 + 4. -/
theorem background_case_keeps_marker :
    (∀ {σ ζ δ : Type} (Z : InflateEngine ζ) (draw : PNGDRAW → δ → δ)
        (User iOptions hbo : Int) (fuel : Nat) (st : DecodeState σ ζ δ),
      st.iMarker = DGKb → ¬ i32 (st.iBytesRead - st.iOffset) < st.iLen →
      ∃ st1, chunkPhase Z draw User iOptions hbo fuel st = some st1 ∧
        st1.pPage.iError = st.pPage.iError ∧ st1.iMarker = DGKb ∧ st1.iMarker ≠ 0 ∧
        st1.iOffset = st.iOffset) ∧
    (∃ st1 st2 : DecodeState FileDesc StoredState (List (Int × List Nat)),
      decodeStep storedInflate recordRow 0 0 1 10 (secondState spinFile) = some st1 ∧
      decodeStep storedInflate recordRow 0 0 1 10 st1 = some st2 ∧
      [(secondState spinFile).iMarker, (secondState spinFile).iOffset] = [0, 25] ∧
      slice (secondState spinFile).pPage.ucFileBuf 25 8 = [0, 0, 0, 6, 0x44, 0x47, 0x4B, 0x62] ∧
      [st1.iMarker, st1.iOffset, st1.iLen, i32 (st1.iBytesRead - st1.iOffset),
        st1.pPage.iError] = [DGKb, 33, 6, 47, 0] ∧
      [st2.iMarker, st2.iOffset, st2.iLen, i32 (st2.iBytesRead - st2.iOffset),
        st2.pPage.iError] = [DGKb, 33, 6, 47, 0] ∧
      (33 : Int) ≠ 33 + (6 + 4)) := by
  refine ⟨?_, ?_⟩
  · intro σ ζ δ Z draw User iOptions hbo fuel st hm hfull
    obtain ⟨f1, -, -, f4, -, -, f7, -, -⟩ := bkgdCase_frame hbo st
    refine ⟨_, chunkPhase_bkgd Z draw User iOptions hbo fuel st hm hfull, f1, ?_, ?_, f7⟩
    · rw [f4]; exact hm
    · rw [f4, hm]; decide
  · have h2 := background_case_step storedInflate recordRow 0 0 1 10 _ spinFile_second
    obtain ⟨f1, -, -, f4, -, f6, f7, f8, -⟩ :=
      bkgdCase_frame 1 (bkgdCase 1 (headerRead (secondState spinFile)))
    have hvals : [(bkgdCase 1 (headerRead (secondState spinFile))).iMarker,
        (bkgdCase 1 (headerRead (secondState spinFile))).iOffset,
        (bkgdCase 1 (headerRead (secondState spinFile))).iLen,
        i32 ((bkgdCase 1 (headerRead (secondState spinFile))).iBytesRead -
          (bkgdCase 1 (headerRead (secondState spinFile))).iOffset),
        (bkgdCase 1 (headerRead (secondState spinFile))).pPage.iError] =
        [DGKb, 33, 6, 47, 0] := by decide!
    refine ⟨_, _, spinFile_step 10, h2.1, by decide!, by decide!, hvals, ?_, by decide⟩
    rw [f1, f4, f6, f7, f8]
    exact hvals

/-- C29 (pass-through and frame of `DeFilter`).  (1) For filter tag 0 and for
every tag from 5 on, `DeFilter` leaves the whole line buffer as it is.  (2) For
every tag the length of the line buffer is unchanged.  (3) For every tag the
tag byte is unchanged, whenever the back-reference distance `DeFilter` derives
is not negative; (4) that is the case for the width and pitch of every header
`PNG_init` accepts (`PNG_decode`, the only caller of `DeFilter`, passes the
width and the pitch of the session).
(5) The previous line is an argument that `DeFilter` only reads: after the call
in `emitRow` the previous line is handed on unchanged as the next current line,
and the defiltered line becomes the previous one. -/
theorem DeFilter_frame {σ ζ δ : Type} (pCurr pPrev : List Nat) (iWidth iPitch : Int) :
    (peek pCurr 0 = 0 ∨ 5 ≤ peek pCurr 0 → DeFilter pCurr pPrev iWidth iPitch = pCurr) ∧
    (DeFilter pCurr pPrev iWidth iPitch).length = pCurr.length ∧
    (0 ≤ filterDistance iWidth iPitch →
      peek (DeFilter pCurr pPrev iWidth iPitch) 0 = peek pCurr 0) ∧
    (∀ pPage : PNGIMAGE σ ζ δ, (PNG_init pPage).1 = PNG_SUCCESS →
      peek (DeFilter pCurr pPrev (PNG_init pPage).2.iWidth (PNG_init pPage).2.iPitch) 0 =
        peek pCurr 0) ∧
    (∀ (draw : PNGDRAW → δ → δ) (User : Int) (st : DecodeState σ ζ δ),
      (emitRow draw User st).pCurr = st.pPrev ∧
      (emitRow draw User st).pPrev =
        DeFilter st.pCurr st.pPrev st.pPage.iWidth st.pPage.iPitch) :=
  ⟨DeFilter_other pCurr pPrev iWidth iPitch, DeFilter_length pCurr pPrev iWidth iPitch,
    DeFilter_tag_kept pCurr pPrev iWidth iPitch,
    fun pPage hok => DeFilter_tag_kept pCurr pPrev _ _ (accepted_distance_nonneg pPage hok),
    fun _ _ _ => ⟨rfl, rfl⟩⟩

/-- Witness for C29: a row with filter type Sub keeps its tag, a row with the
unknown tag 7 is left as it is. -/
theorem DeFilter_frame_witness :
    (0 ≤ filterDistance 2 4 →
      peek (DeFilter [1, 10, 20, 30, 40] [0, 1, 2, 3, 4] 2 4) 0 = peek [1, 10, 20, 30, 40] 0) ∧
    (peek [7, 10, 20, 30, 40] 0 = 0 ∨ 5 ≤ peek [7, 10, 20, 30, 40] 0 →
      DeFilter [7, 10, 20, 30, 40] [0, 1, 2, 3, 4] 2 4 = [7, 10, 20, 30, 40]) ∧
    0 ≤ filterDistance 2 4 ∧ 5 ≤ peek [7, 10, 20, 30, 40] 0 :=
  ⟨(@DeFilter_frame Unit Unit Unit [1, 10, 20, 30, 40] [0, 1, 2, 3, 4] 2 4).2.2.1,
    (@DeFilter_frame Unit Unit Unit [7, 10, 20, 30, 40] [0, 1, 2, 3, 4] 2 4).1, by decide, by decide⟩

/-- Outside that domain the tag byte is not safe: with a negative width the
distance is negative and the loop of the Sub filter starts at the tag byte. -/
theorem DeFilter_negative_distance :
    filterDistance (-2) 2 = -1 ∧ DeFilter [1, 10, 20] [0, 0, 0] (-2) 2 = [11, 30, 20] := by
  decide

/-- Witness for C21: entry 5 of the palette of a 4-bit grayscale image. -/
theorem sample_expansion_witness :
    peek (pngDraw_init (drawOf PNG_PIXEL_GRAYSCALE 4 2 1 (-1) [0x5A]) (converterOf 4 (-1))).winbmphdr
        (54 + 4 * 5 + 1) = expandbits8 5 4 ∧
      expandbits8 5 4 = 5 * 255 / (2 ^ (4 : Int).toNat - 1) ∧ expandbits8 5 4 = 0x55 :=
  ⟨(sample_expansion (drawOf PNG_PIXEL_GRAYSCALE 4 2 1 (-1) [0x5A]) (converterOf 4 (-1))).2.2.2.2.2.2
      (by decide) (by decide!) 5 1 (by decide) (by decide) (by decide) (by decide) (by decide),
    (sample_expansion (drawOf PNG_PIXEL_GRAYSCALE 4 2 1 (-1) [0x5A]) (converterOf 4 (-1))).1 4 5
      (by decide) (by decide) (by decide),
    by decide⟩

end PngDec
